import Mathlib

/-!
bsh: expression evaluator, handler bridge and scoped variable store.

A shallow embedding of the core of `src/samples/besh/bsh.c`.

Conventions of the embedding.

* C strings are `String`s; `strncpy (dst, src, n)` followed by a terminating
  NUL is `strncpy_str n src`, the first `n` characters of `src`.
* `int` values that are only compared are `Int`; `precedence + 1` wraps at
  32 bits (`int_wrap`).
* The global state of the shell (operator list, variable list, scope stack,
  function list, block stack, execution state, the state of `rand ()`) is one
  record, `Kernel`, passed explicitly.
* A token slice is a list of tokens, the memory that holds the slice, and the
  count `num_tokens`; reading an index that the memory does not hold is the
  fault `token_read_out_of_bounds`.
* The parser is recursive on a fuel argument; `evaluate_expression_from_tokens`
  supplies `2 * num_tokens + 2`, which the parser never exhausts
  (`evaluate_never_out_of_fuel`).
* C strings hold no NUL, so `strncmp (input, s, strlen (s)) == 0` says that
  `s` is a prefix of `input`.
* The tokenizer loop is recursive on a fuel argument too; a round that changes
  nothing, which the C loop repeats for ever, is the fault
  `does_not_terminate`. With storage for the line the tokenizer returns
  (`advanced_tokenize_line_total`).
* `next_scope_id` is a `Nat`: the counter of scope ids does not overflow.
* Allocation succeeds: the `malloc` and `strdup` failure paths are left out.
-/

namespace Bsh

/-! ## Constants (bsh.c 127-149, 250, 310) -/

def MAX_LINE_LENGTH : Nat := 2048
def MAX_ARGS : Nat := 128
def MAX_VAR_NAME_LEN : Nat := 256
def INPUT_BUFFER_SIZE : Nat := 4096
def MAX_FUNC_LINES : Nat := 100
def MAX_FUNC_PARAMS : Nat := 10
def MAX_OPERATOR_LEN : Nat := 16
def MAX_SCOPE_DEPTH : Nat := 64
def GLOBAL_SCOPE_ID : Nat := 0
def MAX_EXPR_RECURSION_DEPTH : Nat := 64

/-! ## Data model (bsh.c 155-310) -/

inductive TokenType where
  | TOKEN_EMPTY | TOKEN_WORD | TOKEN_STRING | TOKEN_NUMBER | TOKEN_VARIABLE
  | TOKEN_OPERATOR | TOKEN_LPAREN | TOKEN_RPAREN | TOKEN_LBRACE | TOKEN_RBRACE
  | TOKEN_LBRACKET | TOKEN_RBRACKET | TOKEN_SEMICOLON | TOKEN_ASSIGN
  | TOKEN_COMMENT | TOKEN_EOF | TOKEN_ERROR
  deriving DecidableEq, Repr

structure Token where
  type : TokenType
  text : String
  len : Nat
  line : Nat
  col : Nat
  deriving DecidableEq, Repr

inductive OperatorType where
  | OP_TYPE_NONE | OP_TYPE_UNARY_PREFIX | OP_TYPE_UNARY_POSTFIX
  | OP_TYPE_BINARY_INFIX | OP_TYPE_TERNARY_PRIMARY | OP_TYPE_TERNARY_SECONDARY
  deriving DecidableEq, Repr

inductive OperatorAssociativity where
  | ASSOC_NONE | ASSOC_LEFT | ASSOC_RIGHT
  deriving DecidableEq, Repr

structure OperatorDefinition where
  op_str : String
  token_type : TokenType
  op_type_prop : OperatorType
  precedence : Int
  associativity : OperatorAssociativity
  bsh_handler_name : String
  deriving DecidableEq, Repr

structure Variable where
  name : String
  value : String
  is_array_element : Bool
  scope_id : Nat
  deriving DecidableEq, Repr

structure ScopeFrame where
  scope_id : Nat
  deriving DecidableEq, Repr

structure UserFunction where
  name : String
  params : List String
  body : List String
  deriving DecidableEq, Repr

/-- The number of declared parameters, the field `param_count`. -/
def UserFunction.param_count (f : UserFunction) : Nat := f.params.length

/-- The number of body lines, the field `line_count`. -/
def UserFunction.line_count (f : UserFunction) : Nat := f.body.length

inductive ExecutionState where
  | STATE_NORMAL | STATE_BLOCK_EXECUTE | STATE_BLOCK_SKIP
  | STATE_DEFINE_FUNC_BODY | STATE_IMPORT_PARSING | STATE_RETURN_REQUESTED
  deriving DecidableEq, Repr

inductive BlockType where
  | BLOCK_TYPE_IF | BLOCK_TYPE_ELSE | BLOCK_TYPE_WHILE | BLOCK_TYPE_FUNCTION_DEF
  deriving DecidableEq, Repr

structure BlockFrame where
  type : BlockType
  loop_start_fpos : Int
  loop_start_line_no : Int
  condition_true : Bool
  prev_exec_state : ExecutionState
  deriving DecidableEq, Repr

/-- The global state of the shell. `scope_stack` and `block_stack` hold the
live frames, the top frame first; `rand_state` is the state of `rand ()`. -/
structure Kernel where
  operator_list_head : List OperatorDefinition
  variable_list_head : List Variable
  scope_stack : List ScopeFrame
  next_scope_id : Nat
  function_list : List UserFunction
  block_stack : List BlockFrame
  current_exec_state : ExecutionState
  rand_state : Nat
  deriving DecidableEq, Repr

/-- The state before `initialize_shell`: nothing registered, no scope. -/
def Kernel.empty : Kernel :=
  { operator_list_head := [], variable_list_head := [], scope_stack := [],
    next_scope_id := 1, function_list := [], block_stack := [],
    current_exec_state := ExecutionState.STATE_NORMAL, rand_state := 0 }

/-- The index `scope_stack_top`: one less than the number of live frames. -/
def Kernel.scope_stack_top (K : Kernel) : Int := (K.scope_stack.length : Int) - 1

/-! ## C string and character helpers -/

/-- The first `n` characters: `strncpy (dst, src, n); dst[n] = 0`. -/
def strncpy_str (n : Nat) (s : String) : String := ⟨s.data.take n⟩

/-- The predicate `isspace` of the C locale. -/
def isspace (c : Char) : Bool :=
  c = ' ' || c = '\t' || c = '\n' || c = Char.ofNat 11 || c = Char.ofNat 12 || c = '\r'

/-- The predicate `isalnum` of the C locale. -/
def isalnum (c : Char) : Bool := c.isAlphanum

/-- A name character of the expander and of the tokenizer: `isalnum (c) || c == '_'`. -/
def is_name_char (c : Char) : Bool := isalnum c || c = '_'

/-- The string `trim_whitespace` returns (bsh.c 3184-3192): the pointer is
moved past the leading whitespace, and the trailing whitespace is cut. -/
def trim_whitespace (s : String) : String :=
  ⟨((s.data.dropWhile isspace).reverse.dropWhile isspace).reverse⟩

/-- What a call `trim_whitespace (buf);` that drops the returned pointer leaves
in `buf`: the one write is `*(end + 1) = 0`, which cuts the trailing
whitespace; the leading whitespace stays, and a string of nothing but
whitespace is returned from before the write (`if (*str == 0) return str;`). -/
def trim_whitespace_in_place (s : String) : String :=
  if s.data.all isspace then s
  else ⟨(s.data.reverse.dropWhile isspace).reverse⟩

/-- The clean name both `get_variable_scoped` and `set_variable_scoped` work
with (bsh.c 3784-3787, 3809-3812): copy at most `MAX_VAR_NAME_LEN - 1`
characters into `clean_name`, then `trim_whitespace (clean_name);`, whose
result is not used. -/
def clean_variable_name (name_raw : String) : String :=
  trim_whitespace_in_place (strncpy_str (MAX_VAR_NAME_LEN - 1) name_raw)

/-! ## Variable and scope management (bsh.c 3718-3835) -/

/-- See `enter_scope` (bsh.c 3718-3728): the new scope id, or `none` for the
error return `-1`, and the new state. -/
def enter_scope (K : Kernel) : Option Nat × Kernel :=
  if K.scope_stack.length + 1 > MAX_SCOPE_DEPTH then (none, K)
  else
    -- `scope_stack_top++`; the new top index is the old number of frames
    let top := K.scope_stack.length
    if top = 0 && K.next_scope_id = 1 then
      (some GLOBAL_SCOPE_ID, { K with scope_stack := ⟨GLOBAL_SCOPE_ID⟩ :: K.scope_stack })
    else
      -- `next_scope_id++` is evaluated, then the id of frame 0 is forced to 0
      let id := if top = 0 then GLOBAL_SCOPE_ID else K.next_scope_id
      (some id, { K with scope_stack := ⟨id⟩ :: K.scope_stack,
                         next_scope_id := K.next_scope_id + 1 })

/-- See `cleanup_variables_for_scope` (bsh.c 3748-3769). -/
def cleanup_variables_for_scope (scope_id : Nat) (K : Kernel) : Kernel :=
  if scope_id = GLOBAL_SCOPE_ID then K
  else
    { K with
      variable_list_head := K.variable_list_head.filter (fun v => v.scope_id ≠ scope_id) }

/-- See `leave_scope` (bsh.c 3730-3746). -/
def leave_scope (scope_id_to_leave : Nat) (K : Kernel) : Kernel :=
  match K.scope_stack with
  | [] => K
  | top :: rest =>
    if top.scope_id ≠ scope_id_to_leave then { K with scope_stack := rest }
    else
      let K1 := if scope_id_to_leave ≠ GLOBAL_SCOPE_ID
                then cleanup_variables_for_scope scope_id_to_leave K else K
      { K1 with scope_stack := rest }

/-- The first variable of the list bound in scope `scope_id` under `name`. -/
def find_variable_in_scope (vars : List Variable) (scope_id : Nat) (name : String) :
    Option Variable :=
  vars.find? (fun v => v.scope_id = scope_id && v.name = name)

/-- The search of `get_variable_scoped` over the frames, innermost first. -/
def search_scopes (vars : List Variable) (name : String) : List ScopeFrame → Option String
  | [] => none
  | frame :: outer =>
    match find_variable_in_scope vars frame.scope_id name with
    | some v => some v.value
    | none => search_scopes vars name outer

/-- See `get_variable_scoped` (bsh.c 3783-3800); `none` is the NULL return. -/
def get_variable_scoped (K : Kernel) (name_raw : String) : Option String :=
  let clean_name := clean_variable_name name_raw
  if clean_name = "" then none
  else search_scopes K.variable_list_head clean_name K.scope_stack

/-- The update in place of `set_variable_scoped`: the first entry of the
current scope with this name gets the new value and flag. -/
def update_variable (scope_id : Nat) (name value : String) (is_array_elem : Bool) :
    List Variable → Option (List Variable)
  | [] => none
  | v :: vs =>
    if v.scope_id = scope_id && v.name = name then
      some ({ v with value := value, is_array_element := is_array_elem } :: vs)
    else (update_variable scope_id name value is_array_elem vs).map (fun r => v :: r)

/-- See `set_variable_scoped` (bsh.c 3802-3835). -/
def set_variable_scoped (name_raw value_to_set : String) (is_array_elem : Bool)
    (K : Kernel) : Kernel :=
  match K.scope_stack with
  | [] => K
  | top :: _ =>
    let clean_name := clean_variable_name name_raw
    if clean_name = "" then K
    else
      match update_variable top.scope_id clean_name value_to_set is_array_elem
              K.variable_list_head with
      | some vars => { K with variable_list_head := vars }
      | none =>
        let new_var : Variable :=
          { name := strncpy_str (MAX_VAR_NAME_LEN - 1) clean_name, value := value_to_set,
            is_array_element := is_array_elem, scope_id := top.scope_id }
        { K with variable_list_head := new_var :: K.variable_list_head }

/-! ## Unescaping and variable expansion (bsh.c 3221-3247, 3837-3950) -/

/-- The character `*p` of a C string held as the list of its characters: NUL
at the end. -/
def head_char (p : List Char) : Char := p.headD (Char.ofNat 0)

/-- The character `s[i]`, NUL past the end. -/
def char_at (s : List Char) (i : Nat) : Char := s.getD i (Char.ofNat 0)

def NUL : Char := Char.ofNat 0
def DQUOTE : Char := Char.ofNat 34
def DOLLAR : Char := Char.ofNat 36
def DOT : Char := Char.ofNat 46
def LBRACKET_CHAR : Char := Char.ofNat 91
def BACKSLASH : Char := Char.ofNat 92
def LBRACE_CHAR : Char := Char.ofNat 123
def RBRACE_CHAR : Char := Char.ofNat 125

/-- The value of `n - 1` in `size_t` (64 bits): `SIZE_MAX` for `n = 0`. -/
def size_t_pred (n : Nat) : Nat := if n = 0 then 18446744073709551615 else n - 1

/-- The loop of `unescape_string` (bsh.c 3230-3244): `i` is the offset of `p`
in the input, `out` the characters written so far, `out_len` the counter the
loop compares with `buffer_size - 1`. -/
def unescape_loop (input : List Char) (in_quotes : Bool) (buffer_size : Nat) :
    Nat → Nat → List Char → Nat → List Char
  | 0, _, out, _ => out
  | fuel + 1, i, out, out_len =>
    if char_at input i = NUL || ¬ (out_len < size_t_pred buffer_size) then out
    else if in_quotes && char_at input i = DQUOTE &&
        !(decide (0 < i) && char_at input (i - 1) = BACKSLASH &&
            (decide (i < 2) || char_at input (i - 2) ≠ BACKSLASH)) then out
    else if char_at input i = BACKSLASH then
      -- `p++; if (!*p) break;`
      let c := char_at input (i + 1)
      if c = NUL then out
      else
        let written : List Char :=
          if c = 'n' then ['\n'] else if c = 't' then ['\t']
          else if c = DQUOTE then [DQUOTE] else if c = BACKSLASH then [BACKSLASH]
          else if c = DOLLAR then [DOLLAR] else [BACKSLASH, c]
        unescape_loop input in_quotes buffer_size fuel (i + 2) (out ++ written) (out_len + 1)
    else
      unescape_loop input in_quotes buffer_size fuel (i + 1) (out ++ [char_at input i])
        (out_len + 1)

/-- See `unescape_string` (bsh.c 3221-3247): the characters written to the
output buffer before the terminating NUL. -/
def unescape_string (input_raw : String) (buffer_size : Nat) : String :=
  let input := input_raw.data
  let in_quotes := decide (head_char input = DQUOTE)
  ⟨unescape_loop input in_quotes buffer_size (input.length + 1)
      (if in_quotes then 1 else 0) [] 0⟩

/-- The output cursor of the expander: the characters written and
`remaining_size`. -/
structure ExpandOut where
  out : List Char
  remaining_size : Nat
  deriving DecidableEq, Repr

/-- The guarded write `if (remaining_size > 0) { *p_out++ = c; remaining_size--; }`. -/
def ExpandOut.put (o : ExpandOut) (c : Char) : ExpandOut :=
  if 0 < o.remaining_size then ⟨o.out ++ [c], o.remaining_size - 1⟩ else o

/-- The insertion of a variable value (bsh.c 3927-3938): all of it when it
fits, else as much as fits. -/
def ExpandOut.insert (o : ExpandOut) (value : List Char) : ExpandOut :=
  if value.length ≤ o.remaining_size then
    ⟨o.out ++ value, o.remaining_size - value.length⟩
  else ⟨o.out ++ value.take o.remaining_size, 0⟩

/-- The run `while (isalnum (*p) || *p == '_') { if (room) *pv++ = *p++; else break; }`:
the segment and the rest of the input. -/
def scan_name_segment (p : List Char) : List Char × List Char :=
  let seg := (p.takeWhile is_name_char).take (MAX_VAR_NAME_LEN - 1)
  (seg, p.drop seg.length)

/-- The run `while (*p && *p != '}' && room) *pv++ = *p++;` after an opening
brace: the segment and the rest of the input, which starts at the closing
brace when there is one in reach. -/
def scan_braced_segment (p : List Char) : List Char × List Char :=
  let seg := (p.takeWhile (fun c => c ≠ NUL && c ≠ RBRACE_CHAR)).take (MAX_VAR_NAME_LEN - 1)
  (seg, p.drop seg.length)

/-- One pass of the `do { ... } while (*p_in == '.')` loop with
`first_segment == false` (bsh.c 3879-3922), entered at `p_in`: `none` is the
`break` of an empty segment, else the new mangled name and input position. -/
def expand_property_segment (K : Kernel) (mangled : String) (p_in : List Char) :
    Option (String × List Char) :=
  let (segment, rest) : List Char × List Char :=
    if head_char p_in = DOLLAR then
      let q := p_in.tail
      let (src, q1) : List Char × List Char :=
        if head_char q = LBRACE_CHAR then
          let (s, r) := scan_braced_segment q.tail
          (s, if head_char r = RBRACE_CHAR then r.tail else r)
        else scan_name_segment q
      match get_variable_scoped K ⟨src⟩ with
      | some v => ((strncpy_str (MAX_VAR_NAME_LEN - 1) v).data, q1)
      | none => ([], q1)
    else scan_name_segment p_in
  if 0 < segment.length then
    if mangled.length + 1 + segment.length < MAX_VAR_NAME_LEN * 4 then
      some (mangled ++ "_" ++ ⟨segment⟩, rest)
    else some (mangled, rest)
  else none

/-- The property passes that follow the base name: repeated while `*p_in == '.'`. -/
def expand_property_chain (K : Kernel) : Nat → String → List Char → String × List Char
  | 0, mangled, p_in => (mangled, p_in)
  | fuel + 1, mangled, p_in =>
    if head_char p_in = DOT then
      match expand_property_segment K mangled p_in with
      | some (mangled1, p1) => expand_property_chain K fuel mangled1 p1
      | none => (mangled, p_in)
    else (mangled, p_in)

/-- The base variable name after a `$` (bsh.c 3856-3868): the segment, the
input after it, and the character `*(p_in - 1)` consumed last. -/
def parse_base_name (p1 : List Char) : List Char × List Char × Char :=
  if head_char p1 = LBRACE_CHAR then
    let (s, r) := scan_braced_segment p1.tail
    if head_char r = RBRACE_CHAR then (s, r.tail, RBRACE_CHAR)
    else (s, r, (LBRACE_CHAR :: s).getLastD NUL)
  else
    let (s, r) := scan_name_segment p1
    (s, r, (DOLLAR :: s).getLastD NUL)

/-- The `$` branch of the expander (bsh.c 3844-3939), entered after the `$`
is consumed: the input position and the output after the reference. -/
def expand_reference (K : Kernel) (p1 : List Char) (o : ExpandOut) : List Char × ExpandOut :=
  let (segment, p2, last) := parse_base_name p1
  if segment = [] then
    -- an empty name: the `$` is written, and the brace `temp_p` points at
    let o1 := o.put DOLLAR
    let o2 := if last = LBRACE_CHAR then o1.put LBRACE_CHAR else o1
    let o3 := if last = RBRACE_CHAR then o2.put RBRACE_CHAR else o2
    (p2, o3)
  else
    let mangled0 := strncpy_str (MAX_VAR_NAME_LEN * 4 - 1) ⟨segment⟩
    let (mangled, p3) := expand_property_chain K (p2.length + 1) mangled0 p2
    match get_variable_scoped K mangled with
    | some v => (p3, o.insert v.data)
    | none => (p3, o)

/-- The main loop of `expand_variables_in_string_advanced` (bsh.c 3843-3948). -/
def expand_loop (K : Kernel) : Nat → List Char → ExpandOut → ExpandOut
  | 0, _, o => o
  | fuel + 1, p_in, o =>
    if head_char p_in = NUL || ¬ (0 < o.remaining_size) then o
    else if head_char p_in = DOLLAR then
      let r := expand_reference K p_in.tail o
      expand_loop K fuel r.1 r.2
    else if head_char p_in = BACKSLASH && head_char p_in.tail = DOLLAR then
      expand_loop K fuel p_in.tail.tail (o.put DOLLAR)
    else expand_loop K fuel p_in.tail (o.put (head_char p_in))

/-- See `expand_variables_in_string_advanced` (bsh.c 3837-3950): the expanded
string written to a buffer of `expanded_str_size` bytes. -/
def expand_variables_in_string_advanced (K : Kernel) (input_str : String)
    (expanded_str_size : Nat) : String :=
  ⟨(expand_loop K (input_str.length + 1) input_str.data
      ⟨[], size_t_pred expanded_str_size⟩).out⟩

/-! ## Operator registry lookup (bsh.c 477-486) -/

/-- See `get_operator_definition`: the first definition with this symbol. -/
def get_operator_definition (K : Kernel) (op_str : String) : Option OperatorDefinition :=
  K.operator_list_head.find? (fun d => d.op_str = op_str)

/-- Reading a field through the pointer `op_def` after other code has run: the
registry never drops a node and never changes its `op_str`, so the node is
the one the symbol finds in the current registry. -/
def deref_op_def (K : Kernel) (op_def : OperatorDefinition) : OperatorDefinition :=
  (get_operator_definition K op_def.op_str).getD op_def

/-! ## User-function runtime and handler bridge (bsh.c 4080-4117, 918-1006) -/

/-- The value bound to a parameter: the argument token is expanded, a String
token is unescaped first (bsh.c 4087-4094). -/
def expand_call_argument (K : Kernel) (tok : Token) : String :=
  if tok.type = TokenType.TOKEN_STRING then
    expand_variables_in_string_advanced K (unescape_string tok.text INPUT_BUFFER_SIZE)
      INPUT_BUFFER_SIZE
  else expand_variables_in_string_advanced K tok.text INPUT_BUFFER_SIZE

/-- The parameter loop of `execute_user_function` (bsh.c 4085-4099), from
parameter index `i` on. -/
def bind_parameters (call_arg_tokens : List Token) (call_arg_token_count : Nat) :
    List String → Nat → Kernel → Kernel
  | [], _, K => K
  | param :: params, i, K =>
    let K1 :=
      if i < call_arg_token_count then
        match call_arg_tokens[i]? with
        | some tok => set_variable_scoped param (expand_call_argument K tok) false K
        | none => set_variable_scoped param "" false K
      else set_variable_scoped param "" false K
    bind_parameters call_arg_tokens call_arg_token_count params (i + 1) K1

/-- The body loop of `execute_user_function` (bsh.c 4105-4109): line `i` of the
body is copied and handed to `process_line` with line number `i + 1`. -/
def run_body_lines (process_line : String → Nat → Kernel → Kernel) :
    List String → Nat → Kernel → Kernel
  | [], _, K => K
  | line :: lines, i, K =>
    run_body_lines process_line lines (i + 1)
      (process_line (strncpy_str (MAX_LINE_LENGTH - 1) line) (i + 1) K)

/-- See `execute_user_function` (bsh.c 4080-4117). The interpreter of one
script line, `process_line`, is taken as given. -/
def execute_user_function (process_line : String → Nat → Kernel → Kernel)
    (func : UserFunction) (call_arg_tokens : List Token) (call_arg_token_count : Nat)
    (K : Kernel) : Kernel :=
  match enter_scope K with
  | (none, _) => K
  | (some function_scope_id, K1) =>
    let K2 := bind_parameters call_arg_tokens call_arg_token_count func.params 0 K1
    let func_outer_block_depth := K2.block_stack.length
    let func_outer_exec_state := K2.current_exec_state
    let K3 := { K2 with current_exec_state := ExecutionState.STATE_NORMAL }
    let K4 := run_body_lines process_line func.body 0 K3
    -- `while (block_stack_top_bf > func_outer_block_stack_top_bf) pop_block_bf ();`
    let K5 := { K4 with
      block_stack := K4.block_stack.drop (K4.block_stack.length - func_outer_block_depth),
      current_exec_state := func_outer_exec_state }
    leave_scope function_scope_id K5

/-- What a handler invocation hands back: the return value, the contents of
`c_result_buffer`, and the state of the shell. -/
structure HandlerOutcome where
  ok : Bool
  result : String
  kernel : Kernel
  deriving DecidableEq, Repr

/-- The signature of `invoke_bsh_operator_handler`: handler name, operator
symbol, operand strings, result-holder name, size of the result buffer. -/
abbrev HandlerBridge :=
  String → String → List String → String → Nat → Kernel → HandlerOutcome

/-- The user function of this name (the search loop of bsh.c 934-938). -/
def find_user_function (K : Kernel) (name : String) : Option UserFunction :=
  K.function_list.find? (fun f => f.name = name)

/-- The argument tokens the bridge synthesises (bsh.c 968-991). -/
def handler_call_tokens (op_symbol : String) (bsh_args : List String)
    (result_holder : String) : List Token :=
  [{ type := TokenType.TOKEN_STRING, text := strncpy_str (INPUT_BUFFER_SIZE - 1) op_symbol,
     len := op_symbol.length, line := 0, col := 0 }]
  ++ bsh_args.map (fun a =>
      { type := TokenType.TOKEN_STRING, text := strncpy_str (INPUT_BUFFER_SIZE - 1) a,
        len := a.length, line := 0, col := 0 })
  ++ [{ type := TokenType.TOKEN_WORD, text := strncpy_str (INPUT_BUFFER_SIZE - 1) result_holder,
        len := result_holder.length, line := 0, col := 0 }]

/-- See `invoke_bsh_operator_handler` (bsh.c 918-1006), over a given
`process_line`. -/
def invoke_bsh_operator_handler (process_line : String → Nat → Kernel → Kernel) :
    HandlerBridge :=
  fun bsh_handler_name_param op_symbol_param bsh_args result_holder c_result_buffer_size K =>
    let bsh_handler_name := strncpy_str (MAX_VAR_NAME_LEN - 1) bsh_handler_name_param
    let op_symbol := strncpy_str MAX_OPERATOR_LEN op_symbol_param
    match find_user_function K bsh_handler_name with
    | none =>
      ⟨false, strncpy_str (c_result_buffer_size - 1)
                ("BSH_HANDLER_NOT_FOUND<" ++ bsh_handler_name ++ ">"), K⟩
    | some func =>
      let expected_bsh_params := bsh_args.length + 2
      if func.param_count ≠ expected_bsh_params then
        ⟨false, strncpy_str (c_result_buffer_size - 1)
                  ("BSH_HANDLER_PARAM_MISMATCH<" ++ bsh_handler_name ++ ">"), K⟩
      else if expected_bsh_params > MAX_ARGS then
        ⟨false, strncpy_str (c_result_buffer_size - 1) "BSH_HANDLER_ARG_LIMIT_EXCEEDED", K⟩
      else
        let call_tokens := handler_call_tokens op_symbol bsh_args result_holder
        let K1 := execute_user_function process_line func call_tokens call_tokens.length K
        match get_variable_scoped K1 result_holder with
        | some result_from_bsh =>
          ⟨true, strncpy_str (c_result_buffer_size - 1) result_from_bsh, K1⟩
        | none =>
          ⟨true, strncpy_str (c_result_buffer_size - 1)
                   ("BSH_HANDLER_NO_RESULT<" ++ result_holder ++ ">"), K1⟩

/-! ## Expression evaluation (bsh.c 1012-1499) -/

/-- What the evaluator takes from outside: the C library's `rand` (from its
state, the value returned and the next state) and the handler bridge it calls
for every operator application. `bsh_env` is the shell's own instance. -/
structure Env where
  rand : Nat → Nat × Nat
  invoke_handler : HandlerBridge

/-- The environment of the shell: the bridge is `invoke_bsh_operator_handler`. -/
def bsh_env (rand : Nat → Nat × Nat) (process_line : String → Nat → Kernel → Kernel) : Env :=
  { rand := rand, invoke_handler := invoke_bsh_operator_handler process_line }

/-- See `extract_clean_variable_name_for_expr` (bsh.c 1012-1048): `none` is the
return `false`, else the name written to `out_name`. -/
def extract_clean_variable_name_for_expr (token_text : String) (out_name_size : Nat) :
    Option String :=
  if out_name_size = 0 then none
  else if head_char token_text.data ≠ DOLLAR then none
  else
    let p := token_text.data.tail
    let scanned : Option (List Char) :=
      if head_char p = LBRACE_CHAR then
        let (temp_name, rest) := scan_braced_segment p.tail
        if head_char rest ≠ RBRACE_CHAR then none else some temp_name
      else some (scan_name_segment p).1
    match scanned with
    | none => none
    | some temp_name =>
      if temp_name.length = 0 then none
      else if LBRACKET_CHAR ∈ temp_name ∨ DOT ∈ temp_name then none
      else some (strncpy_str (out_name_size - 1) ⟨temp_name⟩)

/-- The diagnostic lines the expression parser writes to `stderr`, one
constructor for each `fprintf (stderr, ...)` of bsh.c 1052-1499, with the
values the format prints. -/
inductive ParserDiagnostic where
  /-- "Unexpected EOF while parsing operand." -/
  | operand_at_end
  /-- "Max recursion depth reached." -/
  | operand_recursion_limit
  /-- "Missing ')' at line %d col %d." -/
  | missing_rparen (opening : Token)
  /-- "Prefix '++' or '--' requires a simple variable operand (e.g., $var), got '%s'." -/
  | prefix_operand_not_simple (got : Token)
  /-- "Prefix '++' or '--' requires a variable operand, got token type %d." -/
  | prefix_operand_not_variable (got : Token)
  /-- "Unexpected token '%s' (type %d) when expecting operand or prefix op at line %d col %d." -/
  | unexpected_operator_as_operand (tok : Token)
  /-- "Unexpected token '%s' (type %d) when expecting operand at line %d col %d." -/
  | unexpected_token_as_operand (tok : Token)
  /-- "Max recursion depth reached in main loop." -/
  | main_recursion_limit
  /-- "Unexpected token '%s' (type %d) after operand at line %d col %d." -/
  | unexpected_token_after_operand (tok : Token)
  /-- "Postfix '++' or '--' requires a simple variable operand." -/
  | postfix_lhs_not_simple
  /-- "Postfix '++' or '--' must follow a variable." -/
  | postfix_lhs_not_variable
  /-- "Invalid use of postfix '++' or '--'." -/
  | postfix_at_start
  /-- "Missing ':' in ternary operator at line %d col %d." -/
  | missing_colon (question : Token)
  /-- "Operator '%s' type %d not handled in main expression loop at line %d col %d." -/
  | operator_not_handled (op_def : OperatorDefinition) (tok : Token)
  /-- "Unexpected tokens left after expression evaluation, starting with '%s' at line %d col %d." -/
  | tokens_left (extra : Token)
  deriving DecidableEq, Repr

/-- The context the recursive-descent parser threads (bsh.c 302-309). `tokens`
is the memory that holds the slice, `result_buffer` the contents of the
caller's buffer. `diagnostics` is no field of the C struct: it collects the
lines this evaluation has written to `stderr`, the oldest first. -/
structure ExprParseContext where
  tokens : List Token
  current_token_idx : Nat
  num_tokens : Nat
  result_buffer : String
  result_buffer_size : Nat
  recursion_depth : Nat
  diagnostics : List ParserDiagnostic
  deriving DecidableEq, Repr

/-- What stops the embedding short of a result. -/
inductive Fault where
  | out_of_fuel
  | token_read_out_of_bounds
  deriving DecidableEq, Repr

/-- The result of `parse_operand`: return value, contents of
`operand_result_buffer`, context and shell state. -/
structure OperandResult where
  ok : Bool
  operand : String
  ctx : ExprParseContext
  kernel : Kernel
  deriving DecidableEq, Repr

/-- The result of `parse_expression_recursive`: return value, context (with
the result buffer) and shell state. -/
structure ExprResult where
  ok : Bool
  ctx : ExprParseContext
  kernel : Kernel
  deriving DecidableEq, Repr

/-- Two's-complement wrap of a 32-bit `int`. -/
def int_wrap (x : Int) : Int := (x + 2147483648) % 4294967296 - 2147483648

/-- The name `snprintf (buf, MAX_VAR_NAME_LEN, "__bsh_expr_temp_%d<suffix>", rand ())`
leaves in `temp_bsh_result_var`. -/
def temp_result_var (r : Nat) (suffix : String) : String :=
  strncpy_str (MAX_VAR_NAME_LEN - 1) ("__bsh_expr_temp_" ++ toString r ++ suffix)

/-- One call of `rand ()`: the value and the shell state after it. -/
def call_rand (env : Env) (K : Kernel) : Nat × Kernel :=
  ((env.rand K.rand_state).1, { K with rand_state := (env.rand K.rand_state).2 })

/-- The copy `strncpy (buf, marker, size - 1)` of an error marker. -/
def error_marker (size : Nat) (marker : String) : String := strncpy_str (size - 1) marker

/-- The token `ctx->tokens[i]`. -/
def ExprParseContext.token_at (ctx : ExprParseContext) (i : Nat) : Except Fault Token :=
  match ctx.tokens[i]? with
  | some t => .ok t
  | none => .error Fault.token_read_out_of_bounds

/-- The statement `ctx->recursion_depth--; return ...;`. -/
def ExprParseContext.leave (ctx : ExprParseContext) : ExprParseContext :=
  { ctx with recursion_depth := ctx.recursion_depth - 1 }

/-- The statement `ctx->current_token_idx++;`. -/
def ExprParseContext.advance (ctx : ExprParseContext) : ExprParseContext :=
  { ctx with current_token_idx := ctx.current_token_idx + 1 }

/-- The statement `strncpy (ctx->result_buffer, s, ctx->result_buffer_size - 1);`. -/
def ExprParseContext.store_result (ctx : ExprParseContext) (s : String) : ExprParseContext :=
  { ctx with result_buffer := strncpy_str (ctx.result_buffer_size - 1) s }

/-- A line `fprintf (stderr, ...)` of the parser. -/
def ExprParseContext.report (ctx : ExprParseContext) (d : ParserDiagnostic) :
    ExprParseContext :=
  { ctx with diagnostics := ctx.diagnostics ++ [d] }

mutual

/-- See `parse_operand` (bsh.c 1052-1193). -/
def parse_operand (env : Env) : Nat → ExprParseContext → Nat → Kernel →
    Except Fault OperandResult
  | 0, _, _, _ => .error Fault.out_of_fuel
  | fuel + 1, ctx, operand_buffer_size, K =>
    if ctx.current_token_idx ≥ ctx.num_tokens then
      .ok ⟨false, error_marker operand_buffer_size "EXPR_PARSE_ERROR_EOF_OPERAND",
           ctx.report .operand_at_end, K⟩
    else if ctx.recursion_depth ≥ MAX_EXPR_RECURSION_DEPTH then
      .ok ⟨false, error_marker operand_buffer_size "EXPR_PARSE_ERROR_RECURSION",
           ctx.report .operand_recursion_limit, K⟩
    else
      let ctx := { ctx with recursion_depth := ctx.recursion_depth + 1 }
      match ctx.token_at ctx.current_token_idx with
      | .error e => .error e
      | .ok current_token =>
        if current_token.type = TokenType.TOKEN_NUMBER
            ∨ current_token.type = TokenType.TOKEN_VARIABLE
            ∨ current_token.type = TokenType.TOKEN_WORD then
          .ok ⟨true, expand_variables_in_string_advanced K current_token.text operand_buffer_size,
               ctx.advance.leave, K⟩
        else if current_token.type = TokenType.TOKEN_STRING then
          let unescaped := unescape_string current_token.text INPUT_BUFFER_SIZE
          .ok ⟨true, expand_variables_in_string_advanced K unescaped operand_buffer_size,
               ctx.advance.leave, K⟩
        else if current_token.type = TokenType.TOKEN_LPAREN then
          match parse_expression_recursive env fuel ctx.advance 0 K with
          | .error e => .error e
          | .ok sub =>
            if ¬ sub.ok then
              .ok ⟨false, error_marker operand_buffer_size "EXPR_PARSE_ERROR_SUB_EXPR",
                   sub.ctx.leave, sub.kernel⟩
            else
              let operand := strncpy_str (operand_buffer_size - 1) sub.ctx.result_buffer
              if sub.ctx.current_token_idx ≥ sub.ctx.num_tokens then
                .ok ⟨false, error_marker operand_buffer_size "EXPR_PARSE_ERROR_MISSING_RPAREN",
                     (sub.ctx.report (.missing_rparen current_token)).leave, sub.kernel⟩
              else
                match sub.ctx.token_at sub.ctx.current_token_idx with
                | .error e => .error e
                | .ok closing =>
                  if closing.type ≠ TokenType.TOKEN_RPAREN then
                    .ok ⟨false,
                         error_marker operand_buffer_size "EXPR_PARSE_ERROR_MISSING_RPAREN",
                         (sub.ctx.report (.missing_rparen current_token)).leave, sub.kernel⟩
                  else .ok ⟨true, operand, sub.ctx.advance.leave, sub.kernel⟩
        else if current_token.type = TokenType.TOKEN_OPERATOR then
          match get_operator_definition K current_token.text with
          | none =>
            .ok ⟨false, error_marker operand_buffer_size
                   "EXPR_PARSE_ERROR_UNEXPECTED_TOKEN_OPERAND",
                 (ctx.report (.unexpected_operator_as_operand current_token)).leave, K⟩
          | some op_def =>
            if op_def.op_type_prop ≠ OperatorType.OP_TYPE_UNARY_PREFIX then
              .ok ⟨false, error_marker operand_buffer_size
                     "EXPR_PARSE_ERROR_UNEXPECTED_TOKEN_OPERAND",
                   (ctx.report (.unexpected_operator_as_operand current_token)).leave, K⟩
            else if op_def.op_str = "++" ∨ op_def.op_str = "--" then
              let ctx := ctx.advance
              -- `ctx->tokens[ctx->current_token_idx]` is read without a bound check
              match ctx.token_at ctx.current_token_idx with
              | .error e => .error e
              | .ok operand_var_token =>
                if operand_var_token.type = TokenType.TOKEN_VARIABLE then
                  match extract_clean_variable_name_for_expr operand_var_token.text
                          MAX_VAR_NAME_LEN with
                  | some var_name_clean =>
                    let (r, K1) := call_rand env K
                    let h := env.invoke_handler op_def.bsh_handler_name op_def.op_str
                               [var_name_clean] (temp_result_var r "_pf")
                               operand_buffer_size K1
                    .ok ⟨true, h.result, ctx.advance.leave, h.kernel⟩
                  | none =>
                    .ok ⟨false, error_marker operand_buffer_size
                           "EXPR_PARSE_ERROR_PREFIX_NON_VAR",
                         (ctx.report (.prefix_operand_not_simple operand_var_token)).leave, K⟩
                else
                  .ok ⟨false, error_marker operand_buffer_size
                         "EXPR_PARSE_ERROR_PREFIX_OPERAND_TYPE",
                       (ctx.report (.prefix_operand_not_variable operand_var_token)).leave, K⟩
            else
              match parse_expression_recursive env fuel ctx.advance op_def.precedence K with
              | .error e => .error e
              | .ok sub =>
                if ¬ sub.ok then
                  .ok ⟨false, error_marker operand_buffer_size
                         "EXPR_PARSE_ERROR_PREFIX_OPERAND", sub.ctx.leave, sub.kernel⟩
                else
                  let rhs_operand_value :=
                    strncpy_str (INPUT_BUFFER_SIZE - 1) sub.ctx.result_buffer
                  let (r, K1) := call_rand env sub.kernel
                  let op_now := deref_op_def K1 op_def
                  let h := env.invoke_handler op_now.bsh_handler_name op_now.op_str
                             [rhs_operand_value] (temp_result_var r "")
                             operand_buffer_size K1
                  .ok ⟨true, h.result, sub.ctx.leave, h.kernel⟩
        else
          .ok ⟨false, error_marker operand_buffer_size
                 "EXPR_PARSE_ERROR_UNEXPECTED_TOKEN_PRIMARY",
               (ctx.report (.unexpected_token_as_operand current_token)).leave, K⟩

/-- See `parse_expression_recursive` (bsh.c 1198-1457), up to the loop. -/
def parse_expression_recursive (env : Env) : Nat → ExprParseContext → Int → Kernel →
    Except Fault ExprResult
  | 0, _, _, _ => .error Fault.out_of_fuel
  | fuel + 1, ctx, min_precedence, K =>
    if ctx.recursion_depth ≥ MAX_EXPR_RECURSION_DEPTH then
      .ok ⟨false, (ctx.report .main_recursion_limit).store_result
                    "EXPR_PARSE_ERROR_RECURSION_MAIN", K⟩
    else
      let ctx := { ctx with recursion_depth := ctx.recursion_depth + 1 }
      match parse_operand env fuel ctx INPUT_BUFFER_SIZE K with
      | .error e => .error e
      | .ok opd =>
        if ¬ opd.ok then .ok ⟨false, opd.ctx.leave, opd.kernel⟩
        else
          parse_expression_loop env fuel (opd.ctx.store_result opd.operand) opd.operand
            min_precedence opd.kernel

/-- The `while` loop of `parse_expression_recursive` (bsh.c 1218-1456) with
the statements that follow it; `lhs_value` is the local buffer of that name. -/
def parse_expression_loop (env : Env) : Nat → ExprParseContext → String → Int → Kernel →
    Except Fault ExprResult
  | 0, _, _, _, _ => .error Fault.out_of_fuel
  | fuel + 1, ctx, lhs_value, min_precedence, K =>
    if ¬ (ctx.current_token_idx < ctx.num_tokens) then .ok ⟨true, ctx.leave, K⟩
    else
      match ctx.token_at ctx.current_token_idx with
      | .error e => .error e
      | .ok lookahead_op_token =>
        if lookahead_op_token.type ≠ TokenType.TOKEN_OPERATOR then
          if lookahead_op_token.type = TokenType.TOKEN_RPAREN
              ∨ lookahead_op_token.type = TokenType.TOKEN_EOF
              ∨ lookahead_op_token.type = TokenType.TOKEN_SEMICOLON then
            .ok ⟨true, ctx.leave, K⟩
          else
            .ok ⟨false,
                 ((ctx.report (.unexpected_token_after_operand lookahead_op_token)).store_result
                    "EXPR_PARSE_ERROR_UNEXPECTED_TOKEN_AFTER_OPD").leave, K⟩
        else
          match get_operator_definition K lookahead_op_token.text with
          | none => .ok ⟨true, ctx.leave, K⟩
          | some op_def =>
            if op_def.precedence < min_precedence then .ok ⟨true, ctx.leave, K⟩
            else if op_def.op_type_prop = OperatorType.OP_TYPE_BINARY_INFIX then
              if op_def.associativity = OperatorAssociativity.ASSOC_LEFT
                  ∧ op_def.precedence ≤ min_precedence then .ok ⟨true, ctx.leave, K⟩
              else
                let next_min_precedence :=
                  if op_def.associativity = OperatorAssociativity.ASSOC_LEFT
                  then int_wrap (op_def.precedence + 1) else op_def.precedence
                match parse_expression_recursive env fuel ctx.advance next_min_precedence K with
                | .error e => .error e
                | .ok rhs =>
                  if ¬ rhs.ok then .ok ⟨false, rhs.ctx.leave, rhs.kernel⟩
                  else
                    let rhs_value := strncpy_str (INPUT_BUFFER_SIZE - 1) rhs.ctx.result_buffer
                    let (r, K1) := call_rand env rhs.kernel
                    let op_now := deref_op_def K1 op_def
                    let h := env.invoke_handler op_now.bsh_handler_name op_now.op_str
                               [lhs_value, rhs_value] (temp_result_var r "")
                               INPUT_BUFFER_SIZE K1
                    parse_expression_loop env fuel (rhs.ctx.store_result h.result) h.result
                      min_precedence h.kernel
            else if op_def.op_type_prop = OperatorType.OP_TYPE_UNARY_POSTFIX then
              if op_def.op_str = "++" ∨ op_def.op_str = "--" then
                if 0 < ctx.current_token_idx then
                  match ctx.token_at (ctx.current_token_idx - 1) with
                  | .error e => .error e
                  | .ok potential_var_token =>
                    if potential_var_token.type = TokenType.TOKEN_VARIABLE then
                      match extract_clean_variable_name_for_expr potential_var_token.text
                              MAX_VAR_NAME_LEN with
                      | some var_name_clean =>
                        let (r, K1) := call_rand env K
                        let h := env.invoke_handler op_def.bsh_handler_name op_def.op_str
                                   [var_name_clean] (temp_result_var r "_pof")
                                   INPUT_BUFFER_SIZE K1
                        if ¬ h.ok then
                          parse_expression_loop env fuel (ctx.advance.store_result h.result)
                            lhs_value min_precedence h.kernel
                        else
                          parse_expression_loop env fuel (ctx.advance.store_result h.result)
                            (strncpy_str (INPUT_BUFFER_SIZE - 1) h.result) min_precedence
                            h.kernel
                      | none =>
                        .ok ⟨false,
                             ((ctx.report .postfix_lhs_not_simple).store_result
                                "EXPR_PARSE_ERROR_POSTFIX_LHS").leave, K⟩
                    else
                      .ok ⟨false,
                           ((ctx.report .postfix_lhs_not_variable).store_result
                              "EXPR_PARSE_ERROR_POSTFIX_OPERAND").leave, K⟩
                else
                  .ok ⟨false,
                       ((ctx.report .postfix_at_start).store_result
                          "EXPR_PARSE_ERROR_POSTFIX_START").leave, K⟩
              else
                let (r, K1) := call_rand env K
                let h := env.invoke_handler op_def.bsh_handler_name op_def.op_str
                           [lhs_value] (temp_result_var r "_otherpof") INPUT_BUFFER_SIZE K1
                parse_expression_loop env fuel (ctx.advance.store_result h.result) h.result
                  min_precedence h.kernel
            else if op_def.op_type_prop = OperatorType.OP_TYPE_TERNARY_PRIMARY
                ∧ op_def.op_str = "?" then
              match parse_expression_recursive env fuel ctx.advance 0 K with
              | .error e => .error e
              | .ok tb =>
                if ¬ tb.ok then .ok ⟨false, tb.ctx.leave, tb.kernel⟩
                else
                  let true_branch_value :=
                    strncpy_str (INPUT_BUFFER_SIZE - 1) tb.ctx.result_buffer
                  if tb.ctx.current_token_idx ≥ tb.ctx.num_tokens then
                    .ok ⟨false,
                         ((tb.ctx.report (.missing_colon lookahead_op_token)).store_result
                            "EXPR_PARSE_ERROR_MISSING_COLON").leave, tb.kernel⟩
                  else
                    match tb.ctx.token_at tb.ctx.current_token_idx with
                    | .error e => .error e
                    | .ok colon =>
                      if colon.type ≠ TokenType.TOKEN_OPERATOR ∨ colon.text ≠ ":" then
                        .ok ⟨false,
                             ((tb.ctx.report (.missing_colon lookahead_op_token)).store_result
                                "EXPR_PARSE_ERROR_MISSING_COLON").leave, tb.kernel⟩
                      else
                        match parse_expression_recursive env fuel tb.ctx.advance 0 tb.kernel with
                        | .error e => .error e
                        | .ok fb =>
                          if ¬ fb.ok then .ok ⟨false, fb.ctx.leave, fb.kernel⟩
                          else
                            let false_branch_value :=
                              strncpy_str (INPUT_BUFFER_SIZE - 1) fb.ctx.result_buffer
                            let (r, K1) := call_rand env fb.kernel
                            let op_now := deref_op_def K1 op_def
                            let h := env.invoke_handler op_now.bsh_handler_name op_now.op_str
                                       [lhs_value, true_branch_value, false_branch_value]
                                       (temp_result_var r "") INPUT_BUFFER_SIZE K1
                            parse_expression_loop env fuel (fb.ctx.store_result h.result)
                              h.result min_precedence h.kernel
            else
              .ok ⟨false,
                   ((ctx.report (.operator_not_handled op_def lookahead_op_token)).store_result
                      "EXPR_PARSE_ERROR_UNHANDLED_OP_TYPE_IN_LOOP").leave, K⟩

end

/-- The result of `evaluate_expression_from_tokens`: return value, contents of
the result buffer, shell state, the index the parser stopped at and the
lines written to `stderr`. -/
structure EvalResult where
  ok : Bool
  result : String
  kernel : Kernel
  stopped_at : Nat
  diagnostics : List ParserDiagnostic
  deriving DecidableEq, Repr

/-- See `evaluate_expression_from_tokens` (bsh.c 1460-1499). -/
def evaluate_expression_from_tokens (env : Env) (expression_tokens : List Token)
    (num_expr_tokens : Nat) (buffer_size : Nat) (K : Kernel) : Except Fault EvalResult :=
  if num_expr_tokens = 0 then .ok ⟨true, "", K, 0, []⟩
  else
    let ctx : ExprParseContext :=
      { tokens := expression_tokens, current_token_idx := 0, num_tokens := num_expr_tokens,
        result_buffer := "", result_buffer_size := buffer_size, recursion_depth := 0,
        diagnostics := [] }
    match parse_expression_recursive env (2 * num_expr_tokens + 2) ctx 0 K with
    | .error e => .error e
    | .ok r =>
      if ¬ r.ok then
        .ok ⟨false, r.ctx.result_buffer, r.kernel, r.ctx.current_token_idx, r.ctx.diagnostics⟩
      else if r.ctx.current_token_idx < r.ctx.num_tokens then
        match r.ctx.token_at r.ctx.current_token_idx with
        | .error e => .error e
        | .ok extra_token =>
          if extra_token.type ≠ TokenType.TOKEN_EOF then
            .ok ⟨true, r.ctx.result_buffer, r.kernel, r.ctx.current_token_idx,
                 r.ctx.diagnostics ++ [.tokens_left extra_token]⟩
          else
            .ok ⟨true, r.ctx.result_buffer, r.kernel, r.ctx.current_token_idx,
                 r.ctx.diagnostics⟩
      else
        .ok ⟨true, r.ctx.result_buffer, r.kernel, r.ctx.current_token_idx, r.ctx.diagnostics⟩

/-! ## Vocabulary of the statements -/

/-- An operand token: a Number, Variable, Word or String token. -/
def is_operand_token (t : Token) : Prop :=
  t.type = TokenType.TOKEN_NUMBER ∨ t.type = TokenType.TOKEN_VARIABLE
    ∨ t.type = TokenType.TOKEN_WORD ∨ t.type = TokenType.TOKEN_STRING

instance (t : Token) : Decidable (is_operand_token t) := by
  unfold is_operand_token; infer_instance

/-- The value `parse_operand` gives an operand token in the state `K`
(bsh.c 1068-1075). -/
def operand_value (K : Kernel) (t : Token) : String :=
  if t.type = TokenType.TOKEN_STRING then
    expand_variables_in_string_advanced K (unescape_string t.text INPUT_BUFFER_SIZE)
      INPUT_BUFFER_SIZE
  else expand_variables_in_string_advanced K t.text INPUT_BUFFER_SIZE

/-- Handlers leave the operator registry as it is. -/
def Env.keeps_operators (env : Env) : Prop :=
  ∀ h op args holder size K,
    (env.invoke_handler h op args holder size K).kernel.operator_list_head
      = K.operator_list_head

/-- The bridge writes no more than the result buffer holds. -/
def Env.respects_buffer (env : Env) : Prop :=
  ∀ h op args holder size K,
    (env.invoke_handler h op args holder size K).result.length ≤ size - 1

/-- A token that ends the expression loop without an error (bsh.c 1224-1226). -/
def is_terminator (t : Token) : Prop :=
  t.type = TokenType.TOKEN_RPAREN ∨ t.type = TokenType.TOKEN_EOF
    ∨ t.type = TokenType.TOKEN_SEMICOLON

/-- The minimum precedence the right operand of a binary operator is parsed
with (bsh.c 1246). -/
def rhs_min_precedence (d : OperatorDefinition) : Int :=
  if d.associativity = OperatorAssociativity.ASSOC_LEFT then int_wrap (d.precedence + 1)
  else d.precedence

/-- The loop of `parse_expression_recursive` takes the binary operator `d` at
minimum precedence `min_precedence` (bsh.c 1234, 1240). -/
def binds_at (d : OperatorDefinition) (min_precedence : Int) : Prop :=
  min_precedence ≤ d.precedence
    ∧ (d.associativity = OperatorAssociativity.ASSOC_LEFT → min_precedence < d.precedence)

/-- The loop of `parse_expression_recursive` stops before the binary operator
`d` at minimum precedence `min_precedence` (bsh.c 1234, 1240). -/
def yields_at (d : OperatorDefinition) (min_precedence : Int) : Prop :=
  d.precedence < min_precedence
    ∨ (d.associativity = OperatorAssociativity.ASSOC_LEFT ∧ d.precedence ≤ min_precedence)

/-- The slice ends after the expression: nothing follows, or the Eof token. -/
def ends_expression (tail : List Token) : Prop :=
  ∀ e, tail.head? = some e → e.type = TokenType.TOKEN_EOF

/-! ## Fixtures: tokens, registries and handlers of the scenarios -/

/-- A token of line 1 with the given kind and text. -/
def mk_token (type : TokenType) (text : String) : Token :=
  { type := type, text := text, len := text.length, line := 1, col := 1 }

def number_token (text : String) : Token := mk_token TokenType.TOKEN_NUMBER text
def operator_token (text : String) : Token := mk_token TokenType.TOKEN_OPERATOR text
def eof_token : Token := mk_token TokenType.TOKEN_EOF "EOF"

/-- The number a run of decimal digits writes. -/
def digits_value (ds : List Char) : Nat :=
  ds.foldl (fun n c => 10 * n + (c.toNat - 48)) 0

/-- The integer a decimal string writes, with an optional leading minus. -/
def decimal_value (s : String) : Int :=
  if head_char s.data = '-' then - (digits_value s.data.tail : Int)
  else (digits_value s.data : Int)

/-- A stand-in for the handler bridge, not the bridge of the code: its
handlers `add`, `sub` and `mul` hand back the integer value of their two
operands and touch nothing else. It serves to tell the order of the handler
calls by the value; `invoke_bsh_operator_handler` itself never hands a
handler value back (see C5). -/
def arith_bridge : HandlerBridge :=
  fun handler _op args _holder size K =>
    match args with
    | [a, b] =>
      let r : Int :=
        if handler = "add" then decimal_value a + decimal_value b
        else if handler = "mul" then decimal_value a * decimal_value b
        else decimal_value a - decimal_value b
      ⟨true, strncpy_str (size - 1) (toString r), K⟩
    | _ => ⟨false, "", K⟩

/-- A `rand` that counts up. -/
def counting_rand (s : Nat) : Nat × Nat := (s, s + 1)

def arith_env : Env := { rand := counting_rand, invoke_handler := arith_bridge }

/-- A shell after `initialize_shell` with the given operators registered. -/
def kernel_with_operators (ops : List OperatorDefinition) : Kernel :=
  { Kernel.empty with operator_list_head := ops, scope_stack := [⟨GLOBAL_SCOPE_ID⟩] }

/-- A BinaryInfix operator definition. -/
def binary_operator (symbol : String) (precedence : Int) (assoc : OperatorAssociativity)
    (handler : String) : OperatorDefinition :=
  { op_str := symbol, token_type := TokenType.TOKEN_OPERATOR,
    op_type_prop := OperatorType.OP_TYPE_BINARY_INFIX, precedence := precedence,
    associativity := assoc, bsh_handler_name := handler }

deriving instance DecidableEq for Except

/-- The line `10 - 3 - 2`. -/
def tokens_10_minus_3_minus_2 : List Token :=
  [number_token "10", operator_token "-", number_token "3", operator_token "-",
   number_token "2", eof_token]

/-- The registry of scenarios 3 and 4: `+` of precedence 10 and `*` of
precedence 20, both left-associative. -/
def arith_kernel : Kernel :=
  kernel_with_operators
    [binary_operator "+" 10 OperatorAssociativity.ASSOC_LEFT "add",
     binary_operator "*" 20 OperatorAssociativity.ASSOC_LEFT "mul"]

/-- The line `2 + 3 * 4`. -/
def tokens_2_plus_3_times_4 : List Token :=
  [number_token "2", operator_token "+", number_token "3", operator_token "*",
   number_token "4", eof_token]

/-- The line `(2 + 3) * 4`. -/
def tokens_paren_2_plus_3_times_4 : List Token :=
  [mk_token TokenType.TOKEN_LPAREN "(", number_token "2", operator_token "+",
   number_token "3", mk_token TokenType.TOKEN_RPAREN ")", operator_token "*",
   number_token "4", eof_token]

/-- A bridge whose handler returns its second operand when the first is `1`
and its third otherwise, as the `tern` handler of scenario 6 does. -/
def ternary_bridge : HandlerBridge :=
  fun _handler _op args _holder size K =>
    match args with
    | [c, t, f] => ⟨true, strncpy_str (size - 1) (if c = "1" then t else f), K⟩
    | _ => ⟨false, "", K⟩

def ternary_env : Env := { rand := counting_rand, invoke_handler := ternary_bridge }

/-- The registry of scenario 6: `?` TernaryPrimary and `:` TernarySecondary,
both of precedence 5. -/
def ternary_kernel : Kernel :=
  kernel_with_operators
    [{ op_str := "?", token_type := TokenType.TOKEN_OPERATOR,
       op_type_prop := OperatorType.OP_TYPE_TERNARY_PRIMARY, precedence := 5,
       associativity := OperatorAssociativity.ASSOC_LEFT, bsh_handler_name := "tern" },
     { op_str := ":", token_type := TokenType.TOKEN_OPERATOR,
       op_type_prop := OperatorType.OP_TYPE_TERNARY_SECONDARY, precedence := 5,
       associativity := OperatorAssociativity.ASSOC_LEFT, bsh_handler_name := "noop" }]

/-- The line `<c> ? "yes" : "no"`, the quotes part of the String tokens. -/
def tokens_ternary (c : String) : List Token :=
  [number_token c, operator_token "?", mk_token TokenType.TOKEN_STRING "\"yes\"",
   operator_token ":", mk_token TokenType.TOKEN_STRING "\"no\"", eof_token]

/-- A name the postfix path takes for a simple variable: not empty, at most
`MAX_VAR_NAME_LEN - 1` characters, all of them alphanumerics or `_`. -/
def is_simple_name (x : String) : Prop :=
  x.data ≠ [] ∧ x.length ≤ MAX_VAR_NAME_LEN - 1 ∧ ∀ c ∈ x.data, is_name_char c = true

instance (x : String) : Decidable (is_simple_name x) := by
  unfold is_simple_name; infer_instance

/-- A UnaryPostfix operator definition. -/
def unary_postfix_operator (symbol : String) (precedence : Int) (handler : String) :
    OperatorDefinition :=
  { op_str := symbol, token_type := TokenType.TOKEN_OPERATOR,
    op_type_prop := OperatorType.OP_TYPE_UNARY_POSTFIX, precedence := precedence,
    associativity := OperatorAssociativity.ASSOC_NONE, bsh_handler_name := handler }

/-- The line `$x++`. -/
def tokens_x_increment : List Token :=
  [mk_token TokenType.TOKEN_VARIABLE "$x", operator_token "++", eof_token]

/-- The state in which the body of a handler starts: the scope is entered and
the parameters are bound to the tokens the bridge synthesises (bsh.c 994,
4082-4099). `execute_user_function` runs the body from here. -/
def handler_entry_state (func : UserFunction) (op_symbol : String) (bsh_args : List String)
    (result_holder : String) (K : Kernel) : Kernel :=
  match enter_scope K with
  | (none, _) => K
  | (some _, K1) =>
    bind_parameters (handler_call_tokens op_symbol bsh_args result_holder)
      (handler_call_tokens op_symbol bsh_args result_holder).length func.params 0 K1

/-- The handler of scenario 1: `add (op, a, b, res)`, whose body is the one
statement that publishes the sum. -/
def add_handler : UserFunction :=
  { name := "add", params := ["op", "a", "b", "res"], body := ["publish_sum"] }

/-- The interpreter of the scenario's script lines. The statement
`publish_sum` writes the integer sum of the parameters `a` and `b` into the
variable whose name the parameter `res` holds, with `set_variable_scoped`, a
write at the current scope; any other line does nothing. -/
def scenario_process_line (line : String) (_line_no : Nat) (K : Kernel) : Kernel :=
  if line = "publish_sum" then
    set_variable_scoped ((get_variable_scoped K "res").getD "")
      (toString (decimal_value ((get_variable_scoped K "a").getD "")
                  + decimal_value ((get_variable_scoped K "b").getD "")))
      false K
  else K

/-- The shell of scenario 1 after `initialize_shell`: the global scope, `+`
registered with the handler `add`, and the function `add` defined. -/
def add_kernel : Kernel :=
  { kernel_with_operators [binary_operator "+" 10 OperatorAssociativity.ASSOC_LEFT "add"] with
    function_list := [add_handler] }

/-- The line `2 + 3`. -/
def tokens_2_plus_3 : List Token :=
  [number_token "2", operator_token "+", number_token "3", eof_token]

/-- The tokens the bridge hands to a handler when nothing is truncated. -/
def plain_call_tokens (op_symbol : String) (bsh_args : List String) (result_holder : String) :
    List Token :=
  [{ type := TokenType.TOKEN_STRING, text := op_symbol, len := op_symbol.length,
     line := 0, col := 0 }]
  ++ bsh_args.map (fun a =>
      { type := TokenType.TOKEN_STRING, text := a, len := a.length, line := 0, col := 0 })
  ++ [{ type := TokenType.TOKEN_WORD, text := result_holder, len := result_holder.length,
        line := 0, col := 0 }]

/-- The three lines the parser writes when it turns down a postfix `++` or
`--` (bsh.c 1363, 1370, 1377). -/
def is_postfix_rejection (d : ParserDiagnostic) : Prop :=
  d = ParserDiagnostic.postfix_lhs_not_simple ∨ d = ParserDiagnostic.postfix_lhs_not_variable
    ∨ d = ParserDiagnostic.postfix_at_start

instance (d : ParserDiagnostic) : Decidable (is_postfix_rejection d) := by
  unfold is_postfix_rejection; infer_instance

/-- The token before index `i` is a Variable token of the simple form, the
one case in which the postfix path finds a variable name (bsh.c 1303-1312). -/
def follows_simple_variable (toks : List Token) (i : Nat) : Prop :=
  0 < i ∧ ∃ p name, toks[i - 1]? = some p ∧ p.type = TokenType.TOKEN_VARIABLE
    ∧ extract_clean_variable_name_for_expr p.text MAX_VAR_NAME_LEN = some name

/-- A successful parse of an operand has written no diagnostic. -/
def OperandQuiet (ctx : ExprParseContext) : Except Fault OperandResult → Prop
  | .ok r => r.ok = true → r.ctx.diagnostics = ctx.diagnostics
  | .error _ => True

/-- A successful parse of an expression has written no diagnostic. -/
def ExprQuiet (ctx : ExprParseContext) : Except Fault ExprResult → Prop
  | .ok r => r.ok = true → r.ctx.diagnostics = ctx.diagnostics
  | .error _ => True

/-- The lines `5 ++` and `( 2 + 3 ) ++`. -/
def tokens_5_increment : List Token :=
  [number_token "5", operator_token "++", eof_token]

def tokens_paren_sum_increment : List Token :=
  [mk_token TokenType.TOKEN_LPAREN "(", number_token "2", operator_token "+",
   number_token "3", mk_token TokenType.TOKEN_RPAREN ")", operator_token "++", eof_token]

/-- The registry of the postfix examples: `+` binary of precedence 10 and `++`
UnaryPostfix of precedence 30. -/
def postfix_kernel : Kernel :=
  kernel_with_operators
    [binary_operator "+" 10 OperatorAssociativity.ASSOC_LEFT "add",
     unary_postfix_operator "++" 30 "post_inc"]

/-- The call of `parse_operand` came back (the fuel was enough), with the
slice length kept and the cursor not moved back. -/
def OperandFueled (ctx : ExprParseContext) : Except Fault OperandResult → Prop
  | .ok r => r.ctx.num_tokens = ctx.num_tokens
      ∧ ctx.current_token_idx ≤ r.ctx.current_token_idx
  | .error e => e ≠ Fault.out_of_fuel

/-- The call of `parse_expression_recursive` came back (the fuel was enough),
with the slice length kept and the cursor not moved back. -/
def ExprFueled (ctx : ExprParseContext) : Except Fault ExprResult → Prop
  | .ok r => r.ctx.num_tokens = ctx.num_tokens
      ∧ ctx.current_token_idx ≤ r.ctx.current_token_idx
  | .error e => e ≠ Fault.out_of_fuel

/-! ## Array elements (bsh.c 3958-3977) -/

/-- See `set_array_element_scoped` (bsh.c 3958-3977): the index is normalised,
joined to the base name with `_ARRAYIDX_` in a buffer of
`MAX_VAR_NAME_LEN * 2` bytes, and the element is stored by
`set_variable_scoped`. -/
def set_array_element_scoped (array_base_name index_str_raw_param value : String)
    (K : Kernel) : Kernel :=
  let index_str_raw := strncpy_str (INPUT_BUFFER_SIZE - 1) index_str_raw_param
  let expanded_index_val :=
    if head_char index_str_raw.data = DQUOTE
        ∧ char_at index_str_raw.data (index_str_raw.length - 1) = DQUOTE then
      expand_variables_in_string_advanced K (unescape_string index_str_raw INPUT_BUFFER_SIZE)
        INPUT_BUFFER_SIZE
    else if head_char index_str_raw.data = DOLLAR then
      expand_variables_in_string_advanced K index_str_raw INPUT_BUFFER_SIZE
    else strncpy_str (INPUT_BUFFER_SIZE - 1) index_str_raw
  let mangled_name :=
    strncpy_str (MAX_VAR_NAME_LEN * 2 - 1) (array_base_name ++ "_ARRAYIDX_" ++ expanded_index_val)
  set_variable_scoped mangled_name value true K

/-! ## Vocabulary of the store statements -/

/-- The key of a variable entry: its name and the id of its scope. -/
def Variable.key (v : Variable) : String × Nat := (v.name, v.scope_id)

/-- The scope id a call of `enter_scope` has returned, put in front of the ids
returned before; the error return `-1` adds none. -/
def record_scope_id (r : Option Nat) (ids : List Nat) : List Nat :=
  match r with
  | some id => id :: ids
  | none => ids

/-- The states of the store reachable from the empty store (no variable, no
scope, `next_scope_id == 1`) by `enter_scope`, `leave_scope`,
`set_variable_scoped` and `set_array_element_scoped`, each with the scope ids
`enter_scope` has returned on the way, the latest first. -/
inductive StoreReachable : Kernel → List Nat → Prop where
  | start (K : Kernel) (hv : K.variable_list_head = []) (hs : K.scope_stack = [])
      (hn : K.next_scope_id = 1) : StoreReachable K []
  | enter (K : Kernel) (ids : List Nat) (h : StoreReachable K ids) :
      StoreReachable (enter_scope K).2 (record_scope_id (enter_scope K).1 ids)
  | leave (id : Nat) (K : Kernel) (ids : List Nat) (h : StoreReachable K ids) :
      StoreReachable (leave_scope id K) ids
  | set (name value : String) (flag : Bool) (K : Kernel) (ids : List Nat)
      (h : StoreReachable K ids) : StoreReachable (set_variable_scoped name value flag K) ids
  | set_array (base index value : String) (K : Kernel) (ids : List Nat)
      (h : StoreReachable K ids) :
      StoreReachable (set_array_element_scoped base index value K) ids

/-- A name as the store keeps it: not empty, at most `MAX_VAR_NAME_LEN - 1`
characters, no whitespace at either end. -/
def is_plain_name (name : String) : Prop :=
  name.data ≠ [] ∧ name.length ≤ MAX_VAR_NAME_LEN - 1
    ∧ isspace (head_char name.data) = false ∧ isspace (head_char name.data.reverse) = false

instance (name : String) : Decidable (is_plain_name name) := by
  unfold is_plain_name; infer_instance

/-- The frame `f` has a binding for `name` in the variable list. -/
def has_binding (vars : List Variable) (f : ScopeFrame) (name : String) : Prop :=
  ∃ v ∈ vars, v.scope_id = f.scope_id ∧ v.name = name

/-- A shell after `initialize_shell`: the global scope alone, nothing else. -/
def global_kernel : Kernel := kernel_with_operators []

/-- What holds in every reachable state of the store: one entry at most for a
name and scope id; the ids returned so far, the ids of the frames and the
scope ids of the entries are below `next_scope_id`; and the ids of the frames
decrease from the top of the stack to its bottom. -/
structure StoreInvariant (K : Kernel) (ids : List Nat) : Prop where
  keys_nodup : (K.variable_list_head.map Variable.key).Nodup
  next_pos : 1 ≤ K.next_scope_id
  returned_lt : ∀ j ∈ ids, j < K.next_scope_id
  frames_lt : ∀ f ∈ K.scope_stack, f.scope_id < K.next_scope_id
  frames_sorted : (K.scope_stack.map ScopeFrame.scope_id).Pairwise (fun a b => b < a)
  vars_lt : ∀ v ∈ K.variable_list_head, v.scope_id < K.next_scope_id

/-! ## The operator registry's longest match (bsh.c 490-518) -/

/-- The test `strncmp (input, op_str, strlen (op_str)) == 0` on strings
without NUL: `op_str` is a prefix of `input`. -/
def starts_with (input : List Char) (op_str : String) : Bool := op_str.data.isPrefixOf input

/-- The `while` loop of `match_operator_text` from the entry `current` on;
the pair is `best_match_str` (`none` for NULL) and `longest_match_len`. -/
def match_operator_loop (input : List Char) :
    List OperatorDefinition → Option String × Nat → Option String × Nat
  | [], acc => acc
  | current :: next, (best_match_str, longest_match_len) =>
    if starts_with input current.op_str = true ∧ current.op_str.length > longest_match_len then
      match_operator_loop input next (some current.op_str, current.op_str.length)
    else match_operator_loop input next (best_match_str, longest_match_len)

/-- See `match_operator_text` (bsh.c 490-518): the length returned, 0 for no
match, and the string `*op_text` is set to, `none` when it is not written. -/
def match_operator_text (K : Kernel) (input : List Char) : Nat × Option String :=
  let r := match_operator_loop input K.operator_list_head (none, 0)
  if r.2 > 0 then (r.2, r.1) else (0, none)

/-! ## The tokenizer (bsh.c 531-560, 636-793) -/

def HASH_CHAR : Char := Char.ofNat 35
def LPAREN_CHAR : Char := Char.ofNat 40
def RPAREN_CHAR : Char := Char.ofNat 41
def MINUS_CHAR : Char := Char.ofNat 45
def SEMICOLON_CHAR : Char := Char.ofNat 59
def EQUALS_CHAR : Char := Char.ofNat 61
def RBRACKET_CHAR : Char := Char.ofNat 93
def NEWLINE_CHAR : Char := Char.ofNat 10

/-- The predicate `isdigit`. -/
def isdigit (c : Char) : Bool := c.isDigit

/-- What the tokenizer carries from round to round: the tokens written to
`tokens[0 .. token_count - 1]`, `remaining_storage` and `current_col`. -/
structure TokenizerState where
  tokens : List Token
  remaining_storage : Nat
  current_col : Nat
  deriving DecidableEq, Repr

/-- See `add_token_refactored` (bsh.c 531-560): the token is dropped without a
word when the array or the storage is full. -/
def add_token_refactored (type : TokenType) (text_start : List Char) (len : Nat)
    (line_num_for_token col_for_token_start max_tokens_limit : Nat) (st : TokenizerState) :
    TokenizerState :=
  if st.tokens.length + 1 ≥ max_tokens_limit ∨ st.remaining_storage ≤ len + 1 then st
  else
    { st with
      tokens := st.tokens ++ [{ type := type, text := ⟨text_start.take len⟩, len := len,
                                line := line_num_for_token, col := col_for_token_start }],
      remaining_storage := st.remaining_storage - (len + 1) }

/-- The loop `while (isspace (*p))` at the head of a round (bsh.c 646-649):
the rest of the line and the column. -/
def skip_whitespace : List Char → Nat → List Char × Nat
  | [], col => ([], col)
  | c :: cs, col =>
    if isspace c = true then skip_whitespace cs (if c = NEWLINE_CHAR then 1 else col + 1)
    else (c :: cs, col)

/-- Rule 2 (bsh.c 663-674): the length of the Variable token at `p`, which
starts with `$`. -/
def variable_token_length (p : List Char) : Nat :=
  let q := p.tail
  if head_char q = LBRACE_CHAR then
    let body := q.tail.takeWhile (fun c => c ≠ RBRACE_CHAR)
    let r := q.tail.drop body.length
    2 + body.length + (if head_char r = RBRACE_CHAR then 1 else 0)
  else 1 + (q.takeWhile is_name_char).length

/-- Rule 3 (bsh.c 680-690): the number of characters the loop takes after the
opening quote. `escaped` says that the character at hand is the second of a
step `p += 2`, the one after a backslash. -/
def string_body_scan : Bool → List Char → Nat
  | _, [] => 0
  | true, _ :: rest => 1 + string_body_scan false rest
  | false, c :: rest =>
    if c = BACKSLASH ∧ rest ≠ [] then 1 + string_body_scan true rest
    else if c = DQUOTE then 1
    else 1 + string_body_scan false rest

def string_body_length (p : List Char) : Nat := string_body_scan false p

/-- Rule 4 (bsh.c 696-709): the length of the Number token at `p`. -/
def number_token_length (p : List Char) : Nat :=
  let has_decimal : Bool := head_char p = DOT
  let p1 := if has_decimal then p.tail else p
  let n1 := (p1.takeWhile isdigit).length
  let p2 := p1.drop n1
  let lead := if has_decimal then 1 else 0
  if has_decimal = false ∧ head_char p2 = DOT then
    lead + n1 + 1 + (p2.tail.takeWhile isdigit).length
  else lead + n1

/-- Rule 5 (bsh.c 712-747): the `switch` on the character at `p`. -/
def fixed_punct_type (K : Kernel) (p : List Char) : TokenType :=
  let c := head_char p
  if c = LPAREN_CHAR then TokenType.TOKEN_LPAREN
  else if c = RPAREN_CHAR then TokenType.TOKEN_RPAREN
  else if c = LBRACE_CHAR then TokenType.TOKEN_LBRACE
  else if c = RBRACE_CHAR then TokenType.TOKEN_RBRACE
  else if c = LBRACKET_CHAR then TokenType.TOKEN_LBRACKET
  else if c = RBRACKET_CHAR then TokenType.TOKEN_RBRACKET
  else if c = SEMICOLON_CHAR then TokenType.TOKEN_SEMICOLON
  else if c = EQUALS_CHAR then
    if (match_operator_text K p).1 > 1 then TokenType.TOKEN_EMPTY
    else TokenType.TOKEN_ASSIGN
  else TokenType.TOKEN_EMPTY

/-- The rules 1 to 8 of a round (bsh.c 655-782) at the token start `p`, which
is not empty and does not start with whitespace: the kind and the length of
the token the round hands to `add_token_refactored` and moves `p` by, or
`none` for the comment that ends the line. -/
def scan_token (K : Kernel) (p : List Char) : Option (TokenType × Nat) :=
  let c := head_char p
  if c = HASH_CHAR then none
  else if c = DOLLAR then some (TokenType.TOKEN_VARIABLE, variable_token_length p)
  else if c = DQUOTE then some (TokenType.TOKEN_STRING, 1 + string_body_length p.tail)
  else if isdigit c = true ∨ (c = DOT ∧ isdigit (char_at p 1) = true) then
    some (TokenType.TOKEN_NUMBER, number_token_length p)
  else if fixed_punct_type K p ≠ TokenType.TOKEN_EMPTY then some (fixed_punct_type K p, 1)
  else if (match_operator_text K p).1 > 0 then
    some (TokenType.TOKEN_OPERATOR, (match_operator_text K p).1)
  else if isalnum c = true ∨ c = '_' ∨ c = MINUS_CHAR then
    -- a `-` starts a word that the loop does not take: the length is 0
    some (TokenType.TOKEN_WORD, (p.takeWhile is_name_char).length)
  else some (TokenType.TOKEN_ERROR, 1)

/-- What stops the embedding of the tokenizer short of a result. -/
inductive TokenizerFault where
  | out_of_fuel
  /-- A round that leaves `p`, the tokens and the storage as they were: the C
  loop runs for ever. -/
  | does_not_terminate
  deriving DecidableEq, Repr

/-- The `while` loop of `advanced_tokenize_line` (bsh.c 645-782), a round for
each unit of fuel. -/
def tokenize_loop (K : Kernel) (line_num max_tokens : Nat) :
    Nat → List Char → TokenizerState → Except TokenizerFault TokenizerState
  | 0, _, _ => .error TokenizerFault.out_of_fuel
  | fuel + 1, p, st =>
    if p = [] ∨ ¬ (st.tokens.length + 1 < max_tokens) then .ok st
    else
      let p1 := (skip_whitespace p st.current_col).1
      let col := (skip_whitespace p st.current_col).2
      let st1 := { st with current_col := col }
      if p1 = [] then .ok st1
      else
        match scan_token K p1 with
        | none => .ok st1
        | some (type, len) =>
          let st2 := { add_token_refactored type p1 len line_num col max_tokens st1 with
                       current_col := col + len }
          if len = 0 ∧ st2.tokens.length = st1.tokens.length then
            .error TokenizerFault.does_not_terminate
          else tokenize_loop K line_num max_tokens fuel (p1.drop len) st2

/-- See `advanced_tokenize_line` (bsh.c 636-793): the tokens written, the
Eof token last if there is room for it; their number is the return value. -/
def advanced_tokenize_line (K : Kernel) (line_text : String)
    (line_num max_tokens storage_size : Nat) : Except TokenizerFault (List Token) :=
  match tokenize_loop K line_num max_tokens (line_text.length + max_tokens + 1) line_text.data
          { tokens := [], remaining_storage := storage_size, current_col := 1 } with
  | .error e => .error e
  | .ok st =>
    if st.tokens.length < max_tokens then
      .ok (st.tokens ++ [{ type := TokenType.TOKEN_EOF, text := "EOF", len := 3,
                           line := line_num, col := st.current_col }])
    else .ok st.tokens

/-- The registry with the given symbols, all BinaryInfix operators. -/
def kernel_with_symbols (symbols : List String) : Kernel :=
  kernel_with_operators
    (symbols.map (fun s => binary_operator s 10 OperatorAssociativity.ASSOC_LEFT "handler"))

/-- The first character of `p` is one that a rule before the operator rule
takes whatever the registry holds: whitespace, `#`, `$`, a double quote, a
digit, a `.` before a digit, or one of `( ) { } [ ] ;`. -/
def taken_by_earlier_rule (p : List Char) : Prop :=
  isspace (head_char p) = true ∨ head_char p = HASH_CHAR ∨ head_char p = DOLLAR
    ∨ head_char p = DQUOTE ∨ isdigit (head_char p) = true
    ∨ (head_char p = DOT ∧ isdigit (char_at p 1) = true)
    ∨ head_char p = LPAREN_CHAR ∨ head_char p = RPAREN_CHAR
    ∨ head_char p = LBRACE_CHAR ∨ head_char p = RBRACE_CHAR
    ∨ head_char p = LBRACKET_CHAR ∨ head_char p = RBRACKET_CHAR
    ∨ head_char p = SEMICOLON_CHAR

instance (p : List Char) : Decidable (taken_by_earlier_rule p) := by
  unfold taken_by_earlier_rule; infer_instance

/-- See `get_array_element_scoped` (bsh.c 3952-3956): the mangled name is built
from the index as it is passed, and looked up. -/
def get_array_element_scoped (array_base_name index_str_raw_param : String) (K : Kernel) :
    Option String :=
  let mangled_name := strncpy_str (MAX_VAR_NAME_LEN * 2 - 1)
    (array_base_name ++ "_ARRAYIDX_" ++ index_str_raw_param)
  get_variable_scoped K mangled_name

/-- The store of the record example: `user_name` is `ada` and `user_age` is
`36` in the global scope. -/
def user_record_kernel : Kernel :=
  set_variable_scoped "user_age" "36" false
    (set_variable_scoped "user_name" "ada" false global_kernel)

/-! ## The operator registry: registration (bsh.c 435-474) -/

/-- The update in place of `add_operator_definition` (bsh.c 443-455): the first
definition with this symbol keeps its symbol and gets the other five fields;
`none` when no definition has the symbol. -/
def redefine_operator (op_str : String) (token_type : TokenType) (op_type_prop : OperatorType)
    (precedence : Int) (assoc : OperatorAssociativity) (bsh_handler_name_str : String) :
    List OperatorDefinition → Option (List OperatorDefinition)
  | [] => none
  | d :: ds =>
    if d.op_str = op_str then
      some ({ d with token_type := token_type, op_type_prop := op_type_prop,
                     precedence := precedence, associativity := assoc,
                     bsh_handler_name := strncpy_str (MAX_VAR_NAME_LEN - 1) bsh_handler_name_str }
            :: ds)
    else
      (redefine_operator op_str token_type op_type_prop precedence assoc bsh_handler_name_str
        ds).map (fun r => d :: r)

/-- See `add_operator_definition` (bsh.c 435-474). -/
def add_operator_definition (op_str : String) (token_type : TokenType)
    (op_type_prop : OperatorType) (precedence : Int) (assoc : OperatorAssociativity)
    (bsh_handler_name_str : String) (K : Kernel) : Kernel :=
  if op_str.length > MAX_OPERATOR_LEN then K
  else
    match redefine_operator op_str token_type op_type_prop precedence assoc
            bsh_handler_name_str K.operator_list_head with
    | some ops => { K with operator_list_head := ops }
    | none =>
      let new_op : OperatorDefinition :=
        { op_str := strncpy_str MAX_OPERATOR_LEN op_str, token_type := token_type,
          op_type_prop := op_type_prop, precedence := precedence, associativity := assoc,
          bsh_handler_name := strncpy_str (MAX_VAR_NAME_LEN - 1) bsh_handler_name_str }
      { K with operator_list_head := new_op :: K.operator_list_head }

/-! ## The `defoperator` statement (bsh.c 797-914) -/

def PLUS_CHAR : Char := Char.ofNat 43

/-- The library function `atoi`, which is `(int) strtol (s, NULL, 10)`: leading
whitespace is skipped, a sign is read, and the run of digits that follows
gives the value; `strtol` saturates at `LONG_MIN` and `LONG_MAX` (64 bits), and
the conversion to `int` keeps the low 32 bits. -/
def atoi (s : String) : Int :=
  let p := s.data.dropWhile isspace
  let q := if head_char p = MINUS_CHAR ∨ head_char p = PLUS_CHAR then p.tail else p
  let v : Int := (digits_value (q.takeWhile isdigit) : Int)
  let signed : Int := if head_char p = MINUS_CHAR then - v else v
  int_wrap (max (-9223372036854775808) (min 9223372036854775807 signed))

/-- The token `tokens[i]`; every read of the statement handlers is behind a
comparison of the index with `num_tokens`, so with `num_tokens` at most the
length of the array the Empty token given here for an index out of range is
never read. -/
def token_at (tokens : List Token) (i : Nat) : Token :=
  tokens.getD i (mk_token TokenType.TOKEN_EMPTY "")

/-- The text between the first and the last character of a String token:
`strncpy (buf, text + 1, len - 2); buf[len - 2] = 0`. -/
def strip_quotes (t : Token) : String := ⟨(t.text.data.drop 1).take (t.len - 2)⟩

/-- The operator symbol of `handle_defoperator_statement` (bsh.c 815-839), read
from `tokens[1]`; `none` is one of the error returns. -/
def defoperator_symbol (t : Token) : Option String :=
  if t.type ≠ TokenType.TOKEN_STRING ∧ t.type ≠ TokenType.TOKEN_WORD then none
  else
    let op_sym_src : Option String :=
      if t.type = TokenType.TOKEN_STRING then
        if t.len - 2 > MAX_OPERATOR_LEN ∨ t.len < 2 then none else some (strip_quotes t)
      else if t.len > MAX_OPERATOR_LEN then none else some t.text
    match op_sym_src with
    | none => none
    | some src =>
      let op_symbol := strncpy_str MAX_OPERATOR_LEN src
      if op_symbol.length = 0 then none else some op_symbol

/-- The role a `TYPE` name stands for (bsh.c 850-855); `none` is the error
return for an unknown name. -/
def operator_role_of_name (type_str : String) : Option OperatorType :=
  if type_str = "UNARY_PREFIX" then some OperatorType.OP_TYPE_UNARY_PREFIX
  else if type_str = "UNARY_POSTFIX" then some OperatorType.OP_TYPE_UNARY_POSTFIX
  else if type_str = "BINARY_INFIX" then some OperatorType.OP_TYPE_BINARY_INFIX
  else if type_str = "TERNARY_PRIMARY" then some OperatorType.OP_TYPE_TERNARY_PRIMARY
  else if type_str = "TERNARY_SECONDARY" then some OperatorType.OP_TYPE_TERNARY_SECONDARY
  else none

/-- The associativity an `ASSOC` letter stands for (bsh.c 875-879). -/
def operator_assoc_of_name (assoc_str : String) : Option OperatorAssociativity :=
  if assoc_str = "L" then some OperatorAssociativity.ASSOC_LEFT
  else if assoc_str = "R" then some OperatorAssociativity.ASSOC_RIGHT
  else if assoc_str = "N" then some OperatorAssociativity.ASSOC_NONE
  else none

/-- The optional `PRECEDENCE <N>` (bsh.c 858-866), read at `current_arg_idx`:
the precedence and the next index; `none` is the error return. -/
def defoperator_precedence (tokens : List Token) (num_tokens current_arg_idx : Nat) :
    Option (Int × Nat) :=
  if current_arg_idx < num_tokens ∧ (token_at tokens current_arg_idx).text = "PRECEDENCE" then
    if current_arg_idx + 1 ≥ num_tokens
        ∨ (token_at tokens (current_arg_idx + 1)).type ≠ TokenType.TOKEN_NUMBER then none
    else some (atoi (token_at tokens (current_arg_idx + 1)).text, current_arg_idx + 2)
  else some (0, current_arg_idx)

/-- The optional `ASSOC <L|R|N>` (bsh.c 868-881), read at `current_arg_idx`:
the associativity and the next index; `none` is one of the error returns. -/
def defoperator_assoc (tokens : List Token) (num_tokens current_arg_idx : Nat) :
    Option (OperatorAssociativity × Nat) :=
  if current_arg_idx < num_tokens ∧ (token_at tokens current_arg_idx).text = "ASSOC" then
    if current_arg_idx + 1 ≥ num_tokens
        ∨ (token_at tokens (current_arg_idx + 1)).type ≠ TokenType.TOKEN_WORD then none
    else
      match operator_assoc_of_name (token_at tokens (current_arg_idx + 1)).text with
      | none => none
      | some assoc => some (assoc, current_arg_idx + 2)
  else some (OperatorAssociativity.ASSOC_LEFT, current_arg_idx)

/-- The handler name (bsh.c 888-908), read from the token after `HANDLER`;
`none` is one of the error returns. -/
def defoperator_handler_name (t : Token) : Option String :=
  if t.type ≠ TokenType.TOKEN_WORD ∧ t.type ≠ TokenType.TOKEN_STRING then none
  else
    let name : Option String :=
      if t.type = TokenType.TOKEN_STRING then
        if t.len - 2 < MAX_VAR_NAME_LEN ∧ t.len ≥ 2 then some (strip_quotes t) else none
      else some (strncpy_str (MAX_VAR_NAME_LEN - 1) t.text)
    match name with
    | none => none
    | some bsh_handler_name => if bsh_handler_name.length = 0 then none else some bsh_handler_name

/-- See `handle_defoperator_statement` (bsh.c 797-914); the messages written
to `stderr` are left out, every error return gives the state back as it is. -/
def handle_defoperator_statement (tokens : List Token) (num_tokens : Nat) (K : Kernel) :
    Kernel :=
  if K.current_exec_state = ExecutionState.STATE_BLOCK_SKIP
      ∧ K.current_exec_state ≠ ExecutionState.STATE_IMPORT_PARSING then K
  else if num_tokens < 6 then K
  else
    match defoperator_symbol (token_at tokens 1) with
    | none => K
    | some op_symbol =>
      if 2 + 1 ≥ num_tokens ∨ (token_at tokens 2).text ≠ "TYPE" then K
      else
        match operator_role_of_name (token_at tokens 3).text with
        | none => K
        | some op_type_prop =>
          match defoperator_precedence tokens num_tokens 4 with
          | none => K
          | some (precedence, idx1) =>
            match defoperator_assoc tokens num_tokens idx1 with
            | none => K
            | some (assoc, idx2) =>
              if idx2 + 1 ≥ num_tokens ∨ (token_at tokens idx2).text ≠ "HANDLER" then K
              else
                match defoperator_handler_name (token_at tokens (idx2 + 1)) with
                | none => K
                | some bsh_handler_name =>
                  add_operator_definition op_symbol TokenType.TOKEN_OPERATOR op_type_prop
                    precedence assoc bsh_handler_name K

/-- A Word token of line 1. -/
def word_token (text : String) : Token := mk_token TokenType.TOKEN_WORD text

/-- A String token of line 1: the text with its two double quotes. -/
def string_token (body : String) : Token :=
  mk_token TokenType.TOKEN_STRING ("\"" ++ body ++ "\"")

/-- The tokens of the line `defoperator "+" TYPE BINARY_INFIX HANDLER add`. -/
def tokens_defoperator_plus : List Token :=
  [word_token "defoperator", string_token "+", word_token "TYPE", word_token "BINARY_INFIX",
   word_token "HANDLER", word_token "add", eof_token]

/-- The tokens are `<first> <symbol> TYPE <role> [PRECEDENCE <n>] [ASSOC <L|R|N>]
HANDLER <name>` followed by the tokens `trailing`: the symbol and the name
are String or Word tokens, the role is one of the five role names, `<n>` is a
Number token and the letter a Word token. The first token is the one
`process_line` has matched with `defoperator`. -/
def is_defoperator_line (tokens trailing : List Token) : Prop :=
  ∃ first sym type_kw role prec_part assoc_part handler_kw name,
    tokens = first :: sym :: type_kw :: role
              :: (prec_part ++ (assoc_part ++ handler_kw :: name :: trailing))
    ∧ (sym.type = TokenType.TOKEN_STRING ∨ sym.type = TokenType.TOKEN_WORD)
    ∧ type_kw.text = "TYPE"
    ∧ role.text ∈ ["UNARY_PREFIX", "UNARY_POSTFIX", "BINARY_INFIX", "TERNARY_PRIMARY",
                   "TERNARY_SECONDARY"]
    ∧ (prec_part = [] ∨ ∃ kw n, prec_part = [kw, n] ∧ kw.text = "PRECEDENCE"
                          ∧ n.type = TokenType.TOKEN_NUMBER)
    ∧ (assoc_part = [] ∨ ∃ kw a, assoc_part = [kw, a] ∧ kw.text = "ASSOC"
                          ∧ a.type = TokenType.TOKEN_WORD ∧ a.text ∈ ["L", "R", "N"])
    ∧ handler_kw.text = "HANDLER"
    ∧ (name.type = TokenType.TOKEN_WORD ∨ name.type = TokenType.TOKEN_STRING)

/-- The tokens of the line `defoperator "+" TYPE BINARY_INFIX HANDLER add junk`. -/
def tokens_defoperator_plus_junk : List Token :=
  [word_token "defoperator", string_token "+", word_token "TYPE", word_token "BINARY_INFIX",
   word_token "HANDLER", word_token "add", word_token "junk", eof_token]

/-- A token that carries an operator symbol or a handler name: the String token
of the text in double quotes when `quoted`, else the Word token of the text. -/
def name_token (quoted : Bool) (body : String) : Token :=
  if quoted then string_token body else word_token body

/-- The letter of the `ASSOC` keyword for an associativity. -/
def assoc_letter : OperatorAssociativity → String
  | OperatorAssociativity.ASSOC_LEFT => "L"
  | OperatorAssociativity.ASSOC_RIGHT => "R"
  | OperatorAssociativity.ASSOC_NONE => "N"

/-- The tokens of a line `<first> <symbol> TYPE <role> [PRECEDENCE <n>] [ASSOC
<L|R|N>] HANDLER <name>` followed by the tokens `trailing`; `<n>` is the
Number token of the digits `n`. -/
def defoperator_line_tokens (first sym : Token) (role_name : String)
    (prec : Option (List Char)) (assoc : Option OperatorAssociativity) (name : Token)
    (trailing : List Token) : List Token :=
  first :: sym :: word_token "TYPE" :: word_token role_name
    :: ((match prec with
          | none => []
          | some n => [word_token "PRECEDENCE", number_token ⟨n⟩])
        ++ ((match assoc with
              | none => []
              | some a => [word_token "ASSOC", word_token (assoc_letter a)])
            ++ word_token "HANDLER" :: name :: trailing))

/-- The registry with `+` of precedence 10 and `*` of precedence 11, both
left-associative: two adjacent precedence levels. -/
def adjacent_precedence_kernel : Kernel :=
  kernel_with_operators
    [binary_operator "+" 10 OperatorAssociativity.ASSOC_LEFT "add",
     binary_operator "*" 11 OperatorAssociativity.ASSOC_LEFT "mul"]

/-- The registry with `+` of precedence 10 and the handler `add`, and no user
function at all. -/
def handler_missing_kernel : Kernel :=
  kernel_with_operators [binary_operator "+" 10 OperatorAssociativity.ASSOC_LEFT "add"]

/-- The same registry with a user function `add` of one parameter, where the
bridge passes four arguments. -/
def handler_arity_kernel : Kernel :=
  { handler_missing_kernel with
    function_list := [{ name := "add", params := ["x"], body := [] }] }

/-- The line `( 2 + 3` and the line `)`. -/
def tokens_open_paren_sum : List Token :=
  [mk_token TokenType.TOKEN_LPAREN "(", number_token "2", operator_token "+",
   number_token "3", eof_token]

def tokens_lone_rparen : List Token :=
  [mk_token TokenType.TOKEN_RPAREN ")", eof_token]

/-- The registry with `++` as a UnaryPrefix operator. -/
def prefix_increment_kernel : Kernel :=
  kernel_with_operators
    [{ op_str := "++", token_type := TokenType.TOKEN_OPERATOR,
       op_type_prop := OperatorType.OP_TYPE_UNARY_PREFIX, precedence := 30,
       associativity := OperatorAssociativity.ASSOC_RIGHT, bsh_handler_name := "pre_inc" }]

def lparen_token : Token := mk_token TokenType.TOKEN_LPAREN "("
def rparen_token : Token := mk_token TokenType.TOKEN_RPAREN ")"

/-- The operand token `t` wrapped in `k` pairs of parentheses, and the Eof
token. -/
def nested_operand_tokens (k : Nat) (t : Token) : List Token :=
  List.replicate k lparen_token ++ t :: (List.replicate k rparen_token ++ [eof_token])

/-! ## Tokens as substrings of the line -/

/-- The tokens `toks` of the line `l` are what the tokenizer has written when
its cursor is at the 1-based column `c`: no token is an Eof token, each has
the line number `line_num`, starts at a column from 1 on and ends before `c`,
and has as text the `len` characters of the line from its column on; and each
token ends where a later one starts, or before. -/
def TokensGood (l : List Char) (line_num : Nat) (toks : List Token) (c : Nat) : Prop :=
  (∀ t ∈ toks, t.type ≠ TokenType.TOKEN_EOF ∧ t.line = line_num ∧ 1 ≤ t.col
      ∧ t.col + t.len ≤ c ∧ t.text = ⟨(l.drop (t.col - 1)).take t.len⟩)
    ∧ toks.Pairwise (fun a b => a.col + a.len ≤ b.col)

/-- A line with a Word, a String with a space in it, a braced Variable and a
Number. -/
def line_echo_string_variable_number : String := "echo \"a b\" $\x7by\x7d 12"

/-! ## The pieces of an input of the expander -/

/-- A piece of an input of the expander: a character other than `$`, the
escape `\$`, a `$` that no name follows, a reference `$N` and a reference
`${N}`. -/
inductive ExpandPiece where
  | char (c : Char)
  | escaped_dollar
  | lone_dollar
  | plain (N : String)
  | braced (N : String)
  deriving DecidableEq, Repr

/-- The characters of the input a piece stands for. -/
def ExpandPiece.text : ExpandPiece → List Char
  | .char c => [c]
  | .escaped_dollar => [BACKSLASH, DOLLAR]
  | .lone_dollar => [DOLLAR]
  | .plain N => DOLLAR :: N.data
  | .braced N => DOLLAR :: LBRACE_CHAR :: (N.data ++ [RBRACE_CHAR])

/-- The input a list of pieces stands for. -/
def pieces_text : List ExpandPiece → List Char
  | [] => []
  | p :: rest => p.text ++ pieces_text rest

/-- What the claim has the expander write for a piece: the character, `$` for
the escape and for the `$` without a name, and for a reference the value of
the variable, nothing when it is not bound. -/
def ExpandPiece.value (K : Kernel) : ExpandPiece → List Char
  | .char c => [c]
  | .escaped_dollar => [DOLLAR]
  | .lone_dollar => [DOLLAR]
  | .plain N => ((get_variable_scoped K N).getD "").data
  | .braced N => ((get_variable_scoped K N).getD "").data

/-- The values of the pieces, in order. -/
def pieces_value (K : Kernel) : List ExpandPiece → List Char
  | [] => []
  | p :: rest => p.value K ++ pieces_value K rest

/-- The pieces are the ones the input is read as: a character piece is not
`$` (nor NUL, which ends a C string), and a backslash is not before a `$`
(that is the escape); the `$` without a name is before a character that
neither starts a name nor is `{`; the names are 1 to 255 alphanumerics and
`_`, and the name of `$N` ends where the next piece starts. -/
def pieces_well_formed : List ExpandPiece → Prop
  | [] => True
  | .char c :: rest =>
    c ≠ DOLLAR ∧ c ≠ NUL ∧ (c = BACKSLASH → head_char (pieces_text rest) ≠ DOLLAR)
      ∧ pieces_well_formed rest
  | .escaped_dollar :: rest => pieces_well_formed rest
  | .lone_dollar :: rest =>
    is_name_char (head_char (pieces_text rest)) = false
      ∧ head_char (pieces_text rest) ≠ LBRACE_CHAR ∧ pieces_well_formed rest
  | .plain N :: rest =>
    is_simple_name N ∧ is_name_char (head_char (pieces_text rest)) = false
      ∧ pieces_well_formed rest
  | .braced N :: rest => is_simple_name N ∧ pieces_well_formed rest

/-- The character pieces of a text. -/
def text_pieces (s : String) : List ExpandPiece := s.data.map ExpandPiece.char

instance pieces_well_formed_decidable :
    (ps : List ExpandPiece) → Decidable (pieces_well_formed ps)
  | [] => isTrue trivial
  | .char _ :: rest => by
    have := pieces_well_formed_decidable rest
    unfold pieces_well_formed; infer_instance
  | .escaped_dollar :: rest => by
    have := pieces_well_formed_decidable rest
    unfold pieces_well_formed; infer_instance
  | .lone_dollar :: rest => by
    have := pieces_well_formed_decidable rest
    unfold pieces_well_formed; infer_instance
  | .plain _ :: rest => by
    have := pieces_well_formed_decidable rest
    unfold pieces_well_formed; infer_instance
  | .braced _ :: rest => by
    have := pieces_well_formed_decidable rest
    unfold pieces_well_formed; infer_instance

/-- The pieces of the input `a${x} $x-\$y $` with two references to `x`, an
escape and a `$` at the end. -/
def pieces_two_references : List ExpandPiece :=
  [.char 'a', .braced "x", .char ' ', .plain "x", .char '-', .escaped_dollar, .char 'y',
   .char ' ', .lone_dollar]

/-! ## Fixtures: handlers as user functions, run by the bridge of the code -/

/-- The interpreter of the script lines of the handlers below. With the
parameters `a`, `b` and `res` bound, `publish_sum`, `publish_product` and
`publish_difference` write the integer sum, product and difference of `a` and
`b` into the variable whose name `res` holds; with `var` and `res` bound,
`post_increment` writes the value plus one into the variable whose name `var`
holds and the prior value into the variable whose name `res` holds. Every
write is `set_variable_scoped`, a write at the current scope. Any other line
does nothing. -/
def handler_script_line (line : String) (_line_no : Nat) (K : Kernel) : Kernel :=
  let a := decimal_value ((get_variable_scoped K "a").getD "")
  let b := decimal_value ((get_variable_scoped K "b").getD "")
  let res := (get_variable_scoped K "res").getD ""
  if line = "publish_sum" then set_variable_scoped res (toString (a + b)) false K
  else if line = "publish_product" then set_variable_scoped res (toString (a * b)) false K
  else if line = "publish_difference" then set_variable_scoped res (toString (a - b)) false K
  else if line = "post_increment" then
    let name := (get_variable_scoped K "var").getD ""
    let prior := (get_variable_scoped K name).getD ""
    set_variable_scoped res prior false
      (set_variable_scoped name (toString (decimal_value prior + 1)) false K)
  else K

/-- The environment of the shell over `handler_script_line`: the bridge is
`invoke_bsh_operator_handler`. -/
def script_env : Env := bsh_env counting_rand handler_script_line

/-- The handlers `add`, `mul` and `sub (op, a, b, res)` and `post_inc (op,
var, res)` as user functions. -/
def arithmetic_handlers : List UserFunction :=
  [{ name := "add", params := ["op", "a", "b", "res"], body := ["publish_sum"] },
   { name := "mul", params := ["op", "a", "b", "res"], body := ["publish_product"] },
   { name := "sub", params := ["op", "a", "b", "res"], body := ["publish_difference"] },
   { name := "post_inc", params := ["op", "var", "res"], body := ["post_increment"] }]

/-- A shell after `initialize_shell` with the given operators registered and
the handlers `add`, `mul`, `sub` and `post_inc` defined. -/
def kernel_with_handlers (ops : List OperatorDefinition) : Kernel :=
  { kernel_with_operators ops with function_list := arithmetic_handlers }

/-- The registry of scenarios 3 and 4 with the handlers defined. -/
def arith_handlers_kernel : Kernel :=
  kernel_with_handlers
    [binary_operator "+" 10 OperatorAssociativity.ASSOC_LEFT "add",
     binary_operator "*" 20 OperatorAssociativity.ASSOC_LEFT "mul"]

/-- The state of scenario 7: `++` UnaryPostfix of the given precedence with the
handler `post_inc` defined, and the global variable `x` with the given value. -/
def post_increment_kernel (precedence : Int) (x_value : String) : Kernel :=
  { kernel_with_handlers [unary_postfix_operator "++" precedence "post_inc"] with
    variable_list_head :=
      [{ name := "x", value := x_value, is_array_element := false,
         scope_id := GLOBAL_SCOPE_ID }] }

/-! ## Two slices that agree up to a token the loop stops before -/

/-- The context over another slice: the same cursor, buffers, depth and
diagnostics. -/
def ExprParseContext.over (c : ExprParseContext) (toks : List Token) (n : Nat) :
    ExprParseContext :=
  { c with tokens := toks, num_tokens := n }

/-- The loop of `parse_expression_recursive` stops before the lookahead token
`s` without an error, in the state `K` and at the minimum precedence `m`
(bsh.c 1221-1240): `s` is `)`, Eof or `;`, or an Operator token with no
definition, or with one whose precedence is below `m`, or with a
left-associative BinaryInfix one whose precedence is not above `m`. -/
def stops_loop (K : Kernel) (m : Int) (s : Token) : Prop :=
  is_terminator s
  ∨ (s.type = TokenType.TOKEN_OPERATOR ∧
      ∀ d, get_operator_definition K s.text = some d →
        d.precedence < m
        ∨ (d.op_type_prop = OperatorType.OP_TYPE_BINARY_INFIX
            ∧ d.associativity = OperatorAssociativity.ASSOC_LEFT ∧ d.precedence ≤ m))

/-- What holds of the states and of the minimum precedences all through an
evaluation, such that the loop stops before `s` wherever it meets it: `KInv`
holds after `rand` and after a handler, `MInv` holds of 0, of the minimum
precedence of a right operand and of the precedence of a prefix operator. -/
structure RunInvariant (env : Env) (s : Token) (KInv : Kernel → Prop) (MInv : Int → Prop) :
    Prop where
  after_rand : ∀ K, KInv K → KInv (call_rand env K).2
  after_handler : ∀ h op args holder size K,
    KInv K → KInv (env.invoke_handler h op args holder size K).kernel
  at_zero : MInv 0
  right_operand : ∀ K txt d m, KInv K → MInv m → get_operator_definition K txt = some d →
    ¬ d.precedence < m → MInv (rhs_min_precedence d)
  unary_operand : ∀ K txt d, KInv K → get_operator_definition K txt = some d →
    d.op_type_prop = OperatorType.OP_TYPE_UNARY_PREFIX → MInv d.precedence
  stops : ∀ K m, KInv K → MInv m → stops_loop K m s

/-- The slices `(tA, nA)` and `(tB, nB)` hold the same tokens below index `L`;
the first ends at `L` or has an Eof or Semicolon token there (if the memory
holds a token at all), the second has the token `s` at `L`, inside the
slice. -/
structure SlicesAgree (tA : List Token) (nA : Nat) (tB : List Token) (nB L : Nat) (s : Token) :
    Prop where
  le_a : L ≤ nA
  lt_b : L < nB
  same : ∀ i, i < L → tA[i]? = tB[i]?
  end_a : ∀ e, tA[L]? = some e →
    e.type = TokenType.TOKEN_EOF ∨ e.type = TokenType.TOKEN_SEMICOLON
  end_b : tB[L]? = some s

/-- A successful `parse_operand` over the first slice stays below `L` and keeps
the invariant of the state, and the call over the second slice gives the same
result. -/
def OperandAgrees (KInv : Kernel → Prop) (tA : List Token) (nA : Nat) (tB : List Token)
    (nB L : Nat) (x y : Except Fault OperandResult) : Prop :=
  match x with
  | .ok r => r.ok = true →
      r.ctx.tokens = tA ∧ r.ctx.num_tokens = nA ∧ r.ctx.current_token_idx ≤ L
        ∧ KInv r.kernel ∧ y = .ok ⟨true, r.operand, r.ctx.over tB nB, r.kernel⟩
  | .error _ => True

/-- A successful `parse_expression_recursive` over the first slice stays below
`L` and keeps the invariant of the state, and the call over the second slice
gives the same result. -/
def ExprAgrees (KInv : Kernel → Prop) (tA : List Token) (nA : Nat) (tB : List Token)
    (nB L : Nat) (x y : Except Fault ExprResult) : Prop :=
  match x with
  | .ok r => r.ok = true →
      r.ctx.tokens = tA ∧ r.ctx.num_tokens = nA ∧ r.ctx.current_token_idx ≤ L
        ∧ KInv r.kernel ∧ y = .ok ⟨true, r.ctx.over tB nB, r.kernel⟩
  | .error _ => True

/-- The precedences of the registry keep every minimum precedence of an
evaluation at 0 or above: no UnaryPrefix operator has a negative precedence,
and no precedence is `INT_MAX`, where `precedence + 1` overflows. -/
def precedences_keep_minimum (K : Kernel) : Prop :=
  ∀ d ∈ K.operator_list_head,
    (d.op_type_prop = OperatorType.OP_TYPE_UNARY_PREFIX → 0 ≤ d.precedence)
      ∧ d.precedence < 2147483647

/-- The first trailing tokens the evaluator tolerates: `)` and `;`, and an
Operator token that the loop does not take up at the minimum precedence 0:
one with no definition, or one whose definition has a negative precedence or
is a left-associative BinaryInfix one of precedence 0 or below. For an Operator
token the handlers are to leave the registry as it is, and for one with a
definition the precedences are to keep the minimum precedences at 0 or
above. -/
def tolerated_after (env : Env) (K : Kernel) (s : Token) : Prop :=
  s.type = TokenType.TOKEN_RPAREN ∨ s.type = TokenType.TOKEN_SEMICOLON
  ∨ (s.type = TokenType.TOKEN_OPERATOR ∧ env.keeps_operators
      ∧ get_operator_definition K s.text = none)
  ∨ (s.type = TokenType.TOKEN_OPERATOR ∧ env.keeps_operators ∧ precedences_keep_minimum K
      ∧ ∃ d, get_operator_definition K s.text = some d
          ∧ (d.precedence < 0
              ∨ (d.op_type_prop = OperatorType.OP_TYPE_BINARY_INFIX
                  ∧ d.associativity = OperatorAssociativity.ASSOC_LEFT ∧ d.precedence ≤ 0)))

/-- The line `2 3` and the line `2 + 3 4`. -/
def tokens_2_3 : List Token := [number_token "2", number_token "3", eof_token]

def tokens_2_plus_3_4 : List Token :=
  [number_token "2", operator_token "+", number_token "3", number_token "4", eof_token]

/-- A Semicolon token. -/
def semicolon_token : Token := mk_token TokenType.TOKEN_SEMICOLON ";"

/-- The registry with `+` of precedence 10 and the handler `add` defined, and
`@` registered by a `defoperator` without `PRECEDENCE`: BinaryInfix,
left-associative, of precedence 0. -/
def at_sign_kernel : Kernel :=
  kernel_with_handlers
    [binary_operator "+" 10 OperatorAssociativity.ASSOC_LEFT "add",
     binary_operator "@" 0 OperatorAssociativity.ASSOC_LEFT "add"]

instance (K : Kernel) : Decidable (precedences_keep_minimum K) := by
  unfold precedences_keep_minimum; infer_instance

/-! ## Lemmas: expansion, lookups and single parser steps -/

open TokenType OperatorType OperatorAssociativity

theorem ExpandOut.put_total (o : ExpandOut) (c : Char) :
    (o.put c).out.length + (o.put c).remaining_size = o.out.length + o.remaining_size := by
  unfold ExpandOut.put
  split
  · simp only [List.length_append, List.length_singleton]; omega
  · rfl

theorem ExpandOut.insert_total (o : ExpandOut) (v : List Char) :
    (o.insert v).out.length + (o.insert v).remaining_size = o.out.length + o.remaining_size := by
  unfold ExpandOut.insert
  split
  · simp only [List.length_append]; omega
  · simp only [List.length_append, List.length_take]; omega

theorem expand_reference_total (K : Kernel) (p : List Char) (o : ExpandOut) :
    (expand_reference K p o).2.out.length + (expand_reference K p o).2.remaining_size
      = o.out.length + o.remaining_size := by
  unfold expand_reference
  dsimp only
  split
  · split <;> split <;> simp only [ExpandOut.put_total]
  · split
    · exact ExpandOut.insert_total o _
    · rfl

theorem expand_loop_total (K : Kernel) (fuel : Nat) (p : List Char) (o : ExpandOut) :
    (expand_loop K fuel p o).out.length + (expand_loop K fuel p o).remaining_size
      = o.out.length + o.remaining_size := by
  induction fuel generalizing p o with
  | zero => rfl
  | succ n ih =>
    unfold expand_loop
    split
    · rfl
    · split
      · dsimp only
        rw [ih, expand_reference_total]
      · split
        · rw [ih, ExpandOut.put_total]
        · rw [ih, ExpandOut.put_total]

theorem size_t_pred_of_pos (n : Nat) (h : 1 ≤ n) : size_t_pred n = n - 1 := by
  unfold size_t_pred
  rw [if_neg (by omega)]

theorem expand_length_le (K : Kernel) (s : String) (size : Nat) (hsize : 1 ≤ size) :
    (expand_variables_in_string_advanced K s size).length ≤ size - 1 := by
  have h := expand_loop_total K (s.length + 1) s.data ⟨[], size - 1⟩
  simp only [expand_variables_in_string_advanced, String.length, size_t_pred_of_pos size hsize]
  simp only [List.length_nil, Nat.zero_add, String.length] at h
  omega

theorem strncpy_str_of_le (n : Nat) (s : String) (h : s.length ≤ n) : strncpy_str n s = s := by
  unfold strncpy_str
  rw [List.take_of_length_le h]


theorem operand_value_length (K : Kernel) (t : Token) :
    (operand_value K t).length ≤ INPUT_BUFFER_SIZE - 1 := by
  unfold operand_value
  split <;> exact expand_length_le _ _ _ (by decide)

theorem parse_operand_simple (env : Env) (fuel : Nat) (toks : List Token) (i n : Nat)
    (rb : String) (bs dp : Nat) (dg : List ParserDiagnostic) (K : Kernel) (t : Token)
    (hidx : i < n) (hdepth : dp < MAX_EXPR_RECURSION_DEPTH)
    (ht : toks[i]? = some t) (hop : is_operand_token t) :
    parse_operand env (fuel + 1) ⟨toks, i, n, rb, bs, dp, dg⟩ INPUT_BUFFER_SIZE K
      = .ok ⟨true, operand_value K t, ⟨toks, i + 1, n, rb, bs, dp, dg⟩, K⟩ := by
  unfold parse_operand
  have h1 : ¬ (i ≥ n) := by omega
  have h2 : ¬ (dp ≥ MAX_EXPR_RECURSION_DEPTH) := by omega
  simp only [h1, h2, if_false, ExprParseContext.token_at, ht, operand_value,
    ExprParseContext.advance, ExprParseContext.leave, Nat.add_sub_cancel]
  rcases hop with h | h | h | h <;> simp [h]

theorem get_operator_definition_congr (K1 K2 : Kernel)
    (h : K1.operator_list_head = K2.operator_list_head) (s : String) :
    get_operator_definition K1 s = get_operator_definition K2 s := by
  unfold get_operator_definition; rw [h]

theorem get_operator_definition_op_str {K : Kernel} {s : String} {d : OperatorDefinition}
    (h : get_operator_definition K s = some d) : d.op_str = s := by
  unfold get_operator_definition at h
  have := List.find?_some h
  simpa using this

theorem parse_expression_recursive_simple (env : Env) (fuel : Nat) (toks : List Token)
    (i n : Nat) (rb : String) (bs dp : Nat) (dg : List ParserDiagnostic)
    (min_precedence : Int) (K : Kernel) (t : Token)
    (hidx : i < n) (hdepth : dp + 1 < MAX_EXPR_RECURSION_DEPTH)
    (ht : toks[i]? = some t) (hop : is_operand_token t) :
    parse_expression_recursive env (fuel + 2) ⟨toks, i, n, rb, bs, dp, dg⟩ min_precedence K
      = parse_expression_loop env (fuel + 1)
          ⟨toks, i + 1, n, strncpy_str (bs - 1) (operand_value K t), bs, dp + 1, dg⟩
          (operand_value K t) min_precedence K := by
  rw [parse_expression_recursive]
  have h2 : ¬ (dp ≥ MAX_EXPR_RECURSION_DEPTH) := by omega
  simp only [h2, if_false]
  rw [parse_operand_simple env fuel toks i n rb bs (dp + 1) dg K t hidx hdepth ht hop]
  simp [ExprParseContext.store_result]

theorem parse_expression_loop_end (env : Env) (fuel : Nat) (toks : List Token)
    (i n : Nat) (rb : String) (bs dp : Nat) (dg : List ParserDiagnostic) (lhs : String)
    (min_precedence : Int) (K : Kernel)
    (h : i < n → ∃ t, toks[i]? = some t ∧ is_terminator t) :
    parse_expression_loop env (fuel + 1) ⟨toks, i, n, rb, bs, dp, dg⟩ lhs min_precedence K
      = .ok ⟨true, ⟨toks, i, n, rb, bs, dp - 1, dg⟩, K⟩ := by
  rw [parse_expression_loop]
  by_cases hlt : i < n
  · obtain ⟨t, ht, hty⟩ := h hlt
    have hne : t.type ≠ TOKEN_OPERATOR := by
      rcases hty with h | h | h <;> rw [h] <;> decide
    simp only [hlt, not_true_eq_false, if_false, ExprParseContext.token_at, ht, ne_eq, hne,
      not_false_eq_true, if_true, ExprParseContext.leave]
    unfold is_terminator at hty
    simp [hty]
  · simp [hlt, ExprParseContext.leave]

theorem parse_expression_loop_break (env : Env) (fuel : Nat) (toks : List Token)
    (i n : Nat) (rb : String) (bs dp : Nat) (dg : List ParserDiagnostic) (lhs : String)
    (min_precedence : Int) (K : Kernel) (t : Token) (d : OperatorDefinition)
    (hidx : i < n) (ht : toks[i]? = some t) (hty : t.type = TOKEN_OPERATOR)
    (hd : get_operator_definition K t.text = some d)
    (hbin : d.op_type_prop = OP_TYPE_BINARY_INFIX)
    (hlow : yields_at d min_precedence) :
    parse_expression_loop env (fuel + 1) ⟨toks, i, n, rb, bs, dp, dg⟩ lhs min_precedence K
      = .ok ⟨true, ⟨toks, i, n, rb, bs, dp - 1, dg⟩, K⟩ := by
  rw [parse_expression_loop]
  simp only [hidx, not_true_eq_false, if_false, ExprParseContext.token_at, ht, hty, hd,
    ne_eq, ExprParseContext.leave]
  rcases hlow with h | ⟨h2, h3⟩
  · simp [h]
  · simp [hbin, h2, h3]

theorem parse_expression_loop_binary (env : Env) (fuel : Nat) (toks : List Token)
    (i n : Nat) (rb : String) (bs dp : Nat) (dg : List ParserDiagnostic) (lhs : String)
    (min_precedence : Int) (K : Kernel) (t : Token) (d : OperatorDefinition)
    (hidx : i < n) (ht : toks[i]? = some t) (hty : t.type = TOKEN_OPERATOR)
    (hd : get_operator_definition K t.text = some d)
    (hbin : d.op_type_prop = OP_TYPE_BINARY_INFIX)
    (hbinds : binds_at d min_precedence) :
    parse_expression_loop env (fuel + 1) ⟨toks, i, n, rb, bs, dp, dg⟩ lhs min_precedence K
      = match parse_expression_recursive env fuel ⟨toks, i + 1, n, rb, bs, dp, dg⟩
            (rhs_min_precedence d) K with
        | .error e => .error e
        | .ok rhs =>
          if ¬ rhs.ok then .ok ⟨false, rhs.ctx.leave, rhs.kernel⟩
          else
            let h := env.invoke_handler (deref_op_def (call_rand env rhs.kernel).2 d).bsh_handler_name
                       (deref_op_def (call_rand env rhs.kernel).2 d).op_str
                       [lhs, strncpy_str (INPUT_BUFFER_SIZE - 1) rhs.ctx.result_buffer]
                       (temp_result_var (call_rand env rhs.kernel).1 "")
                       INPUT_BUFFER_SIZE (call_rand env rhs.kernel).2
            parse_expression_loop env fuel (rhs.ctx.store_result h.result) h.result
              min_precedence h.kernel := by
  rw [parse_expression_loop]
  obtain ⟨hmin, hleft⟩ := hbinds
  have h1 : ¬ (d.precedence < min_precedence) := by omega
  have h2 : ¬ (d.associativity = ASSOC_LEFT ∧ d.precedence ≤ min_precedence) := by
    rintro ⟨ha, hb⟩; have := hleft ha; omega
  simp only [hidx, not_true_eq_false, if_false, ExprParseContext.token_at, ht, hty, hd,
    ne_eq, h1, hbin, h2, if_true, ExprParseContext.advance, rhs_min_precedence]

theorem int_wrap_of_range (x : Int) (h1 : -2147483648 ≤ x) (h2 : x < 2147483648) :
    int_wrap x = x := by
  unfold int_wrap; omega

theorem evaluate_of_parse_ok (env : Env) (toks : List Token) (n bs : Nat) (K : Kernel)
    (m i dp : Nat) (res : String) (dg : List ParserDiagnostic) (K1 : Kernel)
    (hn : 2 * n + 2 = m) (hpos : n ≠ 0)
    (hparse : parse_expression_recursive env m ⟨toks, 0, n, "", bs, 0, []⟩ 0 K
      = .ok ⟨true, ⟨toks, i, n, res, bs, dp, dg⟩, K1⟩)
    (hend : i < n → ∃ t, toks[i]? = some t ∧ t.type = TOKEN_EOF) :
    evaluate_expression_from_tokens env toks n bs K = .ok ⟨true, res, K1, i, dg⟩ := by
  unfold evaluate_expression_from_tokens
  rw [if_neg hpos]
  dsimp only
  rw [hn, hparse]
  by_cases hlt : i < n
  · obtain ⟨t, ht, hty⟩ := hend hlt
    simp [hlt, ExprParseContext.token_at, ht, hty]
  · simp [hlt]

theorem ends_expression_at (a : List Token) (tail : List Token) (htail : ends_expression tail)
    (i : Nat) (hi : i = a.length) (h : i < (a ++ tail).length) :
    ∃ t, (a ++ tail)[i]? = some t ∧ t.type = TOKEN_EOF := by
  subst hi
  cases tail with
  | nil => simp at h
  | cons e rest =>
    refine ⟨e, ?_, htail e rfl⟩
    rw [List.getElem?_append_right (le_refl _)]
    simp

theorem ends_expression_terminator (a : List Token) (tail : List Token)
    (htail : ends_expression tail) (i : Nat) (hi : i = a.length)
    (h : i < (a ++ tail).length) :
    ∃ t, (a ++ tail)[i]? = some t ∧ is_terminator t := by
  obtain ⟨t, ht, hty⟩ := ends_expression_at a tail htail i hi h
  exact ⟨t, ht, Or.inr (Or.inl hty)⟩

/-- The facts about a registered operator that survive handler calls. -/
theorem operator_facts (env : Env) (K : Kernel) (o : Token) (d : OperatorDefinition)
    (hd : get_operator_definition K o.text = some d) (K1 : Kernel)
    (h : K1.operator_list_head = K.operator_list_head) :
    get_operator_definition K1 o.text = some d
      ∧ get_operator_definition (call_rand env K1).2 o.text = some d
      ∧ deref_op_def (call_rand env K1).2 d = d := by
  have h1 : get_operator_definition K1 o.text = some d := by
    rw [get_operator_definition_congr K1 K h]; exact hd
  have h2 : get_operator_definition (call_rand env K1).2 o.text = some d := by
    rw [get_operator_definition_congr (call_rand env K1).2 K1 rfl]; exact h1
  refine ⟨h1, h2, ?_⟩
  unfold deref_op_def
  rw [get_operator_definition_op_str hd, h2]; rfl

/-- Two binary operators in a row, the first applied first: `(a o1 b) o2 c`. -/
theorem binary_left_grouping (env : Env) (K : Kernel) (a b c o1 o2 : Token)
    (tail : List Token) (d1 d2 : OperatorDefinition) (bs : Nat)
    (ha : is_operand_token a) (hb : is_operand_token b) (hc : is_operand_token c)
    (ho1 : o1.type = TOKEN_OPERATOR) (ho2 : o2.type = TOKEN_OPERATOR)
    (hd1 : get_operator_definition K o1.text = some d1)
    (hd2 : get_operator_definition K o2.text = some d2)
    (hbin1 : d1.op_type_prop = OP_TYPE_BINARY_INFIX)
    (hbin2 : d2.op_type_prop = OP_TYPE_BINARY_INFIX)
    (htop1 : binds_at d1 0) (hyield : yields_at d2 (rhs_min_precedence d1))
    (htop2 : binds_at d2 0)
    (hkeep : env.keeps_operators) (hbuf : env.respects_buffer)
    (hbs : INPUT_BUFFER_SIZE ≤ bs) (htail : ends_expression tail) :
    let h1 := env.invoke_handler d1.bsh_handler_name d1.op_str
                [operand_value K a, operand_value K b]
                (temp_result_var (call_rand env K).1 "") INPUT_BUFFER_SIZE (call_rand env K).2
    let h2 := env.invoke_handler d2.bsh_handler_name d2.op_str
                [h1.result, operand_value h1.kernel c]
                (temp_result_var (call_rand env h1.kernel).1 "") INPUT_BUFFER_SIZE
                (call_rand env h1.kernel).2
    evaluate_expression_from_tokens env ([a, o1, b, o2, c] ++ tail)
        ([a, o1, b, o2, c] ++ tail).length bs K
      = .ok ⟨true, h2.result, h2.kernel, 5, []⟩ := by
  intro h1 h2
  obtain ⟨-, -, hderef1⟩ := operator_facts env K o1 d1 hd1 K rfl
  have hk1 : h1.kernel.operator_list_head = K.operator_list_head := by
    rw [hkeep]; rfl
  obtain ⟨hd2', -, hderef2⟩ := operator_facts env K o2 d2 hd2 h1.kernel hk1
  have hvb := operand_value_length K b
  have hcopy : ∀ s : String, s.length ≤ INPUT_BUFFER_SIZE - 1 → strncpy_str (bs - 1) s = s :=
    fun s h => strncpy_str_of_le _ _ (by omega)
  have hvc := operand_value_length h1.kernel c
  have hend := ends_expression_at [a, o1, b, o2, c] tail htail
  have hterm := ends_expression_terminator [a, o1, b, o2, c] tail htail
  refine evaluate_of_parse_ok env _ _ bs K (2 * tail.length + 7 + 5) 5 0 _ _ _
    (by simp only [List.length_append, List.length_cons, List.length_nil]; omega) (by simp)
    ?_ (hend 5 rfl)
  rw [parse_expression_recursive_simple env _ _ _ _ _ _ _ _ 0 K a (by simp) (by decide)
    (by simp) ha]
  rw [parse_expression_loop_binary env _ _ _ _ _ _ _ _ _ 0 K o1 d1 (by simp) (by simp)
    ho1 hd1 hbin1 htop1]
  rw [parse_expression_recursive_simple env _ _ _ _ _ _ _ _ _ K b (by simp) (by decide)
    (by simp) hb]
  rw [parse_expression_loop_break env _ _ _ _ _ _ _ _ _ _ K o2 d2 (by simp) (by simp)
    ho2 hd2 hbin2 hyield]
  simp only [Bool.not_eq_true, Bool.true_eq_false, if_false, not_true_eq_false,
    ExprParseContext.store_result, hderef1, hcopy _ hvb, strncpy_str_of_le _ _ hvb]
  rw [parse_expression_loop_binary env _ _ _ _ _ _ _ _ _ 0 _ o2 d2 (by simp) (by simp)
    ho2 hd2' hbin2 htop2]
  rw [parse_expression_recursive_simple env _ _ _ _ _ _ _ _ _ _ c (by simp) (by decide)
    (by simp) hc]
  rw [parse_expression_loop_end env _ _ _ _ _ _ _ _ _ _ _ (hterm 5 rfl)]
  simp only [Bool.not_eq_true, Bool.true_eq_false, if_false, not_true_eq_false,
    ExprParseContext.store_result, hderef2, hcopy _ hvc, strncpy_str_of_le _ _ hvc]
  rw [parse_expression_loop_end env _ _ _ _ _ _ _ _ _ _ _ (hterm 5 rfl)]
  simp only [Except.ok.injEq, ExprResult.mk.injEq, ExprParseContext.mk.injEq, true_and, and_true]
  exact hcopy _ (hbuf _ _ _ _ _ _)

/-- Two binary operators in a row, the second applied first: `a o1 (b o2 c)`. -/
theorem binary_right_grouping (env : Env) (K : Kernel) (a b c o1 o2 : Token)
    (tail : List Token) (d1 d2 : OperatorDefinition) (bs : Nat)
    (ha : is_operand_token a) (hb : is_operand_token b) (hc : is_operand_token c)
    (ho1 : o1.type = TOKEN_OPERATOR) (ho2 : o2.type = TOKEN_OPERATOR)
    (hd1 : get_operator_definition K o1.text = some d1)
    (hd2 : get_operator_definition K o2.text = some d2)
    (hbin1 : d1.op_type_prop = OP_TYPE_BINARY_INFIX)
    (hbin2 : d2.op_type_prop = OP_TYPE_BINARY_INFIX)
    (htop1 : binds_at d1 0) (hinner : binds_at d2 (rhs_min_precedence d1))
    (hkeep : env.keeps_operators) (hbuf : env.respects_buffer)
    (hbs : INPUT_BUFFER_SIZE ≤ bs) (htail : ends_expression tail) :
    let h1 := env.invoke_handler d2.bsh_handler_name d2.op_str
                [operand_value K b, operand_value K c]
                (temp_result_var (call_rand env K).1 "") INPUT_BUFFER_SIZE (call_rand env K).2
    let h2 := env.invoke_handler d1.bsh_handler_name d1.op_str
                [operand_value K a, h1.result]
                (temp_result_var (call_rand env h1.kernel).1 "") INPUT_BUFFER_SIZE
                (call_rand env h1.kernel).2
    evaluate_expression_from_tokens env ([a, o1, b, o2, c] ++ tail)
        ([a, o1, b, o2, c] ++ tail).length bs K
      = .ok ⟨true, h2.result, h2.kernel, 5, []⟩ := by
  intro h1 h2
  obtain ⟨-, -, hderef2⟩ := operator_facts env K o2 d2 hd2 K rfl
  have hk1 : h1.kernel.operator_list_head = K.operator_list_head := by
    rw [hkeep]; rfl
  obtain ⟨-, -, hderef1⟩ := operator_facts env K o1 d1 hd1 h1.kernel hk1
  have hvc := operand_value_length K c
  have hcopy : ∀ s : String, s.length ≤ INPUT_BUFFER_SIZE - 1 → strncpy_str (bs - 1) s = s :=
    fun s h => strncpy_str_of_le _ _ (by omega)
  have hr1 : h1.result.length ≤ INPUT_BUFFER_SIZE - 1 := hbuf _ _ _ _ _ _
  have hend := ends_expression_at [a, o1, b, o2, c] tail htail
  have hterm := ends_expression_terminator [a, o1, b, o2, c] tail htail
  refine evaluate_of_parse_ok env _ _ bs K (2 * tail.length + 6 + 6) 5 0 _ _ _
    (by simp only [List.length_append, List.length_cons, List.length_nil]; omega) (by simp)
    ?_ (hend 5 rfl)
  rw [parse_expression_recursive_simple env _ _ _ _ _ _ _ _ 0 K a (by simp) (by decide)
    (by simp) ha]
  rw [parse_expression_loop_binary env _ _ _ _ _ _ _ _ _ 0 K o1 d1 (by simp) (by simp)
    ho1 hd1 hbin1 htop1]
  rw [parse_expression_recursive_simple env _ _ _ _ _ _ _ _ _ K b (by simp) (by decide)
    (by simp) hb]
  rw [parse_expression_loop_binary env _ _ _ _ _ _ _ _ _ _ K o2 d2 (by simp) (by simp)
    ho2 hd2 hbin2 hinner]
  rw [parse_expression_recursive_simple env _ _ _ _ _ _ _ _ _ K c (by simp) (by decide)
    (by simp) hc]
  rw [parse_expression_loop_end env _ _ _ _ _ _ _ _ _ _ _ (hterm 5 rfl)]
  simp only [Bool.not_eq_true, Bool.true_eq_false, if_false, not_true_eq_false,
    ExprParseContext.store_result, hderef2, hcopy _ hvc, strncpy_str_of_le _ _ hvc]
  rw [parse_expression_loop_end env _ _ _ _ _ _ _ _ _ _ _ (hterm 5 rfl)]
  simp only [Bool.not_eq_true, Bool.true_eq_false, if_false, not_true_eq_false,
    ExprParseContext.store_result, hderef1, hcopy _ hr1, strncpy_str_of_le _ _ hr1]
  rw [parse_expression_loop_end env _ _ _ _ _ _ _ _ _ _ _ (hterm 5 rfl)]
  simp only [Except.ok.injEq, ExprResult.mk.injEq, ExprParseContext.mk.injEq, true_and, and_true]
  exact hcopy _ (hbuf _ _ _ _ _ _)


theorem parse_expression_recursive_unfold (env : Env) (fuel : Nat) (toks : List Token)
    (i n : Nat) (rb : String) (bs dp : Nat) (dg : List ParserDiagnostic)
    (min_precedence : Int) (K : Kernel) (hdepth : dp < MAX_EXPR_RECURSION_DEPTH) :
    parse_expression_recursive env (fuel + 1) ⟨toks, i, n, rb, bs, dp, dg⟩ min_precedence K
      = match parse_operand env fuel ⟨toks, i, n, rb, bs, dp + 1, dg⟩ INPUT_BUFFER_SIZE K with
        | .error e => .error e
        | .ok opd =>
          if ¬ opd.ok then .ok ⟨false, opd.ctx.leave, opd.kernel⟩
          else
            parse_expression_loop env fuel (opd.ctx.store_result opd.operand) opd.operand
              min_precedence opd.kernel := by
  rw [parse_expression_recursive]
  have h2 : ¬ (dp ≥ MAX_EXPR_RECURSION_DEPTH) := by omega
  simp only [h2, if_false]

theorem parse_operand_paren (env : Env) (fuel : Nat) (toks : List Token)
    (i n : Nat) (rb : String) (bs dp : Nat) (dg : List ParserDiagnostic) (size : Nat)
    (K : Kernel) (t : Token)
    (hidx : i < n) (hdepth : dp < MAX_EXPR_RECURSION_DEPTH)
    (ht : toks[i]? = some t) (hty : t.type = TOKEN_LPAREN) :
    parse_operand env (fuel + 1) ⟨toks, i, n, rb, bs, dp, dg⟩ size K
      = match parse_expression_recursive env fuel ⟨toks, i + 1, n, rb, bs, dp + 1, dg⟩ 0 K with
        | .error e => .error e
        | .ok sub =>
          if ¬ sub.ok then
            .ok ⟨false, error_marker size "EXPR_PARSE_ERROR_SUB_EXPR", sub.ctx.leave, sub.kernel⟩
          else if sub.ctx.current_token_idx ≥ sub.ctx.num_tokens then
            .ok ⟨false, error_marker size "EXPR_PARSE_ERROR_MISSING_RPAREN",
                 (sub.ctx.report (.missing_rparen t)).leave, sub.kernel⟩
          else
            match sub.ctx.token_at sub.ctx.current_token_idx with
            | .error e => .error e
            | .ok closing =>
              if closing.type ≠ TOKEN_RPAREN then
                .ok ⟨false, error_marker size "EXPR_PARSE_ERROR_MISSING_RPAREN",
                     (sub.ctx.report (.missing_rparen t)).leave, sub.kernel⟩
              else
                .ok ⟨true, strncpy_str (size - 1) sub.ctx.result_buffer,
                     sub.ctx.advance.leave, sub.kernel⟩ := by
  rw [parse_operand]
  have h1 : ¬ (i ≥ n) := by omega
  have h2 : ¬ (dp ≥ MAX_EXPR_RECURSION_DEPTH) := by omega
  simp only [h1, h2, if_false, ExprParseContext.token_at, ht, hty, ExprParseContext.advance]
  simp

/-- A parenthesised binary application followed by a binary operator:
`(a o1 b) o2 c`. -/
theorem parenthesised_left_operand (env : Env) (K : Kernel) (lp rp a b c o1 o2 : Token)
    (tail : List Token) (d1 d2 : OperatorDefinition) (bs : Nat)
    (hlp : lp.type = TOKEN_LPAREN) (hrp : rp.type = TOKEN_RPAREN)
    (ha : is_operand_token a) (hb : is_operand_token b) (hc : is_operand_token c)
    (ho1 : o1.type = TOKEN_OPERATOR) (ho2 : o2.type = TOKEN_OPERATOR)
    (hd1 : get_operator_definition K o1.text = some d1)
    (hd2 : get_operator_definition K o2.text = some d2)
    (hbin1 : d1.op_type_prop = OP_TYPE_BINARY_INFIX)
    (hbin2 : d2.op_type_prop = OP_TYPE_BINARY_INFIX)
    (htop1 : binds_at d1 0) (htop2 : binds_at d2 0)
    (hkeep : env.keeps_operators) (hbuf : env.respects_buffer)
    (hbs : INPUT_BUFFER_SIZE ≤ bs) (htail : ends_expression tail) :
    let h1 := env.invoke_handler d1.bsh_handler_name d1.op_str
                [operand_value K a, operand_value K b]
                (temp_result_var (call_rand env K).1 "") INPUT_BUFFER_SIZE (call_rand env K).2
    let h2 := env.invoke_handler d2.bsh_handler_name d2.op_str
                [h1.result, operand_value h1.kernel c]
                (temp_result_var (call_rand env h1.kernel).1 "") INPUT_BUFFER_SIZE
                (call_rand env h1.kernel).2
    evaluate_expression_from_tokens env ([lp, a, o1, b, rp, o2, c] ++ tail)
        ([lp, a, o1, b, rp, o2, c] ++ tail).length bs K
      = .ok ⟨true, h2.result, h2.kernel, 7, []⟩ := by
  intro h1 h2
  obtain ⟨-, -, hderef1⟩ := operator_facts env K o1 d1 hd1 K rfl
  have hk1 : h1.kernel.operator_list_head = K.operator_list_head := by
    rw [hkeep]; rfl
  obtain ⟨hd2', -, hderef2⟩ := operator_facts env K o2 d2 hd2 h1.kernel hk1
  have hvb := operand_value_length K b
  have hcopy : ∀ s : String, s.length ≤ INPUT_BUFFER_SIZE - 1 → strncpy_str (bs - 1) s = s :=
    fun s h => strncpy_str_of_le _ _ (by omega)
  have hvc := operand_value_length h1.kernel c
  have hr1 : h1.result.length ≤ INPUT_BUFFER_SIZE - 1 := hbuf _ _ _ _ _ _
  have hend := ends_expression_at [lp, a, o1, b, rp, o2, c] tail htail
  have hterm := ends_expression_terminator [lp, a, o1, b, rp, o2, c] tail htail
  have hrpt : 4 < ([lp, a, o1, b, rp, o2, c] ++ tail).length →
      ∃ t, ([lp, a, o1, b, rp, o2, c] ++ tail)[4]? = some t ∧ is_terminator t :=
    fun _ => ⟨rp, by simp, Or.inl hrp⟩
  refine evaluate_of_parse_ok env _ _ bs K (2 * tail.length + 9 + 7) 7 0 _ _ _
    (by simp only [List.length_append, List.length_cons, List.length_nil]; omega) (by simp)
    ?_ (hend 7 rfl)
  rw [parse_expression_recursive_unfold env _ _ _ _ _ _ _ _ 0 K (by decide)]
  rw [parse_operand_paren env _ _ _ _ _ _ _ _ _ K lp (by simp) (by decide) (by simp) hlp]
  rw [parse_expression_recursive_simple env _ _ _ _ _ _ _ _ 0 K a (by simp) (by decide)
    (by simp) ha]
  rw [parse_expression_loop_binary env _ _ _ _ _ _ _ _ _ 0 K o1 d1 (by simp) (by simp)
    ho1 hd1 hbin1 htop1]
  rw [parse_expression_recursive_simple env _ _ _ _ _ _ _ _ _ K b (by simp) (by decide)
    (by simp) hb]
  rw [parse_expression_loop_end env _ _ _ _ _ _ _ _ _ _ _ hrpt]
  simp only [Bool.not_eq_true, Bool.true_eq_false, if_false, not_true_eq_false,
    ExprParseContext.store_result, hderef1, hcopy _ hvb, strncpy_str_of_le _ _ hvb]
  rw [parse_expression_loop_end env _ _ _ _ _ _ _ _ _ _ _ hrpt]
  have h4 : ¬ (4 ≥ ([lp, a, o1, b, rp, o2, c] ++ tail).length) := by simp
  have h4t : ([lp, a, o1, b, rp, o2, c] ++ tail)[4]? = some rp := by simp
  simp only [Bool.not_eq_true, Bool.true_eq_false, if_false, not_true_eq_false, h4,
    ExprParseContext.token_at, h4t, hrp, ne_eq, ExprParseContext.advance,
    ExprParseContext.leave, ExprParseContext.store_result, hcopy _ hr1,
    strncpy_str_of_le _ _ hr1]
  rw [parse_expression_loop_binary env _ _ _ _ _ _ _ _ _ 0 _ o2 d2 (by simp) (by simp)
    ho2 hd2' hbin2 htop2]
  rw [parse_expression_recursive_simple env _ _ _ _ _ _ _ _ _ _ c (by simp) (by decide)
    (by simp) hc]
  rw [parse_expression_loop_end env _ _ _ _ _ _ _ _ _ _ _ (hterm 7 rfl)]
  simp only [Bool.not_eq_true, Bool.true_eq_false, if_false, not_true_eq_false,
    ExprParseContext.store_result, hderef2, hcopy _ hvc, strncpy_str_of_le _ _ hvc]
  rw [parse_expression_loop_end env _ _ _ _ _ _ _ _ _ _ _ (hterm 7 rfl)]
  simp only [Except.ok.injEq, ExprResult.mk.injEq, ExprParseContext.mk.injEq, true_and, and_true]
  exact hcopy _ (hbuf _ _ _ _ _ _)


/-- The bridge of the shell writes no more than the result buffer holds,
whatever the handler does. -/
theorem bsh_env_respects_buffer (rand : Nat → Nat × Nat)
    (process_line : String → Nat → Kernel → Kernel) :
    (bsh_env rand process_line).respects_buffer := by
  intro h op args holder size K
  have hlen : ∀ s : String, (strncpy_str (size - 1) s).length ≤ size - 1 := by
    intro s
    simp only [strncpy_str, String.length, List.length_take]; omega
  simp only [bsh_env, invoke_bsh_operator_handler]
  repeat' split
  all_goals exact hlen _

theorem arith_env_keeps_operators : arith_env.keeps_operators := by
  intro h op args holder size K
  simp only [arith_env, arith_bridge]
  split <;> rfl

theorem arith_env_respects_buffer : arith_env.respects_buffer := by
  intro h op args holder size K
  simp only [arith_env, arith_bridge]
  split
  · simp only [strncpy_str, String.length, List.length_take]; omega
  · simp [String.length]

/-! ## C1: left-associative chains -/

/-- The order of the calls of C3, for every bridge: with `+` registered as
left-associative BinaryInfix of precedence 10 and `*` as left-associative
BinaryInfix of precedence 20, evaluating `a + b * c` invokes the `*` handler
on `(b, c)` first and then the `+` handler on `(a, that result)`, and what
that second invocation returns is the result. -/
theorem mixed_precedence_product_first (env : Env) (K : Kernel) (a b c plus star : Token)
    (tail : List Token) (dplus dstar : OperatorDefinition) (bs : Nat)
    (ha : is_operand_token a) (hb : is_operand_token b) (hc : is_operand_token c)
    (hplus : plus.type = TOKEN_OPERATOR) (hplus_text : plus.text = "+")
    (hstar : star.type = TOKEN_OPERATOR) (hstar_text : star.text = "*")
    (hdp : get_operator_definition K "+" = some dplus)
    (hds : get_operator_definition K "*" = some dstar)
    (hbinp : dplus.op_type_prop = OP_TYPE_BINARY_INFIX)
    (hleftp : dplus.associativity = ASSOC_LEFT) (hprecp : dplus.precedence = 10)
    (hbins : dstar.op_type_prop = OP_TYPE_BINARY_INFIX)
    (_hlefts : dstar.associativity = ASSOC_LEFT) (hprecs : dstar.precedence = 20)
    (hkeep : env.keeps_operators) (hbuf : env.respects_buffer)
    (hbs : INPUT_BUFFER_SIZE ≤ bs) (htail : ends_expression tail) :
    let r1 := env.invoke_handler dstar.bsh_handler_name "*"
                [operand_value K b, operand_value K c]
                (temp_result_var (call_rand env K).1 "") INPUT_BUFFER_SIZE (call_rand env K).2
    let r2 := env.invoke_handler dplus.bsh_handler_name "+"
                [operand_value K a, r1.result]
                (temp_result_var (call_rand env r1.kernel).1 "") INPUT_BUFFER_SIZE
                (call_rand env r1.kernel).2
    evaluate_expression_from_tokens env ([a, plus, b, star, c] ++ tail)
        ([a, plus, b, star, c] ++ tail).length bs K
      = .ok ⟨true, r2.result, r2.kernel, 5, []⟩ := by
  have hrhs : rhs_min_precedence dplus = 11 := by
    unfold rhs_min_precedence
    rw [if_pos hleftp, hprecp]; decide
  have h := binary_right_grouping env K a b c plus star tail dplus dstar bs ha hb hc hplus
    hstar (hplus_text ▸ hdp) (hstar_text ▸ hds) hbinp hbins
    ⟨by omega, fun _ => by omega⟩ ⟨by rw [hrhs]; omega, fun _ => by rw [hrhs]; omega⟩
    hkeep hbuf hbs htail
  rw [get_operator_definition_op_str hdp, get_operator_definition_op_str hds] at h
  exact h

/-! ## C4: parentheses -/

/-- The order of the calls of C4, for every bridge: with `+` (precedence 10,
left) and `*` (precedence 20, left) registered, evaluating `(a + b) * c`
invokes the `+` handler on `(a, b)` first and then the `*` handler on `(that
result, c)`, and what that second invocation returns is the result. -/
theorem parenthesised_sum_first (env : Env) (K : Kernel) (lp rp a b c plus star : Token)
    (tail : List Token) (dplus dstar : OperatorDefinition) (bs : Nat)
    (hlp : lp.type = TOKEN_LPAREN) (hrp : rp.type = TOKEN_RPAREN)
    (ha : is_operand_token a) (hb : is_operand_token b) (hc : is_operand_token c)
    (hplus : plus.type = TOKEN_OPERATOR) (hplus_text : plus.text = "+")
    (hstar : star.type = TOKEN_OPERATOR) (hstar_text : star.text = "*")
    (hdp : get_operator_definition K "+" = some dplus)
    (hds : get_operator_definition K "*" = some dstar)
    (hbinp : dplus.op_type_prop = OP_TYPE_BINARY_INFIX)
    (_hleftp : dplus.associativity = ASSOC_LEFT) (hprecp : dplus.precedence = 10)
    (hbins : dstar.op_type_prop = OP_TYPE_BINARY_INFIX)
    (_hlefts : dstar.associativity = ASSOC_LEFT) (hprecs : dstar.precedence = 20)
    (hkeep : env.keeps_operators) (hbuf : env.respects_buffer)
    (hbs : INPUT_BUFFER_SIZE ≤ bs) (htail : ends_expression tail) :
    let r1 := env.invoke_handler dplus.bsh_handler_name "+"
                [operand_value K a, operand_value K b]
                (temp_result_var (call_rand env K).1 "") INPUT_BUFFER_SIZE (call_rand env K).2
    let r2 := env.invoke_handler dstar.bsh_handler_name "*"
                [r1.result, operand_value r1.kernel c]
                (temp_result_var (call_rand env r1.kernel).1 "") INPUT_BUFFER_SIZE
                (call_rand env r1.kernel).2
    evaluate_expression_from_tokens env ([lp, a, plus, b, rp, star, c] ++ tail)
        ([lp, a, plus, b, rp, star, c] ++ tail).length bs K
      = .ok ⟨true, r2.result, r2.kernel, 7, []⟩ := by
  have h := parenthesised_left_operand env K lp rp a b c plus star tail dplus dstar bs hlp hrp
    ha hb hc hplus hstar (hplus_text ▸ hdp) (hstar_text ▸ hds) hbinp hbins
    ⟨by omega, fun _ => by omega⟩ ⟨by omega, fun _ => by omega⟩ hkeep hbuf hbs htail
  rw [get_operator_definition_op_str hdp, get_operator_definition_op_str hds] at h
  exact h

/-! ## C8: the ternary operator -/

/-- C8 fails on the code: with `?` TernaryPrimary and `:` TernarySecondary of
precedence 5 registered, `1 ? "yes" : "no"` does not succeed. The parse of the
true arm meets `:`, an operator the loop has no case for, and evaluation
returns failure at the `:` without invoking any handler (the same for
`0 ? "yes" : "no"`). -/
theorem ternary_rejected_at_colon :
    evaluate_expression_from_tokens ternary_env (tokens_ternary "1") 6 INPUT_BUFFER_SIZE
        ternary_kernel
      = .ok ⟨false, "EXPR_PARSE_ERROR_UNHANDLED_OP_TYPE_IN_LOOP", ternary_kernel, 3,
             [.operator_not_handled
                { op_str := ":", token_type := TOKEN_OPERATOR,
                  op_type_prop := OP_TYPE_TERNARY_SECONDARY, precedence := 5,
                  associativity := ASSOC_LEFT, bsh_handler_name := "noop" }
                (operator_token ":")]⟩
    ∧ evaluate_expression_from_tokens ternary_env (tokens_ternary "0") 6 INPUT_BUFFER_SIZE
        ternary_kernel
      = .ok ⟨false, "EXPR_PARSE_ERROR_UNHANDLED_OP_TYPE_IN_LOOP", ternary_kernel, 3,
             [.operator_not_handled
                { op_str := ":", token_type := TOKEN_OPERATOR,
                  op_type_prop := OP_TYPE_TERNARY_SECONDARY, precedence := 5,
                  associativity := ASSOC_LEFT, bsh_handler_name := "noop" }
                (operator_token ":")]⟩ := by
  constructor <;> decide


/-! ## C9: postfix increment of a simple variable -/

theorem scan_name_segment_of_simple (x : String) (hx : is_simple_name x) :
    (scan_name_segment x.data).1 = x.data := by
  obtain ⟨-, hlen, hall⟩ := hx
  unfold scan_name_segment
  have h1 : x.data.takeWhile is_name_char = x.data :=
    List.takeWhile_eq_self_iff.mpr hall
  simp only [h1]
  exact List.take_of_length_le hlen

/-- The clean name of the token `$x` is `x`. -/
theorem extract_clean_variable_name_of_simple (x : String) (hx : is_simple_name x) :
    extract_clean_variable_name_for_expr ("$" ++ x) MAX_VAR_NAME_LEN = some x := by
  have hscan := scan_name_segment_of_simple x hx
  obtain ⟨hne, hlen, hall⟩ := hx
  have hdata : ("$" ++ x).data = DOLLAR :: x.data := rfl
  have hhead : head_char x.data ≠ LBRACE_CHAR := by
    cases hd : x.data with
    | nil => exact absurd hd hne
    | cons c cs =>
      have hc : is_name_char c = true := hall c (by rw [hd]; exact List.mem_cons_self _ _)
      intro hb
      have : c = LBRACE_CHAR := hb
      rw [this] at hc
      exact absurd hc (by decide)
  have hlb : LBRACKET_CHAR ∉ x.data := fun h => absurd (hall _ h) (by decide)
  have hdot : DOT ∉ x.data := fun h => absurd (hall _ h) (by decide)
  have hlen0 : x.data.length ≠ 0 := fun h => hne (List.length_eq_zero.mp h)
  unfold extract_clean_variable_name_for_expr
  rw [if_neg (by decide), hdata]
  simp only [head_char, List.headD_cons, ne_eq, not_true_eq_false, if_false, List.tail_cons]
  simp only [head_char] at hhead
  rw [if_neg hhead]
  simp only [hscan, hlen0, if_false, hlb, hdot, or_self]
  congr 1
  exact strncpy_str_of_le _ _ hlen

theorem parse_expression_loop_postfix_name (env : Env) (fuel : Nat) (toks : List Token)
    (i n : Nat) (rb : String) (bs dp : Nat) (dg : List ParserDiagnostic) (lhs : String)
    (min_precedence : Int) (K : Kernel) (t p : Token) (d : OperatorDefinition)
    (name : String)
    (hidx : i + 1 < n) (hp : toks[i]? = some p) (ht : toks[i + 1]? = some t)
    (hty : t.type = TOKEN_OPERATOR)
    (hd : get_operator_definition K t.text = some d)
    (hpost : d.op_type_prop = OP_TYPE_UNARY_POSTFIX)
    (hsym : d.op_str = "++" ∨ d.op_str = "--")
    (hmin : min_precedence ≤ d.precedence)
    (hpty : p.type = TOKEN_VARIABLE)
    (hname : extract_clean_variable_name_for_expr p.text MAX_VAR_NAME_LEN = some name) :
    parse_expression_loop env (fuel + 1) ⟨toks, i + 1, n, rb, bs, dp, dg⟩ lhs min_precedence K
      = parse_expression_loop env fuel
          ⟨toks, i + 2, n,
           strncpy_str (bs - 1)
             (env.invoke_handler d.bsh_handler_name d.op_str [name]
                (temp_result_var (call_rand env K).1 "_pof") INPUT_BUFFER_SIZE
                (call_rand env K).2).result,
           bs, dp, dg⟩
          (if (env.invoke_handler d.bsh_handler_name d.op_str [name]
                (temp_result_var (call_rand env K).1 "_pof") INPUT_BUFFER_SIZE
                (call_rand env K).2).ok
           then strncpy_str (INPUT_BUFFER_SIZE - 1)
             (env.invoke_handler d.bsh_handler_name d.op_str [name]
                (temp_result_var (call_rand env K).1 "_pof") INPUT_BUFFER_SIZE
                (call_rand env K).2).result
           else lhs)
          min_precedence
          (env.invoke_handler d.bsh_handler_name d.op_str [name]
                (temp_result_var (call_rand env K).1 "_pof") INPUT_BUFFER_SIZE
                (call_rand env K).2).kernel := by
  rw [parse_expression_loop]
  have h1 : ¬ (d.precedence < min_precedence) := by omega
  have hnb : d.op_type_prop ≠ OP_TYPE_BINARY_INFIX := by rw [hpost]; decide
  simp only [hidx, not_true_eq_false, if_false, ExprParseContext.token_at, ht, hty, hd,
    ne_eq, h1, hnb, hpost, if_true, hsym, Nat.add_sub_cancel, hp, hpty, hname,
    Nat.zero_lt_succ, ExprParseContext.advance, ExprParseContext.store_result]
  generalize env.invoke_handler d.bsh_handler_name d.op_str [name]
    (temp_result_var (call_rand env K).1 "_pof") INPUT_BUFFER_SIZE (call_rand env K).2 = h
  cases h.ok <;> rfl

/-- C9, as the code has it: with `++` (or `--`) registered as UnaryPostfix of a
precedence `p ≥ 0`, evaluating `$x++` for a simple variable `x` invokes the
operator's handler once, with the one operand `x`, the variable's name (not
its value), and the value of the expression is the result of that
invocation. -/
theorem postfix_increment_passes_name (env : Env) (K : Kernel) (v opt : Token) (x : String)
    (tail : List Token) (d : OperatorDefinition) (bs : Nat)
    (hv : v.type = TOKEN_VARIABLE) (hvx : v.text = "$" ++ x) (hx : is_simple_name x)
    (hopt : opt.type = TOKEN_OPERATOR)
    (hd : get_operator_definition K opt.text = some d)
    (hpost : d.op_type_prop = OP_TYPE_UNARY_POSTFIX)
    (hsym : d.op_str = "++" ∨ d.op_str = "--")
    (hp : 0 ≤ d.precedence)
    (hbuf : env.respects_buffer) (hbs : INPUT_BUFFER_SIZE ≤ bs)
    (htail : ends_expression tail) :
    let r := env.invoke_handler d.bsh_handler_name d.op_str [x]
               (temp_result_var (call_rand env K).1 "_pof") INPUT_BUFFER_SIZE (call_rand env K).2
    evaluate_expression_from_tokens env ([v, opt] ++ tail) ([v, opt] ++ tail).length bs K
      = .ok ⟨true, r.result, r.kernel, 2, []⟩ := by
  intro r
  have hname : extract_clean_variable_name_for_expr v.text MAX_VAR_NAME_LEN = some x := by
    rw [hvx]; exact extract_clean_variable_name_of_simple x hx
  have hcopy : ∀ s : String, s.length ≤ INPUT_BUFFER_SIZE - 1 → strncpy_str (bs - 1) s = s :=
    fun s h => strncpy_str_of_le _ _ (by omega)
  have hend := ends_expression_at [v, opt] tail htail
  have hterm := ends_expression_terminator [v, opt] tail htail
  refine evaluate_of_parse_ok env _ _ bs K (2 * tail.length + 3 + 3) 2 0 _ _ _
    (by simp only [List.length_append, List.length_cons, List.length_nil]; omega) (by simp)
    ?_ (hend 2 rfl)
  rw [parse_expression_recursive_simple env _ _ _ _ _ _ _ _ 0 K v (by simp) (by decide)
    (by simp) (Or.inr (Or.inl hv))]
  rw [parse_expression_loop_postfix_name env _ _ 0 _ _ _ _ _ _ 0 K opt v d x (by simp)
    (by simp) (by simp) hopt hd hpost hsym hp hv hname]
  rw [parse_expression_loop_end env _ _ _ _ _ _ _ _ _ _ _ (hterm 2 rfl)]
  simp only [Except.ok.injEq, ExprResult.mk.injEq, ExprParseContext.mk.injEq, true_and, and_true]
  exact hcopy _ (hbuf _ _ _ _ _ _)

/-! ## C5: the value a handler publishes -/

/-- The body of a handler runs from `handler_entry_state`, and the scope is
left after it: `execute_user_function` on the bridge's tokens, spelled out. -/
theorem execute_user_function_from_entry (process_line : String → Nat → Kernel → Kernel)
    (func : UserFunction) (op_symbol : String) (bsh_args : List String)
    (result_holder : String) (K : Kernel) (id : Nat) (K1 : Kernel)
    (henter : enter_scope K = (some id, K1)) :
    execute_user_function process_line func
        (handler_call_tokens op_symbol bsh_args result_holder)
        (handler_call_tokens op_symbol bsh_args result_holder).length K
      = (let K2 := handler_entry_state func op_symbol bsh_args result_holder K
         let K4 := run_body_lines process_line func.body 0
                     { K2 with current_exec_state := ExecutionState.STATE_NORMAL }
         leave_scope id
           { K4 with
             block_stack := K4.block_stack.drop (K4.block_stack.length - K2.block_stack.length),
             current_exec_state := K2.current_exec_state }) := by
  simp only [execute_user_function, handler_entry_state, henter]

/-- C5 fails on the code. The handler `add` of scenario 1 writes `5` into its
result-holder with `set_variable_scoped`, and the write is there when the body
ends; the bridge then leaves the handler's scope, which destroys it, before it
reads the result-holder, and returns success with the no-result marker. So
`2 + 3` evaluates to the marker, not to `5`. -/
theorem handler_result_lost_on_scope_leave :
    get_variable_scoped
        (run_body_lines scenario_process_line add_handler.body 0
          (handler_entry_state add_handler "+" ["2", "3"] "__bsh_expr_temp_0" add_kernel))
        "__bsh_expr_temp_0" = some "5"
    ∧ invoke_bsh_operator_handler scenario_process_line "add" "+" ["2", "3"]
        "__bsh_expr_temp_0" INPUT_BUFFER_SIZE add_kernel
      = ⟨true, "BSH_HANDLER_NO_RESULT<__bsh_expr_temp_0>",
         { add_kernel with next_scope_id := 2 }⟩
    ∧ evaluate_expression_from_tokens (bsh_env counting_rand scenario_process_line)
        tokens_2_plus_3 4 INPUT_BUFFER_SIZE add_kernel
      = .ok ⟨true, "BSH_HANDLER_NO_RESULT<__bsh_expr_temp_0>",
             { add_kernel with next_scope_id := 2, rand_state := 1 }, 3, []⟩ := by
  refine ⟨?_, ?_, ?_⟩ <;> decide

/-! ## C7: the operands a handler sees -/

/-- C7 fails on the code. The bridge hands the operand strings over as String
tokens, and the function runtime unescapes and expands a String token before
it binds the parameter: the operand `$5` reaches the handler as the empty
string (the value of the unset variable `5`), and in the operand `C:\temp`
the two characters `\t` reach it as one tab. The operator symbol and the
result-holder name arrive as they are. -/
theorem handler_operand_expanded_again :
    get_variable_scoped
        (handler_entry_state add_handler "+" ["$5", "C:\\temp"] "__bsh_expr_temp_0" add_kernel)
        "op" = some "+"
    ∧ get_variable_scoped
        (handler_entry_state add_handler "+" ["$5", "C:\\temp"] "__bsh_expr_temp_0" add_kernel)
        "a" = some ""
    ∧ get_variable_scoped
        (handler_entry_state add_handler "+" ["$5", "C:\\temp"] "__bsh_expr_temp_0" add_kernel)
        "b" = some ⟨['C', ':', Char.ofNat 9, 'e', 'm', 'p']⟩
    ∧ get_variable_scoped
        (handler_entry_state add_handler "+" ["$5", "C:\\temp"] "__bsh_expr_temp_0" add_kernel)
        "res" = some "__bsh_expr_temp_0" := by
  decide

/-! ## C6: dispatch to the handler function -/

theorem handler_call_tokens_plain (op_symbol : String) (bsh_args : List String)
    (result_holder : String) (hop : op_symbol.length ≤ INPUT_BUFFER_SIZE - 1)
    (hargs : ∀ a ∈ bsh_args, a.length ≤ INPUT_BUFFER_SIZE - 1)
    (hholder : result_holder.length ≤ INPUT_BUFFER_SIZE - 1) :
    handler_call_tokens op_symbol bsh_args result_holder
      = plain_call_tokens op_symbol bsh_args result_holder := by
  unfold handler_call_tokens plain_call_tokens
  rw [strncpy_str_of_le _ _ hop, strncpy_str_of_le _ _ hholder]
  congr 2
  apply List.map_congr_left
  intro a ha
  rw [strncpy_str_of_le _ _ (hargs a ha)]

theorem plain_call_tokens_length (op_symbol : String) (bsh_args : List String)
    (result_holder : String) :
    (plain_call_tokens op_symbol bsh_args result_holder).length = bsh_args.length + 2 := by
  simp [plain_call_tokens]

@[simp]
theorem diagnostics_advance (ctx : ExprParseContext) :
    ctx.advance.diagnostics = ctx.diagnostics := rfl

@[simp]
theorem diagnostics_leave (ctx : ExprParseContext) :
    ctx.leave.diagnostics = ctx.diagnostics := rfl

@[simp]
theorem diagnostics_store_result (ctx : ExprParseContext) (s : String) :
    (ctx.store_result s).diagnostics = ctx.diagnostics := rfl

theorem expr_quiet_of_eq (ctx1 ctx2 : ExprParseContext) (x : Except Fault ExprResult)
    (h : ctx1.diagnostics = ctx2.diagnostics) (hx : ExprQuiet ctx1 x) : ExprQuiet ctx2 x := by
  cases x with
  | error e => trivial
  | ok r => intro hok; rw [← h]; exact hx hok

theorem parse_operand_quiet_step (env : Env) (n : Nat)
    (ih2 : ∀ ctx m K r, parse_expression_recursive env n ctx m K = .ok r → r.ok = true →
        r.ctx.diagnostics = ctx.diagnostics)
    (ctx : ExprParseContext) (size : Nat) (K : Kernel) :
    OperandQuiet ctx (parse_operand env (n + 1) ctx size K) := by
  rw [parse_operand]
  by_cases h1 : ctx.current_token_idx ≥ ctx.num_tokens
  · rw [if_pos h1]; intro h; cases h
  rw [if_neg h1]
  by_cases h2 : ctx.recursion_depth ≥ MAX_EXPR_RECURSION_DEPTH
  · rw [if_pos h2]; intro h; cases h
  rw [if_neg h2]
  dsimp only
  generalize hc : ({ ctx with recursion_depth := ctx.recursion_depth + 1 } : ExprParseContext)
    = c1
  have hd : c1.diagnostics = ctx.diagnostics := by rw [← hc]
  cases htok : c1.token_at ctx.current_token_idx with
  | error e => trivial
  | ok tok =>
    dsimp only
    by_cases t1 : tok.type = TOKEN_NUMBER ∨ tok.type = TOKEN_VARIABLE ∨ tok.type = TOKEN_WORD
    · rw [if_pos t1]; exact fun _ => hd
    rw [if_neg t1]
    by_cases t2 : tok.type = TOKEN_STRING
    · rw [if_pos t2]; exact fun _ => hd
    rw [if_neg t2]
    by_cases t3 : tok.type = TOKEN_LPAREN
    · rw [if_pos t3]
      cases hsub : parse_expression_recursive env n c1.advance 0 K with
      | error e => trivial
      | ok sub =>
        dsimp only
        by_cases s1 : ¬ sub.ok = true
        · rw [if_pos s1]; intro h; cases h
        rw [if_neg s1]
        have hs : sub.ctx.diagnostics = ctx.diagnostics :=
          (ih2 _ _ _ _ hsub (not_not.mp s1)).trans hd
        by_cases s2 : sub.ctx.current_token_idx ≥ sub.ctx.num_tokens
        · rw [if_pos s2]; intro h; cases h
        rw [if_neg s2]
        cases hcl : sub.ctx.token_at sub.ctx.current_token_idx with
        | error e => trivial
        | ok closing =>
          dsimp only
          by_cases s3 : closing.type ≠ TOKEN_RPAREN
          · rw [if_pos s3]; intro h; cases h
          rw [if_neg s3]; exact fun _ => hs
    rw [if_neg t3]
    by_cases t4 : tok.type = TOKEN_OPERATOR
    · rw [if_pos t4]
      cases hop : get_operator_definition K tok.text with
      | none => intro h; cases h
      | some op_def =>
        dsimp only
        by_cases o1 : op_def.op_type_prop ≠ OP_TYPE_UNARY_PREFIX
        · rw [if_pos o1]; intro h; cases h
        rw [if_neg o1]
        by_cases o2 : op_def.op_str = "++" ∨ op_def.op_str = "--"
        · rw [if_pos o2]
          cases hv : c1.advance.token_at c1.advance.current_token_idx with
          | error e => trivial
          | ok v =>
            dsimp only
            by_cases v1 : v.type = TOKEN_VARIABLE
            · rw [if_pos v1]
              cases hx : extract_clean_variable_name_for_expr v.text MAX_VAR_NAME_LEN with
              | none => intro h; cases h
              | some name => exact fun _ => hd
            rw [if_neg v1]; intro h; cases h
        rw [if_neg o2]
        cases hsub : parse_expression_recursive env n c1.advance op_def.precedence K with
        | error e => trivial
        | ok sub =>
          dsimp only
          by_cases s1 : ¬ sub.ok = true
          · rw [if_pos s1]; intro h; cases h
          rw [if_neg s1]
          exact fun _ => (ih2 _ _ _ _ hsub (not_not.mp s1)).trans hd
    rw [if_neg t4]
    intro h; cases h

theorem parse_expression_recursive_quiet_step (env : Env) (n : Nat)
    (ih1 : ∀ ctx size K r, parse_operand env n ctx size K = .ok r → r.ok = true →
        r.ctx.diagnostics = ctx.diagnostics)
    (ih3 : ∀ ctx lhs m K, ExprQuiet ctx (parse_expression_loop env n ctx lhs m K))
    (ctx : ExprParseContext) (m : Int) (K : Kernel) :
    ExprQuiet ctx (parse_expression_recursive env (n + 1) ctx m K) := by
  rw [parse_expression_recursive]
  by_cases h1 : ctx.recursion_depth ≥ MAX_EXPR_RECURSION_DEPTH
  · rw [if_pos h1]; intro h; cases h
  rw [if_neg h1]
  dsimp only
  generalize hc : ({ ctx with recursion_depth := ctx.recursion_depth + 1 } : ExprParseContext)
    = c1
  have hd : c1.diagnostics = ctx.diagnostics := by rw [← hc]
  cases hopd : parse_operand env n c1 INPUT_BUFFER_SIZE K with
  | error e => trivial
  | ok opd =>
    dsimp only
    by_cases s1 : ¬ opd.ok = true
    · rw [if_pos s1]; intro h; cases h
    rw [if_neg s1]
    exact expr_quiet_of_eq _ _ _ ((ih1 _ _ _ _ hopd (not_not.mp s1)).trans hd) (ih3 _ _ _ _)

theorem parse_expression_loop_quiet_step (env : Env) (n : Nat)
    (ih2 : ∀ ctx m K r, parse_expression_recursive env n ctx m K = .ok r → r.ok = true →
        r.ctx.diagnostics = ctx.diagnostics)
    (ih3 : ∀ ctx lhs m K, ExprQuiet ctx (parse_expression_loop env n ctx lhs m K))
    (ctx : ExprParseContext) (lhs : String) (m : Int) (K : Kernel) :
    ExprQuiet ctx (parse_expression_loop env (n + 1) ctx lhs m K) := by
  rw [parse_expression_loop]
  by_cases h1 : ¬ ctx.current_token_idx < ctx.num_tokens
  · rw [if_pos h1]; exact fun _ => rfl
  rw [if_neg h1]
  cases htok : ctx.token_at ctx.current_token_idx with
  | error e => trivial
  | ok tok =>
    dsimp only
    by_cases t1 : tok.type ≠ TOKEN_OPERATOR
    · rw [if_pos t1]
      by_cases t2 : tok.type = TOKEN_RPAREN ∨ tok.type = TOKEN_EOF ∨ tok.type = TOKEN_SEMICOLON
      · rw [if_pos t2]; exact fun _ => rfl
      rw [if_neg t2]; intro h; cases h
    rw [if_neg t1]
    cases hop : get_operator_definition K tok.text with
    | none => exact fun _ => rfl
    | some op_def =>
      dsimp only
      by_cases p1 : op_def.precedence < m
      · rw [if_pos p1]; exact fun _ => rfl
      rw [if_neg p1]
      by_cases b1 : op_def.op_type_prop = OP_TYPE_BINARY_INFIX
      · rw [if_pos b1]
        by_cases b2 : op_def.associativity = ASSOC_LEFT ∧ op_def.precedence ≤ m
        · rw [if_pos b2]; exact fun _ => rfl
        rw [if_neg b2]
        generalize (if op_def.associativity = ASSOC_LEFT then int_wrap (op_def.precedence + 1)
          else op_def.precedence) = q
        cases hrhs : parse_expression_recursive env n ctx.advance q K with
        | error e => trivial
        | ok rhs =>
          dsimp only
          by_cases s1 : ¬ rhs.ok = true
          · rw [if_pos s1]; intro h; cases h
          rw [if_neg s1]
          cases hr : call_rand env rhs.kernel with
          | mk r K1 =>
            dsimp only
            exact expr_quiet_of_eq _ _ _ (ih2 ctx.advance _ _ _ hrhs (not_not.mp s1)) (ih3 _ _ _ _)
      rw [if_neg b1]
      by_cases u1 : op_def.op_type_prop = OP_TYPE_UNARY_POSTFIX
      · rw [if_pos u1]
        by_cases u2 : op_def.op_str = "++" ∨ op_def.op_str = "--"
        · rw [if_pos u2]
          by_cases u3 : 0 < ctx.current_token_idx
          · rw [if_pos u3]
            cases hp : ctx.token_at (ctx.current_token_idx - 1) with
            | error e => trivial
            | ok p =>
              dsimp only
              by_cases v1 : p.type = TOKEN_VARIABLE
              · rw [if_pos v1]
                cases hx : extract_clean_variable_name_for_expr p.text MAX_VAR_NAME_LEN with
                | none => intro h; cases h
                | some name =>
                  dsimp only
                  cases hr : call_rand env K with
                  | mk r K1 =>
                    dsimp only
                    generalize env.invoke_handler op_def.bsh_handler_name op_def.op_str [name]
                      (temp_result_var r "_pof") INPUT_BUFFER_SIZE K1 = h
                    by_cases k1 : ¬ h.ok = true
                    · rw [if_pos k1]; exact expr_quiet_of_eq _ _ _ rfl (ih3 _ _ _ _)
                    rw [if_neg k1]; exact expr_quiet_of_eq _ _ _ rfl (ih3 _ _ _ _)
              rw [if_neg v1]; intro h; cases h
          rw [if_neg u3]; intro h; cases h
        rw [if_neg u2]
        cases hr : call_rand env K with
        | mk r K1 =>
          dsimp only
          exact expr_quiet_of_eq _ _ _ rfl (ih3 _ _ _ _)
      rw [if_neg u1]
      by_cases q1 : op_def.op_type_prop = OP_TYPE_TERNARY_PRIMARY ∧ op_def.op_str = "?"
      · rw [if_pos q1]
        cases htb : parse_expression_recursive env n ctx.advance 0 K with
        | error e => trivial
        | ok tb =>
          dsimp only
          by_cases s1 : ¬ tb.ok = true
          · rw [if_pos s1]; intro h; cases h
          rw [if_neg s1]
          have hs : tb.ctx.diagnostics = ctx.diagnostics :=
            ih2 ctx.advance _ _ _ htb (not_not.mp s1)
          by_cases s2 : tb.ctx.current_token_idx ≥ tb.ctx.num_tokens
          · rw [if_pos s2]; intro h; cases h
          rw [if_neg s2]
          cases hcl : tb.ctx.token_at tb.ctx.current_token_idx with
          | error e => trivial
          | ok colon =>
            dsimp only
            by_cases s3 : colon.type ≠ TOKEN_OPERATOR ∨ colon.text ≠ ":"
            · rw [if_pos s3]; intro h; cases h
            rw [if_neg s3]
            cases hfb : parse_expression_recursive env n tb.ctx.advance 0 tb.kernel with
            | error e => trivial
            | ok fb =>
              dsimp only
              by_cases s4 : ¬ fb.ok = true
              · rw [if_pos s4]; intro h; cases h
              rw [if_neg s4]
              cases hr : call_rand env fb.kernel with
              | mk r K1 =>
                dsimp only
                exact expr_quiet_of_eq _ _ _
                  ((ih2 _ _ _ _ hfb (not_not.mp s4)).trans hs) (ih3 _ _ _ _)
      rw [if_neg q1]; intro h; cases h

theorem parse_quiet (env : Env) : ∀ fuel : Nat,
    (∀ ctx size K, OperandQuiet ctx (parse_operand env fuel ctx size K))
    ∧ (∀ ctx m K, ExprQuiet ctx (parse_expression_recursive env fuel ctx m K))
    ∧ (∀ ctx lhs m K, ExprQuiet ctx (parse_expression_loop env fuel ctx lhs m K)) := by
  intro fuel
  induction fuel with
  | zero =>
    refine ⟨?_, ?_, ?_⟩
    · intro ctx size K; rw [parse_operand]; trivial
    · intro ctx m K; rw [parse_expression_recursive]; trivial
    · intro ctx lhs m K; rw [parse_expression_loop]; trivial
  | succ n ih =>
    obtain ⟨ih1, ih2, ih3⟩ := ih
    have ih1' : ∀ ctx size K r, parse_operand env n ctx size K = .ok r → r.ok = true →
        r.ctx.diagnostics = ctx.diagnostics := fun ctx size K r h => by
      have := ih1 ctx size K; rw [h] at this; exact this
    have ih2' : ∀ ctx m K r, parse_expression_recursive env n ctx m K = .ok r → r.ok = true →
        r.ctx.diagnostics = ctx.diagnostics := fun ctx m K r h => by
      have := ih2 ctx m K; rw [h] at this; exact this
    exact ⟨parse_operand_quiet_step env n ih2',
           parse_expression_recursive_quiet_step env n ih1' ih3,
           parse_expression_loop_quiet_step env n ih2' ih3⟩

/-! ## Enough fuel -/

@[simp]
theorem num_tokens_advance (ctx : ExprParseContext) :
    ctx.advance.num_tokens = ctx.num_tokens := rfl

@[simp]
theorem num_tokens_leave (ctx : ExprParseContext) :
    ctx.leave.num_tokens = ctx.num_tokens := rfl

@[simp]
theorem num_tokens_store_result (ctx : ExprParseContext) (s : String) :
    (ctx.store_result s).num_tokens = ctx.num_tokens := rfl

@[simp]
theorem num_tokens_report (ctx : ExprParseContext) (d : ParserDiagnostic) :
    (ctx.report d).num_tokens = ctx.num_tokens := rfl

@[simp]
theorem current_token_idx_advance (ctx : ExprParseContext) :
    ctx.advance.current_token_idx = ctx.current_token_idx + 1 := rfl

@[simp]
theorem current_token_idx_leave (ctx : ExprParseContext) :
    ctx.leave.current_token_idx = ctx.current_token_idx := rfl

@[simp]
theorem current_token_idx_store_result (ctx : ExprParseContext) (s : String) :
    (ctx.store_result s).current_token_idx = ctx.current_token_idx := rfl

@[simp]
theorem current_token_idx_report (ctx : ExprParseContext) (d : ParserDiagnostic) :
    (ctx.report d).current_token_idx = ctx.current_token_idx := rfl

theorem token_at_error (ctx : ExprParseContext) (i : Nat) (e : Fault)
    (h : ctx.token_at i = .error e) : e ≠ Fault.out_of_fuel := by
  unfold ExprParseContext.token_at at h
  split at h
  · cases h
  · cases h; decide

theorem expr_fueled_of_eq (ctx1 ctx2 : ExprParseContext) (x : Except Fault ExprResult)
    (hn : ctx1.num_tokens = ctx2.num_tokens)
    (hi : ctx2.current_token_idx ≤ ctx1.current_token_idx)
    (hx : ExprFueled ctx1 x) : ExprFueled ctx2 x := by
  cases x with
  | error e => exact hx
  | ok r => exact ⟨hx.1.trans hn, le_trans hi hx.2⟩

theorem parse_operand_fuel_step (env : Env) (n : Nat)
    (ih2 : ∀ ctx m K, 2 * (ctx.num_tokens - ctx.current_token_idx) + 2 ≤ n →
        ExprFueled ctx (parse_expression_recursive env n ctx m K))
    (ctx : ExprParseContext) (size : Nat) (K : Kernel)
    (hf : 2 * (ctx.num_tokens - ctx.current_token_idx) + 1 ≤ n + 1) :
    OperandFueled ctx (parse_operand env (n + 1) ctx size K) := by
  rw [parse_operand]
  by_cases h1 : ctx.current_token_idx ≥ ctx.num_tokens
  · rw [if_pos h1]; exact ⟨rfl, le_refl _⟩
  rw [if_neg h1]
  by_cases h2 : ctx.recursion_depth ≥ MAX_EXPR_RECURSION_DEPTH
  · rw [if_pos h2]; exact ⟨rfl, le_refl _⟩
  rw [if_neg h2]
  dsimp only
  generalize hc : ({ ctx with recursion_depth := ctx.recursion_depth + 1 } : ExprParseContext)
    = c1
  have hn : c1.num_tokens = ctx.num_tokens := by rw [← hc]
  have hi : c1.current_token_idx = ctx.current_token_idx := by rw [← hc]
  cases htok : c1.token_at ctx.current_token_idx with
  | error e => exact token_at_error _ _ _ htok
  | ok tok =>
    dsimp only
    by_cases t1 : tok.type = TOKEN_NUMBER ∨ tok.type = TOKEN_VARIABLE ∨ tok.type = TOKEN_WORD
    · rw [if_pos t1]; refine ⟨?_, ?_⟩ <;> simp <;> omega
    rw [if_neg t1]
    by_cases t2 : tok.type = TOKEN_STRING
    · rw [if_pos t2]; refine ⟨?_, ?_⟩ <;> simp <;> omega
    rw [if_neg t2]
    by_cases t3 : tok.type = TOKEN_LPAREN
    · rw [if_pos t3]
      have hsubf := ih2 c1.advance 0 K (by simp; omega)
      cases hsub : parse_expression_recursive env n c1.advance 0 K with
      | error e => rw [hsub] at hsubf; exact hsubf
      | ok sub =>
        rw [hsub] at hsubf
        obtain ⟨sn, si⟩ := hsubf
        simp at sn si
        dsimp only
        by_cases s1 : ¬ sub.ok = true
        · rw [if_pos s1]; refine ⟨?_, ?_⟩ <;> simp <;> omega
        rw [if_neg s1]
        by_cases s2 : sub.ctx.current_token_idx ≥ sub.ctx.num_tokens
        · rw [if_pos s2]; refine ⟨?_, ?_⟩ <;> simp <;> omega
        rw [if_neg s2]
        cases hcl : sub.ctx.token_at sub.ctx.current_token_idx with
        | error e => exact token_at_error _ _ _ hcl
        | ok closing =>
          dsimp only
          by_cases s3 : closing.type ≠ TOKEN_RPAREN
          · rw [if_pos s3]; refine ⟨?_, ?_⟩ <;> simp <;> omega
          rw [if_neg s3]; refine ⟨?_, ?_⟩ <;> simp <;> omega
    rw [if_neg t3]
    by_cases t4 : tok.type = TOKEN_OPERATOR
    · rw [if_pos t4]
      cases hop : get_operator_definition K tok.text with
      | none => refine ⟨?_, ?_⟩ <;> simp <;> omega
      | some op_def =>
        dsimp only
        by_cases o1 : op_def.op_type_prop ≠ OP_TYPE_UNARY_PREFIX
        · rw [if_pos o1]; refine ⟨?_, ?_⟩ <;> simp <;> omega
        rw [if_neg o1]
        by_cases o2 : op_def.op_str = "++" ∨ op_def.op_str = "--"
        · rw [if_pos o2]
          cases hv : c1.advance.token_at c1.advance.current_token_idx with
          | error e => exact token_at_error _ _ _ hv
          | ok v =>
            dsimp only
            by_cases v1 : v.type = TOKEN_VARIABLE
            · rw [if_pos v1]
              cases hx : extract_clean_variable_name_for_expr v.text MAX_VAR_NAME_LEN with
              | none => refine ⟨?_, ?_⟩ <;> simp <;> omega
              | some name => refine ⟨?_, ?_⟩ <;> simp [call_rand] <;> omega
            rw [if_neg v1]; refine ⟨?_, ?_⟩ <;> simp <;> omega
        rw [if_neg o2]
        have hsubf := ih2 c1.advance op_def.precedence K (by simp; omega)
        cases hsub : parse_expression_recursive env n c1.advance op_def.precedence K with
        | error e => rw [hsub] at hsubf; exact hsubf
        | ok sub =>
          rw [hsub] at hsubf
          obtain ⟨sn, si⟩ := hsubf
          simp at sn si
          dsimp only
          by_cases s1 : ¬ sub.ok = true
          · rw [if_pos s1]; refine ⟨?_, ?_⟩ <;> simp <;> omega
          rw [if_neg s1]
          refine ⟨?_, ?_⟩ <;> simp [call_rand] <;> omega
    rw [if_neg t4]
    refine ⟨?_, ?_⟩ <;> simp <;> omega

theorem parse_expression_recursive_fuel_step (env : Env) (n : Nat)
    (ih1 : ∀ ctx size K, 2 * (ctx.num_tokens - ctx.current_token_idx) + 1 ≤ n →
        OperandFueled ctx (parse_operand env n ctx size K))
    (ih3 : ∀ ctx lhs m K, 2 * (ctx.num_tokens - ctx.current_token_idx) + 1 ≤ n →
        ExprFueled ctx (parse_expression_loop env n ctx lhs m K))
    (ctx : ExprParseContext) (m : Int) (K : Kernel)
    (hf : 2 * (ctx.num_tokens - ctx.current_token_idx) + 2 ≤ n + 1) :
    ExprFueled ctx (parse_expression_recursive env (n + 1) ctx m K) := by
  rw [parse_expression_recursive]
  by_cases h1 : ctx.recursion_depth ≥ MAX_EXPR_RECURSION_DEPTH
  · rw [if_pos h1]; exact ⟨rfl, le_refl _⟩
  rw [if_neg h1]
  dsimp only
  generalize hc : ({ ctx with recursion_depth := ctx.recursion_depth + 1 } : ExprParseContext)
    = c1
  have hn : c1.num_tokens = ctx.num_tokens := by rw [← hc]
  have hi : c1.current_token_idx = ctx.current_token_idx := by rw [← hc]
  have hopdf := ih1 c1 INPUT_BUFFER_SIZE K (by omega)
  cases hopd : parse_operand env n c1 INPUT_BUFFER_SIZE K with
  | error e => rw [hopd] at hopdf; exact hopdf
  | ok opd =>
    rw [hopd] at hopdf
    obtain ⟨sn, si⟩ := hopdf
    dsimp only
    by_cases s1 : ¬ opd.ok = true
    · rw [if_pos s1]; refine ⟨?_, ?_⟩ <;> simp <;> omega
    rw [if_neg s1]
    exact expr_fueled_of_eq (opd.ctx.store_result opd.operand) ctx _ (by simp; omega)
      (by simp; omega) (ih3 _ _ _ _ (by simp; omega))

theorem parse_expression_loop_fuel_step (env : Env) (n : Nat)
    (ih2 : ∀ ctx m K, 2 * (ctx.num_tokens - ctx.current_token_idx) + 2 ≤ n →
        ExprFueled ctx (parse_expression_recursive env n ctx m K))
    (ih3 : ∀ ctx lhs m K, 2 * (ctx.num_tokens - ctx.current_token_idx) + 1 ≤ n →
        ExprFueled ctx (parse_expression_loop env n ctx lhs m K))
    (ctx : ExprParseContext) (lhs : String) (m : Int) (K : Kernel)
    (hf : 2 * (ctx.num_tokens - ctx.current_token_idx) + 1 ≤ n + 1) :
    ExprFueled ctx (parse_expression_loop env (n + 1) ctx lhs m K) := by
  rw [parse_expression_loop]
  by_cases h1 : ¬ ctx.current_token_idx < ctx.num_tokens
  · rw [if_pos h1]; exact ⟨rfl, le_refl _⟩
  rw [if_neg h1]
  cases htok : ctx.token_at ctx.current_token_idx with
  | error e => exact token_at_error _ _ _ htok
  | ok tok =>
    dsimp only
    by_cases t1 : tok.type ≠ TOKEN_OPERATOR
    · rw [if_pos t1]
      by_cases t2 : tok.type = TOKEN_RPAREN ∨ tok.type = TOKEN_EOF ∨ tok.type = TOKEN_SEMICOLON
      · rw [if_pos t2]; exact ⟨rfl, le_refl _⟩
      rw [if_neg t2]; exact ⟨rfl, le_refl _⟩
    rw [if_neg t1]
    cases hop : get_operator_definition K tok.text with
    | none => exact ⟨rfl, le_refl _⟩
    | some op_def =>
      dsimp only
      by_cases p1 : op_def.precedence < m
      · rw [if_pos p1]; exact ⟨rfl, le_refl _⟩
      rw [if_neg p1]
      by_cases b1 : op_def.op_type_prop = OP_TYPE_BINARY_INFIX
      · rw [if_pos b1]
        by_cases b2 : op_def.associativity = ASSOC_LEFT ∧ op_def.precedence ≤ m
        · rw [if_pos b2]; exact ⟨rfl, le_refl _⟩
        rw [if_neg b2]
        generalize (if op_def.associativity = ASSOC_LEFT then int_wrap (op_def.precedence + 1)
          else op_def.precedence) = q
        have hrhsf := ih2 ctx.advance q K (by simp; omega)
        cases hrhs : parse_expression_recursive env n ctx.advance q K with
        | error e => rw [hrhs] at hrhsf; exact hrhsf
        | ok rhs =>
          rw [hrhs] at hrhsf
          obtain ⟨sn, si⟩ := hrhsf
          simp at sn si
          dsimp only
          by_cases s1 : ¬ rhs.ok = true
          · rw [if_pos s1]; refine ⟨?_, ?_⟩ <;> simp <;> omega
          rw [if_neg s1]
          cases hr : call_rand env rhs.kernel with
          | mk r K1 =>
            dsimp only
            exact expr_fueled_of_eq (rhs.ctx.store_result _) ctx _ (by simp; omega)
              (by simp; omega) (ih3 _ _ _ _ (by simp; omega))
      rw [if_neg b1]
      by_cases u1 : op_def.op_type_prop = OP_TYPE_UNARY_POSTFIX
      · rw [if_pos u1]
        by_cases u2 : op_def.op_str = "++" ∨ op_def.op_str = "--"
        · rw [if_pos u2]
          by_cases u3 : 0 < ctx.current_token_idx
          · rw [if_pos u3]
            cases hp : ctx.token_at (ctx.current_token_idx - 1) with
            | error e => exact token_at_error _ _ _ hp
            | ok p =>
              dsimp only
              by_cases v1 : p.type = TOKEN_VARIABLE
              · rw [if_pos v1]
                cases hx : extract_clean_variable_name_for_expr p.text MAX_VAR_NAME_LEN with
                | none => exact ⟨rfl, le_refl _⟩
                | some name =>
                  dsimp only
                  cases hr : call_rand env K with
                  | mk r K1 =>
                    dsimp only
                    generalize env.invoke_handler op_def.bsh_handler_name op_def.op_str [name]
                      (temp_result_var r "_pof") INPUT_BUFFER_SIZE K1 = h
                    by_cases k1 : ¬ h.ok = true
                    · rw [if_pos k1]
                      exact expr_fueled_of_eq (ctx.advance.store_result _) ctx _ (by simp)
                        (by simp) (ih3 _ _ _ _ (by simp; omega))
                    rw [if_neg k1]
                    exact expr_fueled_of_eq (ctx.advance.store_result _) ctx _ (by simp)
                      (by simp) (ih3 _ _ _ _ (by simp; omega))
              rw [if_neg v1]; exact ⟨rfl, le_refl _⟩
          rw [if_neg u3]; exact ⟨rfl, le_refl _⟩
        rw [if_neg u2]
        cases hr : call_rand env K with
        | mk r K1 =>
          dsimp only
          exact expr_fueled_of_eq (ctx.advance.store_result _) ctx _ (by simp)
            (by simp) (ih3 _ _ _ _ (by simp; omega))
      rw [if_neg u1]
      by_cases q1 : op_def.op_type_prop = OP_TYPE_TERNARY_PRIMARY ∧ op_def.op_str = "?"
      · rw [if_pos q1]
        have htbf := ih2 ctx.advance 0 K (by simp; omega)
        cases htb : parse_expression_recursive env n ctx.advance 0 K with
        | error e => rw [htb] at htbf; exact htbf
        | ok tb =>
          rw [htb] at htbf
          obtain ⟨sn, si⟩ := htbf
          simp at sn si
          dsimp only
          by_cases s1 : ¬ tb.ok = true
          · rw [if_pos s1]; refine ⟨?_, ?_⟩ <;> simp <;> omega
          rw [if_neg s1]
          by_cases s2 : tb.ctx.current_token_idx ≥ tb.ctx.num_tokens
          · rw [if_pos s2]; refine ⟨?_, ?_⟩ <;> simp <;> omega
          rw [if_neg s2]
          cases hcl : tb.ctx.token_at tb.ctx.current_token_idx with
          | error e => exact token_at_error _ _ _ hcl
          | ok colon =>
            dsimp only
            by_cases s3 : colon.type ≠ TOKEN_OPERATOR ∨ colon.text ≠ ":"
            · rw [if_pos s3]; refine ⟨?_, ?_⟩ <;> simp <;> omega
            rw [if_neg s3]
            have hfbf := ih2 tb.ctx.advance 0 tb.kernel (by simp; omega)
            cases hfb : parse_expression_recursive env n tb.ctx.advance 0 tb.kernel with
            | error e => rw [hfb] at hfbf; exact hfbf
            | ok fb =>
              rw [hfb] at hfbf
              obtain ⟨fn, fi⟩ := hfbf
              simp at fn fi
              dsimp only
              by_cases s4 : ¬ fb.ok = true
              · rw [if_pos s4]; refine ⟨?_, ?_⟩ <;> simp <;> omega
              rw [if_neg s4]
              cases hr : call_rand env fb.kernel with
              | mk r K1 =>
                dsimp only
                exact expr_fueled_of_eq (fb.ctx.store_result _) ctx _ (by simp; omega)
                  (by simp; omega) (ih3 _ _ _ _ (by simp; omega))
      rw [if_neg q1]; exact ⟨rfl, le_refl _⟩

theorem parse_fueled (env : Env) : ∀ fuel : Nat,
    (∀ ctx size K, 2 * (ctx.num_tokens - ctx.current_token_idx) + 1 ≤ fuel →
        OperandFueled ctx (parse_operand env fuel ctx size K))
    ∧ (∀ ctx m K, 2 * (ctx.num_tokens - ctx.current_token_idx) + 2 ≤ fuel →
        ExprFueled ctx (parse_expression_recursive env fuel ctx m K))
    ∧ (∀ ctx lhs m K, 2 * (ctx.num_tokens - ctx.current_token_idx) + 1 ≤ fuel →
        ExprFueled ctx (parse_expression_loop env fuel ctx lhs m K)) := by
  intro fuel
  induction fuel with
  | zero =>
    refine ⟨?_, ?_, ?_⟩
    · intro ctx size K h; omega
    · intro ctx m K h; omega
    · intro ctx lhs m K h; omega
  | succ n ih =>
    obtain ⟨ih1, ih2, ih3⟩ := ih
    exact ⟨fun ctx size K h => parse_operand_fuel_step env n ih2 ctx size K h,
           fun ctx m K h => parse_expression_recursive_fuel_step env n ih1 ih3 ctx m K h,
           fun ctx lhs m K h => parse_expression_loop_fuel_step env n ih2 ih3 ctx lhs m K h⟩

/-- The fuel `evaluate_expression_from_tokens` hands the parser is enough: no
evaluation stops for want of it. -/
theorem evaluate_never_out_of_fuel (env : Env) (toks : List Token) (n bs : Nat) (K : Kernel) :
    evaluate_expression_from_tokens env toks n bs K ≠ .error Fault.out_of_fuel := by
  unfold evaluate_expression_from_tokens
  by_cases h0 : n = 0
  · rw [if_pos h0]; intro h; cases h
  rw [if_neg h0]
  dsimp only
  have hf := (parse_fueled env (2 * n + 2)).2.1 ⟨toks, 0, n, "", bs, 0, []⟩ 0 K (by simp)
  cases hr : parse_expression_recursive env (2 * n + 2) ⟨toks, 0, n, "", bs, 0, []⟩ 0 K with
  | error e => rw [hr] at hf; dsimp only; intro h; cases h; exact hf rfl
  | ok r =>
    dsimp only
    by_cases s1 : ¬ r.ok = true
    · rw [if_pos s1]; intro h; cases h
    rw [if_neg s1]
    by_cases s2 : r.ctx.current_token_idx < r.ctx.num_tokens
    · rw [if_pos s2]
      cases hx : r.ctx.token_at r.ctx.current_token_idx with
      | error e => dsimp only; intro h; cases h; exact token_at_error _ _ _ hx rfl
      | ok extra =>
        dsimp only
        by_cases s3 : extra.type ≠ TOKEN_EOF
        · rw [if_pos s3]; intro h; cases h
        rw [if_neg s3]; intro h; cases h
    rw [if_neg s2]; intro h; cases h

/-! ## C10: postfix `++` and `--` after anything but a simple variable -/

/-- A successful evaluation has written no parser diagnostic but, at most, the
line about tokens left over. -/
theorem evaluate_quiet (env : Env) (toks : List Token) (n bs : Nat) (K : Kernel)
    (r : EvalResult) (h : evaluate_expression_from_tokens env toks n bs K = .ok r)
    (hok : r.ok = true) (x : ParserDiagnostic) (hx : x ∈ r.diagnostics) :
    ∃ extra, x = .tokens_left extra := by
  unfold evaluate_expression_from_tokens at h
  by_cases h0 : n = 0
  · rw [if_pos h0] at h; cases h; cases hx
  rw [if_neg h0] at h
  dsimp only at h
  have hq := (parse_quiet env (2 * n + 2)).2.1 ⟨toks, 0, n, "", bs, 0, []⟩ 0 K
  cases hr : parse_expression_recursive env (2 * n + 2) ⟨toks, 0, n, "", bs, 0, []⟩ 0 K with
  | error e => rw [hr] at h; cases h
  | ok p =>
    rw [hr] at h hq
    dsimp only at h
    by_cases s1 : ¬ p.ok = true
    · rw [if_pos s1] at h; cases h; cases hok
    rw [if_neg s1] at h
    have hd : p.ctx.diagnostics = [] := hq (not_not.mp s1)
    by_cases s2 : p.ctx.current_token_idx < p.ctx.num_tokens
    · rw [if_pos s2] at h
      cases hx2 : p.ctx.token_at p.ctx.current_token_idx with
      | error e => rw [hx2] at h; cases h
      | ok extra =>
        rw [hx2] at h
        dsimp only at h
        by_cases s3 : extra.type ≠ TOKEN_EOF
        · rw [if_pos s3] at h; cases h
          rw [hd] at hx
          exact ⟨extra, by simpa using hx⟩
        rw [if_neg s3] at h; cases h
        rw [hd] at hx; cases hx
    rw [if_neg s2] at h; cases h
    rw [hd] at hx; cases hx

/-- The loop at a postfix `++` or `--` it does not skip, with a token before
it that is no simple Variable token (bsh.c 1300-1380). -/
theorem parse_expression_loop_postfix_after (env : Env) (fuel : Nat) (ctx : ExprParseContext)
    (lhs : String) (min_precedence : Int) (K : Kernel) (tok p : Token)
    (d : OperatorDefinition)
    (hidx : ctx.current_token_idx < ctx.num_tokens)
    (htok : ctx.tokens[ctx.current_token_idx]? = some tok)
    (hty : tok.type = TOKEN_OPERATOR)
    (hdef : get_operator_definition K tok.text = some d)
    (hpost : d.op_type_prop = OP_TYPE_UNARY_POSTFIX)
    (hsym : d.op_str = "++" ∨ d.op_str = "--")
    (hmin : min_precedence ≤ d.precedence)
    (u3 : 0 < ctx.current_token_idx)
    (hp : ctx.tokens[ctx.current_token_idx - 1]? = some p)
    (hnone : p.type = TOKEN_VARIABLE →
      extract_clean_variable_name_for_expr p.text MAX_VAR_NAME_LEN = none) :
    parse_expression_loop env (fuel + 1) ctx lhs min_precedence K
      = (if p.type = TOKEN_VARIABLE then
          .ok ⟨false, ((ctx.report .postfix_lhs_not_simple).store_result
                        "EXPR_PARSE_ERROR_POSTFIX_LHS").leave, K⟩
         else
          .ok ⟨false, ((ctx.report .postfix_lhs_not_variable).store_result
                        "EXPR_PARSE_ERROR_POSTFIX_OPERAND").leave, K⟩) := by
  have htk : ctx.token_at ctx.current_token_idx = .ok tok := by
    unfold ExprParseContext.token_at; rw [htok]
  have hpk : ctx.token_at (ctx.current_token_idx - 1) = .ok p := by
    unfold ExprParseContext.token_at; rw [hp]
  have h1 : ¬ (d.precedence < min_precedence) := by omega
  have hnb : ¬ d.op_type_prop = OP_TYPE_BINARY_INFIX := by rw [hpost]; decide
  rw [parse_expression_loop, if_neg (not_not.mpr hidx), htk]
  dsimp only
  rw [if_neg (not_not.mpr hty), hdef]
  dsimp only
  rw [if_neg h1, if_neg hnb, if_pos hpost, if_pos hsym, if_pos u3, hpk]
  dsimp only
  by_cases v1 : p.type = TOKEN_VARIABLE
  · rw [if_pos v1, if_pos v1, hnone v1]
  · rw [if_neg v1, if_neg v1]

/-- The loop at a postfix `++` or `--` it does not skip, at the start of the
slice (bsh.c 1374-1380). -/
theorem parse_expression_loop_postfix_first (env : Env) (fuel : Nat) (ctx : ExprParseContext)
    (lhs : String) (min_precedence : Int) (K : Kernel) (tok : Token)
    (d : OperatorDefinition)
    (hidx : ctx.current_token_idx < ctx.num_tokens)
    (htok : ctx.tokens[ctx.current_token_idx]? = some tok)
    (hty : tok.type = TOKEN_OPERATOR)
    (hdef : get_operator_definition K tok.text = some d)
    (hpost : d.op_type_prop = OP_TYPE_UNARY_POSTFIX)
    (hsym : d.op_str = "++" ∨ d.op_str = "--")
    (hmin : min_precedence ≤ d.precedence)
    (u3 : ¬ 0 < ctx.current_token_idx) :
    parse_expression_loop env (fuel + 1) ctx lhs min_precedence K
      = .ok ⟨false, ((ctx.report .postfix_at_start).store_result
                      "EXPR_PARSE_ERROR_POSTFIX_START").leave, K⟩ := by
  have htk : ctx.token_at ctx.current_token_idx = .ok tok := by
    unfold ExprParseContext.token_at; rw [htok]
  have h1 : ¬ (d.precedence < min_precedence) := by omega
  have hnb : ¬ d.op_type_prop = OP_TYPE_BINARY_INFIX := by rw [hpost]; decide
  rw [parse_expression_loop, if_neg (not_not.mpr hidx), htk]
  dsimp only
  rw [if_neg (not_not.mpr hty), hdef]
  dsimp only
  rw [if_neg h1, if_neg hnb, if_pos hpost, if_pos hsym, if_neg u3]

/-- C10: when the loop of the parser stands at a registered UnaryPostfix `++`
or `--` that it takes up (the minimum precedence is at most the operator's) and
the token right before it is not a simple Variable token, then, whatever the
handler bridge, the `rand` and the fuel, the call returns failure at once: it
writes one of the three postfix diagnostics and its error marker and leaves the
shell state as it was, so no handler has run. Every evaluation of that slice
comes back for want of no fuel, and one that has written such a diagnostic
returns failure. -/
theorem postfix_without_simple_variable_rejected (ctx : ExprParseContext)
    (min_precedence : Int) (K : Kernel) (tok : Token) (d : OperatorDefinition)
    (hidx : ctx.current_token_idx < ctx.num_tokens)
    (htok : ctx.tokens[ctx.current_token_idx]? = some tok)
    (hty : tok.type = TOKEN_OPERATOR)
    (hdef : get_operator_definition K tok.text = some d)
    (hpost : d.op_type_prop = OP_TYPE_UNARY_POSTFIX)
    (hsym : d.op_str = "++" ∨ d.op_str = "--")
    (hmin : min_precedence ≤ d.precedence)
    (hnot : ¬ follows_simple_variable ctx.tokens ctx.current_token_idx) :
    (∃ diag marker, is_postfix_rejection diag ∧
      ∀ (env : Env) (fuel : Nat) (lhs : String),
        parse_expression_loop env (fuel + 1) ctx lhs min_precedence K
          = .ok ⟨false, ((ctx.report diag).store_result marker).leave, K⟩)
    ∧ (∀ (env : Env) (bs : Nat) (K0 : Kernel),
        evaluate_expression_from_tokens env ctx.tokens ctx.num_tokens bs K0
          ≠ .error Fault.out_of_fuel
        ∧ ∀ r, evaluate_expression_from_tokens env ctx.tokens ctx.num_tokens bs K0 = .ok r →
            (∃ x ∈ r.diagnostics, is_postfix_rejection x) → r.ok = false) := by
  refine ⟨?_, fun env bs K0 => ⟨evaluate_never_out_of_fuel env _ _ bs K0, ?_⟩⟩
  · by_cases u3 : 0 < ctx.current_token_idx
    · cases hp : ctx.tokens[ctx.current_token_idx - 1]? with
      | none =>
        have hlen := (List.getElem?_eq_some.mp htok).1
        have := List.getElem?_eq_none_iff.mp hp
        omega
      | some p =>
        have hnone : p.type = TOKEN_VARIABLE →
            extract_clean_variable_name_for_expr p.text MAX_VAR_NAME_LEN = none := by
          intro v1
          cases hx : extract_clean_variable_name_for_expr p.text MAX_VAR_NAME_LEN with
          | none => rfl
          | some name => exact absurd ⟨u3, p, name, hp, v1, hx⟩ hnot
        by_cases v1 : p.type = TOKEN_VARIABLE
        · refine ⟨.postfix_lhs_not_simple, "EXPR_PARSE_ERROR_POSTFIX_LHS", Or.inl rfl,
            fun env fuel lhs => ?_⟩
          rw [parse_expression_loop_postfix_after env fuel ctx lhs min_precedence K tok p d
            hidx htok hty hdef hpost hsym hmin u3 hp hnone, if_pos v1]
        · refine ⟨.postfix_lhs_not_variable, "EXPR_PARSE_ERROR_POSTFIX_OPERAND",
            Or.inr (Or.inl rfl), fun env fuel lhs => ?_⟩
          rw [parse_expression_loop_postfix_after env fuel ctx lhs min_precedence K tok p d
            hidx htok hty hdef hpost hsym hmin u3 hp hnone, if_neg v1]
    · exact ⟨.postfix_at_start, "EXPR_PARSE_ERROR_POSTFIX_START", Or.inr (Or.inr rfl),
        fun env fuel lhs => parse_expression_loop_postfix_first env fuel ctx lhs
          min_precedence K tok d hidx htok hty hdef hpost hsym hmin u3⟩
  · intro r hr ⟨x, hx, hrej⟩
    cases hok : r.ok with
    | false => rfl
    | true =>
      obtain ⟨extra, he⟩ := evaluate_quiet env _ _ bs K0 r hr hok x hx
      rw [he] at hrej
      rcases hrej with h | h | h <;> cases h

/-- C10 at `5 ++` and `( 2 + 3 ) ++` with `++` UnaryPostfix of precedence 30:
the loop at the `++` after `5` returns failure for every bridge, and both
lines evaluate to failure with the diagnostic "must follow a variable"; in the
second the `+` handler has run (one call of `rand`), the `++` handler has not. -/
theorem postfix_without_simple_variable_rejected_witness :
    ((∃ diag marker, is_postfix_rejection diag ∧
        ∀ (env : Env) (fuel : Nat) (lhs : String),
          parse_expression_loop env (fuel + 1) ⟨tokens_5_increment, 1, 3, "5", 4096, 1, []⟩
              lhs 0 postfix_kernel
            = .ok ⟨false,
                ((ExprParseContext.report ⟨tokens_5_increment, 1, 3, "5", 4096, 1, []⟩
                    diag).store_result marker).leave, postfix_kernel⟩)
      ∧ (∀ (env : Env) (bs : Nat) (K0 : Kernel),
          evaluate_expression_from_tokens env tokens_5_increment 3 bs K0
            ≠ .error Fault.out_of_fuel
          ∧ ∀ r, evaluate_expression_from_tokens env tokens_5_increment 3 bs K0 = .ok r →
              (∃ x ∈ r.diagnostics, is_postfix_rejection x) → r.ok = false))
    ∧ evaluate_expression_from_tokens arith_env tokens_5_increment 3 4096 postfix_kernel
        = .ok ⟨false, "EXPR_PARSE_ERROR_POSTFIX_OPERAND", postfix_kernel, 1,
               [.postfix_lhs_not_variable]⟩
    ∧ evaluate_expression_from_tokens arith_env tokens_paren_sum_increment 7 4096
          postfix_kernel
        = .ok ⟨false, "EXPR_PARSE_ERROR_POSTFIX_OPERAND",
               { postfix_kernel with rand_state := 1 }, 5, [.postfix_lhs_not_variable]⟩ :=
  ⟨postfix_without_simple_variable_rejected ⟨tokens_5_increment, 1, 3, "5", 4096, 1, []⟩ 0
      postfix_kernel (operator_token "++") (unary_postfix_operator "++" 30 "post_inc")
      (by decide) (by decide) (by decide) (by decide) (by decide) (by decide) (by decide)
      (by
        rintro ⟨_, p, name, hp, hty, _⟩
        have hp5 : p = number_token "5" := by
          have : (some (number_token "5") : Option Token) = some p := hp
          exact (Option.some.inj this).symm
        rw [hp5] at hty
        exact absurd hty (by decide)),
    by decide, by decide⟩

/-- The postfix path on a Variable token with an index or a property: the
lines `${arr[0]} ++` and `${obj.k} ++` are turned down with "requires a simple
variable operand", and the handler is not invoked. -/
theorem postfix_after_indexed_variable_rejected :
    evaluate_expression_from_tokens arith_env
        [mk_token TOKEN_VARIABLE "$\x7barr[0]\x7d", operator_token "++", eof_token] 3 4096
        postfix_kernel
      = .ok ⟨false, "EXPR_PARSE_ERROR_POSTFIX_LHS", postfix_kernel, 1,
             [.postfix_lhs_not_simple]⟩
    ∧ evaluate_expression_from_tokens arith_env
        [mk_token TOKEN_VARIABLE "$\x7bobj.k\x7d", operator_token "++", eof_token] 3 4096
        postfix_kernel
      = .ok ⟨false, "EXPR_PARSE_ERROR_POSTFIX_LHS", postfix_kernel, 1,
             [.postfix_lhs_not_simple]⟩ := by
  constructor <;> decide

/-! ## The store: lemmas -/

theorem trim_whitespace_in_place_of_plain (s : String) (h1 : s.data ≠ [])
    (h2 : isspace (head_char s.data.reverse) = false) : trim_whitespace_in_place s = s := by
  unfold trim_whitespace_in_place
  have hrev : s.data.reverse ≠ [] := by simpa using h1
  obtain ⟨c, cs, hc⟩ := List.exists_cons_of_ne_nil hrev
  have hcs : isspace c = false := by
    rw [hc] at h2; simpa [head_char] using h2
  have hnall : s.data.all isspace = false := by
    have : s.data.reverse.all isspace = false := by
      rw [hc]; simp [hcs]
    rwa [List.all_reverse] at this
  rw [if_neg (by simp [hnall])]
  have : s.data.reverse.dropWhile isspace = s.data.reverse := by
    rw [hc]; simp [List.dropWhile, hcs]
  rw [this, List.reverse_reverse]

theorem clean_variable_name_of_plain (name : String) (h : is_plain_name name) :
    clean_variable_name name = name := by
  obtain ⟨h1, h2, _, h4⟩ := h
  unfold clean_variable_name
  rw [strncpy_str_of_le _ _ h2]
  exact trim_whitespace_in_place_of_plain name h1 h4

theorem update_variable_none (sid : Nat) (n val : String) (f : Bool) (l : List Variable) :
    update_variable sid n val f l = none ↔ ∀ v ∈ l, ¬ (v.scope_id = sid ∧ v.name = n) := by
  induction l with
  | nil => simp [update_variable]
  | cons v vs ih =>
    unfold update_variable
    by_cases hm : v.scope_id = sid ∧ v.name = n
    · simp [hm]
    · have hm' : ¬ ((v.scope_id = sid && v.name = n) = true) := by simpa using hm
      rw [if_neg hm']
      simp only [Option.map_eq_none', ih, List.mem_cons, forall_eq_or_imp]
      exact ⟨fun h => ⟨hm, h⟩, fun h => h.2⟩

theorem update_variable_some (sid : Nat) (n val : String) (f : Bool) (l l' : List Variable)
    (h : update_variable sid n val f l = some l') :
    ∃ pre v post, l = pre ++ v :: post
      ∧ (∀ u ∈ pre, ¬ (u.scope_id = sid ∧ u.name = n))
      ∧ v.scope_id = sid ∧ v.name = n
      ∧ l' = pre ++ { v with value := val, is_array_element := f } :: post := by
  induction l generalizing l' with
  | nil => simp [update_variable] at h
  | cons v vs ih =>
    unfold update_variable at h
    by_cases hm : v.scope_id = sid ∧ v.name = n
    · have hm' : (v.scope_id = sid && v.name = n) = true := by simpa using hm
      rw [if_pos hm'] at h
      cases h
      exact ⟨[], v, vs, rfl, by simp, hm.1, hm.2, rfl⟩
    · have hm' : ¬ ((v.scope_id = sid && v.name = n) = true) := by simpa using hm
      rw [if_neg hm'] at h
      cases hr : update_variable sid n val f vs with
      | none => rw [hr] at h; simp at h
      | some r =>
        rw [hr] at h
        simp only [Option.map_some', Option.some.injEq] at h
        obtain ⟨pre, w, post, hl, hpre, hw1, hw2, hr'⟩ := ih r hr
        refine ⟨v :: pre, w, post, by rw [hl]; rfl, ?_, hw1, hw2, by rw [← h, hr']; rfl⟩
        intro u hu
        rcases List.mem_cons.mp hu with rfl | hu
        · exact hm
        · exact hpre u hu

theorem find_variable_in_scope_append (pre post : List Variable) (v : Variable) (sid : Nat)
    (n : String) (hpre : ∀ u ∈ pre, ¬ (u.scope_id = sid ∧ u.name = n))
    (hv : v.scope_id = sid ∧ v.name = n) :
    find_variable_in_scope (pre ++ v :: post) sid n = some v := by
  unfold find_variable_in_scope
  induction pre with
  | nil => simp [List.find?, hv.1, hv.2]
  | cons u us ih =>
    have hu := hpre u (List.mem_cons_self _ _)
    have hu' : (u.scope_id = sid && u.name = n) = false := by simpa using hu
    simp only [List.cons_append, List.find?, hu']
    exact ih (fun w hw => hpre w (List.mem_cons_of_mem _ hw))

theorem find_variable_in_scope_none (vars : List Variable) (sid : Nat) (n : String) :
    find_variable_in_scope vars sid n = none ↔ ∀ v ∈ vars, ¬ (v.scope_id = sid ∧ v.name = n) := by
  unfold find_variable_in_scope
  simp [List.find?_eq_none]

/-! ## C15: a write is read back -/

/-- C15: in a store with a scope on the stack, for a name that is not empty,
has at most 255 characters and no whitespace at either end, and any value,
`get_variable_scoped (name)` after `set_variable_scoped (name, value, flag)`
returns `value`. If the current scope had a binding for the name, the first
such entry gets the value and the flag and nothing else changes (the list is
as long as before); if it had none, exactly one entry is added, at the head,
with the name, the value, the flag and the id of the current scope. -/
theorem set_then_get (K : Kernel) (name value : String) (flag : Bool) (top : ScopeFrame)
    (rest : List ScopeFrame) (hstack : K.scope_stack = top :: rest)
    (hname : is_plain_name name) :
    get_variable_scoped (set_variable_scoped name value flag K) name = some value
    ∧ (has_binding K.variable_list_head top name →
        ∃ pre v post, K.variable_list_head = pre ++ v :: post
          ∧ (∀ u ∈ pre, ¬ (u.scope_id = top.scope_id ∧ u.name = name))
          ∧ v.scope_id = top.scope_id ∧ v.name = name
          ∧ (set_variable_scoped name value flag K).variable_list_head
              = pre ++ { v with value := value, is_array_element := flag } :: post
          ∧ (set_variable_scoped name value flag K).variable_list_head.length
              = K.variable_list_head.length)
    ∧ (¬ has_binding K.variable_list_head top name →
        (set_variable_scoped name value flag K).variable_list_head
          = { name := name, value := value, is_array_element := flag,
              scope_id := top.scope_id } :: K.variable_list_head) := by
  have hclean := clean_variable_name_of_plain name hname
  have hne : name ≠ "" := by
    intro h; exact hname.1 (by rw [h])
  have hcopy : strncpy_str (MAX_VAR_NAME_LEN - 1) name = name :=
    strncpy_str_of_le _ _ hname.2.1
  cases hu : update_variable top.scope_id name value flag K.variable_list_head with
  | none =>
    have hset : set_variable_scoped name value flag K
        = { K with variable_list_head :=
              { name := name, value := value, is_array_element := flag,
                scope_id := top.scope_id } :: K.variable_list_head } := by
      simp only [set_variable_scoped, hstack, hclean, hne, if_false, hu, hcopy]
    have hnone := (update_variable_none _ _ _ _ _).mp hu
    refine ⟨?_, ?_, ?_⟩
    · rw [hset]
      simp only [get_variable_scoped, hclean, hne, if_false, hstack, search_scopes]
      have hf := find_variable_in_scope_append []
        K.variable_list_head ⟨name, value, flag, top.scope_id⟩ top.scope_id name (by simp)
        ⟨rfl, rfl⟩
      rw [List.nil_append] at hf
      rw [hf]
    · rintro ⟨v, hv, h1, h2⟩
      exact absurd ⟨h1, h2⟩ (hnone v hv)
    · intro _
      rw [hset]
  | some vars =>
    have hset : set_variable_scoped name value flag K = { K with variable_list_head := vars } := by
      simp only [set_variable_scoped, hstack, hclean, hne, if_false, hu]
    obtain ⟨pre, v, post, hl, hpre, hv1, hv2, hvars⟩ := update_variable_some _ _ _ _ _ _ hu
    refine ⟨?_, ?_, ?_⟩
    · rw [hset]
      simp only [get_variable_scoped, hclean, hne, if_false, hstack, search_scopes]
      rw [hvars, find_variable_in_scope_append pre post
        { v with value := value, is_array_element := flag } top.scope_id name hpre ⟨hv1, hv2⟩]
    · intro _
      refine ⟨pre, v, post, hl, hpre, hv1, hv2, by rw [hset, hvars], ?_⟩
      rw [hset, hvars, hl]
      simp
    · intro hnb
      exact absurd ⟨v, by rw [hl]; simp, hv1, hv2⟩ hnb

/-- C15 at the global scope: `x` is written, read back, overwritten and read
back again; the store holds one entry for it. -/
theorem set_then_get_witness :
    (get_variable_scoped (set_variable_scoped "x" "1" false global_kernel) "x" = some "1"
      ∧ (set_variable_scoped "x" "1" false global_kernel).variable_list_head
          = [{ name := "x", value := "1", is_array_element := false, scope_id := 0 }])
    ∧ (set_variable_scoped "x" "2" false
        (set_variable_scoped "x" "1" false global_kernel)).variable_list_head
        = [{ name := "x", value := "2", is_array_element := false, scope_id := 0 }] :=
  ⟨⟨(set_then_get global_kernel "x" "1" false ⟨0⟩ [] rfl (by decide)).1,
    (set_then_get global_kernel "x" "1" false ⟨0⟩ [] rfl (by decide)).2.2
      (by rintro ⟨v, hv, _⟩; cases hv)⟩,
   by decide⟩

/-! ## C17: what leaving a scope removes -/

/-- C17: `leave_scope` called with the id of the top frame, a non-global one,
removes from the variable list exactly the entries whose `scope_id` is that
id (the others stay as they are, in their order) and pops that frame; nothing
else of the state changes. And no call of `leave_scope`, whatever its argument
and the state, removes an entry of the global scope. -/
theorem leave_scope_frame_effect (K : Kernel) (top : ScopeFrame) (rest : List ScopeFrame)
    (hstack : K.scope_stack = top :: rest) (hid : top.scope_id ≠ GLOBAL_SCOPE_ID) :
    leave_scope top.scope_id K
      = { K with
          variable_list_head :=
            K.variable_list_head.filter (fun v => v.scope_id ≠ top.scope_id),
          scope_stack := rest }
    ∧ ∀ (id : Nat) (K1 : Kernel) (v : Variable), v ∈ K1.variable_list_head →
        v.scope_id = GLOBAL_SCOPE_ID → v ∈ (leave_scope id K1).variable_list_head := by
  constructor
  · simp only [leave_scope, hstack, ne_eq, not_true_eq_false, if_false, hid, not_false_eq_true,
      if_true, cleanup_variables_for_scope]
  · intro id K1 v hv hglobal
    unfold leave_scope
    cases hs : K1.scope_stack with
    | nil => exact hv
    | cons t r =>
      dsimp only
      by_cases h1 : t.scope_id ≠ id
      · rw [if_pos h1]; exact hv
      · rw [if_neg h1]
        by_cases h2 : id ≠ GLOBAL_SCOPE_ID
        · rw [if_pos h2]
          simp only [cleanup_variables_for_scope, if_neg h2]
          refine List.mem_filter.mpr ⟨hv, ?_⟩
          rw [hglobal]
          simpa using fun h => h2 h.symm
        · rw [if_neg h2]; exact hv

/-- C17 at a store with the global `g`, and `a` and `b` bound in scope 1, the
top one: leaving scope 1 removes `a` and `b`, keeps `g` and pops the frame. -/
theorem leave_scope_frame_effect_witness :
    leave_scope 1
        { global_kernel with
          scope_stack := [⟨1⟩, ⟨0⟩], next_scope_id := 2,
          variable_list_head := [⟨"a", "1", false, 1⟩, ⟨"g", "0", false, 0⟩,
                                 ⟨"b", "2", false, 1⟩] }
      = { global_kernel with
          scope_stack := [⟨0⟩], next_scope_id := 2,
          variable_list_head := [⟨"g", "0", false, 0⟩] } :=
  ((leave_scope_frame_effect
      { global_kernel with
        scope_stack := [⟨1⟩, ⟨0⟩], next_scope_id := 2,
        variable_list_head := [⟨"a", "1", false, 1⟩, ⟨"g", "0", false, 0⟩,
                               ⟨"b", "2", false, 1⟩] }
      ⟨1⟩ [⟨0⟩] rfl (by decide)).1).trans (by decide)

/-! ## The invariant of the store -/

theorem enter_scope_invariant (K : Kernel) (ids : List Nat) (h : StoreInvariant K ids) :
    StoreInvariant (enter_scope K).2 (record_scope_id (enter_scope K).1 ids) := by
  obtain ⟨h1, h2, h3, h4, h5, h6⟩ := h
  unfold enter_scope
  by_cases hfull : K.scope_stack.length + 1 > MAX_SCOPE_DEPTH
  · rw [if_pos hfull]; exact ⟨h1, h2, h3, h4, h5, h6⟩
  rw [if_neg hfull]
  dsimp only
  by_cases hfirst : (K.scope_stack.length = 0 && K.next_scope_id = 1) = true
  · rw [if_pos hfirst]
    have hnil : K.scope_stack = [] := by
      simp only [Bool.and_eq_true, decide_eq_true_eq] at hfirst
      exact List.length_eq_zero.mp hfirst.1
    refine ⟨h1, h2, ?_, ?_, ?_, h6⟩
    · intro j hj
      rcases List.mem_cons.mp hj with rfl | hj
      · exact h2
      · exact h3 j hj
    · intro f hf
      rw [hnil] at hf
      rcases List.mem_cons.mp hf with rfl | hf
      · exact h2
      · cases hf
    · rw [hnil]; simp
  · rw [if_neg hfirst]
    by_cases hempty : K.scope_stack.length = 0
    · have hnil : K.scope_stack = [] := List.length_eq_zero.mp hempty
      rw [if_pos hempty]
      refine ⟨h1, Nat.le_succ_of_le h2, ?_, ?_, ?_, fun v hv => Nat.lt_succ_of_lt (h6 v hv)⟩
      · intro j hj
        rcases List.mem_cons.mp hj with rfl | hj
        · exact Nat.succ_pos _
        · exact Nat.lt_succ_of_lt (h3 j hj)
      · intro f hf
        rw [hnil] at hf
        rcases List.mem_cons.mp hf with rfl | hf
        · exact Nat.succ_pos _
        · cases hf
      · rw [hnil]; simp
    · rw [if_neg hempty]
      refine ⟨h1, Nat.le_succ_of_le h2, ?_, ?_, ?_, fun v hv => Nat.lt_succ_of_lt (h6 v hv)⟩
      · intro j hj
        rcases List.mem_cons.mp hj with rfl | hj
        · exact Nat.lt_succ_self _
        · exact Nat.lt_succ_of_lt (h3 j hj)
      · intro f hf
        rcases List.mem_cons.mp hf with rfl | hf
        · exact Nat.lt_succ_self _
        · exact Nat.lt_succ_of_lt (h4 f hf)
      · simp only [List.map_cons, List.pairwise_cons]
        refine ⟨?_, h5⟩
        intro a ha
        obtain ⟨f, hf, rfl⟩ := List.mem_map.mp ha
        exact h4 f hf

theorem leave_scope_invariant (id : Nat) (K : Kernel) (ids : List Nat)
    (h : StoreInvariant K ids) : StoreInvariant (leave_scope id K) ids := by
  obtain ⟨h1, h2, h3, h4, h5, h6⟩ := h
  unfold leave_scope
  cases hs : K.scope_stack with
  | nil => exact ⟨h1, h2, h3, h4, h5, h6⟩
  | cons t r =>
    rw [hs] at h4 h5
    have h4r : ∀ f ∈ r, f.scope_id < K.next_scope_id :=
      fun f hf => h4 f (List.mem_cons_of_mem _ hf)
    have h5r : (r.map ScopeFrame.scope_id).Pairwise (fun a b => b < a) := by
      simp only [List.map_cons, List.pairwise_cons] at h5; exact h5.2
    dsimp only
    by_cases hne : t.scope_id ≠ id
    · rw [if_pos hne]; exact ⟨h1, h2, h3, h4r, h5r, h6⟩
    · rw [if_neg hne]
      by_cases hg : id ≠ GLOBAL_SCOPE_ID
      · rw [if_pos hg]
        simp only [cleanup_variables_for_scope, if_neg hg]
        refine ⟨?_, h2, h3, h4r, h5r, fun v hv => h6 v (List.mem_filter.mp hv).1⟩
        exact h1.sublist ((List.filter_sublist _).map _)
      · rw [if_neg hg]; exact ⟨h1, h2, h3, h4r, h5r, h6⟩

theorem clean_variable_name_length (name_raw : String) :
    (clean_variable_name name_raw).length ≤ MAX_VAR_NAME_LEN - 1 := by
  unfold clean_variable_name trim_whitespace_in_place
  have hcopy : (strncpy_str (MAX_VAR_NAME_LEN - 1) name_raw).data.length ≤ MAX_VAR_NAME_LEN - 1 := by
    simp only [strncpy_str, List.length_take]; omega
  split
  · exact hcopy
  · simp only [String.length, List.length_reverse]
    exact Nat.le_trans ((List.dropWhile_sublist _).length_le) (by simpa using hcopy)

theorem set_variable_scoped_invariant (name value : String) (flag : Bool) (K : Kernel)
    (ids : List Nat) (h : StoreInvariant K ids) :
    StoreInvariant (set_variable_scoped name value flag K) ids := by
  obtain ⟨h1, h2, h3, h4, h5, h6⟩ := h
  unfold set_variable_scoped
  cases hs : K.scope_stack with
  | nil => exact ⟨h1, h2, h3, h4, h5, h6⟩
  | cons top rest =>
    dsimp only
    by_cases hempty : clean_variable_name name = ""
    · rw [if_pos hempty]; exact ⟨h1, h2, h3, h4, h5, h6⟩
    rw [if_neg hempty]
    have htop : top.scope_id < K.next_scope_id :=
      h4 top (by rw [hs]; exact List.mem_cons_self _ _)
    have h4s : ∀ f ∈ top :: rest, f.scope_id < K.next_scope_id := hs ▸ h4
    have h5s : ((top :: rest).map ScopeFrame.scope_id).Pairwise (fun a b => b < a) := hs ▸ h5
    cases hu : update_variable top.scope_id (clean_variable_name name) value flag
        K.variable_list_head with
    | none =>
      dsimp only
      have hnone := (update_variable_none _ _ _ _ _).mp hu
      have hcopy : strncpy_str (MAX_VAR_NAME_LEN - 1) (clean_variable_name name)
          = clean_variable_name name := strncpy_str_of_le _ _ (clean_variable_name_length name)
      rw [hcopy]
      refine ⟨?_, h2, h3, h4s, h5s, ?_⟩
      · simp only [List.map_cons, List.nodup_cons]
        refine ⟨?_, h1⟩
        intro hmem
        obtain ⟨v, hv, hk⟩ := List.mem_map.mp hmem
        simp only [Variable.key, Prod.mk.injEq] at hk
        exact hnone v hv ⟨hk.2, hk.1⟩
      · intro v hv
        rcases List.mem_cons.mp hv with rfl | hv
        · exact htop
        · exact h6 v hv
    | some vars =>
      dsimp only
      obtain ⟨pre, v, post, hl, _, hv1, _, hvars⟩ := update_variable_some _ _ _ _ _ _ hu
      have hkeys : vars.map Variable.key = K.variable_list_head.map Variable.key := by
        rw [hvars, hl]; simp [Variable.key]
      refine ⟨by rw [hkeys]; exact h1, h2, h3, h4s, h5s, ?_⟩
      intro w hw
      rw [hvars] at hw
      rcases List.mem_append.mp hw with hw | hw
      · exact h6 w (by rw [hl]; exact List.mem_append_left _ hw)
      · rcases List.mem_cons.mp hw with rfl | hw
        · exact h6 v (by rw [hl]; simp)
        · exact h6 w (by rw [hl]; simp [hw])

theorem set_array_element_scoped_invariant (base index value : String) (K : Kernel)
    (ids : List Nat) (h : StoreInvariant K ids) :
    StoreInvariant (set_array_element_scoped base index value K) ids := by
  unfold set_array_element_scoped
  exact set_variable_scoped_invariant _ _ _ K ids h

theorem store_reachable_invariant (K : Kernel) (ids : List Nat) (h : StoreReachable K ids) :
    StoreInvariant K ids := by
  induction h with
  | start K hv hs hn =>
    refine ⟨by rw [hv]; simp, by omega, by simp, by rw [hs]; simp, by rw [hs]; simp,
      by rw [hv]; simp⟩
  | enter K ids _ ih => exact enter_scope_invariant K ids ih
  | leave id K ids _ ih => exact leave_scope_invariant id K ids ih
  | set name value flag K ids _ ih => exact set_variable_scoped_invariant name value flag K ids ih
  | set_array base index value K ids _ ih =>
    exact set_array_element_scoped_invariant base index value K ids ih

theorem countP_key_le_one (vars : List Variable) (h : (vars.map Variable.key).Nodup)
    (name : String) (id : Nat) :
    vars.countP (fun v => v.name = name ∧ v.scope_id = id) ≤ 1 := by
  induction vars with
  | nil => simp
  | cons v vs ih =>
    simp only [List.map_cons, List.nodup_cons] at h
    have ih' := ih h.2
    by_cases hv : v.name = name ∧ v.scope_id = id
    · have hzero : vs.countP (fun v => v.name = name ∧ v.scope_id = id) = 0 := by
        rw [List.countP_eq_zero]
        intro w hw hw'
        simp only [decide_eq_true_eq] at hw'
        apply h.1
        refine List.mem_map.mpr ⟨w, hw, ?_⟩
        simp only [Variable.key, Prod.mk.injEq]
        exact ⟨hw'.1.trans hv.1.symm, hw'.2.trans hv.2.symm⟩
      rw [List.countP_cons_of_pos _ _ (by simpa using hv), hzero]
    · rw [List.countP_cons_of_neg _ _ (by simpa using hv)]
      exact ih'

/-! ## C18: one entry for a name and a scope -/

/-- C18: in every state reachable from the empty store by `enter_scope`,
`leave_scope`, `set_variable_scoped` and `set_array_element_scoped`, the
variable list holds at most one entry for each pair of a name and a scope
id. -/
theorem reachable_store_keys_unique (K : Kernel) (ids : List Nat) (h : StoreReachable K ids)
    (name : String) (id : Nat) :
    K.variable_list_head.countP (fun v => v.name = name ∧ v.scope_id = id) ≤ 1 :=
  countP_key_le_one _ (store_reachable_invariant K ids h).keys_nodup name id

/-- C18 after `enter_scope`, two writes of `x`, a second `enter_scope` and a
write of the array element `a[0]`: one entry for `x` in the global scope. -/
theorem reachable_store_keys_unique_witness :
    (set_array_element_scoped "a" "0" "v"
        (enter_scope
          (set_variable_scoped "x" "2" false
            (set_variable_scoped "x" "1" false (enter_scope Kernel.empty).2))).2
      ).variable_list_head.countP (fun v => v.name = "x" ∧ v.scope_id = 0) ≤ 1 :=
  reachable_store_keys_unique _ _
    (StoreReachable.set_array "a" "0" "v" _ _
      (StoreReachable.enter _ _
        (StoreReachable.set "x" "2" false _ _
          (StoreReachable.set "x" "1" false _ _
            (StoreReachable.enter _ _ (StoreReachable.start Kernel.empty rfl rfl rfl))))))
    "x" 0

/-! ## C19: scope ids -/

/-- C19, as the code has it: `enter_scope` on an empty stack yields the global
id 0. In every reachable state with a frame on the stack and fewer than
`MAX_SCOPE_DEPTH` of them, `enter_scope` yields `next_scope_id`, which is not
0 and is greater than every id `enter_scope` has returned before; with
`MAX_SCOPE_DEPTH` frames on the stack it yields no id. And the ids of the
frames on the stack are pairwise distinct. -/
theorem scope_ids_never_reused (K : Kernel) (ids : List Nat) (h : StoreReachable K ids) :
    (K.scope_stack = [] → (enter_scope K).1 = some GLOBAL_SCOPE_ID)
    ∧ (K.scope_stack ≠ [] → K.scope_stack.length < MAX_SCOPE_DEPTH →
        (enter_scope K).1 = some K.next_scope_id
        ∧ K.next_scope_id ≠ GLOBAL_SCOPE_ID
        ∧ ∀ j ∈ ids, j < K.next_scope_id)
    ∧ (MAX_SCOPE_DEPTH ≤ K.scope_stack.length → (enter_scope K).1 = none)
    ∧ (K.scope_stack.map ScopeFrame.scope_id).Nodup := by
  have hinv := store_reachable_invariant K ids h
  refine ⟨?_, ?_, ?_, ?_⟩
  · intro hnil
    unfold enter_scope
    rw [hnil]
    have : ¬ (([] : List ScopeFrame).length + 1 > MAX_SCOPE_DEPTH) := by decide
    rw [if_neg this]
    dsimp only
    split <;> rfl
  · intro hne hroom
    have hlen : K.scope_stack.length ≠ 0 := fun h0 => hne (List.length_eq_zero.mp h0)
    refine ⟨?_, ?_, hinv.returned_lt⟩
    · unfold enter_scope
      rw [if_neg (by omega)]
      dsimp only
      have hfirst : ¬ ((K.scope_stack.length = 0 && K.next_scope_id = 1) = true) := by
        simp [hlen]
      rw [if_neg hfirst, if_neg hlen]
    · have := hinv.next_pos
      unfold GLOBAL_SCOPE_ID
      omega
  · intro hfull
    unfold enter_scope
    rw [if_pos (by omega)]
  · exact hinv.frames_sorted.imp (fun hlt => Nat.ne_of_gt hlt)

/-- C19 from the empty store: the first `enter_scope` yields 0, the second 1,
and after a `leave_scope` the third yields 2, not 1 again. -/
theorem scope_ids_never_reused_witness :
    (enter_scope Kernel.empty).1 = some 0
    ∧ (enter_scope (enter_scope Kernel.empty).2).1 = some 1
    ∧ (enter_scope (leave_scope 1 (enter_scope (enter_scope Kernel.empty).2).2)).1 = some 2
    ∧ ((enter_scope (leave_scope 1 (enter_scope (enter_scope Kernel.empty).2).2)).2.scope_stack.map
        ScopeFrame.scope_id).Nodup :=
  ⟨(scope_ids_never_reused Kernel.empty [] (StoreReachable.start Kernel.empty rfl rfl rfl)).1 rfl,
   by decide, by decide, by decide⟩

set_option maxRecDepth 100000 in
/-- C19 fails on a full stack: after 64 calls of `enter_scope` from the empty
store the stack holds `MAX_SCOPE_DEPTH` frames, and the next `enter_scope`
yields no id (the C function prints an error and returns -1). -/
theorem enter_scope_full_stack_counterexample :
    (Nat.iterate (fun K => (enter_scope K).2) 64 Kernel.empty).scope_stack.length = 64
    ∧ (enter_scope (Nat.iterate (fun K => (enter_scope K).2) 64 Kernel.empty)).1 = none
    ∧ (enter_scope (Nat.iterate (fun K => (enter_scope K).2) 63 Kernel.empty)).1 = some 63 := by
  decide

/-! ## C16: the innermost binding -/

theorem find_variable_in_scope_of_mem (vars : List Variable)
    (hnodup : (vars.map Variable.key).Nodup) (v : Variable) (hv : v ∈ vars) :
    find_variable_in_scope vars v.scope_id v.name = some v := by
  induction vars with
  | nil => cases hv
  | cons u us ih =>
    simp only [List.map_cons, List.nodup_cons] at hnodup
    unfold find_variable_in_scope
    rcases List.mem_cons.mp hv with rfl | hv
    · simp [List.find?]
    · have hne : ¬ (u.scope_id = v.scope_id ∧ u.name = v.name) := by
        rintro ⟨h1, h2⟩
        apply hnodup.1
        refine List.mem_map.mpr ⟨v, hv, ?_⟩
        simp only [Variable.key, Prod.mk.injEq]
        exact ⟨h2.symm, h1.symm⟩
      have hne' : (u.scope_id = v.scope_id && u.name = v.name) = false := by simpa using hne
      simp only [List.find?, hne']
      exact ih hnodup.2 hv

theorem search_scopes_append (vars : List Variable) (n : String) (pre post : List ScopeFrame)
    (f : ScopeFrame) (v : Variable)
    (hpre : ∀ g ∈ pre, ¬ has_binding vars g n)
    (hf : find_variable_in_scope vars f.scope_id n = some v) :
    search_scopes vars n (pre ++ f :: post) = some v.value := by
  induction pre with
  | nil => simp only [List.nil_append, search_scopes, hf]
  | cons g gs ih =>
    have hg : find_variable_in_scope vars g.scope_id n = none := by
      rw [find_variable_in_scope_none]
      intro w hw hm
      exact hpre g (List.mem_cons_self _ _) ⟨w, hw, hm.1, hm.2⟩
    simp only [List.cons_append, search_scopes, hg]
    exact ih (fun g' hg' => hpre g' (List.mem_cons_of_mem _ hg'))

theorem search_scopes_none (vars : List Variable) (n : String) (frames : List ScopeFrame)
    (h : ∀ g ∈ frames, ¬ has_binding vars g n) : search_scopes vars n frames = none := by
  induction frames with
  | nil => rfl
  | cons g gs ih =>
    have hg : find_variable_in_scope vars g.scope_id n = none := by
      rw [find_variable_in_scope_none]
      intro w hw hm
      exact h g (List.mem_cons_self _ _) ⟨w, hw, hm.1, hm.2⟩
    simp only [search_scopes, hg]
    exact ih (fun g' hg' => h g' (List.mem_cons_of_mem _ hg'))

theorem enter_scope_some (K K1 : Kernel) (id : Nat) (h : enter_scope K = (some id, K1)) :
    K1.scope_stack = ⟨id⟩ :: K.scope_stack
    ∧ K1.variable_list_head = K.variable_list_head
    ∧ ((K.scope_stack = [] ∧ id = GLOBAL_SCOPE_ID)
        ∨ (K.scope_stack ≠ [] ∧ id = K.next_scope_id)) := by
  unfold enter_scope at h
  by_cases hfull : K.scope_stack.length + 1 > MAX_SCOPE_DEPTH
  · rw [if_pos hfull] at h; cases h
  rw [if_neg hfull] at h
  dsimp only at h
  by_cases hfirst : (K.scope_stack.length = 0 && K.next_scope_id = 1) = true
  · rw [if_pos hfirst] at h
    simp only [Bool.and_eq_true, decide_eq_true_eq] at hfirst
    cases h
    exact ⟨rfl, rfl, Or.inl ⟨List.length_eq_zero.mp hfirst.1, rfl⟩⟩
  · rw [if_neg hfirst] at h
    by_cases hempty : K.scope_stack.length = 0
    · rw [if_pos hempty] at h
      cases h
      exact ⟨rfl, rfl, Or.inl ⟨List.length_eq_zero.mp hempty, rfl⟩⟩
    · rw [if_neg hempty] at h
      cases h
      exact ⟨rfl, rfl, Or.inr ⟨fun h0 => hempty (by rw [h0]; rfl), rfl⟩⟩

/-- What `set_variable_scoped` does in a store with a scope on the stack, for
a name that is not empty once cleaned: it updates the first entry of the top
scope with that name, or puts a new entry at the head. -/
theorem set_variable_scoped_cases (K : Kernel) (name value : String) (flag : Bool)
    (top : ScopeFrame) (rest : List ScopeFrame) (hstack : K.scope_stack = top :: rest)
    (hne : clean_variable_name name ≠ "") :
    (has_binding K.variable_list_head top (clean_variable_name name)
      ∧ ∃ pre v post, K.variable_list_head = pre ++ v :: post
          ∧ (∀ u ∈ pre, ¬ (u.scope_id = top.scope_id ∧ u.name = clean_variable_name name))
          ∧ v.scope_id = top.scope_id ∧ v.name = clean_variable_name name
          ∧ set_variable_scoped name value flag K
              = { K with variable_list_head :=
                    pre ++ { v with value := value, is_array_element := flag } :: post })
    ∨ (¬ has_binding K.variable_list_head top (clean_variable_name name)
      ∧ set_variable_scoped name value flag K
          = { K with variable_list_head :=
                { name := clean_variable_name name, value := value, is_array_element := flag,
                  scope_id := top.scope_id } :: K.variable_list_head }) := by
  have hcopy : strncpy_str (MAX_VAR_NAME_LEN - 1) (clean_variable_name name)
      = clean_variable_name name := strncpy_str_of_le _ _ (clean_variable_name_length name)
  cases hu : update_variable top.scope_id (clean_variable_name name) value flag
      K.variable_list_head with
  | none =>
    right
    have hnone := (update_variable_none _ _ _ _ _).mp hu
    refine ⟨?_, ?_⟩
    · rintro ⟨v, hv, h1, h2⟩
      exact hnone v hv ⟨h1, h2⟩
    · simp only [set_variable_scoped, hstack, hne, if_false, hu, hcopy]
  | some vars =>
    left
    obtain ⟨pre, v, post, hl, hpre, hv1, hv2, hvars⟩ := update_variable_some _ _ _ _ _ _ hu
    refine ⟨⟨v, by rw [hl]; simp, hv1, hv2⟩, pre, v, post, hl, hpre, hv1, hv2, ?_⟩
    simp only [set_variable_scoped, hstack, hne, if_false, hu, hvars]

theorem get_after_set (K : Kernel) (name value : String) (flag : Bool)
    (top : ScopeFrame) (rest : List ScopeFrame) (hstack : K.scope_stack = top :: rest)
    (hne : clean_variable_name name ≠ "") :
    get_variable_scoped (set_variable_scoped name value flag K) name = some value := by
  rcases set_variable_scoped_cases K name value flag top rest hstack hne with
    ⟨_, pre, v, post, _, hpre, hv1, hv2, hset⟩ | ⟨_, hset⟩
  · rw [hset]
    simp only [get_variable_scoped, hne, if_false, hstack, search_scopes]
    rw [find_variable_in_scope_append pre post
      { v with value := value, is_array_element := flag } top.scope_id _ hpre ⟨hv1, hv2⟩]
  · rw [hset]
    simp only [get_variable_scoped, hne, if_false, hstack, search_scopes]
    have hf := find_variable_in_scope_append [] K.variable_list_head
      ⟨clean_variable_name name, value, flag, top.scope_id⟩ top.scope_id
      (clean_variable_name name) (by simp) ⟨rfl, rfl⟩
    rw [List.nil_append] at hf
    rw [hf]

/-- C16: in a reachable state of the store, `get_variable_scoped (name)`
returns the value of the binding for the name in the innermost frame that has
one, and nothing when no frame on the stack has one. Hence a binding made in
a newly entered scope hides whatever was bound before, and once that scope is
left the result is what it was before the scope was entered. (For a name that
is not empty once cleaned.) -/
theorem get_finds_innermost_binding (K : Kernel) (ids : List Nat) (h : StoreReachable K ids)
    (name : String) (hne : clean_variable_name name ≠ "") :
    (∀ (pre post : List ScopeFrame) (f : ScopeFrame) (v : Variable),
        K.scope_stack = pre ++ f :: post →
        (∀ g ∈ pre, ¬ has_binding K.variable_list_head g (clean_variable_name name)) →
        v ∈ K.variable_list_head → v.scope_id = f.scope_id →
        v.name = clean_variable_name name →
        get_variable_scoped K name = some v.value)
    ∧ ((∀ g ∈ K.scope_stack, ¬ has_binding K.variable_list_head g (clean_variable_name name)) →
        get_variable_scoped K name = none)
    ∧ (∀ (value : String) (flag : Bool) (id : Nat) (K1 : Kernel),
        enter_scope K = (some id, K1) →
        get_variable_scoped (set_variable_scoped name value flag K1) name = some value
        ∧ get_variable_scoped (leave_scope id (set_variable_scoped name value flag K1)) name
            = get_variable_scoped K name) := by
  have hinv := store_reachable_invariant K ids h
  refine ⟨?_, ?_, ?_⟩
  · intro pre post f v hstack hpre hv hvs hvn
    simp only [get_variable_scoped, hne, if_false, hstack]
    apply search_scopes_append _ _ _ _ _ _ hpre
    rw [← hvs, ← hvn]
    exact find_variable_in_scope_of_mem _ hinv.keys_nodup v hv
  · intro hnone
    simp only [get_variable_scoped, hne, if_false]
    exact search_scopes_none _ _ _ hnone
  · intro value flag id K1 henter
    obtain ⟨hs1, hv1, hcase⟩ := enter_scope_some K K1 id henter
    refine ⟨get_after_set K1 name value flag ⟨id⟩ K.scope_stack hs1 hne, ?_⟩
    rcases hcase with ⟨hnil, hid⟩ | ⟨hnonempty, hid⟩
    · -- the global scope is entered: leaving it empties the stack
      have hleft : (leave_scope id (set_variable_scoped name value flag K1)).scope_stack = [] := by
        rcases set_variable_scoped_cases K1 name value flag ⟨id⟩ K.scope_stack hs1 hne with
          ⟨_, pre, v, post, _, _, _, _, hset⟩ | ⟨_, hset⟩
        all_goals
          rw [hset]
          simp only [leave_scope, hs1, hid, hnil, ne_eq, not_true_eq_false, if_false]
      simp only [get_variable_scoped, hne, if_false, hleft, hnil, search_scopes]
    · -- a fresh scope is entered: no entry carries its id
      have hfresh : ∀ v ∈ K1.variable_list_head, v.scope_id ≠ id := by
        intro v hv
        rw [hv1] at hv
        have := hinv.vars_lt v hv
        omega
      have hidne : id ≠ GLOBAL_SCOPE_ID := by
        have := hinv.next_pos
        unfold GLOBAL_SCOPE_ID
        omega
      rcases set_variable_scoped_cases K1 name value flag ⟨id⟩ K.scope_stack hs1 hne with
        ⟨⟨v, hv, hvid, _⟩, _⟩ | ⟨_, hset⟩
      · exact absurd hvid (hfresh v hv)
      · have hfilter : K1.variable_list_head.filter (fun v => !decide (v.scope_id = id))
            = K1.variable_list_head := by
          apply List.filter_eq_self.mpr
          intro v hv
          simpa using hfresh v hv
        have hleave : leave_scope id (set_variable_scoped name value flag K1)
            = { K1 with scope_stack := K.scope_stack } := by
          rw [hset]
          simp only [leave_scope, hs1, ne_eq, not_true_eq_false, if_false, hidne,
            not_false_eq_true, if_true, cleanup_variables_for_scope, List.filter_cons,
            decide_not, decide_True, Bool.not_true, Bool.false_eq_true]
          rw [hfilter]
        rw [hleave]
        simp only [get_variable_scoped, hne, if_false, hv1]

/-- C16 with `x` bound to `outer` in the global scope: a binding of `x` to
`inner` in a newly entered scope is the one read, and after that scope is left
`outer` is read again. -/
theorem get_finds_innermost_binding_witness :
    get_variable_scoped
        (set_variable_scoped "x" "inner" false
          (enter_scope (set_variable_scoped "x" "outer" false (enter_scope Kernel.empty).2)).2)
        "x" = some "inner"
    ∧ get_variable_scoped
        (leave_scope 1
          (set_variable_scoped "x" "inner" false
            (enter_scope
              (set_variable_scoped "x" "outer" false (enter_scope Kernel.empty).2)).2))
        "x" = some "outer" :=
  have h := (get_finds_innermost_binding
      (set_variable_scoped "x" "outer" false (enter_scope Kernel.empty).2) _
      (StoreReachable.set "x" "outer" false _ _
        (StoreReachable.enter _ _ (StoreReachable.start Kernel.empty rfl rfl rfl)))
      "x" (by decide)).2.2 "inner" false 1
      (enter_scope (set_variable_scoped "x" "outer" false (enter_scope Kernel.empty).2)).2
      (by decide)
  ⟨h.1, h.2.trans (by decide)⟩

/-! ## C20: whitespace around a name -/

/-- C20 fails on the code. `set_variable_scoped` and `get_variable_scoped`
call `trim_whitespace (clean_name);` and drop the pointer it returns, so only
the trailing whitespace of the name is cut: `set ("  x ", "1")` binds the name
`  x` (two blanks and `x`), `get ("x")` finds nothing, and the store is not the
one `set ("x", "1")` gives. A name with trailing whitespace alone is trimmed:
after `set ("y ", "2")`, `get ("y")` returns `2`. -/
theorem leading_whitespace_of_name_kept :
    get_variable_scoped (set_variable_scoped "  x " "1" false global_kernel) "x" = none
    ∧ (set_variable_scoped "  x " "1" false global_kernel).variable_list_head
        = [{ name := "  x", value := "1", is_array_element := false, scope_id := 0 }]
    ∧ (set_variable_scoped "x" "1" false global_kernel).variable_list_head
        = [{ name := "x", value := "1", is_array_element := false, scope_id := 0 }]
    ∧ get_variable_scoped (set_variable_scoped "  x " "1" false global_kernel) "  x" = some "1"
    ∧ get_variable_scoped (set_variable_scoped "y " "2" false global_kernel) "y" = some "2" := by
  decide

/-! ## C13: the longest match of the registry -/

theorem starts_with_iff (input : List Char) (s : String) :
    starts_with input s = true ↔ s.data <+: input := by
  unfold starts_with
  exact List.isPrefixOf_iff_prefix

theorem match_operator_loop_spec (input : List Char) (ops : List OperatorDefinition)
    (best : Option String) (longest : Nat) :
    longest ≤ (match_operator_loop input ops (best, longest)).2
    ∧ (∀ d ∈ ops, d.op_str.data <+: input →
        d.op_str.length ≤ (match_operator_loop input ops (best, longest)).2)
    ∧ (match_operator_loop input ops (best, longest) = (best, longest)
        ∨ ∃ d ∈ ops, d.op_str.data <+: input
            ∧ d.op_str.length = (match_operator_loop input ops (best, longest)).2
            ∧ (match_operator_loop input ops (best, longest)).1 = some d.op_str
            ∧ longest < d.op_str.length) := by
  induction ops generalizing best longest with
  | nil => simp [match_operator_loop]
  | cons c cs ih =>
    unfold match_operator_loop
    by_cases hc : starts_with input c.op_str = true ∧ c.op_str.length > longest
    · rw [if_pos hc]
      obtain ⟨h1, h2, h3⟩ := ih (some c.op_str) c.op_str.length
      refine ⟨by omega, ?_, ?_⟩
      · intro d hd hpre
        rcases List.mem_cons.mp hd with rfl | hd
        · exact h1
        · exact h2 d hd hpre
      · right
        rcases h3 with h3 | ⟨d, hd, hpre, hlen, hbest, hlt⟩
        · exact ⟨c, List.mem_cons_self _ _, (starts_with_iff _ _).mp hc.1, by rw [h3],
            by rw [h3], hc.2⟩
        · exact ⟨d, List.mem_cons_of_mem _ hd, hpre, hlen, hbest, by omega⟩
    · rw [if_neg hc]
      obtain ⟨h1, h2, h3⟩ := ih best longest
      refine ⟨h1, ?_, ?_⟩
      · intro d hd hpre
        rcases List.mem_cons.mp hd with rfl | hd
        · by_cases hlen : d.op_str.length > longest
          · exact absurd ⟨(starts_with_iff _ _).mpr hpre, hlen⟩ hc
          · omega
        · exact h2 d hd hpre
      · rcases h3 with h3 | ⟨d, hd, hpre, hlen, hbest, hlt⟩
        · exact Or.inl h3
        · exact Or.inr ⟨d, List.mem_cons_of_mem _ hd, hpre, hlen, hbest, hlt⟩

/-- C13: `match_operator_text (input)` returns the greatest length among the
registered symbols that are a prefix of `input`: no registered prefix is
longer, and when the length is not 0 a registered symbol of that length is a
prefix of `input` and is the text handed back. It returns 0, and hands no text
back, exactly when no registered symbol that is not empty is a prefix of
`input`. -/
theorem match_operator_text_longest (K : Kernel) (input : List Char) :
    (∀ d ∈ K.operator_list_head, d.op_str.data <+: input →
        d.op_str.length ≤ (match_operator_text K input).1)
    ∧ (0 < (match_operator_text K input).1 →
        ∃ d ∈ K.operator_list_head, d.op_str.data <+: input
          ∧ d.op_str.length = (match_operator_text K input).1
          ∧ (match_operator_text K input).2 = some d.op_str)
    ∧ ((match_operator_text K input).1 = 0 ↔
        ¬ ∃ d ∈ K.operator_list_head, d.op_str ≠ "" ∧ d.op_str.data <+: input)
    ∧ ((match_operator_text K input).1 = 0 → (match_operator_text K input).2 = none) := by
  obtain ⟨_, h2, h3⟩ := match_operator_loop_spec input K.operator_list_head none 0
  have hval : (match_operator_text K input).1
      = (match_operator_loop input K.operator_list_head (none, 0)).2 := by
    unfold match_operator_text
    dsimp only
    split
    · rfl
    · rename_i hn; dsimp only; omega
  have hpos : 0 < (match_operator_text K input).1 →
      ∃ d ∈ K.operator_list_head, d.op_str.data <+: input
        ∧ d.op_str.length = (match_operator_text K input).1
        ∧ (match_operator_text K input).2 = some d.op_str := by
    intro hp
    rcases h3 with h3 | ⟨d, hd, hpre, hlen, hbest, _⟩
    · rw [hval, h3] at hp; exact absurd hp (by decide)
    · refine ⟨d, hd, hpre, by rw [hval, hlen], ?_⟩
      unfold match_operator_text
      dsimp only
      rw [if_pos (by rw [← hval]; exact hp)]
      exact hbest
  refine ⟨fun d hd hpre => by rw [hval]; exact h2 d hd hpre, hpos, ?_, ?_⟩
  · constructor
    · rintro h0 ⟨d, hd, hne, hpre⟩
      have hle := h2 d hd hpre
      rw [← hval, h0] at hle
      apply hne
      have : d.op_str.data = [] := List.length_eq_zero.mp (Nat.le_zero.mp hle)
      exact String.ext this
    · intro hnone
      by_contra hne
      obtain ⟨d, hd, hpre, hlen, _⟩ := hpos (Nat.pos_of_ne_zero hne)
      refine hnone ⟨d, hd, ?_, hpre⟩
      intro hempty
      rw [hempty] at hlen
      exact hne hlen.symm
  · intro h0
    unfold match_operator_text
    dsimp only
    rw [if_neg (by rw [← hval, h0]; decide)]

/-! ## C14: when `=` is an Assign token -/

theorem fixed_punct_type_equals (K : Kernel) (p : List Char) (h : head_char p = EQUALS_CHAR) :
    fixed_punct_type K p
      = if (match_operator_text K p).1 > 1 then TOKEN_EMPTY else TOKEN_ASSIGN := by
  unfold fixed_punct_type
  simp only [h]
  rw [if_neg (by decide), if_neg (by decide), if_neg (by decide), if_neg (by decide),
    if_neg (by decide), if_neg (by decide), if_neg (by decide)]
  exact if_pos trivial

theorem fixed_punct_type_assign (K : Kernel) (p : List Char)
    (h : fixed_punct_type K p = TOKEN_ASSIGN) :
    head_char p = EQUALS_CHAR ∧ (match_operator_text K p).1 ≤ 1 := by
  unfold fixed_punct_type at h
  dsimp only at h
  repeat' split at h
  all_goals first
    | (rename_i heq hgt; exact ⟨heq, by omega⟩)
    | (exact absurd h (by decide))

/-- The rules before the fifth do not take a `=`. -/
theorem scan_token_equals (K : Kernel) (p : List Char) (h : head_char p = EQUALS_CHAR) :
    scan_token K p
      = if (match_operator_text K p).1 > 1 then
          some (TOKEN_OPERATOR, (match_operator_text K p).1)
        else some (TOKEN_ASSIGN, 1) := by
  unfold scan_token
  simp only [h]
  have hnum : ¬ (isdigit EQUALS_CHAR = true ∨ (EQUALS_CHAR = DOT ∧ isdigit (char_at p 1) = true)) := by
    rintro (hd | ⟨hd, _⟩) <;> exact absurd hd (by decide)
  rw [if_neg (by decide), if_neg (by decide), if_neg (by decide), if_neg hnum]
  rw [fixed_punct_type_equals K p h]
  by_cases hm : (match_operator_text K p).1 > 1
  · rw [if_pos hm, if_pos hm, if_neg (by simp), if_pos (by omega)]
  · rw [if_neg hm, if_neg hm, if_pos (by decide)]

theorem scan_token_assign (K : Kernel) (q : List Char) (len : Nat)
    (h : scan_token K q = some (TOKEN_ASSIGN, len)) :
    head_char q = EQUALS_CHAR ∧ (match_operator_text K q).1 ≤ 1 ∧ len = 1 := by
  unfold scan_token at h
  dsimp only at h
  by_cases h1 : head_char q = HASH_CHAR
  · rw [if_pos h1] at h; cases h
  rw [if_neg h1] at h
  by_cases h2 : head_char q = DOLLAR
  · rw [if_pos h2] at h; cases h
  rw [if_neg h2] at h
  by_cases h3 : head_char q = DQUOTE
  · rw [if_pos h3] at h; cases h
  rw [if_neg h3] at h
  by_cases h4 : isdigit (head_char q) = true ∨ (head_char q = DOT ∧ isdigit (char_at q 1) = true)
  · rw [if_pos h4] at h; cases h
  rw [if_neg h4] at h
  by_cases h5 : fixed_punct_type K q ≠ TOKEN_EMPTY
  · rw [if_pos h5] at h
    simp only [Option.some.injEq, Prod.mk.injEq] at h
    obtain ⟨ha, hb⟩ := fixed_punct_type_assign K q h.1
    exact ⟨ha, hb, h.2.symm⟩
  rw [if_neg h5] at h
  by_cases h6 : (match_operator_text K q).1 > 0
  · rw [if_pos h6] at h; cases h
  rw [if_neg h6] at h
  by_cases h7 : isalnum (head_char q) = true ∨ head_char q = '_' ∨ head_char q = MINUS_CHAR
  · rw [if_pos h7] at h; cases h
  · rw [if_neg h7] at h; cases h

/-- C14, as the code has it: the tokenizer hands `add_token_refactored` an
Assign token only for a `=` at a token start at which the longest match of the
registry has length at most 1 (1 when `=` itself is registered, 0 when no
registered symbol matches there), and it does so for every such `=`. A `=` at
which the longest match is longer than 1 is taken by the operator rule, as an
Operator token of that length. -/
theorem assign_token_rule (K : Kernel) (p : List Char) (h : head_char p = EQUALS_CHAR) :
    ((match_operator_text K p).1 ≤ 1 → scan_token K p = some (TOKEN_ASSIGN, 1))
    ∧ (1 < (match_operator_text K p).1 →
        scan_token K p = some (TOKEN_OPERATOR, (match_operator_text K p).1))
    ∧ (∀ (q : List Char) (len : Nat), scan_token K q = some (TOKEN_ASSIGN, len) →
        head_char q = EQUALS_CHAR ∧ (match_operator_text K q).1 ≤ 1 ∧ len = 1) := by
  refine ⟨?_, ?_, fun q len hq => scan_token_assign K q len hq⟩
  · intro hm
    rw [scan_token_equals K p h, if_neg (by omega)]
  · intro hm
    rw [scan_token_equals K p h, if_pos hm]

/-- C14 with `=` and `==` registered: in `x = 1` the `=` is an Assign token
(the longest match there is 1), in `x == 1` the `==` is one Operator token. -/
theorem assign_token_rule_witness :
    scan_token (kernel_with_symbols ["=", "=="]) "= 1".data = some (TOKEN_ASSIGN, 1)
    ∧ (match_operator_text (kernel_with_symbols ["=", "=="]) "= 1".data).1 = 1
    ∧ advanced_tokenize_line (kernel_with_symbols ["=", "=="]) "x = 1" 1 128 4096
        = .ok [⟨TOKEN_WORD, "x", 1, 1, 1⟩, ⟨TOKEN_ASSIGN, "=", 1, 1, 3⟩,
               ⟨TOKEN_NUMBER, "1", 1, 1, 5⟩, ⟨TOKEN_EOF, "EOF", 3, 1, 6⟩]
    ∧ advanced_tokenize_line (kernel_with_symbols ["=", "=="]) "x == 1" 1 128 4096
        = .ok [⟨TOKEN_WORD, "x", 1, 1, 1⟩, ⟨TOKEN_OPERATOR, "==", 2, 1, 3⟩,
               ⟨TOKEN_NUMBER, "1", 1, 1, 6⟩, ⟨TOKEN_EOF, "EOF", 3, 1, 7⟩] :=
  ⟨(assign_token_rule (kernel_with_symbols ["=", "=="]) "= 1".data (by decide)).1 (by decide),
   by decide, by decide, by decide⟩

/-- C14 fails where `=` is not registered: with an empty registry the `=` of
`x = 1` is an Assign token, and the longest match of the registry at that
position has length 0, not 1. -/
theorem assign_without_match_counterexample :
    (match_operator_text (kernel_with_symbols []) "= 1".data).1 = 0
    ∧ scan_token (kernel_with_symbols []) "= 1".data = some (TOKEN_ASSIGN, 1)
    ∧ advanced_tokenize_line (kernel_with_symbols []) "x = 1" 1 128 4096
        = .ok [⟨TOKEN_WORD, "x", 1, 1, 1⟩, ⟨TOKEN_ASSIGN, "=", 1, 1, 3⟩,
               ⟨TOKEN_NUMBER, "1", 1, 1, 5⟩, ⟨TOKEN_EOF, "EOF", 3, 1, 6⟩] := by
  decide

/-! ## The tokenizer: what a round takes, and termination -/

theorem takeWhile_length_le (f : Char → Bool) (p : List Char) :
    (p.takeWhile f).length ≤ p.length :=
  (List.takeWhile_sublist f).length_le

theorem variable_token_length_le (p : List Char) (hp : p ≠ []) :
    variable_token_length p ≤ p.length := by
  obtain ⟨c, q, rfl⟩ := List.exists_cons_of_ne_nil hp
  unfold variable_token_length
  simp only [List.tail_cons, List.length_cons]
  split
  · rename_i hb
    cases q with
    | nil => exact absurd hb (by decide)
    | cons b q1 =>
      simp only [List.tail_cons, List.length_cons]
      have h1 := takeWhile_length_le (fun c => decide (c ≠ RBRACE_CHAR)) q1
      split
      · rename_i hr
        have : (List.drop (List.takeWhile (fun c => decide (c ≠ RBRACE_CHAR)) q1).length q1) ≠ [] := by
          intro hnil; rw [hnil] at hr; exact absurd hr (by decide)
        have hlen := List.length_pos.mpr this
        rw [List.length_drop] at hlen
        omega
      · omega
  · have := takeWhile_length_le is_name_char q
    omega

theorem string_body_scan_le (b : Bool) (p : List Char) : string_body_scan b p ≤ p.length := by
  induction p generalizing b with
  | nil => cases b <;> simp [string_body_scan]
  | cons c rest ih =>
    cases b with
    | true =>
      simp only [string_body_scan, List.length_cons]
      have := ih false
      omega
    | false =>
      simp only [string_body_scan, List.length_cons]
      split
      · have := ih true; omega
      · split
        · omega
        · have := ih false; omega

theorem number_token_length_le (p : List Char) (hp : p ≠ []) :
    number_token_length p ≤ p.length := by
  obtain ⟨c, q, rfl⟩ := List.exists_cons_of_ne_nil hp
  unfold number_token_length
  dsimp only
  by_cases hdot : head_char (c :: q) = DOT
  · simp only [hdot, decide_True, if_true, List.tail_cons, Bool.true_eq_false, false_and,
      if_false, List.length_cons]
    have := takeWhile_length_le isdigit q
    omega
  · simp only [hdot, decide_False, Bool.false_eq_true, if_false, true_and, List.length_cons]
    have h1 := takeWhile_length_le isdigit (c :: q)
    simp only [List.length_cons] at h1
    split
    · rename_i hd
      have hne : List.drop (List.takeWhile isdigit (c :: q)).length (c :: q) ≠ [] := by
        intro hnil; rw [hnil] at hd; exact absurd hd (by decide)
      have hpos := List.length_pos.mpr hne
      have h2 := takeWhile_length_le isdigit
        (List.drop (List.takeWhile isdigit (c :: q)).length (c :: q)).tail
      rw [List.length_tail, List.length_drop] at h2
      rw [List.length_drop] at hpos
      simp only [List.length_cons] at h2 hpos
      omega
    · omega

theorem match_operator_text_le (K : Kernel) (p : List Char) :
    (match_operator_text K p).1 ≤ p.length := by
  by_cases h0 : 0 < (match_operator_text K p).1
  · obtain ⟨d, _, hpre, hlen, _⟩ := (match_operator_text_longest K p).2.1 h0
    rw [← hlen]
    exact hpre.length_le
  · omega

theorem string_token_length_le (p : List Char) (hpos : 1 ≤ p.length) :
    1 + string_body_length p.tail ≤ p.length := by
  have hsb := string_body_scan_le false p.tail
  unfold string_body_length
  rw [List.length_tail] at hsb
  omega

theorem scan_token_length_le (K : Kernel) (p : List Char) (hp : p ≠ []) (type : TokenType)
    (len : Nat) (h : scan_token K p = some (type, len)) : len ≤ p.length := by
  have hpos : 1 ≤ p.length := List.length_pos.mpr hp
  unfold scan_token at h
  dsimp only at h
  repeat' split at h
  all_goals first
    | (cases h; done)
    | (simp only [Option.some.injEq, Prod.mk.injEq] at h; rw [← h.2]; first
        | exact variable_token_length_le p hp
        | exact number_token_length_le p hp
        | exact match_operator_text_le K p
        | exact takeWhile_length_le _ p
        | exact hpos
        | exact string_token_length_le p hpos)

theorem skip_whitespace_length (p : List Char) (col : Nat) :
    (skip_whitespace p col).1.length ≤ p.length := by
  induction p generalizing col with
  | nil => simp [skip_whitespace]
  | cons c cs ih =>
    unfold skip_whitespace
    split
    · have := ih (if c = NEWLINE_CHAR then 1 else col + 1)
      simp only [List.length_cons]
      omega
    · exact Nat.le_refl _

theorem skip_whitespace_of_nonspace (p : List Char) (col : Nat)
    (h : isspace (head_char p) = false) : skip_whitespace p col = (p, col) := by
  cases p with
  | nil => rfl
  | cons c cs =>
    unfold skip_whitespace
    have hc : ¬ (isspace c = true) := by
      simpa [head_char] using h
    rw [if_neg hc]

theorem add_token_refactored_room (type : TokenType) (text_start : List Char)
    (len line_num col max_tokens : Nat) (st : TokenizerState)
    (hroom : st.tokens.length + 1 < max_tokens) (hstore : len + 1 < st.remaining_storage) :
    add_token_refactored type text_start len line_num col max_tokens st
      = { st with
          tokens := st.tokens ++ [{ type := type, text := ⟨text_start.take len⟩, len := len,
                                    line := line_num, col := col }],
          remaining_storage := st.remaining_storage - (len + 1) } := by
  unfold add_token_refactored
  rw [if_neg (by rintro (h | h) <;> omega)]

/-- A round that has room: the token is added and the loop goes on behind it. -/
theorem tokenize_loop_round (K : Kernel) (line_num max_tokens fuel : Nat) (p : List Char)
    (st : TokenizerState) (type : TokenType) (len : Nat)
    (hp : p ≠ []) (hspace : isspace (head_char p) = false)
    (hroom : st.tokens.length + 1 < max_tokens) (hstore : len + 1 < st.remaining_storage)
    (hscan : scan_token K p = some (type, len)) :
    tokenize_loop K line_num max_tokens (fuel + 1) p st
      = tokenize_loop K line_num max_tokens fuel (p.drop len)
          { tokens := st.tokens ++ [{ type := type, text := ⟨p.take len⟩, len := len,
                                      line := line_num, col := st.current_col }],
            remaining_storage := st.remaining_storage - (len + 1),
            current_col := st.current_col + len } := by
  rw [tokenize_loop]
  rw [if_neg (by rintro (h | h); exact hp h; exact h hroom)]
  simp only [skip_whitespace_of_nonspace p st.current_col hspace]
  rw [if_neg hp, hscan]
  dsimp only
  rw [add_token_refactored_room type p len line_num st.current_col max_tokens _ hroom hstore]
  rw [if_neg (by simp)]

theorem tokenize_loop_total (K : Kernel) (line_num max_tokens : Nat) :
    ∀ (fuel : Nat) (p : List Char) (st : TokenizerState),
      p.length + (max_tokens - st.tokens.length) < fuel →
      p.length + (max_tokens - st.tokens.length) + 1 ≤ st.remaining_storage →
      ∃ st1, tokenize_loop K line_num max_tokens fuel p st = .ok st1
        ∧ st.tokens <+: st1.tokens := by
  intro fuel
  induction fuel with
  | zero => intro p st h; omega
  | succ n ih =>
    intro p st hfuel hstore
    rw [tokenize_loop]
    by_cases hexit : p = [] ∨ ¬ (st.tokens.length + 1 < max_tokens)
    · rw [if_pos hexit]; exact ⟨st, rfl, List.prefix_refl _⟩
    rw [if_neg hexit]
    have hroom : st.tokens.length + 1 < max_tokens := by
      by_contra h; exact hexit (Or.inr h)
    dsimp only
    have hskip := skip_whitespace_length p st.current_col
    by_cases hnil : (skip_whitespace p st.current_col).1 = []
    · rw [if_pos hnil]; exact ⟨_, rfl, List.prefix_refl _⟩
    rw [if_neg hnil]
    cases hscan : scan_token K (skip_whitespace p st.current_col).1 with
    | none => exact ⟨_, rfl, List.prefix_refl _⟩
    | some r =>
      obtain ⟨type, len⟩ := r
      have hlen := scan_token_length_le K _ hnil type len hscan
      dsimp only
      rw [add_token_refactored_room type _ len line_num _ max_tokens
        { st with current_col := (skip_whitespace p st.current_col).2 } hroom
        (by show len + 1 < st.remaining_storage; omega)]
      rw [if_neg (by simp)]
      obtain ⟨st1, hst1, hpre⟩ := ih (List.drop len (skip_whitespace p st.current_col).1)
        { tokens := st.tokens ++ [{ type := type,
                                    text := ⟨(skip_whitespace p st.current_col).1.take len⟩,
                                    len := len, line := line_num,
                                    col := (skip_whitespace p st.current_col).2 }],
          remaining_storage := st.remaining_storage - (len + 1),
          current_col := (skip_whitespace p st.current_col).2 + len }
        (by simp only [List.length_drop, List.length_append, List.length_singleton]; omega)
        (by simp only [List.length_drop, List.length_append, List.length_singleton]; omega)
      exact ⟨st1, hst1, (List.prefix_append _ _).trans hpre⟩

/-- With storage for every character of the line and a NUL for every token,
`advanced_tokenize_line` returns: it neither runs out of fuel nor loops. -/
theorem advanced_tokenize_line_total (K : Kernel) (line_text : String)
    (line_num max_tokens storage_size : Nat)
    (hstorage : line_text.length + max_tokens + 1 ≤ storage_size) :
    ∃ toks, advanced_tokenize_line K line_text line_num max_tokens storage_size = .ok toks := by
  obtain ⟨st1, hst1, _⟩ := tokenize_loop_total K line_num max_tokens
    (line_text.length + max_tokens + 1) line_text.data
    { tokens := [], remaining_storage := storage_size, current_col := 1 }
    (by simp only [String.length, List.length_nil]; omega)
    (by simp only [String.length, List.length_nil] at hstorage ⊢; omega)
  unfold advanced_tokenize_line
  rw [hst1]
  dsimp only
  split
  · exact ⟨_, rfl⟩
  · exact ⟨_, rfl⟩

/-! ## C11: `==` is not split -/

/-- C11, as the code has it: with `==` registered (whether or not `=` is), a
round of the tokenizer that starts at `==` and has room for a token adds one
Operator token that begins with both characters and goes on behind it, so no
Assign token is made for either `=`. The token is the longest registered
symbol that matches there, of length `m ≥ 2`: it is `==` itself unless a
longer registered symbol matches. -/
theorem double_equals_one_operator (K : Kernel) (line_num max_tokens fuel m : Nat)
    (rest : List Char) (st : TokenizerState)
    (hreg : ∃ d ∈ K.operator_list_head, d.op_str = "==")
    (hm : (match_operator_text K (EQUALS_CHAR :: EQUALS_CHAR :: rest)).1 = m)
    (hroom : st.tokens.length + 1 < max_tokens)
    (hstore : m + 1 < st.remaining_storage) :
    2 ≤ m
    ∧ tokenize_loop K line_num max_tokens (fuel + 1) (EQUALS_CHAR :: EQUALS_CHAR :: rest) st
        = tokenize_loop K line_num max_tokens fuel
            ((EQUALS_CHAR :: EQUALS_CHAR :: rest).drop m)
            { tokens := st.tokens ++
                [{ type := TOKEN_OPERATOR,
                   text := ⟨(EQUALS_CHAR :: EQUALS_CHAR :: rest).take m⟩,
                   len := m, line := line_num, col := st.current_col }],
              remaining_storage := st.remaining_storage - (m + 1),
              current_col := st.current_col + m }
    ∧ ((∀ d ∈ K.operator_list_head, d.op_str.data <+: EQUALS_CHAR :: EQUALS_CHAR :: rest →
          d.op_str.length ≤ 2) →
        tokenize_loop K line_num max_tokens (fuel + 1) (EQUALS_CHAR :: EQUALS_CHAR :: rest) st
          = tokenize_loop K line_num max_tokens fuel rest
              { tokens := st.tokens ++
                  [{ type := TOKEN_OPERATOR, text := "==", len := 2, line := line_num,
                     col := st.current_col }],
                remaining_storage := st.remaining_storage - 3,
                current_col := st.current_col + 2 }) := by
  obtain ⟨d, hd, hsym⟩ := hreg
  have hpre : d.op_str.data <+: EQUALS_CHAR :: EQUALS_CHAR :: rest := by
    rw [hsym]
    exact ⟨rest, rfl⟩
  have h2 : 2 ≤ m := by
    have := (match_operator_text_longest K (EQUALS_CHAR :: EQUALS_CHAR :: rest)).1 d hd hpre
    rw [hm, hsym] at this
    exact this
  have hscan : scan_token K (EQUALS_CHAR :: EQUALS_CHAR :: rest) = some (TOKEN_OPERATOR, m) := by
    rw [scan_token_equals K (EQUALS_CHAR :: EQUALS_CHAR :: rest) rfl,
      if_pos (by rw [hm]; omega), hm]
  have hspace : isspace (head_char (EQUALS_CHAR :: EQUALS_CHAR :: rest)) = false := rfl
  have hround := tokenize_loop_round K line_num max_tokens fuel
    (EQUALS_CHAR :: EQUALS_CHAR :: rest) st TOKEN_OPERATOR m (by simp) hspace hroom hstore
    hscan
  refine ⟨h2, hround, ?_⟩
  intro hlongest
  have hm2 : m = 2 := by
    obtain ⟨e, he, hepre, helen, _⟩ :=
      (match_operator_text_longest K (EQUALS_CHAR :: EQUALS_CHAR :: rest)).2.1
        (by rw [hm]; omega)
    have := hlongest e he hepre
    rw [hm] at helen
    omega
  rw [hround, hm2]
  rfl

/-- C11 with `=` and `==` registered, at the `==` of `== 1` in a round with
room: one Operator token `==`, and the loop goes on at the blank behind it. -/
theorem double_equals_one_operator_witness :
    tokenize_loop (kernel_with_symbols ["=", "=="]) 1 128 6 "== 1".data
        { tokens := [], remaining_storage := 4096, current_col := 1 }
      = tokenize_loop (kernel_with_symbols ["=", "=="]) 1 128 5 " 1".data
          { tokens := [⟨TOKEN_OPERATOR, "==", 2, 1, 1⟩], remaining_storage := 4093,
            current_col := 3 }
    ∧ advanced_tokenize_line (kernel_with_symbols ["=", "=="]) "$a == 1" 1 128 4096
        = .ok [⟨TOKEN_VARIABLE, "$a", 2, 1, 1⟩, ⟨TOKEN_OPERATOR, "==", 2, 1, 4⟩,
               ⟨TOKEN_NUMBER, "1", 1, 1, 7⟩, ⟨TOKEN_EOF, "EOF", 3, 1, 8⟩] :=
  ⟨(double_equals_one_operator (kernel_with_symbols ["=", "=="]) 1 128 5 2 " 1".data
      { tokens := [], remaining_storage := 4096, current_col := 1 }
      ⟨binary_operator "==" 10 ASSOC_LEFT "handler", by decide, rfl⟩ (by decide) (by decide)
      (by decide)).2.2 (by decide),
   by decide⟩

/-- C11 fails where a longer symbol is registered: with `==` and `===`
registered, the line `a === b` has `==` at the token start in column 3, and
the token there is the Operator `===`, not `==`. -/
theorem triple_equals_counterexample :
    advanced_tokenize_line (kernel_with_symbols ["==", "==="]) "a === b" 1 128 4096
      = .ok [⟨TOKEN_WORD, "a", 1, 1, 1⟩, ⟨TOKEN_OPERATOR, "===", 3, 1, 3⟩,
             ⟨TOKEN_WORD, "b", 1, 1, 7⟩, ⟨TOKEN_EOF, "EOF", 3, 1, 8⟩] := by
  decide

/-! ## C12: the longest registered symbol is the token -/

theorem fixed_punct_type_empty (K : Kernel) (p : List Char)
    (hfirst : ¬ taken_by_earlier_rule p)
    (heq : head_char p = EQUALS_CHAR → 1 < (match_operator_text K p).1) :
    fixed_punct_type K p = TOKEN_EMPTY := by
  unfold taken_by_earlier_rule at hfirst
  simp only [not_or] at hfirst
  obtain ⟨_, _, _, _, _, _, h1, h2, h3, h4, h5, h6, h7⟩ := hfirst
  unfold fixed_punct_type
  dsimp only
  rw [if_neg h1, if_neg h2, if_neg h3, if_neg h4, if_neg h5, if_neg h6, if_neg h7]
  by_cases he : head_char p = EQUALS_CHAR
  · rw [if_pos he, if_pos (heq he)]
  · rw [if_neg he]

theorem scan_token_operator (K : Kernel) (p : List Char)
    (hfirst : ¬ taken_by_earlier_rule p)
    (hpos : 0 < (match_operator_text K p).1)
    (heq : head_char p = EQUALS_CHAR → 1 < (match_operator_text K p).1) :
    scan_token K p = some (TOKEN_OPERATOR, (match_operator_text K p).1) := by
  have hpunct := fixed_punct_type_empty K p hfirst heq
  unfold taken_by_earlier_rule at hfirst
  simp only [not_or] at hfirst
  obtain ⟨_, h1, h2, h3, h4, h5, _⟩ := hfirst
  unfold scan_token
  dsimp only
  rw [if_neg h1, if_neg h2, if_neg h3, if_neg (by rintro (h | h); exact h4 h; exact h5 h),
    if_neg (by rw [hpunct]; simp), if_pos hpos]

/-- C12, as the code has it: for registered symbols `a` and `b`, `a` not empty
and a proper prefix of `b`, a line that begins with `b` tokenizes with the one
Operator token `b` first (in column 1), provided that no registered symbol
longer than `b` is a prefix of the line and that the first character of `b`
is not one an earlier rule of the tokenizer takes. (The token array holds two
tokens at least, and the storage every character of the line and a NUL for
every token.) -/
theorem longest_symbol_first_token (K : Kernel) (a b : String) (rest : List Char)
    (line_num max_tokens storage_size : Nat)
    (_ha : ∃ d ∈ K.operator_list_head, d.op_str = a)
    (hb : ∃ d ∈ K.operator_list_head, d.op_str = b)
    (hab : a.data <+: b.data) (hne : a ≠ b) (ha0 : a ≠ "")
    (hlongest : ∀ d ∈ K.operator_list_head, d.op_str.data <+: b.data ++ rest →
      d.op_str.length ≤ b.length)
    (hfirst : ¬ taken_by_earlier_rule (b.data ++ rest))
    (hmax : 2 ≤ max_tokens)
    (hstorage : (b.data ++ rest).length + max_tokens + 1 ≤ storage_size) :
    ∃ more, advanced_tokenize_line K ⟨b.data ++ rest⟩ line_num max_tokens storage_size
      = .ok ({ type := TOKEN_OPERATOR, text := b, len := b.length, line := line_num,
               col := 1 } :: more) := by
  obtain ⟨db, hdb, hsymb⟩ := hb
  -- `b` has two characters at least
  have halen : 0 < a.length := by
    rcases Nat.eq_zero_or_pos a.length with h0 | h0
    · exact absurd (String.ext (List.length_eq_zero.mp h0)) ha0
    · exact h0
  have hblen : a.length < b.length := by
    rcases Nat.lt_or_ge a.length b.length with h | h
    · exact h
    · exfalso
      apply hne
      apply String.ext
      exact List.IsPrefix.eq_of_length_le hab h
  -- the longest match at the start of the line is `b`
  have hprefix : db.op_str.data <+: b.data ++ rest := by
    rw [hsymb]; exact List.prefix_append _ _
  have hm : (match_operator_text K (b.data ++ rest)).1 = b.length := by
    have hge := (match_operator_text_longest K (b.data ++ rest)).1 db hdb hprefix
    rw [hsymb] at hge
    obtain ⟨e, he, hepre, helen, _⟩ :=
      (match_operator_text_longest K (b.data ++ rest)).2.1 (by omega)
    have := hlongest e he hepre
    omega
  have hscan : scan_token K (b.data ++ rest) = some (TOKEN_OPERATOR, b.length) := by
    rw [scan_token_operator K _ hfirst (by rw [hm]; omega) (fun _ => by rw [hm]; omega), hm]
  have hnonempty : b.data ++ rest ≠ [] := by
    intro h
    have : (b.data ++ rest).length = 0 := by rw [h]; rfl
    simp only [List.length_append, String.length] at this hblen
    omega
  have hspace : isspace (head_char (b.data ++ rest)) = false := by
    unfold taken_by_earlier_rule at hfirst
    simp only [not_or] at hfirst
    simpa using hfirst.1
  -- the first round adds the token, and the rest of the loop keeps it
  have hround := tokenize_loop_round K line_num max_tokens
    ((b.data ++ rest).length + max_tokens) (b.data ++ rest)
    { tokens := [], remaining_storage := storage_size, current_col := 1 }
    TOKEN_OPERATOR b.length hnonempty hspace (by simpa using hmax)
    (by simp only [List.length_append, String.length] at hstorage ⊢; omega) hscan
  simp only [List.take_left', List.drop_left', List.nil_append, String.length] at hround
  obtain ⟨st1, hst1, hpre⟩ := tokenize_loop_total K line_num max_tokens
    ((b.data ++ rest).length + max_tokens) rest
    { tokens := [{ type := TOKEN_OPERATOR, text := b, len := b.length, line := line_num,
                   col := 1 }],
      remaining_storage := storage_size - (b.length + 1),
      current_col := 1 + b.length }
    (by simp only [List.length_append, List.length_singleton, String.length] at hblen ⊢; omega)
    (by simp only [List.length_append, List.length_singleton, String.length] at hstorage hblen ⊢
        omega)
  obtain ⟨tail, htail⟩ := hpre
  unfold advanced_tokenize_line
  simp only [String.length]
  rw [show (b.data ++ rest).length + max_tokens + 1
      = ((b.data ++ rest).length + max_tokens) + 1 from rfl, hround]
  simp only [String.length] at hst1
  rw [hst1]
  dsimp only
  rw [← htail]
  split
  · exact ⟨tail ++ _, rfl⟩
  · exact ⟨tail, rfl⟩

/-- C12 with `<` and `<=` registered: the line `<= 1` starts with the one
Operator token `<=`. -/
theorem longest_symbol_first_token_witness :
    (∃ more, advanced_tokenize_line (kernel_with_symbols ["<", "<="]) "<= 1" 1 128 4096
      = .ok (⟨TOKEN_OPERATOR, "<=", 2, 1, 1⟩ :: more))
    ∧ advanced_tokenize_line (kernel_with_symbols ["<", "<="]) "<= 1" 1 128 4096
        = .ok [⟨TOKEN_OPERATOR, "<=", 2, 1, 1⟩, ⟨TOKEN_NUMBER, "1", 1, 1, 4⟩,
               ⟨TOKEN_EOF, "EOF", 3, 1, 5⟩] :=
  ⟨longest_symbol_first_token (kernel_with_symbols ["<", "<="]) "<" "<=" " 1".data 1 128 4096
      ⟨binary_operator "<" 10 ASSOC_LEFT "handler", by decide, rfl⟩
      ⟨binary_operator "<=" 10 ASSOC_LEFT "handler", by decide, rfl⟩
      (by decide) (by decide) (by decide) (by decide) (by decide) (by decide) (by decide),
   by decide⟩

/-- C12 fails for a symbol whose first character an earlier rule takes, and
where a longer symbol matches: with `[` and `[[` registered, the line `[[ x`
starts with the LBracket token `[`; with `=`, `==` and `===` registered, the
line `=== 1`, which begins with `==`, starts with the Operator token `===`. -/
theorem symbol_behind_earlier_rule_counterexample :
    advanced_tokenize_line (kernel_with_symbols ["[", "[["]) "[[ x" 1 128 4096
      = .ok [⟨TOKEN_LBRACKET, "[", 1, 1, 1⟩, ⟨TOKEN_LBRACKET, "[", 1, 1, 2⟩,
             ⟨TOKEN_WORD, "x", 1, 1, 4⟩, ⟨TOKEN_EOF, "EOF", 3, 1, 5⟩]
    ∧ advanced_tokenize_line (kernel_with_symbols ["=", "==", "==="]) "=== 1" 1 128 4096
      = .ok [⟨TOKEN_OPERATOR, "===", 3, 1, 1⟩, ⟨TOKEN_NUMBER, "1", 1, 1, 5⟩,
             ⟨TOKEN_EOF, "EOF", 3, 1, 6⟩] := by
  constructor <;> decide

/-! ## C21: a name of nothing but whitespace -/

/-- C21: `set_variable_scoped` with the empty name leaves every store as it
is; with the name of three blanks it adds a variable whose name is the three
blanks, which `get_variable_scoped` then finds under that name. The call
`trim_whitespace (clean_name);` returns from before its one write when the
buffer holds nothing but whitespace, so the buffer is not emptied. -/
theorem whitespace_only_name_creates_variable :
    (∀ (K : Kernel) (value : String) (flag : Bool), set_variable_scoped "" value flag K = K)
    ∧ (set_variable_scoped "   " "1" false global_kernel).variable_list_head
        = [{ name := "   ", value := "1", is_array_element := false, scope_id := 0 }]
    ∧ set_variable_scoped "   " "1" false global_kernel ≠ global_kernel
    ∧ get_variable_scoped (set_variable_scoped "   " "1" false global_kernel) "   " = some "1"
    ∧ trim_whitespace "   " = "" := by
  refine ⟨?_, by decide, by decide, by decide, by decide⟩
  intro K value flag
  unfold set_variable_scoped
  cases K.scope_stack with
  | nil => rfl
  | cons top rest => rfl

/-! ## C22: array elements -/

/-- C22: after `$i` is set to `3`, `set_array_element_scoped ("arr", "$i", "v")`
stores the value under `arr_ARRAYIDX_3`, and `get_array_element_scoped
("arr", "$i")` looks up `arr_ARRAYIDX_$i` and finds nothing; the same with
the quoted index `"k"`, stored under `arr_ARRAYIDX_k`. The element is read
back with the normalised index, and a plain index is read back as it is. -/
theorem array_get_skips_index_normalisation :
    get_array_element_scoped "arr" "$i"
        (set_array_element_scoped "arr" "$i" "v"
          (set_variable_scoped "i" "3" false global_kernel)) = none
    ∧ get_array_element_scoped "arr" "3"
        (set_array_element_scoped "arr" "$i" "v"
          (set_variable_scoped "i" "3" false global_kernel)) = some "v"
    ∧ get_array_element_scoped "arr" "\"k\""
        (set_array_element_scoped "arr" "\"k\"" "v" global_kernel) = none
    ∧ get_array_element_scoped "arr" "k"
        (set_array_element_scoped "arr" "\"k\"" "v" global_kernel) = some "v"
    ∧ get_array_element_scoped "arr" "3"
        (set_array_element_scoped "arr" "3" "v" global_kernel) = some "v" := by
  decide

theorem trim_whitespace_in_place_ne_nil (s : String) (h : s.data ≠ []) :
    (trim_whitespace_in_place s).data ≠ [] := by
  unfold trim_whitespace_in_place
  by_cases hall : s.data.all isspace = true
  · rw [if_pos hall]; exact h
  · rw [if_neg hall]
    simp only [ne_eq, List.reverse_eq_nil_iff, List.dropWhile_eq_nil_iff, List.mem_reverse]
    intro hsp
    exact hall (List.all_eq_true.mpr hsp)

theorem clean_variable_name_ne_empty (s : String) (h : s.data ≠ []) :
    clean_variable_name s ≠ "" := by
  unfold clean_variable_name
  intro he
  have hcopy : (strncpy_str (MAX_VAR_NAME_LEN - 1) s).data ≠ [] := by
    obtain ⟨c, cs, hc⟩ := List.exists_cons_of_ne_nil h
    simp [strncpy_str, hc, MAX_VAR_NAME_LEN]
  exact trim_whitespace_in_place_ne_nil _ hcopy (by rw [he])

/-- With a plain index (one of at most 4095 characters that does not start with
`$` and is not in double quotes) the element that was written is read back. -/
theorem array_round_trip_plain_index (K : Kernel) (base index value : String)
    (top : ScopeFrame) (rest : List ScopeFrame) (hstack : K.scope_stack = top :: rest)
    (hlen : index.length ≤ INPUT_BUFFER_SIZE - 1)
    (hquote : ¬ (head_char index.data = DQUOTE
                  ∧ char_at index.data (index.length - 1) = DQUOTE))
    (hdollar : head_char index.data ≠ DOLLAR) :
    get_array_element_scoped base index (set_array_element_scoped base index value K)
      = some value := by
  unfold get_array_element_scoped set_array_element_scoped
  simp only [strncpy_str_of_le _ _ hlen, if_neg hquote, if_neg hdollar]
  apply get_after_set K _ value true top rest hstack
  apply clean_variable_name_ne_empty
  simp [strncpy_str, MAX_VAR_NAME_LEN, String.data_append]

/-! ## The text the expander writes -/

theorem ExpandOut.insert_eq (o : ExpandOut) (w : List Char) :
    o.insert w = ⟨o.out ++ w.take o.remaining_size, o.remaining_size - w.length⟩ := by
  unfold ExpandOut.insert
  by_cases h : w.length ≤ o.remaining_size
  · rw [if_pos h, List.take_of_length_le h]
  · rw [if_neg h]
    have : o.remaining_size - w.length = 0 := by omega
    rw [this]

theorem ExpandOut.insert_nil (o : ExpandOut) : o.insert [] = o := by
  cases o
  simp [ExpandOut.insert_eq]

theorem ExpandOut.insert_of_full (o : ExpandOut) (w : List Char) (h : o.remaining_size = 0) :
    o.insert w = o := by
  cases o
  simp only at h
  subst h
  simp [ExpandOut.insert_eq]

theorem ExpandOut.put_eq_insert (o : ExpandOut) (c : Char) : o.put c = o.insert [c] := by
  unfold ExpandOut.put
  by_cases h : 0 < o.remaining_size
  · rw [if_pos h, ExpandOut.insert_eq]
    have : [c].take o.remaining_size = [c] := List.take_of_length_le (by simpa using h)
    rw [this]
    rfl
  · rw [if_neg h, ExpandOut.insert_of_full o _ (by omega)]

theorem ExpandOut.insert_insert (o : ExpandOut) (a b : List Char) :
    (o.insert a).insert b = o.insert (a ++ b) := by
  simp only [ExpandOut.insert_eq, List.take_append_eq_append_take, List.length_append,
    List.append_assoc, Nat.sub_sub]

/-- The `$` branch moves to a position and writes a text that do not depend
on the output cursor. -/
theorem expand_reference_writes (K : Kernel) (p : List Char) :
    ∃ q w, ∀ o : ExpandOut, expand_reference K p o = (q, o.insert w) := by
  unfold expand_reference
  generalize parse_base_name p = r
  obtain ⟨seg, q, last⟩ := r
  dsimp only
  by_cases hseg : seg = []
  · simp only [hseg, if_true]
    by_cases h1 : last = LBRACE_CHAR
    · have h2 : ¬ last = RBRACE_CHAR := by rw [h1]; decide
      exact ⟨q, [DOLLAR, LBRACE_CHAR], fun o => by
        simp only [h1, h2, if_true, if_false, ExpandOut.put_eq_insert,
          ExpandOut.insert_insert]; rfl⟩
    · by_cases h2 : last = RBRACE_CHAR
      · exact ⟨q, [DOLLAR, RBRACE_CHAR], fun o => by
          rw [if_neg h1, if_pos h2, ExpandOut.put_eq_insert, ExpandOut.put_eq_insert,
            ExpandOut.insert_insert]; rfl⟩
      · exact ⟨q, [DOLLAR], fun o => by
          simp only [h1, h2, if_false, ExpandOut.put_eq_insert]⟩
  · simp only [hseg, if_false]
    cases hget : get_variable_scoped K
        (expand_property_chain K (q.length + 1)
          (strncpy_str (MAX_VAR_NAME_LEN * 4 - 1) ⟨seg⟩) q).1 with
    | none => exact ⟨_, [], fun o => by rw [ExpandOut.insert_nil]⟩
    | some v => exact ⟨_, v.data, fun o => rfl⟩

theorem expand_loop_full (K : Kernel) (fuel : Nat) (p : List Char) (o : ExpandOut)
    (h : o.remaining_size = 0) : expand_loop K fuel p o = o := by
  cases fuel with
  | zero => rfl
  | succ n =>
    rw [expand_loop, if_pos (by simp [h])]

theorem expand_loop_end (K : Kernel) (fuel : Nat) (p : List Char) (o : ExpandOut)
    (h : head_char p = NUL) : expand_loop K fuel p o = o := by
  cases fuel with
  | zero => rfl
  | succ n =>
    rw [expand_loop, if_pos (by simp [h])]

theorem expand_loop_dollar (K : Kernel) (n : Nat) (p : List Char) (o : ExpandOut)
    (hr : 0 < o.remaining_size) (hd : head_char p = DOLLAR) :
    expand_loop K (n + 1) p o
      = expand_loop K n (expand_reference K p.tail o).1 (expand_reference K p.tail o).2 := by
  have h0 : head_char p ≠ NUL := by rw [hd]; decide
  rw [expand_loop, if_neg (by simp [h0, hr]), if_pos hd]

theorem expand_loop_escape (K : Kernel) (n : Nat) (p : List Char) (o : ExpandOut)
    (hr : 0 < o.remaining_size) (hb : head_char p = BACKSLASH)
    (hnext : head_char p.tail = DOLLAR) :
    expand_loop K (n + 1) p o = expand_loop K n p.tail.tail (o.put DOLLAR) := by
  have h0 : head_char p ≠ NUL := by rw [hb]; decide
  have hd : head_char p ≠ DOLLAR := by rw [hb]; decide
  rw [expand_loop, if_neg (by simp [h0, hr]), if_neg hd, if_pos (by simp [hb, hnext])]

theorem expand_loop_copy (K : Kernel) (n : Nat) (p : List Char) (o : ExpandOut)
    (hr : 0 < o.remaining_size) (h0 : head_char p ≠ NUL) (hd : head_char p ≠ DOLLAR)
    (hb : ¬ (head_char p = BACKSLASH ∧ head_char p.tail = DOLLAR)) :
    expand_loop K (n + 1) p o = expand_loop K n p.tail (o.put (head_char p)) := by
  rw [expand_loop, if_neg (by simp [h0, hr]), if_neg hd, if_neg (by simpa using hb)]

/-- The loop writes, as far as there is room, a text that does not depend on
the output cursor. -/
theorem expand_loop_writes (K : Kernel) (fuel : Nat) (p : List Char) :
    ∃ W, ∀ o : ExpandOut, expand_loop K fuel p o = o.insert W := by
  induction fuel generalizing p with
  | zero => exact ⟨[], fun o => by rw [ExpandOut.insert_nil]; rfl⟩
  | succ n ih =>
    by_cases h0 : head_char p = NUL
    · exact ⟨[], fun o => by rw [expand_loop_end K _ p o h0, ExpandOut.insert_nil]⟩
    · by_cases hd : head_char p = DOLLAR
      · obtain ⟨q, w, hw⟩ := expand_reference_writes K p.tail
        obtain ⟨W, hW⟩ := ih q
        refine ⟨w ++ W, fun o => ?_⟩
        by_cases hr : 0 < o.remaining_size
        · rw [expand_loop_dollar K n p o hr hd, hw, hW, ExpandOut.insert_insert]
        · rw [expand_loop_full K _ p o (Nat.eq_zero_of_not_pos hr),
            ExpandOut.insert_of_full o _ (Nat.eq_zero_of_not_pos hr)]
      · by_cases hb : head_char p = BACKSLASH ∧ head_char p.tail = DOLLAR
        · obtain ⟨W, hW⟩ := ih p.tail.tail
          refine ⟨[DOLLAR] ++ W, fun o => ?_⟩
          by_cases hr : 0 < o.remaining_size
          · rw [expand_loop_escape K n p o hr hb.1 hb.2, hW, ExpandOut.put_eq_insert,
              ExpandOut.insert_insert]
          · rw [expand_loop_full K _ p o (Nat.eq_zero_of_not_pos hr),
              ExpandOut.insert_of_full o _ (Nat.eq_zero_of_not_pos hr)]
        · obtain ⟨W, hW⟩ := ih p.tail
          refine ⟨[head_char p] ++ W, fun o => ?_⟩
          by_cases hr : 0 < o.remaining_size
          · rw [expand_loop_copy K n p o hr h0 hd hb, hW, ExpandOut.put_eq_insert,
              ExpandOut.insert_insert]
          · rw [expand_loop_full K _ p o (Nat.eq_zero_of_not_pos hr),
              ExpandOut.insert_of_full o _ (Nat.eq_zero_of_not_pos hr)]

theorem expand_loop_copy_run (K : Kernel) (pre rest : List Char) (fuel : Nat) (o : ExpandOut)
    (hpre : ∀ c ∈ pre, c ≠ DOLLAR ∧ c ≠ NUL)
    (hesc : pre.getLast? ≠ some BACKSLASH ∨ head_char rest ≠ DOLLAR) :
    expand_loop K (fuel + pre.length) (pre ++ rest) o = expand_loop K fuel rest (o.insert pre) := by
  induction pre generalizing o with
  | nil => rw [ExpandOut.insert_nil]; rfl
  | cons c cs ih =>
    by_cases hr : 0 < o.remaining_size
    · have hc := hpre c (List.mem_cons_self _ _)
      have hb : ¬ (head_char (c :: cs ++ rest) = BACKSLASH
                    ∧ head_char (c :: cs ++ rest).tail = DOLLAR) := by
        rintro ⟨h1, h2⟩
        cases cs with
        | nil =>
          rcases hesc with h | h
          · exact h (by rw [show c = BACKSLASH from h1]; rfl)
          · exact h h2
        | cons d ds => exact (hpre d (by simp)).1 h2
      have hesc2 : cs.getLast? ≠ some BACKSLASH ∨ head_char rest ≠ DOLLAR := by
        cases cs with
        | nil => exact Or.inl (by simp)
        | cons d ds =>
          rcases hesc with h | h
          · exact Or.inl (by rwa [List.getLast?_cons_cons] at h)
          · exact Or.inr h
      have hstep := expand_loop_copy K (fuel + cs.length) (c :: cs ++ rest) o hr hc.2 hc.1 hb
      rw [show fuel + (c :: cs).length = fuel + cs.length + 1 from rfl, hstep]
      rw [show (c :: cs ++ rest).tail = cs ++ rest from rfl,
        show head_char (c :: cs ++ rest) = c from rfl,
        ih _ (fun x hx => hpre x (List.mem_cons_of_mem _ hx)) hesc2,
        ExpandOut.put_eq_insert, ExpandOut.insert_insert]
      rfl
    · have hz := Nat.eq_zero_of_not_pos hr
      rw [expand_loop_full K _ _ o hz, ExpandOut.insert_of_full o _ hz, expand_loop_full K _ _ o hz]

theorem expand_loop_copy_all (K : Kernel) (text : List Char) (fuel : Nat) (o : ExpandOut)
    (htext : ∀ c ∈ text, c ≠ DOLLAR ∧ c ≠ NUL) :
    expand_loop K (fuel + text.length) text o = o.insert text := by
  have h := expand_loop_copy_run K text [] fuel o htext (Or.inr (by decide))
  rw [List.append_nil] at h
  rw [h, expand_loop_end K fuel [] _ rfl]

theorem takeWhile_append_stop (f : Char → Bool) (a rest : List Char)
    (h1 : ∀ c ∈ a, f c = true) (h2 : f (head_char rest) = false) :
    (a ++ rest).takeWhile f = a := by
  induction a with
  | nil =>
    cases rest with
    | nil => rfl
    | cons d ds =>
      have : f d = false := h2
      simp [List.takeWhile, this]
  | cons c cs ih =>
    have hc := h1 c (List.mem_cons_self _ _)
    simp only [List.cons_append, List.takeWhile_cons, hc, if_true]
    rw [ih (fun x hx => h1 x (List.mem_cons_of_mem _ hx))]

theorem is_name_char_ne (c : Char) (h : is_name_char c = true) :
    c ≠ NUL ∧ c ≠ LBRACE_CHAR ∧ c ≠ RBRACE_CHAR ∧ c ≠ DOT ∧ c ≠ DOLLAR := by
  refine ⟨?_, ?_, ?_, ?_, ?_⟩ <;> (intro hc; subst hc; revert h; decide)

theorem scan_name_segment_append (name rest : List Char)
    (hname : ∀ c ∈ name, is_name_char c = true) (hlen : name.length ≤ MAX_VAR_NAME_LEN - 1)
    (hrest : is_name_char (head_char rest) = false) :
    scan_name_segment (name ++ rest) = (name, rest) := by
  unfold scan_name_segment
  rw [takeWhile_append_stop is_name_char name rest hname hrest]
  simp only [List.take_of_length_le hlen, List.drop_left]

theorem scan_braced_segment_append (name rest : List Char)
    (hname : ∀ c ∈ name, is_name_char c = true) (hlen : name.length ≤ MAX_VAR_NAME_LEN - 1) :
    scan_braced_segment (name ++ RBRACE_CHAR :: rest) = (name, RBRACE_CHAR :: rest) := by
  unfold scan_braced_segment
  rw [takeWhile_append_stop (fun c => c ≠ NUL && c ≠ RBRACE_CHAR) name (RBRACE_CHAR :: rest)
    (fun c hc => by
      have h := is_name_char_ne c (hname c hc)
      simp [h.1, h.2.2.1])
    (by simp [head_char])]
  simp only [List.take_of_length_le hlen, List.drop_left]

/-- The pass for a property after the base name never reads a property: it is
entered with `*p_in == '.'`, the dot is not consumed, and a dot is neither a
`$` nor a name character, so the segment is empty and the loop is left. -/
theorem expand_property_chain_id (K : Kernel) (fuel : Nat) (mangled : String) (p : List Char) :
    expand_property_chain K fuel mangled p = (mangled, p) := by
  cases fuel with
  | zero => rfl
  | succ n =>
    unfold expand_property_chain
    by_cases hdot : head_char p = DOT
    · rw [if_pos hdot]
      have hseg : expand_property_segment K mangled p = none := by
        unfold expand_property_segment
        have hnd : ¬ head_char p = DOLLAR := by rw [hdot]; decide
        have hscan : scan_name_segment p = ([], p) := by
          have := scan_name_segment_append [] p (by simp) (by simp)
            (by rw [hdot]; decide)
          simpa using this
        simp [hnd, hscan]
      rw [hseg]
    · rw [if_neg hdot]

theorem parse_base_name_plain (name rest : List Char) (hne : name ≠ [])
    (hname : ∀ c ∈ name, is_name_char c = true) (hlen : name.length ≤ MAX_VAR_NAME_LEN - 1)
    (hrest : is_name_char (head_char rest) = false) :
    parse_base_name (name ++ rest) = (name, rest, (DOLLAR :: name).getLastD NUL) := by
  unfold parse_base_name
  obtain ⟨c, cs, rfl⟩ := List.exists_cons_of_ne_nil hne
  have hc := (is_name_char_ne c (hname c (List.mem_cons_self _ _))).2.1
  have hhead : ¬ head_char (c :: cs ++ rest) = LBRACE_CHAR := hc
  rw [if_neg hhead, scan_name_segment_append _ _ hname hlen hrest]

theorem parse_base_name_braced (name rest : List Char)
    (hname : ∀ c ∈ name, is_name_char c = true) (hlen : name.length ≤ MAX_VAR_NAME_LEN - 1) :
    parse_base_name (LBRACE_CHAR :: (name ++ RBRACE_CHAR :: rest)) = (name, rest, RBRACE_CHAR) := by
  unfold parse_base_name
  have hhead : head_char (LBRACE_CHAR :: (name ++ RBRACE_CHAR :: rest)) = LBRACE_CHAR := rfl
  rw [if_pos hhead, List.tail_cons, scan_braced_segment_append _ _ hname hlen]
  rfl

theorem expand_reference_of_segment (K : Kernel) (p seg q : List Char) (last : Char)
    (o : ExpandOut) (hparse : parse_base_name p = (seg, q, last)) (hne : seg ≠ [])
    (hlen : seg.length ≤ MAX_VAR_NAME_LEN - 1) :
    expand_reference K p o = (q, o.insert ((get_variable_scoped K ⟨seg⟩).getD "").data) := by
  unfold expand_reference
  rw [hparse]
  dsimp only
  rw [if_neg hne, expand_property_chain_id]
  have hcopy : strncpy_str (MAX_VAR_NAME_LEN * 4 - 1) ⟨seg⟩ = ⟨seg⟩ :=
    strncpy_str_of_le _ _ (Nat.le_trans hlen (by decide))
  rw [hcopy]
  cases get_variable_scoped K ⟨seg⟩ with
  | none =>
    show (q, o) = (q, o.insert [])
    rw [ExpandOut.insert_nil]
  | some v => rfl

theorem expand_loop_reference (K : Kernel) (n : Nat) (p seg q : List Char) (last : Char)
    (o : ExpandOut) (hparse : parse_base_name p = (seg, q, last)) (hne : seg ≠ [])
    (hlen : seg.length ≤ MAX_VAR_NAME_LEN - 1) :
    expand_loop K (n + 1) (DOLLAR :: p) o
      = expand_loop K n q (o.insert ((get_variable_scoped K ⟨seg⟩).getD "").data) := by
  by_cases hr : 0 < o.remaining_size
  · rw [expand_loop_dollar K n (DOLLAR :: p) o hr rfl, List.tail_cons,
      expand_reference_of_segment K p seg q last o hparse hne hlen]
  · have hz := Nat.eq_zero_of_not_pos hr
    rw [expand_loop_full K _ _ o hz, ExpandOut.insert_of_full o _ hz, expand_loop_full K _ _ o hz]

theorem expand_out_of_insert (size : Nat) (w : List Char) :
    ((⟨[], size - 1⟩ : ExpandOut).insert w).out = w.take (size - 1) := by
  rw [ExpandOut.insert_eq]
  rfl

/-! ## C23: dotted property access -/

/-- C23: with `user_name` bound to `ada` and `user_age` to `36`, `$user.name`
expands to `.name` and `$user.age` to `.age`: the variable looked up is
`user`, which is not bound, and the dot and the property name are copied as
text; with `user` bound to `u` the output is `u.name`. For every store, name
and input position the passes for the properties leave the mangled name and
the position as they are, since the dot they are entered at is not consumed. -/
theorem dotted_reference_reads_base_only :
    get_variable_scoped user_record_kernel "user_name" = some "ada"
    ∧ get_variable_scoped user_record_kernel "user_age" = some "36"
    ∧ expand_variables_in_string_advanced user_record_kernel "$user.name" INPUT_BUFFER_SIZE
        = ".name"
    ∧ expand_variables_in_string_advanced user_record_kernel "$user.age" INPUT_BUFFER_SIZE
        = ".age"
    ∧ expand_variables_in_string_advanced
        (set_variable_scoped "user" "u" false user_record_kernel) "$user.name" INPUT_BUFFER_SIZE
        = "u.name"
    ∧ ∀ (K : Kernel) (fuel : Nat) (mangled : String) (p : List Char),
        expand_property_chain K fuel mangled p = (mangled, p) :=
  ⟨by decide, by decide, by decide, by decide, by decide, expand_property_chain_id⟩

/-! ## C25: a `$` without a name -/

/-- C25: in every store `${}` expands to `$}`: the opening brace is consumed
and not written, because only the one character before the input position,
the closing brace, is looked at. A `$` at the end of the input, a `$` before
a blank and `${` at the end of the input are written as they are, and
whenever the character after the `$` is neither a name character nor `{`
the reference writes `$` and consumes nothing more. -/
theorem empty_braces_lose_opening_brace :
    (∀ K : Kernel, expand_variables_in_string_advanced K "$\x7b\x7d" INPUT_BUFFER_SIZE = "$\x7d")
    ∧ (∀ K : Kernel, expand_variables_in_string_advanced K "a$\x7b\x7db" INPUT_BUFFER_SIZE = "a$\x7db")
    ∧ (∀ K : Kernel, expand_variables_in_string_advanced K "$" INPUT_BUFFER_SIZE = "$")
    ∧ (∀ K : Kernel, expand_variables_in_string_advanced K "$ x" INPUT_BUFFER_SIZE = "$ x")
    ∧ (∀ K : Kernel, expand_variables_in_string_advanced K "$\x7b" INPUT_BUFFER_SIZE = "$\x7b")
    ∧ ∀ (K : Kernel) (p : List Char) (o : ExpandOut),
        is_name_char (head_char p) = false → head_char p ≠ LBRACE_CHAR →
          expand_reference K p o = (p, o.put DOLLAR) := by
  refine ⟨fun K => rfl, fun K => rfl, fun K => rfl, fun K => rfl, fun K => rfl, ?_⟩
  intro K p o hname hbrace
  have hscan : scan_name_segment p = ([], p) := by
    have := scan_name_segment_append [] p (by simp) (by simp) hname
    simpa using this
  unfold expand_reference parse_base_name
  rw [if_neg hbrace, hscan]
  rfl

/-! ## C26: truncation -/

/-- C26: for every store, input and buffer size `n >= 1` there is a string
`full`, the expansion with an unlimited buffer: every buffer with room for
it (`m > full.length`) gets exactly `full`; the output for size `n` has
fewer than `n` characters, so at most `n - 1`, and is the first
`min (n - 1, L)` characters of `full`, `L` being the length of `full`. -/
theorem expansion_truncates_to_prefix (K : Kernel) (input_str : String) (n : Nat)
    (hn : 1 ≤ n) :
    ∃ full : String,
      (∀ m, full.length < m → expand_variables_in_string_advanced K input_str m = full)
      ∧ (expand_variables_in_string_advanced K input_str n).length < n
      ∧ expand_variables_in_string_advanced K input_str n
          = ⟨full.data.take (min (n - 1) full.length)⟩ := by
  obtain ⟨W, hW⟩ := expand_loop_writes K (input_str.length + 1) input_str.data
  have hout : ∀ m, 1 ≤ m →
      expand_variables_in_string_advanced K input_str m = ⟨W.take (m - 1)⟩ := by
    intro m hm
    unfold expand_variables_in_string_advanced
    rw [hW, size_t_pred_of_pos m hm, expand_out_of_insert]
  refine ⟨⟨W⟩, ?_, ?_, ?_⟩
  · intro m hm
    rw [hout m (by omega), List.take_of_length_le (by simp only [String.length] at hm; omega)]
  · have := expand_length_le K input_str n hn
    omega
  · rw [hout n hn]
    congr 1
    simp only [String.length]
    rcases Nat.le_total (n - 1) W.length with h | h
    · rw [Nat.min_eq_left h]
    · rw [Nat.min_eq_right h, List.take_of_length_le h, List.take_of_length_le (Nat.le_refl _)]

/-- The store where `x` is `123` and the line `ab$x`: a buffer of 3 bytes gets
`ab`, a buffer of 5 bytes `ab12`, and the full expansion is `ab123`. -/
theorem expansion_truncates_to_prefix_witness :
    (1 ≤ 3 ∧ ∃ full : String,
      (∀ m, full.length < m →
        expand_variables_in_string_advanced (set_variable_scoped "x" "123" false global_kernel)
          "ab$x" m = full)
      ∧ (expand_variables_in_string_advanced (set_variable_scoped "x" "123" false global_kernel)
          "ab$x" 3).length < 3
      ∧ expand_variables_in_string_advanced (set_variable_scoped "x" "123" false global_kernel)
          "ab$x" 3 = ⟨full.data.take (min (3 - 1) full.length)⟩)
    ∧ expand_variables_in_string_advanced (set_variable_scoped "x" "123" false global_kernel)
        "ab$x" 3 = "ab"
    ∧ expand_variables_in_string_advanced (set_variable_scoped "x" "123" false global_kernel)
        "ab$x" 5 = "ab12"
    ∧ expand_variables_in_string_advanced (set_variable_scoped "x" "123" false global_kernel)
        "ab$x" INPUT_BUFFER_SIZE = "ab123" :=
  ⟨⟨by decide, expansion_truncates_to_prefix
      (set_variable_scoped "x" "123" false global_kernel) "ab$x" 3 (by decide)⟩,
   by decide, by decide, by decide⟩

/-! ## Registration in the operator registry -/

theorem redefine_operator_none (s : String) (tt : TokenType) (r : OperatorType) (pr : Int)
    (a : OperatorAssociativity) (h : String) (l : List OperatorDefinition) :
    redefine_operator s tt r pr a h l = none ↔ ∀ d ∈ l, d.op_str ≠ s := by
  induction l with
  | nil => simp [redefine_operator]
  | cons d ds ih =>
    unfold redefine_operator
    by_cases hd : d.op_str = s
    · simp [hd]
    · simp [hd, ih]

theorem redefine_operator_some (s : String) (tt : TokenType) (r : OperatorType) (pr : Int)
    (a : OperatorAssociativity) (h : String) (l l1 : List OperatorDefinition)
    (hl : redefine_operator s tt r pr a h l = some l1) :
    ∃ pre d post, l = pre ++ d :: post ∧ (∀ u ∈ pre, u.op_str ≠ s) ∧ d.op_str = s
      ∧ l1 = pre ++ { d with token_type := tt, op_type_prop := r, precedence := pr,
                             associativity := a,
                             bsh_handler_name := strncpy_str (MAX_VAR_NAME_LEN - 1) h } :: post := by
  induction l generalizing l1 with
  | nil => simp [redefine_operator] at hl
  | cons d ds ih =>
    unfold redefine_operator at hl
    by_cases hd : d.op_str = s
    · rw [if_pos hd] at hl
      exact ⟨[], d, ds, rfl, by simp, hd, (Option.some.inj hl).symm⟩
    · rw [if_neg hd] at hl
      cases hrec : redefine_operator s tt r pr a h ds with
      | none => rw [hrec] at hl; cases hl
      | some l2 =>
        rw [hrec] at hl
        obtain ⟨pre, d1, post, h1, h2, h3, h4⟩ := ih l2 hrec
        refine ⟨d :: pre, d1, post, by rw [h1]; rfl, ?_, h3, ?_⟩
        · intro u hu
          rcases List.mem_cons.mp hu with rfl | hu
          · exact hd
          · exact h2 u hu
        · rw [← Option.some.inj hl, h4]; rfl

theorem find_operator_append (pre post : List OperatorDefinition) (d : OperatorDefinition)
    (s : String) (hpre : ∀ u ∈ pre, u.op_str ≠ s) :
    (pre ++ d :: post).find? (fun x => x.op_str = s)
      = if d.op_str = s then some d else post.find? (fun x => x.op_str = s) := by
  induction pre with
  | nil =>
    by_cases hd : d.op_str = s
    · simp [List.find?, hd]
    · simp [List.find?, hd]
  | cons u us ih =>
    have hu := hpre u (List.mem_cons_self _ _)
    simp only [List.cons_append, List.find?_cons, hu, decide_False]
    exact ih (fun x hx => hpre x (List.mem_cons_of_mem _ hx))

theorem find_operator_append_other (pre post : List OperatorDefinition)
    (d d1 : OperatorDefinition) (s : String) (hd : d1.op_str = d.op_str) (hne : d.op_str ≠ s) :
    (pre ++ d1 :: post).find? (fun x => x.op_str = s)
      = (pre ++ d :: post).find? (fun x => x.op_str = s) := by
  induction pre with
  | nil => simp [List.find?, hd, hne]
  | cons u us ih =>
    simp only [List.cons_append, List.find?_cons]
    rw [ih]

/-- What `add_operator_definition` does for a symbol of at most 16 characters:
either the registry had the symbol and its first definition is updated in
place, or it had not and the new definition is put at the head. -/
theorem add_operator_definition_cases (K : Kernel) (s : String) (tt : TokenType)
    (r : OperatorType) (pr : Int) (a : OperatorAssociativity) (h : String)
    (hs : s.length ≤ MAX_OPERATOR_LEN) :
    (∃ pre d post, K.operator_list_head = pre ++ d :: post ∧ (∀ u ∈ pre, u.op_str ≠ s)
        ∧ d.op_str = s
        ∧ add_operator_definition s tt r pr a h K
            = { K with operator_list_head :=
                  pre ++ { op_str := s, token_type := tt, op_type_prop := r, precedence := pr,
                           associativity := a,
                           bsh_handler_name := strncpy_str (MAX_VAR_NAME_LEN - 1) h } :: post })
    ∨ ((∀ d ∈ K.operator_list_head, d.op_str ≠ s)
        ∧ add_operator_definition s tt r pr a h K
            = { K with operator_list_head :=
                  { op_str := s, token_type := tt, op_type_prop := r, precedence := pr,
                    associativity := a,
                    bsh_handler_name := strncpy_str (MAX_VAR_NAME_LEN - 1) h }
                  :: K.operator_list_head }) := by
  unfold add_operator_definition
  rw [if_neg (by omega)]
  cases hre : redefine_operator s tt r pr a h K.operator_list_head with
  | none =>
    right
    refine ⟨(redefine_operator_none s tt r pr a h _).mp hre, ?_⟩
    simp only [strncpy_str_of_le _ _ hs]
  | some l1 =>
    left
    obtain ⟨pre, d, post, h1, h2, h3, h4⟩ := redefine_operator_some s tt r pr a h _ l1 hre
    refine ⟨pre, d, post, h1, h2, h3, ?_⟩
    simp only [h4]
    congr 3
    cases d
    simp only at h3
    subst h3
    rfl

/-- The definition found under the symbol after a registration. -/
theorem get_after_add_operator (K : Kernel) (s : String) (tt : TokenType)
    (r : OperatorType) (pr : Int) (a : OperatorAssociativity) (h : String)
    (hs : s.length ≤ MAX_OPERATOR_LEN) :
    get_operator_definition (add_operator_definition s tt r pr a h K) s
      = some { op_str := s, token_type := tt, op_type_prop := r, precedence := pr,
               associativity := a,
               bsh_handler_name := strncpy_str (MAX_VAR_NAME_LEN - 1) h } := by
  rcases add_operator_definition_cases K s tt r pr a h hs with
    ⟨pre, d, post, _, hpre, _, hadd⟩ | ⟨_, hadd⟩
  · rw [hadd]
    unfold get_operator_definition
    simp only
    rw [find_operator_append pre post _ s hpre, if_pos rfl]
  · rw [hadd]
    unfold get_operator_definition
    simp [List.find?]

/-! ## C27: registration and lookup -/

/-- C27: for a symbol of at most 16 characters (1 to 16 among them) and a
handler name of at most 255 characters, after `add_operator_definition
(symbol, kind, role, precedence, assoc, handler)` the lookup of the symbol
returns the definition with this symbol, kind, role, precedence,
associativity and handler name; a symbol that was registered keeps the
registry at its length and its list of symbols; a registry whose symbols
are unique has unique symbols afterwards; and the lookup of every other
symbol returns what it returned before. -/
theorem add_then_get_operator (K : Kernel) (symbol : String) (kind : TokenType)
    (role : OperatorType) (precedence : Int) (assoc : OperatorAssociativity)
    (handler : String) (hsym : symbol.length ≤ MAX_OPERATOR_LEN)
    (hhandler : handler.length ≤ MAX_VAR_NAME_LEN - 1) :
    get_operator_definition
        (add_operator_definition symbol kind role precedence assoc handler K) symbol
      = some { op_str := symbol, token_type := kind, op_type_prop := role,
               precedence := precedence, associativity := assoc, bsh_handler_name := handler }
    ∧ ((get_operator_definition K symbol).isSome →
        (add_operator_definition symbol kind role precedence assoc handler K
          ).operator_list_head.map OperatorDefinition.op_str
          = K.operator_list_head.map OperatorDefinition.op_str)
    ∧ ((K.operator_list_head.map OperatorDefinition.op_str).Nodup →
        ((add_operator_definition symbol kind role precedence assoc handler K
          ).operator_list_head.map OperatorDefinition.op_str).Nodup)
    ∧ ∀ other : String, other ≠ symbol →
        get_operator_definition
            (add_operator_definition symbol kind role precedence assoc handler K) other
          = get_operator_definition K other := by
  refine ⟨?_, ?_, ?_, ?_⟩
  · rw [get_after_add_operator K symbol kind role precedence assoc handler hsym,
      strncpy_str_of_le _ _ hhandler]
  · intro hreg
    rcases add_operator_definition_cases K symbol kind role precedence assoc handler hsym with
      ⟨pre, d, post, hK, _, hd, hadd⟩ | ⟨hnone, _⟩
    · rw [hadd, hK]
      simp [hd]
    · exfalso
      unfold get_operator_definition at hreg
      rw [List.find?_isSome] at hreg
      obtain ⟨d, hd, hds⟩ := hreg
      exact hnone d hd (by simpa using hds)
  · intro hnodup
    rcases add_operator_definition_cases K symbol kind role precedence assoc handler hsym with
      ⟨pre, d, post, hK, _, hd, hadd⟩ | ⟨hnone, hadd⟩
    · rw [hadd]
      rw [hK] at hnodup
      simpa [hd] using hnodup
    · rw [hadd]
      simp only [List.map_cons, List.nodup_cons]
      refine ⟨?_, hnodup⟩
      intro hmem
      obtain ⟨d, hd, hds⟩ := List.mem_map.mp hmem
      exact hnone d hd hds
  · intro other hother
    rcases add_operator_definition_cases K symbol kind role precedence assoc handler hsym with
      ⟨pre, d, post, hK, _, hd, hadd⟩ | ⟨_, hadd⟩
    · rw [hadd]
      unfold get_operator_definition
      simp only
      rw [hK]
      exact find_operator_append_other pre post d _ other hd.symm
        (by rw [hd]; exact fun h => hother h.symm)
    · rw [hadd]
      unfold get_operator_definition
      simp only [List.find?_cons]
      have : decide (symbol = other) = false := by simpa using fun h => hother h.symm
      rw [this]

/-- The registry with `+` of precedence 10: registering `+` again with
precedence 20 and the handler `plus` replaces the definition and adds none. -/
theorem add_then_get_operator_witness :
    get_operator_definition
        (add_operator_definition "+" TokenType.TOKEN_OPERATOR OperatorType.OP_TYPE_BINARY_INFIX 20
          OperatorAssociativity.ASSOC_RIGHT "plus" (kernel_with_symbols ["*", "+"])) "+"
      = some { op_str := "+", token_type := TokenType.TOKEN_OPERATOR,
               op_type_prop := OperatorType.OP_TYPE_BINARY_INFIX, precedence := 20,
               associativity := OperatorAssociativity.ASSOC_RIGHT, bsh_handler_name := "plus" }
    ∧ (add_operator_definition "+" TokenType.TOKEN_OPERATOR OperatorType.OP_TYPE_BINARY_INFIX 20
          OperatorAssociativity.ASSOC_RIGHT "plus" (kernel_with_symbols ["*", "+"])
        ).operator_list_head.map OperatorDefinition.op_str = ["*", "+"] :=
  ⟨(add_then_get_operator (kernel_with_symbols ["*", "+"]) "+" TokenType.TOKEN_OPERATOR
      OperatorType.OP_TYPE_BINARY_INFIX 20 OperatorAssociativity.ASSOC_RIGHT "plus"
      (by decide) (by decide)).1,
   by decide⟩

/-! ## The `defoperator` statement -/

theorem drop_eq_token_at_cons (tokens : List Token) (i : Nat) (h : i < tokens.length) :
    tokens.drop i = token_at tokens i :: tokens.drop (i + 1) := by
  unfold token_at
  rw [List.getD_eq_getElem _ _ h]
  exact List.drop_eq_getElem_cons h

theorem defoperator_symbol_some (t : Token) (s : String) (h : defoperator_symbol t = some s) :
    (t.type = TokenType.TOKEN_STRING ∨ t.type = TokenType.TOKEN_WORD) ∧ s.length ≠ 0
      ∧ s.length ≤ MAX_OPERATOR_LEN := by
  unfold defoperator_symbol at h
  by_cases htype : t.type ≠ TokenType.TOKEN_STRING ∧ t.type ≠ TokenType.TOKEN_WORD
  · rw [if_pos htype] at h; cases h
  · rw [if_neg htype] at h
    have ht : t.type = TokenType.TOKEN_STRING ∨ t.type = TokenType.TOKEN_WORD := by
      by_cases h1 : t.type = TokenType.TOKEN_STRING
      · exact Or.inl h1
      · by_cases h2 : t.type = TokenType.TOKEN_WORD
        · exact Or.inr h2
        · exact absurd ⟨h1, h2⟩ htype
    refine ⟨ht, ?_⟩
    revert h
    generalize (if t.type = TokenType.TOKEN_STRING then
        if t.len - 2 > MAX_OPERATOR_LEN ∨ t.len < 2 then none else some (strip_quotes t)
      else if t.len > MAX_OPERATOR_LEN then none else some t.text) = src
    intro h
    cases src with
    | none => cases h
    | some src =>
      dsimp only at h
      by_cases he : (strncpy_str MAX_OPERATOR_LEN src).length = 0
      · rw [if_pos he] at h; cases h
      · rw [if_neg he] at h
        cases h
        refine ⟨he, ?_⟩
        simp only [strncpy_str, String.length, List.length_take]
        exact Nat.min_le_left _ _

theorem defoperator_symbol_empty (t : Token)
    (h : (t.type = TokenType.TOKEN_STRING ∧ strip_quotes t = "")
          ∨ (t.type = TokenType.TOKEN_WORD ∧ t.text = "")) :
    defoperator_symbol t = none := by
  cases hsym : defoperator_symbol t with
  | none => rfl
  | some s =>
    exfalso
    have hs := (defoperator_symbol_some t s hsym).2.1
    unfold defoperator_symbol at hsym
    rcases h with ⟨h1, h2⟩ | ⟨h1, h2⟩
    · have hne : ¬ (t.type ≠ TokenType.TOKEN_STRING ∧ t.type ≠ TokenType.TOKEN_WORD) :=
        fun hc => hc.1 h1
      rw [if_neg hne, if_pos h1] at hsym
      by_cases hlen : t.len - 2 > MAX_OPERATOR_LEN ∨ t.len < 2
      · rw [if_pos hlen] at hsym; cases hsym
      · rw [if_neg hlen, h2] at hsym
        simp [strncpy_str] at hsym
    · have hne : ¬ (t.type ≠ TokenType.TOKEN_STRING ∧ t.type ≠ TokenType.TOKEN_WORD) :=
        fun hc => hc.2 h1
      have hns : ¬ t.type = TokenType.TOKEN_STRING := by rw [h1]; decide
      rw [if_neg hne, if_neg hns] at hsym
      by_cases hlen : t.len > MAX_OPERATOR_LEN
      · rw [if_pos hlen] at hsym; cases hsym
      · rw [if_neg hlen, h2] at hsym
        simp [strncpy_str] at hsym

/-! ## C28: the empty symbol -/

/-- C28, as the claim states it, fails: `add_operator_definition` called with
the empty string as symbol on the empty registry adds a definition whose
symbol is the empty string. -/
theorem add_operator_empty_symbol_counterexample :
    (add_operator_definition "" TokenType.TOKEN_OPERATOR OperatorType.OP_TYPE_BINARY_INFIX 10
        OperatorAssociativity.ASSOC_LEFT "add" global_kernel).operator_list_head
      = [{ op_str := "", token_type := TokenType.TOKEN_OPERATOR,
           op_type_prop := OperatorType.OP_TYPE_BINARY_INFIX, precedence := 10,
           associativity := OperatorAssociativity.ASSOC_LEFT, bsh_handler_name := "add" }]
    ∧ add_operator_definition "" TokenType.TOKEN_OPERATOR OperatorType.OP_TYPE_BINARY_INFIX 10
        OperatorAssociativity.ASSOC_LEFT "add" global_kernel ≠ global_kernel := by
  decide

/-- C28, amended: `add_operator_definition` called with a symbol longer than
16 characters leaves the state as it is, and `handle_defoperator_statement`
leaves the state as it is when the symbol token gives the empty symbol (a
String token with nothing between its quotes, or a Word token with an empty
text). -/
theorem empty_symbol_rejected_by_statement (K : Kernel) (symbol : String) (kind : TokenType)
    (role : OperatorType) (precedence : Int) (assoc : OperatorAssociativity)
    (handler : String) (tokens : List Token) (num_tokens : Nat)
    (hlong : MAX_OPERATOR_LEN < symbol.length)
    (hempty : ((token_at tokens 1).type = TokenType.TOKEN_STRING
                ∧ strip_quotes (token_at tokens 1) = "")
              ∨ ((token_at tokens 1).type = TokenType.TOKEN_WORD
                ∧ (token_at tokens 1).text = "")) :
    add_operator_definition symbol kind role precedence assoc handler K = K
    ∧ handle_defoperator_statement tokens num_tokens K = K := by
  constructor
  · unfold add_operator_definition
    rw [if_pos hlong]
  · unfold handle_defoperator_statement
    rw [defoperator_symbol_empty _ hempty]
    simp only [ite_self]

/-- The symbol of 17 characters and the line `defoperator "" TYPE BINARY_INFIX
HANDLER add`. -/
theorem empty_symbol_rejected_by_statement_witness :
    add_operator_definition "abcdefghijklmnopq" TokenType.TOKEN_OPERATOR
        OperatorType.OP_TYPE_BINARY_INFIX 10 OperatorAssociativity.ASSOC_LEFT "add"
        global_kernel = global_kernel
    ∧ handle_defoperator_statement
        [word_token "defoperator", string_token "", word_token "TYPE",
         word_token "BINARY_INFIX", word_token "HANDLER", word_token "add", eof_token] 7
        global_kernel = global_kernel :=
  empty_symbol_rejected_by_statement global_kernel "abcdefghijklmnopq"
    TokenType.TOKEN_OPERATOR OperatorType.OP_TYPE_BINARY_INFIX 10
    OperatorAssociativity.ASSOC_LEFT "add"
    [word_token "defoperator", string_token "", word_token "TYPE",
     word_token "BINARY_INFIX", word_token "HANDLER", word_token "add", eof_token] 7
    (by decide) (by decide)

theorem operator_role_of_name_some (s : String) (r : OperatorType)
    (h : operator_role_of_name s = some r) :
    s ∈ ["UNARY_PREFIX", "UNARY_POSTFIX", "BINARY_INFIX", "TERNARY_PRIMARY",
         "TERNARY_SECONDARY"] := by
  unfold operator_role_of_name at h
  by_cases h1 : s = "UNARY_PREFIX"
  · simp [h1]
  by_cases h2 : s = "UNARY_POSTFIX"
  · simp [h2]
  by_cases h3 : s = "BINARY_INFIX"
  · simp [h3]
  by_cases h4 : s = "TERNARY_PRIMARY"
  · simp [h4]
  by_cases h5 : s = "TERNARY_SECONDARY"
  · simp [h5]
  rw [if_neg h1, if_neg h2, if_neg h3, if_neg h4, if_neg h5] at h
  cases h

theorem operator_assoc_of_name_some (s : String) (a : OperatorAssociativity)
    (h : operator_assoc_of_name s = some a) : s ∈ ["L", "R", "N"] := by
  unfold operator_assoc_of_name at h
  by_cases h1 : s = "L"
  · simp [h1]
  by_cases h2 : s = "R"
  · simp [h2]
  by_cases h3 : s = "N"
  · simp [h3]
  rw [if_neg h1, if_neg h2, if_neg h3] at h
  cases h

theorem defoperator_handler_name_some (t : Token) (s : String)
    (h : defoperator_handler_name t = some s) :
    t.type = TokenType.TOKEN_WORD ∨ t.type = TokenType.TOKEN_STRING := by
  unfold defoperator_handler_name at h
  by_cases htype : t.type ≠ TokenType.TOKEN_WORD ∧ t.type ≠ TokenType.TOKEN_STRING
  · rw [if_pos htype] at h; cases h
  · by_cases h1 : t.type = TokenType.TOKEN_WORD
    · exact Or.inl h1
    · by_cases h2 : t.type = TokenType.TOKEN_STRING
      · exact Or.inr h2
      · exact absurd ⟨h1, h2⟩ htype

theorem defoperator_precedence_some (tokens : List Token) (i j : Nat) (p : Int)
    (h : defoperator_precedence tokens tokens.length i = some (p, j)) :
    ∃ part, tokens.drop i = part ++ tokens.drop j
      ∧ (part = [] ∨ ∃ kw n, part = [kw, n] ∧ kw.text = "PRECEDENCE"
                        ∧ n.type = TokenType.TOKEN_NUMBER) := by
  unfold defoperator_precedence at h
  by_cases hkw : i < tokens.length ∧ (token_at tokens i).text = "PRECEDENCE"
  · rw [if_pos hkw] at h
    by_cases hnum : i + 1 ≥ tokens.length
        ∨ (token_at tokens (i + 1)).type ≠ TokenType.TOKEN_NUMBER
    · rw [if_pos hnum] at h; cases h
    · rw [if_neg hnum] at h
      have hj : j = i + 2 := by cases h; rfl
      have h1 : i + 1 < tokens.length := by
        by_contra hc; exact hnum (Or.inl (by omega))
      have h2 : (token_at tokens (i + 1)).type = TokenType.TOKEN_NUMBER := by
        by_contra hc; exact hnum (Or.inr hc)
      refine ⟨[token_at tokens i, token_at tokens (i + 1)], ?_, Or.inr ⟨_, _, rfl, hkw.2, h2⟩⟩
      rw [hj, drop_eq_token_at_cons tokens i hkw.1, drop_eq_token_at_cons tokens (i + 1) h1]
      rfl
  · rw [if_neg hkw] at h
    have hj : j = i := by cases h; rfl
    exact ⟨[], by rw [hj]; rfl, Or.inl rfl⟩

theorem defoperator_assoc_some (tokens : List Token) (i j : Nat) (a : OperatorAssociativity)
    (h : defoperator_assoc tokens tokens.length i = some (a, j)) :
    ∃ part, tokens.drop i = part ++ tokens.drop j
      ∧ (part = [] ∨ ∃ kw l, part = [kw, l] ∧ kw.text = "ASSOC"
                        ∧ l.type = TokenType.TOKEN_WORD ∧ l.text ∈ ["L", "R", "N"]) := by
  unfold defoperator_assoc at h
  by_cases hkw : i < tokens.length ∧ (token_at tokens i).text = "ASSOC"
  · rw [if_pos hkw] at h
    by_cases hw : i + 1 ≥ tokens.length
        ∨ (token_at tokens (i + 1)).type ≠ TokenType.TOKEN_WORD
    · rw [if_pos hw] at h; cases h
    · rw [if_neg hw] at h
      have h1 : i + 1 < tokens.length := by
        by_contra hc; exact hw (Or.inl (by omega))
      have h2 : (token_at tokens (i + 1)).type = TokenType.TOKEN_WORD := by
        by_contra hc; exact hw (Or.inr hc)
      cases hl : operator_assoc_of_name (token_at tokens (i + 1)).text with
      | none => rw [hl] at h; cases h
      | some a1 =>
        rw [hl] at h
        have hj : j = i + 2 := by cases h; rfl
        refine ⟨[token_at tokens i, token_at tokens (i + 1)], ?_,
          Or.inr ⟨_, _, rfl, hkw.2, h2, operator_assoc_of_name_some _ _ hl⟩⟩
        rw [hj, drop_eq_token_at_cons tokens i hkw.1, drop_eq_token_at_cons tokens (i + 1) h1]
        rfl
  · rw [if_neg hkw] at h
    have hj : j = i := by cases h; rfl
    exact ⟨[], by rw [hj]; rfl, Or.inl rfl⟩

/-- When `handle_defoperator_statement` does not return early, the tokens have
the form of a `defoperator` line, and the state it returns is the one
`add_operator_definition` gives for the symbol, role, precedence,
associativity and handler name it has read. -/
theorem handle_defoperator_statement_cases (K : Kernel) (tokens : List Token) :
    handle_defoperator_statement tokens tokens.length K = K
    ∨ (K.current_exec_state ≠ ExecutionState.STATE_BLOCK_SKIP
        ∧ (∃ trailing, is_defoperator_line tokens trailing)
        ∧ ∃ op_symbol role precedence assoc handler,
            op_symbol.length ≤ MAX_OPERATOR_LEN
            ∧ handle_defoperator_statement tokens tokens.length K
                = add_operator_definition op_symbol TokenType.TOKEN_OPERATOR role precedence
                    assoc handler K) := by
  unfold handle_defoperator_statement
  by_cases hskip : K.current_exec_state = ExecutionState.STATE_BLOCK_SKIP
      ∧ K.current_exec_state ≠ ExecutionState.STATE_IMPORT_PARSING
  · rw [if_pos hskip]; exact Or.inl rfl
  rw [if_neg hskip]
  have hstate : K.current_exec_state ≠ ExecutionState.STATE_BLOCK_SKIP := by
    intro hc
    exact hskip ⟨hc, by rw [hc]; decide⟩
  by_cases hnum : tokens.length < 6
  · rw [if_pos hnum]; exact Or.inl rfl
  rw [if_neg hnum]
  cases hsym : defoperator_symbol (token_at tokens 1) with
  | none => exact Or.inl rfl
  | some op_symbol =>
    dsimp only
    by_cases htype : 2 + 1 ≥ tokens.length ∨ (token_at tokens 2).text ≠ "TYPE"
    · rw [if_pos htype]; exact Or.inl rfl
    rw [if_neg htype]
    have htype2 : (token_at tokens 2).text = "TYPE" := by
      by_contra hc; exact htype (Or.inr hc)
    cases hrole : operator_role_of_name (token_at tokens 3).text with
    | none => exact Or.inl rfl
    | some role =>
      dsimp only
      cases hprec : defoperator_precedence tokens tokens.length 4 with
      | none => exact Or.inl rfl
      | some r1 =>
        obtain ⟨precedence, idx1⟩ := r1
        dsimp only
        cases hassoc : defoperator_assoc tokens tokens.length idx1 with
        | none => exact Or.inl rfl
        | some r2 =>
          obtain ⟨assoc, idx2⟩ := r2
          dsimp only
          by_cases hkw : idx2 + 1 ≥ tokens.length ∨ (token_at tokens idx2).text ≠ "HANDLER"
          · rw [if_pos hkw]; exact Or.inl rfl
          rw [if_neg hkw]
          have hkw1 : idx2 + 1 < tokens.length := by
            by_contra hc; exact hkw (Or.inl (by omega))
          have hkw2 : (token_at tokens idx2).text = "HANDLER" := by
            by_contra hc; exact hkw (Or.inr hc)
          cases hname : defoperator_handler_name (token_at tokens (idx2 + 1)) with
          | none => exact Or.inl rfl
          | some handler =>
            dsimp only
            right
            refine ⟨hstate, ⟨tokens.drop (idx2 + 2), ?_⟩,
              ⟨op_symbol, role, precedence, assoc, handler,
                (defoperator_symbol_some _ _ hsym).2.2, rfl⟩⟩
            obtain ⟨prec_part, hp1, hp2⟩ := defoperator_precedence_some tokens 4 idx1 precedence hprec
            obtain ⟨assoc_part, ha1, ha2⟩ := defoperator_assoc_some tokens idx1 idx2 assoc hassoc
            refine ⟨token_at tokens 0, token_at tokens 1, token_at tokens 2, token_at tokens 3,
              prec_part, assoc_part, token_at tokens idx2, token_at tokens (idx2 + 1), ?_,
              (defoperator_symbol_some _ _ hsym).1, htype2,
              operator_role_of_name_some _ _ hrole, hp2, ha2, hkw2,
              defoperator_handler_name_some _ _ hname⟩
            have h0 := drop_eq_token_at_cons tokens 0 (by omega)
            have h1 := drop_eq_token_at_cons tokens 1 (by omega)
            have h2 := drop_eq_token_at_cons tokens 2 (by omega)
            have h3 := drop_eq_token_at_cons tokens 3 (by omega)
            have h4 := drop_eq_token_at_cons tokens idx2 (by omega)
            have h5 := drop_eq_token_at_cons tokens (idx2 + 1) hkw1
            rw [List.drop_zero] at h0
            rw [← h5, ← h4, ← ha1, ← hp1, ← h3, ← h2, ← h1, ← h0]

/-! ## C29: what a `defoperator` line must look like -/

/-- C29, as the claim states it, fails: the tokens of `defoperator "+" TYPE
BINARY_INFIX HANDLER add junk` change the registry, `+` is registered,
though the handler name is followed by the Word token `junk` and not by the
end of the line. -/
theorem defoperator_trailing_tokens_counterexample :
    (handle_defoperator_statement tokens_defoperator_plus_junk
        tokens_defoperator_plus_junk.length global_kernel).operator_list_head
      = [{ op_str := "+", token_type := TokenType.TOKEN_OPERATOR,
           op_type_prop := OperatorType.OP_TYPE_BINARY_INFIX, precedence := 0,
           associativity := OperatorAssociativity.ASSOC_LEFT, bsh_handler_name := "add" }]
    ∧ global_kernel.operator_list_head = []
    ∧ ¬ ∃ eof : Token, eof.type = TokenType.TOKEN_EOF
          ∧ is_defoperator_line tokens_defoperator_plus_junk [eof] := by
  refine ⟨by decide, by decide, ?_⟩
  rintro ⟨eof, _, first, sym, type_kw, role, prec_part, assoc_part, handler_kw, name, htok,
    _, _, _, hp, ha, _, _⟩
  have hlen := congrArg List.length htok
  rcases hp with rfl | ⟨_, _, rfl, _, _⟩ <;> rcases ha with rfl | ⟨_, _, rfl, _, _, _⟩ <;>
    simp [tokens_defoperator_plus_junk] at hlen

/-- C29, amended: when `handle_defoperator_statement` changes the registry,
the state is not one of skipping a block and the tokens are `<first>
<symbol> TYPE <role> [PRECEDENCE <n>] [ASSOC <L|R|N>] HANDLER <name>`
followed by some tokens `trailing`, with the symbol and the name a String
or Word token, the role one of the five role names, `<n>` a Number token
and the letter a Word token; for every other token sequence the registry
is as before. -/
theorem defoperator_changes_registry_only_on_form (K : Kernel) (tokens : List Token)
    (hchange : (handle_defoperator_statement tokens tokens.length K).operator_list_head
                ≠ K.operator_list_head) :
    K.current_exec_state ≠ ExecutionState.STATE_BLOCK_SKIP
    ∧ ∃ trailing, is_defoperator_line tokens trailing := by
  rcases handle_defoperator_statement_cases K tokens with h | ⟨h1, h2, _⟩
  · rw [h] at hchange
    exact absurd rfl hchange
  · exact ⟨h1, h2⟩

/-- The tokens of `defoperator "+" TYPE BINARY_INFIX HANDLER add` and the shell
with the empty registry. -/
theorem defoperator_changes_registry_only_on_form_witness :
    (handle_defoperator_statement tokens_defoperator_plus tokens_defoperator_plus.length
        global_kernel).operator_list_head ≠ global_kernel.operator_list_head
    ∧ global_kernel.current_exec_state ≠ ExecutionState.STATE_BLOCK_SKIP
    ∧ ∃ trailing, is_defoperator_line tokens_defoperator_plus trailing :=
  ⟨by decide,
   defoperator_changes_registry_only_on_form global_kernel tokens_defoperator_plus (by decide)⟩

theorem strip_quotes_string_token (body : String) : strip_quotes (string_token body) = body := by
  unfold strip_quotes string_token mk_token
  simp only [String.length_append, String.data_append]
  have h2 : ("\"" : String).length = 1 := rfl
  rw [h2]
  simp only [List.singleton_append, List.cons_append, List.drop_succ_cons, List.drop_zero]
  have h3 : 1 + body.length + 1 - 2 = body.data.length := by
    simp only [String.length]; omega
  rw [h3]
  simp

theorem string_token_len (body : String) : (string_token body).len = body.length + 2 := by
  unfold string_token mk_token
  simp only [String.length_append]
  have h2 : ("\"" : String).length = 1 := rfl
  rw [h2]; omega

theorem defoperator_symbol_of_token (quoted : Bool) (s : String) (h1 : 1 ≤ s.length)
    (h2 : s.length ≤ MAX_OPERATOR_LEN) : defoperator_symbol (name_token quoted s) = some s := by
  unfold defoperator_symbol name_token
  cases quoted with
  | true =>
    have ht : (string_token s).type = TokenType.TOKEN_STRING := rfl
    simp only [if_true, ht, strip_quotes_string_token, string_token_len]
    have hl : ¬ (s.length + 2 - 2 > MAX_OPERATOR_LEN ∨ s.length + 2 < 2) := by omega
    simp only [ne_eq, not_true_eq_false, false_and, if_false, hl, strncpy_str_of_le _ _ h2]
    rw [if_neg (by omega)]
  | false =>
    have ht : (word_token s).type = TokenType.TOKEN_WORD := rfl
    have hx : (word_token s).text = s := rfl
    have hn : (word_token s).len = s.length := rfl
    have hl : ¬ (s.length > MAX_OPERATOR_LEN) := by omega
    simp only [ht, hx, hn, hl, ne_eq, not_true_eq_false, and_false, if_false,
      strncpy_str_of_le _ _ h2, Bool.false_eq_true, reduceCtorEq]
    rw [if_neg (by omega)]

theorem defoperator_handler_name_of_token (quoted : Bool) (s : String) (h1 : 1 ≤ s.length)
    (h2 : s.length ≤ MAX_VAR_NAME_LEN - 1) :
    defoperator_handler_name (name_token quoted s) = some s := by
  unfold defoperator_handler_name name_token
  cases quoted with
  | true =>
    have ht : (string_token s).type = TokenType.TOKEN_STRING := rfl
    have hl : s.length + 2 - 2 < MAX_VAR_NAME_LEN ∧ s.length + 2 ≥ 2 := by
      simp only [MAX_VAR_NAME_LEN] at h2 ⊢; omega
    simp only [if_true, ht, strip_quotes_string_token, string_token_len, hl, ne_eq,
      not_true_eq_false, and_false, if_false, and_self, reduceCtorEq]
    rw [if_neg (by omega)]
  | false =>
    have ht : (word_token s).type = TokenType.TOKEN_WORD := rfl
    have hx : (word_token s).text = s := rfl
    simp only [ht, hx, ne_eq, not_true_eq_false, false_and, if_false,
      strncpy_str_of_le _ _ h2, Bool.false_eq_true, reduceCtorEq]
    rw [if_neg (by omega)]

theorem atoi_digits (ds : List Char) (h : ∀ c ∈ ds, isdigit c = true)
    (hrange : digits_value ds ≤ 2147483647) :
    atoi ⟨ds⟩ = (digits_value ds : Int) := by
  unfold atoi
  have hsp : ds.dropWhile isspace = ds := by
    cases ds with
    | nil => rfl
    | cons c cs =>
      have hc := h c (List.mem_cons_self _ _)
      have : isspace c = false := by
        revert hc; unfold isdigit isspace Char.isDigit
        intro hc
        simp only [Bool.and_eq_true, decide_eq_true_eq] at hc
        have h1 : c ≠ ' ' := by rintro rfl; revert hc; decide
        have h2 : c ≠ '\t' := by rintro rfl; revert hc; decide
        have h3 : c ≠ '\n' := by rintro rfl; revert hc; decide
        have h4 : c ≠ Char.ofNat 11 := by rintro rfl; revert hc; decide
        have h5 : c ≠ Char.ofNat 12 := by rintro rfl; revert hc; decide
        have h6 : c ≠ '\r' := by rintro rfl; revert hc; decide
        simp [h1, h2, h3, h4, h5, h6]
      simp [List.dropWhile, this]
  have hsign : ¬ (head_char ds = MINUS_CHAR ∨ head_char ds = PLUS_CHAR) := by
    cases ds with
    | nil => decide
    | cons c cs =>
      have hc := h c (List.mem_cons_self _ _)
      rintro (hm | hp)
      · have : c = MINUS_CHAR := hm
        subst this; revert hc; decide
      · have : c = PLUS_CHAR := hp
        subst this; revert hc; decide
  have hall : ds.takeWhile isdigit = ds := by
    rw [List.takeWhile_eq_self_iff]
    exact h
  simp only [hsp, if_neg hsign, hall, if_neg (fun hm => hsign (Or.inl hm))]
  rw [min_eq_right (by omega), max_eq_right (by omega)]
  exact int_wrap_of_range _ (by omega) (by omega)

theorem operator_assoc_of_letter (a : OperatorAssociativity) :
    operator_assoc_of_name (assoc_letter a) = some a := by
  cases a <;> decide

theorem token_at_zero (t : Token) (l : List Token) : token_at (t :: l) 0 = t := rfl

theorem token_at_succ (t : Token) (l : List Token) (n : Nat) :
    token_at (t :: l) (n + 1) = token_at l n := rfl

theorem handle_defoperator_statement_line (K : Kernel) (first : Token)
    (symbol_quoted name_quoted : Bool) (symbol role_name handler : String)
    (role : OperatorType) (prec : Option (List Char)) (assoc : Option OperatorAssociativity)
    (trailing : List Token)
    (hstate : K.current_exec_state ≠ ExecutionState.STATE_BLOCK_SKIP)
    (hsym : 1 ≤ symbol.length ∧ symbol.length ≤ MAX_OPERATOR_LEN)
    (hrole : operator_role_of_name role_name = some role)
    (hprec : ∀ n, prec = some n → ∀ c ∈ n, isdigit c = true)
    (hrange : ∀ n, prec = some n → digits_value n ≤ 2147483647)
    (hhandler : 1 ≤ handler.length ∧ handler.length ≤ MAX_VAR_NAME_LEN - 1) :
    handle_defoperator_statement
        (defoperator_line_tokens first (name_token symbol_quoted symbol) role_name prec assoc
          (name_token name_quoted handler) trailing)
        (defoperator_line_tokens first (name_token symbol_quoted symbol) role_name prec assoc
          (name_token name_quoted handler) trailing).length K
      = add_operator_definition symbol TokenType.TOKEN_OPERATOR role
          (((prec.map digits_value).getD 0 : Nat) : Int)
          (assoc.getD OperatorAssociativity.ASSOC_LEFT) handler K := by
  have hskip : ¬ (K.current_exec_state = ExecutionState.STATE_BLOCK_SKIP
      ∧ K.current_exec_state ≠ ExecutionState.STATE_IMPORT_PARSING) := fun h => hstate h.1
  have hs := defoperator_symbol_of_token symbol_quoted symbol hsym.1 hsym.2
  have hh := defoperator_handler_name_of_token name_quoted handler hhandler.1 hhandler.2
  have hw : ∀ s : String, (word_token s).text = s := fun _ => rfl
  have hwt : ∀ s : String, (word_token s).type = TokenType.TOKEN_WORD := fun _ => rfl
  have hnt : ∀ s : String, (number_token s).type = TokenType.TOKEN_NUMBER := fun _ => rfl
  have hnx : ∀ s : String, (number_token s).text = s := fun _ => rfl
  unfold handle_defoperator_statement
  rw [if_neg hskip]
  cases prec with
  | none =>
    cases assoc with
    | none =>
      simp [defoperator_line_tokens, defoperator_precedence, defoperator_assoc, token_at_succ,
        token_at_zero, hw, hs, hh, hrole]
    | some a =>
      simp [defoperator_line_tokens, defoperator_precedence, defoperator_assoc, token_at_succ,
        token_at_zero, hw, hwt, hs, hh, hrole, operator_assoc_of_letter]
  | some n =>
    have hn := atoi_digits n (hprec n rfl) (hrange n rfl)
    cases assoc with
    | none =>
      simp [defoperator_line_tokens, defoperator_precedence, defoperator_assoc, token_at_succ,
        token_at_zero, hw, hnt, hnx, hs, hh, hrole, hn]
    | some a =>
      simp [defoperator_line_tokens, defoperator_precedence, defoperator_assoc, token_at_succ,
        token_at_zero, hw, hwt, hnt, hnx, hs, hh, hrole, hn, operator_assoc_of_letter]

/-! ## C30: what a `defoperator` line registers -/

/-- C30: outside a skipped block, for a symbol of 1 to 16 characters and a
handler name of 1 to 255 characters, each given as a Word token or in
double quotes as a String token, and one of the five role names, the line
`<first> <symbol> TYPE <role> [PRECEDENCE <n>] [ASSOC <L|R|N>] HANDLER
<name>` registers the symbol: the lookup of the symbol then returns the
definition with this symbol (the quotes stripped), the token kind Operator,
the role, the handler name (the quotes stripped), the precedence the digits
`n` write, a value of at most INT_MAX, or 0 without `PRECEDENCE`, and the
associativity of the letter, or Left without `ASSOC`. -/
theorem defoperator_registers_definition (K : Kernel) (first : Token)
    (symbol_quoted name_quoted : Bool) (symbol role_name handler : String)
    (role : OperatorType) (prec : Option (List Char)) (assoc : Option OperatorAssociativity)
    (trailing : List Token)
    (hstate : K.current_exec_state ≠ ExecutionState.STATE_BLOCK_SKIP)
    (hsym : 1 ≤ symbol.length ∧ symbol.length ≤ MAX_OPERATOR_LEN)
    (hrole : operator_role_of_name role_name = some role)
    (hprec : ∀ n, prec = some n → ∀ c ∈ n, isdigit c = true)
    (hrange : ∀ n, prec = some n → digits_value n ≤ 2147483647)
    (hhandler : 1 ≤ handler.length ∧ handler.length ≤ MAX_VAR_NAME_LEN - 1) :
    get_operator_definition
        (handle_defoperator_statement
          (defoperator_line_tokens first (name_token symbol_quoted symbol) role_name prec assoc
            (name_token name_quoted handler) trailing)
          (defoperator_line_tokens first (name_token symbol_quoted symbol) role_name prec assoc
            (name_token name_quoted handler) trailing).length K) symbol
      = some { op_str := symbol, token_type := TokenType.TOKEN_OPERATOR, op_type_prop := role,
               precedence := (((prec.map digits_value).getD 0 : Nat) : Int),
               associativity := assoc.getD OperatorAssociativity.ASSOC_LEFT,
               bsh_handler_name := handler } := by
  rw [handle_defoperator_statement_line K first symbol_quoted name_quoted symbol role_name
    handler role prec assoc trailing hstate hsym hrole hprec hrange hhandler,
    get_after_add_operator K symbol _ _ _ _ _ hsym.2, strncpy_str_of_le _ _ hhandler.2]

/-- The lines `defoperator "+" TYPE BINARY_INFIX HANDLER add` and `defoperator
"**" TYPE BINARY_INFIX PRECEDENCE 30 ASSOC R HANDLER "power"` in the shell
with the empty registry. -/
theorem defoperator_registers_definition_witness :
    get_operator_definition
        (handle_defoperator_statement tokens_defoperator_plus tokens_defoperator_plus.length
          global_kernel) "+"
      = some { op_str := "+", token_type := TokenType.TOKEN_OPERATOR,
               op_type_prop := OperatorType.OP_TYPE_BINARY_INFIX, precedence := 0,
               associativity := OperatorAssociativity.ASSOC_LEFT, bsh_handler_name := "add" }
    ∧ get_operator_definition
        (handle_defoperator_statement
          [word_token "defoperator", string_token "**", word_token "TYPE",
           word_token "BINARY_INFIX", word_token "PRECEDENCE", number_token "30",
           word_token "ASSOC", word_token "R", word_token "HANDLER", string_token "power",
           eof_token] 11 global_kernel) "**"
      = some { op_str := "**", token_type := TokenType.TOKEN_OPERATOR,
               op_type_prop := OperatorType.OP_TYPE_BINARY_INFIX, precedence := 30,
               associativity := OperatorAssociativity.ASSOC_RIGHT,
               bsh_handler_name := "power" } :=
  ⟨defoperator_registers_definition global_kernel (word_token "defoperator") true false "+"
      "BINARY_INFIX" "add" OperatorType.OP_TYPE_BINARY_INFIX none none [eof_token]
      (by decide) (by decide) (by decide) (by intro n hn; cases hn) (by intro n hn; cases hn)
      (by decide),
   defoperator_registers_definition global_kernel (word_token "defoperator") true true "**"
      "BINARY_INFIX" "power" OperatorType.OP_TYPE_BINARY_INFIX (some ['3', '0'])
      (some OperatorAssociativity.ASSOC_RIGHT) [eof_token]
      (by decide) (by decide) (by decide)
      (by intro n hn; cases hn; decide) (by intro n hn; cases hn; decide) (by decide)⟩

/-- The tokenizer gives the tokens of the two `defoperator` lines used above,
up to their columns. -/
theorem defoperator_lines_tokenized :
    (advanced_tokenize_line global_kernel
        "defoperator \"+\" TYPE BINARY_INFIX HANDLER add junk" 1 128 4096).map
        (fun ts => ts.map (fun t => (t.type, t.text, t.len)))
      = .ok (tokens_defoperator_plus_junk.map (fun t => (t.type, t.text, t.len)))
    ∧ (advanced_tokenize_line global_kernel
        "defoperator \"+\" TYPE BINARY_INFIX HANDLER add" 1 128 4096).map
        (fun ts => ts.map (fun t => (t.type, t.text, t.len)))
      = .ok (tokens_defoperator_plus.map (fun t => (t.type, t.text, t.len))) := by
  decide

/-! ## C36: two adjacent precedence levels -/

/-- C36: for left-associative BinaryInfix operators `lo` of precedence `p >= 1`
and `hi` of precedence `p + 1` (below INT_MAX), evaluating `a lo b hi c`
invokes the handler of `lo` on `(a, b)` first and then the handler of `hi` on
`(that result, c)`: the operator of the higher precedence does not bind
tighter. The right operand of `lo` is parsed with the minimum precedence
`p + 1`, and the loop stops before a left-associative operator whose
precedence is not above the minimum. -/
theorem adjacent_precedence_groups_left (env : Env) (K : Kernel) (a b c lo hi : Token)
    (tail : List Token) (dlo dhi : OperatorDefinition) (bs : Nat)
    (ha : is_operand_token a) (hb : is_operand_token b) (hc : is_operand_token c)
    (hlo : lo.type = TOKEN_OPERATOR) (hhi : hi.type = TOKEN_OPERATOR)
    (hdlo : get_operator_definition K lo.text = some dlo)
    (hdhi : get_operator_definition K hi.text = some dhi)
    (hbinlo : dlo.op_type_prop = OP_TYPE_BINARY_INFIX)
    (hbinhi : dhi.op_type_prop = OP_TYPE_BINARY_INFIX)
    (hleftlo : dlo.associativity = ASSOC_LEFT) (hlefthi : dhi.associativity = ASSOC_LEFT)
    (hp : 1 ≤ dlo.precedence) (hq : dhi.precedence = dlo.precedence + 1)
    (hq2 : dhi.precedence < 2147483647)
    (hkeep : env.keeps_operators) (hbuf : env.respects_buffer)
    (hbs : INPUT_BUFFER_SIZE ≤ bs) (htail : ends_expression tail) :
    let r1 := env.invoke_handler dlo.bsh_handler_name dlo.op_str
                [operand_value K a, operand_value K b]
                (temp_result_var (call_rand env K).1 "") INPUT_BUFFER_SIZE (call_rand env K).2
    let r2 := env.invoke_handler dhi.bsh_handler_name dhi.op_str
                [r1.result, operand_value r1.kernel c]
                (temp_result_var (call_rand env r1.kernel).1 "") INPUT_BUFFER_SIZE
                (call_rand env r1.kernel).2
    evaluate_expression_from_tokens env ([a, lo, b, hi, c] ++ tail)
        ([a, lo, b, hi, c] ++ tail).length bs K
      = .ok ⟨true, r2.result, r2.kernel, 5, []⟩ := by
  have hrhs : rhs_min_precedence dlo = dlo.precedence + 1 := by
    unfold rhs_min_precedence
    rw [if_pos hleftlo, int_wrap_of_range _ (by omega) (by omega)]
  exact binary_left_grouping env K a b c lo hi tail dlo dhi bs ha hb hc hlo hhi hdlo hdhi
    hbinlo hbinhi ⟨by omega, fun _ => by omega⟩
    (Or.inr ⟨hlefthi, by rw [hrhs]; omega⟩)
    ⟨by omega, fun _ => by omega⟩ hkeep hbuf hbs htail

/-- C36 at `2 + 3 * 4` with `+` of precedence 10 and `*` of precedence 11, both
left-associative, and integer handlers: the result is `20`, that is
`(2 + 3) * 4`, where `*` binding tighter gives `14`. -/
theorem adjacent_precedence_groups_left_witness :
    evaluate_expression_from_tokens arith_env tokens_2_plus_3_times_4 6 INPUT_BUFFER_SIZE
        adjacent_precedence_kernel
      = .ok ⟨true, "20", { adjacent_precedence_kernel with rand_state := 2 }, 5, []⟩ :=
  (adjacent_precedence_groups_left arith_env adjacent_precedence_kernel
    (number_token "2") (number_token "3") (number_token "4") (operator_token "+")
    (operator_token "*") [eof_token]
    (binary_operator "+" 10 ASSOC_LEFT "add") (binary_operator "*" 11 ASSOC_LEFT "mul")
    INPUT_BUFFER_SIZE
    (by decide) (by decide) (by decide) (by decide) (by decide) (by decide) (by decide)
    (by decide) (by decide) (by decide) (by decide) (by decide) (by decide) (by decide)
    arith_env_keeps_operators arith_env_respects_buffer
    (Nat.le_refl _) (by intro e he; cases he; rfl)).trans (by decide)

/-! ## C40: associativity None -/

/-- One binary application `a o b`: the value and the state are those the
handler bridge hands back, whatever the bridge returns. -/
theorem binary_single_application (env : Env) (K : Kernel) (a b o : Token)
    (tail : List Token) (d : OperatorDefinition) (bs : Nat)
    (ha : is_operand_token a) (hb : is_operand_token b)
    (ho : o.type = TOKEN_OPERATOR)
    (hd : get_operator_definition K o.text = some d)
    (hbin : d.op_type_prop = OP_TYPE_BINARY_INFIX)
    (htop : binds_at d 0) (hbuf : env.respects_buffer)
    (hbs : INPUT_BUFFER_SIZE ≤ bs) (htail : ends_expression tail) :
    evaluate_expression_from_tokens env ([a, o, b] ++ tail) ([a, o, b] ++ tail).length bs K
      = .ok ⟨true,
             (env.invoke_handler d.bsh_handler_name d.op_str
               [operand_value K a, operand_value K b]
               (temp_result_var (call_rand env K).1 "") INPUT_BUFFER_SIZE
               (call_rand env K).2).result,
             (env.invoke_handler d.bsh_handler_name d.op_str
               [operand_value K a, operand_value K b]
               (temp_result_var (call_rand env K).1 "") INPUT_BUFFER_SIZE
               (call_rand env K).2).kernel, 3, []⟩ := by
  obtain ⟨-, -, hderef⟩ := operator_facts env K o d hd K rfl
  have hvb := operand_value_length K b
  have hcopy : ∀ s : String, s.length ≤ INPUT_BUFFER_SIZE - 1 → strncpy_str (bs - 1) s = s :=
    fun s h => strncpy_str_of_le _ _ (by omega)
  have hend := ends_expression_at [a, o, b] tail htail
  have hterm := ends_expression_terminator [a, o, b] tail htail
  refine evaluate_of_parse_ok env _ _ bs K (2 * tail.length + 3 + 5) 3 0 _ _ _
    (by simp only [List.length_append, List.length_cons, List.length_nil]; omega) (by simp)
    ?_ (hend 3 rfl)
  rw [parse_expression_recursive_simple env _ _ _ _ _ _ _ _ 0 K a (by simp) (by decide)
    (by simp) ha]
  rw [parse_expression_loop_binary env _ _ _ _ _ _ _ _ _ 0 K o d (by simp) (by simp)
    ho hd hbin htop]
  rw [parse_expression_recursive_simple env _ _ _ _ _ _ _ _ _ K b (by simp) (by decide)
    (by simp) hb]
  rw [parse_expression_loop_end env _ _ _ _ _ _ _ _ _ _ _ (hterm 3 rfl)]
  simp only [Bool.not_eq_true, Bool.true_eq_false, if_false, not_true_eq_false,
    ExprParseContext.store_result, hderef, hcopy _ hvb, strncpy_str_of_le _ _ hvb]
  rw [parse_expression_loop_end env _ _ _ _ _ _ _ _ _ _ _ (hterm 3 rfl)]
  simp only [Except.ok.injEq, ExprResult.mk.injEq, ExprParseContext.mk.injEq, true_and, and_true]
  exact hcopy _ (hbuf _ _ _ _ _ _)

/-- C31, as the claim states it, fails: with `+` registered and no user
function `add`, evaluating `2 + 3` with the shell's own bridge returns
success with `BSH_HANDLER_NOT_FOUND<add>` in the result buffer, and with a
user function `add` of one parameter it returns success with
`BSH_HANDLER_PARAM_MISMATCH<add>`; the bridge itself returns `false`. -/
theorem handler_failure_returns_success_counterexample :
    evaluate_expression_from_tokens (bsh_env counting_rand scenario_process_line)
        tokens_2_plus_3 4 INPUT_BUFFER_SIZE handler_missing_kernel
      = .ok ⟨true, "BSH_HANDLER_NOT_FOUND<add>",
             { handler_missing_kernel with rand_state := 1 }, 3, []⟩
    ∧ evaluate_expression_from_tokens (bsh_env counting_rand scenario_process_line)
        tokens_2_plus_3 4 INPUT_BUFFER_SIZE handler_arity_kernel
      = .ok ⟨true, "BSH_HANDLER_PARAM_MISMATCH<add>",
             { handler_arity_kernel with rand_state := 1 }, 3, []⟩
    ∧ (invoke_bsh_operator_handler scenario_process_line "add" "+" ["2", "3"]
        "__bsh_expr_temp_0" INPUT_BUFFER_SIZE handler_missing_kernel).ok = false
    ∧ (invoke_bsh_operator_handler scenario_process_line "add" "+" ["2", "3"]
        "__bsh_expr_temp_0" INPUT_BUFFER_SIZE handler_arity_kernel).ok = false := by
  decide

/-- C31, amended: for every registered BinaryInfix operator that the loop
applies at the top level and whose handler name (at most 255 characters)
names no user function, or a user function that does not declare four
parameters, evaluating `a op b` with the shell's own bridge returns success,
leaves the state as it is but for the state of `rand`, and the result buffer
holds `BSH_HANDLER_NOT_FOUND<name>`, or `BSH_HANDLER_PARAM_MISMATCH<name>`. -/
theorem handler_failure_leaves_marker (rand : Nat → Nat × Nat)
    (process_line : String → Nat → Kernel → Kernel) (K : Kernel) (a b opt : Token)
    (tail : List Token) (d : OperatorDefinition) (bs : Nat)
    (ha : is_operand_token a) (hb : is_operand_token b)
    (hopt : opt.type = TOKEN_OPERATOR)
    (hd : get_operator_definition K opt.text = some d)
    (hbin : d.op_type_prop = OP_TYPE_BINARY_INFIX)
    (htop : binds_at d 0)
    (hname : d.bsh_handler_name.length ≤ MAX_VAR_NAME_LEN - 1)
    (hbs : INPUT_BUFFER_SIZE ≤ bs) (htail : ends_expression tail) :
    (find_user_function K d.bsh_handler_name = none →
      evaluate_expression_from_tokens (bsh_env rand process_line) ([a, opt, b] ++ tail)
          ([a, opt, b] ++ tail).length bs K
        = .ok ⟨true, "BSH_HANDLER_NOT_FOUND<" ++ d.bsh_handler_name ++ ">",
               { K with rand_state := (rand K.rand_state).2 }, 3, []⟩)
    ∧ (∀ f, find_user_function K d.bsh_handler_name = some f → f.param_count ≠ 4 →
      evaluate_expression_from_tokens (bsh_env rand process_line) ([a, opt, b] ++ tail)
          ([a, opt, b] ++ tail).length bs K
        = .ok ⟨true, "BSH_HANDLER_PARAM_MISMATCH<" ++ d.bsh_handler_name ++ ">",
               { K with rand_state := (rand K.rand_state).2 }, 3, []⟩) := by
  have hmain := binary_single_application (bsh_env rand process_line) K a b opt tail d bs
    ha hb hopt hd hbin htop (bsh_env_respects_buffer rand process_line) hbs htail
  have hn : strncpy_str (MAX_VAR_NAME_LEN - 1) d.bsh_handler_name = d.bsh_handler_name :=
    strncpy_str_of_le _ _ hname
  have hfun : ∀ K1 : Kernel, K1.function_list = K.function_list →
      find_user_function K1 d.bsh_handler_name = find_user_function K d.bsh_handler_name := by
    intro K1 h; unfold find_user_function; rw [h]
  have hlen1 : ("BSH_HANDLER_NOT_FOUND<" ++ d.bsh_handler_name ++ ">").length
      ≤ INPUT_BUFFER_SIZE - 1 := by
    simp only [String.length_append, MAX_VAR_NAME_LEN, INPUT_BUFFER_SIZE] at hname ⊢
    have : ("BSH_HANDLER_NOT_FOUND<" : String).length = 22 := by decide
    have : (">" : String).length = 1 := by decide
    omega
  have hlen2 : ("BSH_HANDLER_PARAM_MISMATCH<" ++ d.bsh_handler_name ++ ">").length
      ≤ INPUT_BUFFER_SIZE - 1 := by
    simp only [String.length_append, MAX_VAR_NAME_LEN, INPUT_BUFFER_SIZE] at hname ⊢
    have : ("BSH_HANDLER_PARAM_MISMATCH<" : String).length = 27 := by decide
    have : (">" : String).length = 1 := by decide
    omega
  constructor
  · intro hnone
    rw [hmain]
    simp only [bsh_env, invoke_bsh_operator_handler, hn, call_rand,
      hfun { K with rand_state := (rand K.rand_state).2 } rfl, hnone,
      strncpy_str_of_le _ _ hlen1]
  · intro f hf hcount
    rw [hmain]
    have hc : f.param_count ≠ [operand_value K a, operand_value K b].length + 2 := hcount
    simp only [bsh_env, invoke_bsh_operator_handler, hn, call_rand,
      hfun { K with rand_state := (rand K.rand_state).2 } rfl, hf, hc, if_true, ne_eq,
      not_false_eq_true, strncpy_str_of_le _ _ hlen2]

/-- The line `2 + 3` with `+` registered and no user function `add`. -/
theorem handler_failure_leaves_marker_witness :
    evaluate_expression_from_tokens (bsh_env counting_rand scenario_process_line)
        ([number_token "2", operator_token "+", number_token "3"] ++ [eof_token]) 4
        INPUT_BUFFER_SIZE handler_missing_kernel
      = .ok ⟨true, "BSH_HANDLER_NOT_FOUND<" ++ "add" ++ ">",
             { handler_missing_kernel with rand_state := 1 }, 3, []⟩ :=
  (handler_failure_leaves_marker counting_rand scenario_process_line handler_missing_kernel
    (number_token "2") (number_token "3") (operator_token "+") [eof_token]
    (binary_operator "+" 10 ASSOC_LEFT "add") INPUT_BUFFER_SIZE
    (by decide) (by decide) (by decide) (by decide) (by decide)
    ⟨by decide, fun _ => by decide⟩ (by decide)
    (Nat.le_refl _) (by intro e he; cases he; rfl)).1 (by decide)

/-! ## C32: what the result buffer holds after a failure -/

/-- C32: evaluating `( 2 + 3` returns failure and the result buffer holds `5`,
the value of the sum, not the marker of the missing parenthesis; evaluating
a lone `)` returns failure and the result buffer is empty. In both cases
`parse_operand` has written its marker to the operand buffer of its caller,
which returns without copying it. The line written to `stderr` is the one
of the missing parenthesis, and of the unexpected token. -/
theorem operand_failure_marker_not_in_result_buffer :
    (evaluate_expression_from_tokens arith_env tokens_open_paren_sum 5 INPUT_BUFFER_SIZE
        arith_kernel).map (fun r => (r.ok, r.result, r.diagnostics))
      = .ok (false, "5", [.missing_rparen (mk_token TOKEN_LPAREN "(")])
    ∧ (evaluate_expression_from_tokens arith_env tokens_lone_rparen 2 INPUT_BUFFER_SIZE
        arith_kernel).map (fun r => (r.ok, r.result, r.diagnostics))
      = .ok (false, "", [.unexpected_token_as_operand (mk_token TOKEN_RPAREN ")")])
    ∧ (parse_operand arith_env 12
        ⟨tokens_open_paren_sum, 0, 5, "", INPUT_BUFFER_SIZE, 1, []⟩ INPUT_BUFFER_SIZE
        arith_kernel).map (fun r => (r.ok, r.operand))
      = .ok (false, "EXPR_PARSE_ERROR_MISSING_RPAREN")
    ∧ (parse_operand arith_env 6
        ⟨tokens_lone_rparen, 0, 2, "", INPUT_BUFFER_SIZE, 1, []⟩ INPUT_BUFFER_SIZE
        arith_kernel).map (fun r => (r.ok, r.operand))
      = .ok (false, "EXPR_PARSE_ERROR_UNEXPECTED_TOKEN_PRIMARY") := by
  decide

/-! ## C38: the read after a prefix `++` -/

/-- C38: with `++` registered as a UnaryPrefix operator, the slice of the one
token `++` makes `parse_operand` read `tokens[1]`, past the slice: after the
operator is consumed the next token is read without a comparison of the
index with `num_tokens`. With an Eof token after the operator the read is
inside the slice and the evaluation fails in the regular way. -/
theorem prefix_increment_reads_past_slice :
    evaluate_expression_from_tokens arith_env [operator_token "++"] 1 INPUT_BUFFER_SIZE
        prefix_increment_kernel = .error Fault.token_read_out_of_bounds
    ∧ parse_operand arith_env 4
        ⟨[operator_token "++"], 0, 1, "", INPUT_BUFFER_SIZE, 1, []⟩ INPUT_BUFFER_SIZE
        prefix_increment_kernel = .error Fault.token_read_out_of_bounds
    ∧ (evaluate_expression_from_tokens arith_env [operator_token "++", eof_token] 2
        INPUT_BUFFER_SIZE prefix_increment_kernel).map (fun r => (r.ok, r.diagnostics))
      = .ok (false, [.prefix_operand_not_variable eof_token]) := by
  decide

/-! ## C39: the length of what `unescape_string` writes -/

theorem unescape_loop_length (input : List Char) (in_quotes : Bool) (buffer_size : Nat) :
    ∀ (fuel i : Nat) (out : List Char) (out_len : Nat),
      out.length ≤ 2 * out_len → out_len ≤ size_t_pred buffer_size →
      (unescape_loop input in_quotes buffer_size fuel i out out_len).length
        ≤ 2 * size_t_pred buffer_size := by
  intro fuel
  induction fuel with
  | zero => intro i out out_len h1 h2; unfold unescape_loop; omega
  | succ n ih =>
    intro i out out_len h1 h2
    unfold unescape_loop
    split
    · omega
    · rename_i hcont
      have hlt : out_len < size_t_pred buffer_size := by
        simp only [Bool.or_eq_true, decide_eq_true_eq, not_or, Decidable.not_not] at hcont
        exact hcont.2
      split
      · omega
      · split
        · dsimp only
          split
          · omega
          · apply ih
            · simp only [List.length_append]
              have : (if char_at input (i + 1) = 'n' then ['\n']
                      else if char_at input (i + 1) = 't' then ['\t']
                      else if char_at input (i + 1) = DQUOTE then [DQUOTE]
                      else if char_at input (i + 1) = BACKSLASH then [BACKSLASH]
                      else if char_at input (i + 1) = DOLLAR then [DOLLAR]
                      else [BACKSLASH, char_at input (i + 1)]).length ≤ 2 := by
                repeat' split
                all_goals simp
              omega
            · omega
        · apply ih
          · simp only [List.length_append, List.length_singleton]; omega
          · omega

/-- C39: with a buffer of 4 bytes, the input of the three escapes `\a\a\a`
makes `unescape_string` write six characters before the terminating NUL,
where the buffer holds three: an escape that is not one of the five known
ones writes the backslash and the character and counts one. What is written
to a buffer of `buffer_size >= 1` bytes is never more than
`2 * (buffer_size - 1)` characters. -/
theorem unescape_string_overruns_buffer :
    unescape_string "\\a\\a\\a" 4 = "\\a\\a\\a"
    ∧ (unescape_string "\\a\\a\\a" 4).length = 6
    ∧ (unescape_string "\"\\a\\a\\a\"" 4).length = 6
    ∧ (unescape_string "\\n\\t\\\\" 4).length = 3
    ∧ ∀ (input_raw : String) (buffer_size : Nat), 1 ≤ buffer_size →
        (unescape_string input_raw buffer_size).length ≤ 2 * (buffer_size - 1) := by
  refine ⟨by decide, by decide, by decide, by decide, ?_⟩
  intro input_raw buffer_size hsize
  unfold unescape_string
  rw [← size_t_pred_of_pos buffer_size hsize]
  exact unescape_loop_length _ _ _ _ _ _ _ (by simp) (by omega)

/-! ## C37: the `-` that no operator matches -/

set_option maxRecDepth 1000000 in
/-- C37: with the empty registry, a token array of 128 entries and a storage of
4096 bytes, the line `build-cache` gives the Word `build`, then 126 Word
tokens of length 0, all at column 6, and the Eof token: the `-` starts a
word of which the loop takes no character, the position does not move, and
the rounds repeat until the array is full; `cache` is never reached. With a
storage of 7 bytes the empty token is dropped and the loop has no end. With
`-` registered the line gives `build`, `-`, `cache`. -/
theorem unmatched_minus_stalls_tokenizer :
    advanced_tokenize_line global_kernel "build-cache" 1 128 4096
      = .ok ([mk_token TOKEN_WORD "build"]
              ++ List.replicate 126
                  ({ type := TOKEN_WORD, text := "", len := 0, line := 1, col := 6 } : Token)
              ++ [{ type := TOKEN_EOF, text := "EOF", len := 3, line := 1, col := 6 }])
    ∧ advanced_tokenize_line global_kernel "build-cache" 1 128 7
      = .error TokenizerFault.does_not_terminate
    ∧ (advanced_tokenize_line (kernel_with_symbols ["-"]) "build-cache" 1 128 4096).map
        (fun ts => ts.map (fun t => (t.type, t.text, t.col)))
      = .ok [(TOKEN_WORD, "build", 1), (TOKEN_OPERATOR, "-", 6), (TOKEN_WORD, "cache", 7),
             (TOKEN_EOF, "EOF", 12)] := by
  decide

/-! ## C34: the recursion guard and nested parentheses -/

/-- An operand behind `j` opening parentheses and before `j` closing ones is
parsed when the depth counter has room for two levels for each pair and one
more. -/
theorem parse_nested_operand (env : Env) (toks : List Token) (n bs : Nat) (K : Kernel)
    (t : Token) (hop : is_operand_token t) (hbs : INPUT_BUFFER_SIZE ≤ bs)
    (dg : List ParserDiagnostic) :
    ∀ (j fuel i dp : Nat) (rb : String) (m : Int),
      dp + 2 * j + 1 < MAX_EXPR_RECURSION_DEPTH →
      i + 2 * j < n →
      (∀ x, x < j → ∃ l, toks[i + x]? = some l ∧ l.type = TOKEN_LPAREN) →
      toks[i + j]? = some t →
      (∀ x, x < j → ∃ r, toks[i + j + 1 + x]? = some r ∧ r.type = TOKEN_RPAREN) →
      (i + 2 * j + 1 < n → ∃ e, toks[i + 2 * j + 1]? = some e ∧ is_terminator e) →
      parse_expression_recursive env (fuel + 2 * j + 2) ⟨toks, i, n, rb, bs, dp, dg⟩ m K
        = .ok ⟨true, ⟨toks, i + 2 * j + 1, n, operand_value K t, bs, dp, dg⟩, K⟩ := by
  have hv := operand_value_length K t
  have hcopy : strncpy_str (bs - 1) (operand_value K t) = operand_value K t :=
    strncpy_str_of_le _ _ (by omega)
  intro j
  induction j with
  | zero =>
    intro fuel i dp rb m hdp hin _ ht _ hend
    rw [parse_expression_recursive_simple env fuel toks i n rb bs dp dg m K t (by omega)
      (by omega) (by simpa using ht) hop]
    rw [parse_expression_loop_end env fuel toks (i + 1) n _ bs (dp + 1) dg _ m K
      (by simpa using hend)]
    simp only [hcopy, Nat.add_sub_cancel, Nat.mul_zero, Nat.add_zero]
  | succ j ih =>
    intro fuel i dp rb m hdp hin hL ht hR hend
    obtain ⟨l, hl, hlty⟩ := hL 0 (by omega)
    obtain ⟨r, hr, hrty⟩ := hR j (by omega)
    have hsub := ih fuel (i + 1) (dp + 2) rb 0 (by omega) (by omega)
      (fun x hx => by
        obtain ⟨l1, h1, h2⟩ := hL (x + 1) (by omega)
        exact ⟨l1, by rw [← h1]; congr 1; omega, h2⟩)
      (by rw [← ht]; congr 1; omega)
      (fun x hx => by
        obtain ⟨r1, h1, h2⟩ := hR x (by omega)
        exact ⟨r1, by rw [← h1]; congr 1; omega, h2⟩)
      (fun _ => ⟨r, by rw [← hr]; congr 1; omega, Or.inl hrty⟩)
    have hfuel : fuel + 2 * (j + 1) + 2 = (fuel + 2 * j + 2) + 1 + 1 := by omega
    rw [hfuel, parse_expression_recursive_unfold env _ toks i n rb bs dp dg m K (by omega),
      parse_operand_paren env _ toks i n rb bs (dp + 1) dg INPUT_BUFFER_SIZE K l (by omega)
        (by omega) (by simpa using hl) hlty, hsub]
    have hidx : ¬ (i + 1 + 2 * j + 1 ≥ n) := by omega
    have hr2 : toks[i + 1 + 2 * j + 1]? = some r := by rw [← hr]; congr 1; omega
    simp only [Bool.not_eq_true, Bool.true_eq_false, if_false, not_true_eq_false, hidx,
      ExprParseContext.token_at, hr2, hrty, ne_eq, ExprParseContext.advance,
      ExprParseContext.leave, ExprParseContext.store_result, Nat.add_sub_cancel,
      strncpy_str_of_le _ _ hv, hcopy]
    rw [show fuel + 2 * j + 3 = (fuel + 2 * j + 2) + 1 from rfl,
      show dp + 2 - 1 = dp + 1 from by omega,
      parse_expression_loop_end env _ toks _ n _ bs (dp + 1) dg _ m K
        (fun h => by
          obtain ⟨e, he, hte⟩ := hend (by omega)
          exact ⟨e, by rw [← he]; congr 1; omega, hte⟩)]
    simp only [Nat.add_sub_cancel, Except.ok.injEq, ExprResult.mk.injEq,
      ExprParseContext.mk.injEq, true_and, and_true]
    omega

/-- Behind `j` opening parentheses that take the depth counter to 64 the
parse fails with the marker of the recursion limit in the result buffer. -/
theorem parse_nested_too_deep (env : Env) (toks : List Token) (n bs : Nat) (K : Kernel)
    (dg : List ParserDiagnostic) :
    ∀ (j fuel i dp : Nat) (rb : String) (m : Int),
      dp + 2 * j = MAX_EXPR_RECURSION_DEPTH →
      i + j ≤ n →
      (∀ x, x < j → ∃ l, toks[i + x]? = some l ∧ l.type = TOKEN_LPAREN) →
      parse_expression_recursive env (fuel + 2 * j + 1) ⟨toks, i, n, rb, bs, dp, dg⟩ m K
        = .ok ⟨false,
               ⟨toks, i + j, n, strncpy_str (bs - 1) "EXPR_PARSE_ERROR_RECURSION_MAIN", bs, dp,
                dg ++ [.main_recursion_limit]⟩, K⟩ := by
  intro j
  induction j with
  | zero =>
    intro fuel i dp rb m hdp _ _
    rw [parse_expression_recursive]
    have h : dp ≥ MAX_EXPR_RECURSION_DEPTH := by omega
    simp only [h, if_true, ExprParseContext.report, ExprParseContext.store_result,
      Nat.add_zero]
  | succ j ih =>
    intro fuel i dp rb m hdp hin hL
    obtain ⟨l, hl, hlty⟩ := hL 0 (by omega)
    have hsub := ih fuel (i + 1) (dp + 2) rb 0 (by omega) (by omega)
      (fun x hx => by
        obtain ⟨l1, h1, h2⟩ := hL (x + 1) (by omega)
        exact ⟨l1, by rw [← h1]; congr 1; omega, h2⟩)
    have hfuel : fuel + 2 * (j + 1) + 1 = (fuel + 2 * j + 1) + 1 + 1 := by omega
    rw [hfuel, parse_expression_recursive_unfold env _ toks i n rb bs dp dg m K (by omega),
      parse_operand_paren env _ toks i n rb bs (dp + 1) dg INPUT_BUFFER_SIZE K l (by omega)
        (by omega) (by simpa using hl) hlty, hsub]
    simp only [Bool.not_eq_true, if_true, ExprParseContext.leave, Except.ok.injEq,
      ExprResult.mk.injEq, ExprParseContext.mk.injEq, true_and, and_true]
    omega

theorem nested_operand_tokens_length (k : Nat) (t : Token) :
    (nested_operand_tokens k t).length = 2 * k + 2 := by
  simp only [nested_operand_tokens, List.length_append, List.length_replicate,
    List.length_cons, List.length_nil]
  omega

theorem nested_operand_tokens_lparen (k : Nat) (t : Token) (x : Nat) (hx : x < k) :
    (nested_operand_tokens k t)[x]? = some lparen_token := by
  unfold nested_operand_tokens
  rw [List.getElem?_append_left (by simpa using hx)]
  simp [List.getElem?_replicate, hx]

theorem nested_operand_tokens_operand (k : Nat) (t : Token) :
    (nested_operand_tokens k t)[k]? = some t := by
  unfold nested_operand_tokens
  rw [List.getElem?_append_right (by simp)]
  simp

theorem nested_operand_tokens_rparen (k : Nat) (t : Token) (x : Nat) (hx : x < k) :
    (nested_operand_tokens k t)[k + 1 + x]? = some rparen_token := by
  unfold nested_operand_tokens
  rw [List.getElem?_append_right (by simp; omega)]
  have h1 : k + 1 + x - (List.replicate k lparen_token).length = x + 1 := by
    simp only [List.length_replicate]; omega
  rw [h1, List.getElem?_cons_succ, List.getElem?_append_left (by simpa using hx)]
  simp [List.getElem?_replicate, hx]

theorem nested_operand_tokens_eof (k : Nat) (t : Token) :
    (nested_operand_tokens k t)[2 * k + 1]? = some eof_token := by
  unfold nested_operand_tokens
  rw [List.getElem?_append_right (by simp; omega)]
  have h1 : 2 * k + 1 - (List.replicate k lparen_token).length = k + 1 := by
    simp only [List.length_replicate]; omega
  rw [h1, List.getElem?_cons_succ, List.getElem?_append_right (by simp)]
  simp

/-- An operand in 32 or more pairs of parentheses: the evaluation fails at the
33rd call of `parse_expression_recursive`. -/
theorem evaluate_nested_too_deep (env : Env) (K : Kernel) (t : Token) (k bs : Nat)
    (hk : 32 ≤ k) (hbs : INPUT_BUFFER_SIZE ≤ bs) :
    evaluate_expression_from_tokens env (nested_operand_tokens k t) (2 * k + 2) bs K
      = .ok ⟨false, "EXPR_PARSE_ERROR_RECURSION_MAIN", K, 32, [.main_recursion_limit]⟩ := by
  unfold evaluate_expression_from_tokens
  rw [if_neg (by omega)]
  dsimp only
  have hfuel : 2 * (2 * k + 2) + 2 = (4 * k - 59) + 2 * 32 + 1 := by omega
  have h := parse_nested_too_deep env (nested_operand_tokens k t) (2 * k + 2) bs K []
    32 (4 * k - 59) 0 0 "" 0 (by decide) (by omega)
    (fun x hx => ⟨lparen_token,
      by rw [Nat.zero_add]; exact nested_operand_tokens_lparen k t x (by omega), rfl⟩)
  rw [hfuel, h]
  have hm : strncpy_str (bs - 1) "EXPR_PARSE_ERROR_RECURSION_MAIN"
      = "EXPR_PARSE_ERROR_RECURSION_MAIN" :=
    strncpy_str_of_le _ _ (by
      have : ("EXPR_PARSE_ERROR_RECURSION_MAIN" : String).length = 31 := by decide
      simp only [INPUT_BUFFER_SIZE] at hbs
      omega)
  simp [hm]

/-- C34, as the claim states it, fails: a number in 32 pairs of parentheses,
less than 64, does not evaluate; the evaluation fails with the marker of the
recursion limit. -/
theorem nesting_of_32_pairs_counterexample :
    evaluate_expression_from_tokens arith_env (nested_operand_tokens 32 (number_token "7"))
        (2 * 32 + 2) INPUT_BUFFER_SIZE arith_kernel
      = .ok ⟨false, "EXPR_PARSE_ERROR_RECURSION_MAIN", arith_kernel, 32,
             [.main_recursion_limit]⟩ :=
  evaluate_nested_too_deep arith_env arith_kernel (number_token "7") 32 INPUT_BUFFER_SIZE
    (Nat.le_refl _) (Nat.le_refl _)

/-- C34, amended: the depth counter is capped at 64 and every pair of
parentheses takes two levels of it, one in `parse_expression_recursive` and
one in `parse_operand`. An operand token wrapped in `k` pairs of
parentheses evaluates to its value for every `k <= 31`, and for every
`k >= 32` the evaluation fails, stops at token 32 and leaves the marker
`EXPR_PARSE_ERROR_RECURSION_MAIN` in the result buffer. -/
theorem nesting_limit_is_31_pairs (env : Env) (K : Kernel) (t : Token) (k bs : Nat)
    (hop : is_operand_token t) (hbs : INPUT_BUFFER_SIZE ≤ bs) :
    (k ≤ 31 →
      evaluate_expression_from_tokens env (nested_operand_tokens k t) (2 * k + 2) bs K
        = .ok ⟨true, operand_value K t, K, 2 * k + 1, []⟩)
    ∧ (32 ≤ k →
      evaluate_expression_from_tokens env (nested_operand_tokens k t) (2 * k + 2) bs K
        = .ok ⟨false, "EXPR_PARSE_ERROR_RECURSION_MAIN", K, 32, [.main_recursion_limit]⟩) := by
  constructor
  · intro hk
    refine evaluate_of_parse_ok env _ (2 * k + 2) bs K ((2 * k + 4) + 2 * k + 2) (2 * k + 1) 0
      _ _ _ (by omega) (by omega) ?_
      (fun _ => ⟨eof_token, nested_operand_tokens_eof k t, rfl⟩)
    have h := parse_nested_operand env (nested_operand_tokens k t) (2 * k + 2) bs K t hop hbs []
      k (2 * k + 4) 0 0 "" 0 (by simp only [MAX_EXPR_RECURSION_DEPTH]; omega) (by omega)
      (fun x hx => ⟨lparen_token,
        by rw [Nat.zero_add]; exact nested_operand_tokens_lparen k t x hx, rfl⟩)
      (by rw [Nat.zero_add]; exact nested_operand_tokens_operand k t)
      (fun x hx => ⟨rparen_token,
        by rw [Nat.zero_add]; exact nested_operand_tokens_rparen k t x hx, rfl⟩)
      (fun _ => ⟨eof_token,
        by rw [Nat.zero_add]; exact nested_operand_tokens_eof k t, Or.inr (Or.inl rfl)⟩)
    rw [Nat.zero_add] at h
    exact h
  · intro hk
    exact evaluate_nested_too_deep env K t k bs hk hbs

/-- The number `7` in 31 pairs of parentheses evaluates to `7`, and in 40 pairs
it does not. -/
theorem nesting_limit_is_31_pairs_witness :
    evaluate_expression_from_tokens arith_env (nested_operand_tokens 31 (number_token "7"))
        (2 * 31 + 2) INPUT_BUFFER_SIZE arith_kernel
      = .ok ⟨true, "7", arith_kernel, 2 * 31 + 1, []⟩
    ∧ evaluate_expression_from_tokens arith_env (nested_operand_tokens 40 (number_token "7"))
        (2 * 40 + 2) INPUT_BUFFER_SIZE arith_kernel
      = .ok ⟨false, "EXPR_PARSE_ERROR_RECURSION_MAIN", arith_kernel, 32,
             [.main_recursion_limit]⟩ :=
  ⟨((nesting_limit_is_31_pairs arith_env arith_kernel (number_token "7") 31
      INPUT_BUFFER_SIZE (by decide) (Nat.le_refl _)).1 (by decide)).trans (by decide),
   (nesting_limit_is_31_pairs arith_env arith_kernel (number_token "7") 40
      INPUT_BUFFER_SIZE (by decide) (Nat.le_refl _)).2 (by decide)⟩

/-! ## C35: the tokens are the substrings at their columns -/

theorem skip_whitespace_no_newline (p : List Char) (col : Nat) (h : NEWLINE_CHAR ∉ p) :
    ∃ k, k ≤ p.length ∧ skip_whitespace p col = (p.drop k, col + k) := by
  induction p generalizing col with
  | nil => exact ⟨0, Nat.le_refl _, rfl⟩
  | cons c cs ih =>
    unfold skip_whitespace
    by_cases hc : isspace c = true
    · rw [if_pos hc]
      have hne : ¬ c = NEWLINE_CHAR := by
        intro e; apply h; rw [e]; exact List.mem_cons_self _ _
      rw [if_neg hne]
      obtain ⟨k, hk, hs⟩ := ih (col + 1) (fun hm => h (List.mem_cons_of_mem _ hm))
      refine ⟨k + 1, by simp only [List.length_cons]; omega, ?_⟩
      rw [hs, List.drop_succ_cons]
      congr 1
      omega
    · rw [if_neg hc]
      exact ⟨0, Nat.zero_le _, rfl⟩

theorem skip_whitespace_head (p : List Char) (col : Nat) :
    (skip_whitespace p col).1 = [] ∨ isspace (head_char (skip_whitespace p col).1) = false := by
  induction p generalizing col with
  | nil => left; rfl
  | cons c cs ih =>
    unfold skip_whitespace
    by_cases hc : isspace c = true
    · rw [if_pos hc]; exact ih _
    · rw [if_neg hc]; right; simpa [head_char] using hc

theorem fixed_punct_type_ne_eof (K : Kernel) (p : List Char) :
    fixed_punct_type K p ≠ TOKEN_EOF := by
  unfold fixed_punct_type
  dsimp only
  repeat' split
  all_goals decide

theorem scan_token_type_ne_eof (K : Kernel) (p : List Char) (type : TokenType) (len : Nat)
    (h : scan_token K p = some (type, len)) : type ≠ TOKEN_EOF := by
  unfold scan_token at h
  dsimp only at h
  repeat' split at h
  all_goals first
    | (cases h; done)
    | (simp only [Option.some.injEq, Prod.mk.injEq] at h; rw [← h.1]; first
        | exact fixed_punct_type_ne_eof K p
        | decide)

theorem add_token_refactored_cases (type : TokenType) (text_start : List Char)
    (len line_num col max_tokens : Nat) (st : TokenizerState) :
    (add_token_refactored type text_start len line_num col max_tokens st).tokens = st.tokens
    ∨ ((add_token_refactored type text_start len line_num col max_tokens st).tokens
          = st.tokens ++ [{ type := type, text := ⟨text_start.take len⟩, len := len,
                            line := line_num, col := col }]
        ∧ st.tokens.length + 1 < max_tokens) := by
  unfold add_token_refactored
  by_cases h : st.tokens.length + 1 ≥ max_tokens ∨ st.remaining_storage ≤ len + 1
  · rw [if_pos h]; left; rfl
  · rw [if_neg h]; right
    exact ⟨rfl, by by_contra h2; exact h (Or.inl (by omega))⟩

theorem tokens_good_mono (l : List Char) (line_num : Nat) (toks : List Token) (c c1 : Nat)
    (h : TokensGood l line_num toks c) (hc : c ≤ c1) : TokensGood l line_num toks c1 := by
  refine ⟨fun t ht => ?_, h.2⟩
  obtain ⟨h1, h2, h3, h4, h5⟩ := h.1 t ht
  exact ⟨h1, h2, h3, by omega, h5⟩

theorem tokens_good_append (l : List Char) (line_num : Nat) (toks : List Token) (c : Nat)
    (h : TokensGood l line_num toks c) (type : TokenType) (len col : Nat)
    (htype : type ≠ TOKEN_EOF) (hcol : c ≤ col) (hpos : 1 ≤ col) :
    TokensGood l line_num
      (toks ++ [{ type := type, text := ⟨(l.drop (col - 1)).take len⟩, len := len,
                  line := line_num, col := col }]) (col + len) := by
  refine ⟨fun t ht => ?_, ?_⟩
  · rcases List.mem_append.mp ht with ht | ht
    · obtain ⟨h1, h2, h3, h4, h5⟩ := h.1 t ht
      exact ⟨h1, h2, h3, by omega, h5⟩
    · rw [List.mem_singleton] at ht
      subst ht
      exact ⟨htype, rfl, hpos, Nat.le_refl _, rfl⟩
  · rw [List.pairwise_append]
    refine ⟨h.2, List.pairwise_singleton _ _, ?_⟩
    intro a ha b hb
    rw [List.mem_singleton] at hb
    subst hb
    have := (h.1 a ha).2.2.2.1
    show a.col + a.len ≤ col
    omega

/-- The loop of the tokenizer keeps the tokens good: on a line without a
newline, from a cursor at column `current_col`, what it returns are tokens
that are substrings of the line at their columns, in the order of the
columns, fewer than `max_tokens`. -/
theorem tokenize_loop_good (K : Kernel) (l : List Char) (line_num max_tokens : Nat)
    (hnl : NEWLINE_CHAR ∉ l) :
    ∀ (fuel : Nat) (p : List Char) (st st1 : TokenizerState),
      p = l.drop (st.current_col - 1) → 1 ≤ st.current_col →
      st.current_col ≤ l.length + 1 → st.tokens.length < max_tokens →
      TokensGood l line_num st.tokens st.current_col →
      tokenize_loop K line_num max_tokens fuel p st = .ok st1 →
      st1.tokens.length < max_tokens ∧ 1 ≤ st1.current_col
        ∧ st1.current_col ≤ l.length + 1
        ∧ TokensGood l line_num st1.tokens st1.current_col := by
  intro fuel
  induction fuel with
  | zero => intro p st st1 _ _ _ _ _ h; rw [tokenize_loop] at h; cases h
  | succ n ih =>
    intro p st st1 hp hc1 hc2 hlen hgood h
    rw [tokenize_loop] at h
    by_cases hexit : p = [] ∨ ¬ (st.tokens.length + 1 < max_tokens)
    · rw [if_pos hexit] at h
      injection h with h
      subst h
      exact ⟨hlen, hc1, hc2, hgood⟩
    rw [if_neg hexit] at h
    dsimp only at h
    have hplen : p.length = l.length - (st.current_col - 1) := by
      rw [hp, List.length_drop]
    obtain ⟨k, hk, hskip⟩ := skip_whitespace_no_newline p st.current_col
      (fun hm => hnl (by rw [hp] at hm; exact List.mem_of_mem_drop hm))
    rw [hskip] at h
    dsimp only at h
    have hp1 : p.drop k = l.drop (st.current_col + k - 1) := by
      rw [hp, List.drop_drop]; congr 1; omega
    by_cases hnil : p.drop k = []
    · rw [if_pos hnil] at h
      injection h with h
      subst h
      exact ⟨hlen, by show 1 ≤ st.current_col + k; omega,
        by show st.current_col + k ≤ l.length + 1; omega,
        tokens_good_mono _ _ _ _ _ hgood (by show st.current_col ≤ st.current_col + k; omega)⟩
    rw [if_neg hnil] at h
    cases hscan : scan_token K (p.drop k) with
    | none =>
      rw [hscan] at h
      injection h with h
      subst h
      exact ⟨hlen, by show 1 ≤ st.current_col + k; omega,
        by show st.current_col + k ≤ l.length + 1; omega,
        tokens_good_mono _ _ _ _ _ hgood (by show st.current_col ≤ st.current_col + k; omega)⟩
    | some r =>
      obtain ⟨type, len⟩ := r
      rw [hscan] at h
      dsimp only at h
      have hle := scan_token_length_le K _ hnil type len hscan
      have hty := scan_token_type_ne_eof K _ type len hscan
      rw [List.length_drop] at hle
      by_cases hstall : len = 0 ∧
          (add_token_refactored type (p.drop k) len line_num (st.current_col + k) max_tokens
            { st with current_col := st.current_col + k }).tokens.length = st.tokens.length
      · rw [if_pos hstall] at h; cases h
      rw [if_neg hstall] at h
      refine ih _ _ st1 ?_ ?_ ?_ ?_ ?_ h
      · show List.drop len (p.drop k) = l.drop (st.current_col + k + len - 1)
        rw [hp1, List.drop_drop]; congr 1; omega
      · show 1 ≤ st.current_col + k + len; omega
      · show st.current_col + k + len ≤ l.length + 1; omega
      · rcases add_token_refactored_cases type (p.drop k) len line_num (st.current_col + k)
          max_tokens { st with current_col := st.current_col + k } with hadd | ⟨hadd, hroom⟩
        · show (add_token_refactored type (p.drop k) len line_num (st.current_col + k)
            max_tokens { st with current_col := st.current_col + k }).tokens.length < max_tokens
          rw [hadd]; exact hlen
        · show (add_token_refactored type (p.drop k) len line_num (st.current_col + k)
            max_tokens { st with current_col := st.current_col + k }).tokens.length < max_tokens
          rw [hadd, List.length_append, List.length_singleton]; exact hroom
      · rcases add_token_refactored_cases type (p.drop k) len line_num (st.current_col + k)
          max_tokens { st with current_col := st.current_col + k } with hadd | ⟨hadd, hroom⟩
        · show TokensGood l line_num (add_token_refactored type (p.drop k) len line_num
            (st.current_col + k) max_tokens
            { st with current_col := st.current_col + k }).tokens (st.current_col + k + len)
          rw [hadd]
          exact tokens_good_mono _ _ _ _ _ hgood
            (by show st.current_col ≤ st.current_col + k + len; omega)
        · show TokensGood l line_num (add_token_refactored type (p.drop k) len line_num
            (st.current_col + k) max_tokens
            { st with current_col := st.current_col + k }).tokens (st.current_col + k + len)
          rw [hadd, hp1]
          exact tokens_good_append l line_num st.tokens st.current_col hgood type len
            (st.current_col + k) hty (by omega) (by omega)

/-- A round that makes a token of length 0 leaves the cursor where it is: the
loop ends only when the token array is full. -/
theorem tokenize_loop_stuck (K : Kernel) (line_num max_tokens : Nat) (type : TokenType)
    (p : List Char) (hp : p ≠ []) (hspace : isspace (head_char p) = false)
    (hscan : scan_token K p = some (type, 0)) :
    ∀ (fuel : Nat) (st st1 : TokenizerState),
      tokenize_loop K line_num max_tokens fuel p st = .ok st1 →
      ¬ (st1.tokens.length + 1 < max_tokens) := by
  intro fuel
  induction fuel with
  | zero => intro st st1 h; rw [tokenize_loop] at h; cases h
  | succ n ih =>
    intro st st1 h
    rw [tokenize_loop] at h
    by_cases hexit : p = [] ∨ ¬ (st.tokens.length + 1 < max_tokens)
    · rw [if_pos hexit] at h
      injection h with h
      subst h
      rcases hexit with h1 | h1
      · exact absurd h1 hp
      · exact h1
    rw [if_neg hexit] at h
    simp only [skip_whitespace_of_nonspace p st.current_col hspace] at h
    rw [if_neg hp, hscan] at h
    dsimp only at h
    by_cases hstall : 0 = 0 ∧
        (add_token_refactored type p 0 line_num st.current_col max_tokens
          { st with current_col := st.current_col }).tokens.length = st.tokens.length
    · rw [if_pos hstall] at h; cases h
    rw [if_neg hstall] at h
    exact ih _ st1 h

/-- When the loop of the tokenizer ends with room left in the token array,
every token it has written has a character at least. -/
theorem tokenize_loop_lens (K : Kernel) (line_num max_tokens : Nat) :
    ∀ (fuel : Nat) (p : List Char) (st st1 : TokenizerState),
      (∀ t ∈ st.tokens, 1 ≤ t.len) →
      tokenize_loop K line_num max_tokens fuel p st = .ok st1 →
      st1.tokens.length + 1 < max_tokens → ∀ t ∈ st1.tokens, 1 ≤ t.len := by
  intro fuel
  induction fuel with
  | zero => intro p st st1 _ h; rw [tokenize_loop] at h; cases h
  | succ n ih =>
    intro p st st1 hall h hroom
    rw [tokenize_loop] at h
    by_cases hexit : p = [] ∨ ¬ (st.tokens.length + 1 < max_tokens)
    · rw [if_pos hexit] at h
      injection h with h
      subst h
      exact hall
    rw [if_neg hexit] at h
    dsimp only at h
    by_cases hnil : (skip_whitespace p st.current_col).1 = []
    · rw [if_pos hnil] at h
      injection h with h
      subst h
      exact hall
    rw [if_neg hnil] at h
    have hhead : isspace (head_char (skip_whitespace p st.current_col).1) = false := by
      rcases skip_whitespace_head p st.current_col with h1 | h1
      · exact absurd h1 hnil
      · exact h1
    cases hscan : scan_token K (skip_whitespace p st.current_col).1 with
    | none =>
      rw [hscan] at h
      injection h with h
      subst h
      exact hall
    | some r =>
      obtain ⟨type, len⟩ := r
      rw [hscan] at h
      dsimp only at h
      by_cases hstall : len = 0 ∧
          (add_token_refactored type (skip_whitespace p st.current_col).1 len line_num
            (skip_whitespace p st.current_col).2 max_tokens
            { st with current_col := (skip_whitespace p st.current_col).2 }).tokens.length
            = st.tokens.length
      · rw [if_pos hstall] at h; cases h
      rw [if_neg hstall] at h
      by_cases hl : len = 0
      · subst hl
        exact absurd hroom
          (tokenize_loop_stuck K line_num max_tokens type _ hnil hhead hscan n _ st1 h)
      refine ih _ _ st1 ?_ h hroom
      rcases add_token_refactored_cases type (skip_whitespace p st.current_col).1 len line_num
        (skip_whitespace p st.current_col).2 max_tokens
        { st with current_col := (skip_whitespace p st.current_col).2 } with hadd | ⟨hadd, _⟩
      · show ∀ t ∈ (add_token_refactored type (skip_whitespace p st.current_col).1 len line_num
          (skip_whitespace p st.current_col).2 max_tokens
          { st with current_col := (skip_whitespace p st.current_col).2 }).tokens, 1 ≤ t.len
        rw [hadd]; exact hall
      · show ∀ t ∈ (add_token_refactored type (skip_whitespace p st.current_col).1 len line_num
          (skip_whitespace p st.current_col).2 max_tokens
          { st with current_col := (skip_whitespace p st.current_col).2 }).tokens, 1 ≤ t.len
        rw [hadd]
        intro t ht
        rcases List.mem_append.mp ht with ht | ht
        · exact hall t ht
        · rw [List.mem_singleton] at ht
          subst ht
          show 1 ≤ len
          omega

/-- C35: for every registry, every line without a newline character, every
line number and every capacity with room for the Eof token and storage for
the characters of the line and a NUL for each token, `advanced_tokenize_line`
returns tokens that end with an Eof token, the only one, which carries the line
number. Each token before it carries the line number, starts at a 1-based
column `col` inside the line, and has as `text` exactly the `len` characters
of the line from that column on; each token ends where the next one starts, or
before, and the last before the column of the Eof token. When the token array
is not filled (the line fits the token capacity), each token has a character
at least and the columns increase strictly. -/
theorem tokens_are_substrings_at_columns (K : Kernel) (line_text : String)
    (line_num max_tokens storage_size : Nat)
    (hnl : NEWLINE_CHAR ∉ line_text.data) (hmax : 1 ≤ max_tokens)
    (hstorage : line_text.length + max_tokens + 1 ≤ storage_size) :
    ∃ (body : List Token) (eof_col : Nat),
      advanced_tokenize_line K line_text line_num max_tokens storage_size
        = .ok (body ++ [{ type := TOKEN_EOF, text := "EOF", len := 3, line := line_num,
                          col := eof_col }])
      ∧ (∀ t ∈ body, t.type ≠ TOKEN_EOF ∧ t.line = line_num ∧ 1 ≤ t.col
          ∧ t.col - 1 + t.len ≤ line_text.length ∧ t.col + t.len ≤ eof_col
          ∧ t.text = ⟨(line_text.data.drop (t.col - 1)).take t.len⟩)
      ∧ body.Pairwise (fun a b => a.col + a.len ≤ b.col)
      ∧ (body.length + 1 < max_tokens →
          (∀ t ∈ body, 1 ≤ t.len) ∧ body.Pairwise (fun a b => a.col < b.col)) := by
  obtain ⟨st1, hst1, _⟩ := tokenize_loop_total K line_num max_tokens
    (line_text.length + max_tokens + 1) line_text.data
    { tokens := [], remaining_storage := storage_size, current_col := 1 }
    (by simp only [String.length, List.length_nil]; omega)
    (by simp only [String.length, List.length_nil] at hstorage ⊢; omega)
  obtain ⟨g1, g2, g3, g4, g5⟩ := tokenize_loop_good K line_text.data line_num max_tokens hnl
    (line_text.length + max_tokens + 1) line_text.data
    { tokens := [], remaining_storage := storage_size, current_col := 1 } st1
    rfl (Nat.le_refl _) (by show 1 ≤ line_text.data.length + 1; omega) hmax
    ⟨fun t ht => absurd ht (List.not_mem_nil t), List.Pairwise.nil⟩ hst1
  have hlens := tokenize_loop_lens K line_num max_tokens
    (line_text.length + max_tokens + 1) line_text.data
    { tokens := [], remaining_storage := storage_size, current_col := 1 } st1
    (fun t ht => absurd ht (List.not_mem_nil t)) hst1
  refine ⟨st1.tokens, st1.current_col, ?_, ?_, g5, ?_⟩
  · unfold advanced_tokenize_line
    rw [hst1]
    dsimp only
    rw [if_pos g1]
  · intro t ht
    obtain ⟨h1, h2, h3, h4, h5⟩ := g4 t ht
    have : line_text.length = line_text.data.length := rfl
    exact ⟨h1, h2, h3, by omega, h4, h5⟩
  · intro hroom
    have hl := hlens hroom
    refine ⟨hl, g5.imp_of_mem ?_⟩
    intro a b ha _ hab
    have := hl a ha
    omega

set_option maxRecDepth 100000 in
/-- The tokens of the line `echo "a b" ${y} 12`, line 7: the quotes are part
of the String token and `$` and the braces of the Variable token. -/
theorem tokenize_line_echo_string_variable_number :
    advanced_tokenize_line global_kernel line_echo_string_variable_number 7 128 4096
      = .ok [{ type := TOKEN_WORD, text := "echo", len := 4, line := 7, col := 1 },
             { type := TOKEN_STRING, text := "\"a b\"", len := 5, line := 7, col := 6 },
             { type := TOKEN_VARIABLE, text := "$\x7by\x7d", len := 4, line := 7, col := 12 },
             { type := TOKEN_NUMBER, text := "12", len := 2, line := 7, col := 17 },
             { type := TOKEN_EOF, text := "EOF", len := 3, line := 7, col := 19 }] := by
  decide

/-- C35 at the line `echo "a b" ${y} 12` with the capacities `process_line`
passes: the line has no newline and fits, and its tokens are the substrings at
their columns, in increasing column order, before one Eof token. -/
theorem tokens_are_substrings_at_columns_witness :
    NEWLINE_CHAR ∉ line_echo_string_variable_number.data
    ∧ line_echo_string_variable_number.length + 128 + 1 ≤ 4096
    ∧ ∃ (body : List Token) (eof_col : Nat),
      advanced_tokenize_line global_kernel line_echo_string_variable_number 7 128 4096
        = .ok (body ++ [{ type := TOKEN_EOF, text := "EOF", len := 3, line := 7,
                          col := eof_col }])
      ∧ (∀ t ∈ body, t.type ≠ TOKEN_EOF ∧ t.line = 7 ∧ 1 ≤ t.col
          ∧ t.col - 1 + t.len ≤ line_echo_string_variable_number.length
          ∧ t.col + t.len ≤ eof_col
          ∧ t.text = ⟨(line_echo_string_variable_number.data.drop (t.col - 1)).take t.len⟩)
      ∧ body.Pairwise (fun a b => a.col + a.len ≤ b.col)
      ∧ (body.length + 1 < 128 →
          (∀ t ∈ body, 1 ≤ t.len) ∧ body.Pairwise (fun a b => a.col < b.col)) :=
  ⟨by decide, by decide,
   tokens_are_substrings_at_columns global_kernel line_echo_string_variable_number 7 128 4096
     (by decide) (by decide) (by decide)⟩

/-! ## C36, the cases that hold: a gap of two levels, and the higher operator first -/

/-- With left-associative BinaryInfix operators `lo` of precedence `p >= 1` and
`hi` of precedence `q >= p + 2`, `a lo b hi c` evaluates as `a lo (b hi c)`. -/
theorem wider_precedence_gap_binds_tighter (env : Env) (K : Kernel) (a b c lo hi : Token)
    (tail : List Token) (dlo dhi : OperatorDefinition) (bs : Nat)
    (ha : is_operand_token a) (hb : is_operand_token b) (hc : is_operand_token c)
    (hlo : lo.type = TOKEN_OPERATOR) (hhi : hi.type = TOKEN_OPERATOR)
    (hdlo : get_operator_definition K lo.text = some dlo)
    (hdhi : get_operator_definition K hi.text = some dhi)
    (hbinlo : dlo.op_type_prop = OP_TYPE_BINARY_INFIX)
    (hbinhi : dhi.op_type_prop = OP_TYPE_BINARY_INFIX)
    (hleftlo : dlo.associativity = ASSOC_LEFT)
    (hp : 1 ≤ dlo.precedence) (hq : dlo.precedence + 2 ≤ dhi.precedence)
    (hq2 : dhi.precedence ≤ 2147483647)
    (hkeep : env.keeps_operators) (hbuf : env.respects_buffer)
    (hbs : INPUT_BUFFER_SIZE ≤ bs) (htail : ends_expression tail) :
    let r1 := env.invoke_handler dhi.bsh_handler_name dhi.op_str
                [operand_value K b, operand_value K c]
                (temp_result_var (call_rand env K).1 "") INPUT_BUFFER_SIZE (call_rand env K).2
    let r2 := env.invoke_handler dlo.bsh_handler_name dlo.op_str
                [operand_value K a, r1.result]
                (temp_result_var (call_rand env r1.kernel).1 "") INPUT_BUFFER_SIZE
                (call_rand env r1.kernel).2
    evaluate_expression_from_tokens env ([a, lo, b, hi, c] ++ tail)
        ([a, lo, b, hi, c] ++ tail).length bs K
      = .ok ⟨true, r2.result, r2.kernel, 5, []⟩ := by
  have hrhs : rhs_min_precedence dlo = dlo.precedence + 1 := by
    unfold rhs_min_precedence
    rw [if_pos hleftlo]
    exact int_wrap_of_range _ (by omega) (by omega)
  exact binary_right_grouping env K a b c lo hi tail dlo dhi bs ha hb hc hlo hhi hdlo hdhi
    hbinlo hbinhi ⟨by omega, fun _ => by omega⟩
    ⟨by rw [hrhs]; omega, fun _ => by rw [hrhs]; omega⟩ hkeep hbuf hbs htail

/-- With left-associative BinaryInfix operators `lo` of precedence `p >= 1` and
`hi` of precedence `q > p` (below INT_MAX), `a hi b lo c` evaluates as
`(a hi b) lo c`. -/
theorem higher_precedence_first_applied_first (env : Env) (K : Kernel) (a b c lo hi : Token)
    (tail : List Token) (dlo dhi : OperatorDefinition) (bs : Nat)
    (ha : is_operand_token a) (hb : is_operand_token b) (hc : is_operand_token c)
    (hlo : lo.type = TOKEN_OPERATOR) (hhi : hi.type = TOKEN_OPERATOR)
    (hdlo : get_operator_definition K lo.text = some dlo)
    (hdhi : get_operator_definition K hi.text = some dhi)
    (hbinlo : dlo.op_type_prop = OP_TYPE_BINARY_INFIX)
    (hbinhi : dhi.op_type_prop = OP_TYPE_BINARY_INFIX)
    (hlefthi : dhi.associativity = ASSOC_LEFT)
    (hp : 1 ≤ dlo.precedence) (hq : dlo.precedence < dhi.precedence)
    (hq2 : dhi.precedence < 2147483647)
    (hkeep : env.keeps_operators) (hbuf : env.respects_buffer)
    (hbs : INPUT_BUFFER_SIZE ≤ bs) (htail : ends_expression tail) :
    let r1 := env.invoke_handler dhi.bsh_handler_name dhi.op_str
                [operand_value K a, operand_value K b]
                (temp_result_var (call_rand env K).1 "") INPUT_BUFFER_SIZE (call_rand env K).2
    let r2 := env.invoke_handler dlo.bsh_handler_name dlo.op_str
                [r1.result, operand_value r1.kernel c]
                (temp_result_var (call_rand env r1.kernel).1 "") INPUT_BUFFER_SIZE
                (call_rand env r1.kernel).2
    evaluate_expression_from_tokens env ([a, hi, b, lo, c] ++ tail)
        ([a, hi, b, lo, c] ++ tail).length bs K
      = .ok ⟨true, r2.result, r2.kernel, 5, []⟩ := by
  have hrhs : rhs_min_precedence dhi = dhi.precedence + 1 := by
    unfold rhs_min_precedence
    rw [if_pos hlefthi]
    exact int_wrap_of_range _ (by omega) (by omega)
  exact binary_left_grouping env K a b c hi lo tail dhi dlo bs ha hb hc hhi hlo hdhi hdlo
    hbinhi hbinlo ⟨by omega, fun _ => by omega⟩
    (Or.inl (by rw [hrhs]; omega))
    ⟨by omega, fun _ => by omega⟩ hkeep hbuf hbs htail

/-! ## C24: references, escapes and the text around them -/

theorem expand_reference_without_name (K : Kernel) (p : List Char) (o : ExpandOut)
    (hname : is_name_char (head_char p) = false) (hbrace : head_char p ≠ LBRACE_CHAR) :
    expand_reference K p o = (p, o.put DOLLAR) := by
  have hscan : scan_name_segment p = ([], p) := by
    have := scan_name_segment_append [] p (by simp) (by simp) hname
    simpa using this
  unfold expand_reference parse_base_name
  rw [if_neg hbrace, hscan]
  rfl

/-- The loop over an input of well-formed pieces writes the values of the
pieces, as far as there is room. -/
theorem expand_loop_pieces (K : Kernel) :
    ∀ (ps : List ExpandPiece), pieces_well_formed ps →
      ∀ (fuel : Nat) (o : ExpandOut), (pieces_text ps).length < fuel →
        expand_loop K fuel (pieces_text ps) o = o.insert (pieces_value K ps) := by
  intro ps
  induction ps with
  | nil =>
    intro _ fuel o _
    rw [show pieces_text [] = [] from rfl, expand_loop_end K fuel [] o rfl]
    exact (ExpandOut.insert_nil o).symm
  | cons p rest ih =>
    intro hwf fuel o hfuel
    obtain ⟨n, rfl⟩ : ∃ n, fuel = n + 1 := ⟨fuel - 1, by omega⟩
    cases p with
    | char c =>
      obtain ⟨h1, h2, h3, h4⟩ := hwf
      have hlen : (pieces_text rest).length < n := by
        simp only [pieces_text, ExpandPiece.text, List.length_append, List.length_singleton]
          at hfuel
        omega
      have hrun := expand_loop_copy_run K [c] (pieces_text rest) n o
        (by intro x hx; rw [List.mem_singleton] at hx; subst hx; exact ⟨h1, h2⟩)
        (by
          by_cases hc : c = BACKSLASH
          · exact Or.inr (h3 hc)
          · left; simpa using hc)
      show expand_loop K (n + 1) ([c] ++ pieces_text rest) o = _
      rw [show n + 1 = n + [c].length from rfl, hrun, ih h4 n _ hlen, ExpandOut.insert_insert]
      rfl
    | escaped_dollar =>
      have h4 : pieces_well_formed rest := hwf
      have hlen : (pieces_text rest).length < n := by
        simp only [pieces_text, ExpandPiece.text, List.length_append, List.length_cons,
          List.length_nil] at hfuel
        omega
      show expand_loop K (n + 1) (BACKSLASH :: DOLLAR :: pieces_text rest) o
        = o.insert ([DOLLAR] ++ pieces_value K rest)
      by_cases hr : 0 < o.remaining_size
      · rw [expand_loop_escape K n (BACKSLASH :: DOLLAR :: pieces_text rest) o hr rfl rfl]
        show expand_loop K n (pieces_text rest) (o.put DOLLAR) = _
        rw [ih h4 n _ hlen, ExpandOut.put_eq_insert, ExpandOut.insert_insert]
      · have hz := Nat.eq_zero_of_not_pos hr
        rw [expand_loop_full K _ _ o hz, ExpandOut.insert_of_full o _ hz]
    | lone_dollar =>
      obtain ⟨h1, h2, h4⟩ := hwf
      have hlen : (pieces_text rest).length < n := by
        simp only [pieces_text, ExpandPiece.text, List.length_append, List.length_singleton]
          at hfuel
        omega
      show expand_loop K (n + 1) (DOLLAR :: pieces_text rest) o
        = o.insert ([DOLLAR] ++ pieces_value K rest)
      by_cases hr : 0 < o.remaining_size
      · rw [expand_loop_dollar K n (DOLLAR :: pieces_text rest) o hr rfl, List.tail_cons,
          expand_reference_without_name K _ o h1 h2]
        show expand_loop K n (pieces_text rest) (o.put DOLLAR) = _
        rw [ih h4 n _ hlen, ExpandOut.put_eq_insert, ExpandOut.insert_insert]
      · have hz := Nat.eq_zero_of_not_pos hr
        rw [expand_loop_full K _ _ o hz, ExpandOut.insert_of_full o _ hz]
    | plain N =>
      obtain ⟨⟨hne, hlenN, hname⟩, h2, h4⟩ := hwf
      have hlen : (pieces_text rest).length < n := by
        simp only [pieces_text, ExpandPiece.text, List.length_append, List.length_cons]
          at hfuel
        omega
      show expand_loop K (n + 1) (DOLLAR :: (N.data ++ pieces_text rest)) o
        = o.insert (((get_variable_scoped K N).getD "").data ++ pieces_value K rest)
      rw [expand_loop_reference K n _ N.data (pieces_text rest) _ o
        (parse_base_name_plain N.data (pieces_text rest) hne hname hlenN h2) hne hlenN,
        ih h4 n _ hlen, ExpandOut.insert_insert]
    | braced N =>
      obtain ⟨⟨hne, hlenN, hname⟩, h4⟩ := hwf
      have hlen : (pieces_text rest).length < n := by
        simp only [pieces_text, ExpandPiece.text, List.length_append, List.length_cons]
          at hfuel
        omega
      show expand_loop K (n + 1)
          (DOLLAR :: LBRACE_CHAR :: (N.data ++ [RBRACE_CHAR]) ++ pieces_text rest) o
        = o.insert (((get_variable_scoped K N).getD "").data ++ pieces_value K rest)
      rw [show DOLLAR :: LBRACE_CHAR :: (N.data ++ [RBRACE_CHAR]) ++ pieces_text rest
            = DOLLAR :: (LBRACE_CHAR :: (N.data ++ RBRACE_CHAR :: pieces_text rest)) by simp,
        expand_loop_reference K n _ N.data (pieces_text rest) _ o
          (parse_base_name_braced N.data (pieces_text rest) hname hlenN) hne hlenN,
        ih h4 n _ hlen, ExpandOut.insert_insert]

theorem pieces_text_of_text (s : List Char) :
    pieces_text (s.map ExpandPiece.char) = s := by
  induction s with
  | nil => rfl
  | cons c cs ih => simp [pieces_text, ExpandPiece.text, ih]

theorem pieces_value_of_text (K : Kernel) (s : List Char) :
    pieces_value K (s.map ExpandPiece.char) = s := by
  induction s with
  | nil => rfl
  | cons c cs ih => simp [pieces_value, ExpandPiece.value, ih]

theorem pieces_well_formed_of_text (s : List Char) (h : ∀ c ∈ s, c ≠ DOLLAR ∧ c ≠ NUL) :
    pieces_well_formed (s.map ExpandPiece.char) := by
  induction s with
  | nil => trivial
  | cons c cs ih =>
    have hc := h c (List.mem_cons_self _ _)
    refine ⟨hc.1, hc.2, ?_, ih (fun x hx => h x (List.mem_cons_of_mem _ hx))⟩
    intro _
    rw [pieces_text_of_text]
    cases cs with
    | nil => decide
    | cons d ds => exact (h d (by simp)).1

/-- C24: for every store, every buffer size of at least 1 and every input that
is read as a sequence of characters other than `$`, escapes `\$`, references
`$N` and `${N}` with names `N` of 1 to 255 alphanumerics and `_`, and `$`
signs that no name follows, the expansion is, piece by piece and in order,
the character itself, `$` for the escape, the value `get_variable_scoped (N)`
for a reference to a bound `N` and nothing for an unbound one, and `$` for
the `$` without a name, cut to the `size - 1` characters the buffer holds.
So `$N` and `${N}` alone expand to the value of `N`, or to the empty string,
and an input without `$` expands to itself, cut likewise. -/
theorem references_and_text_expand (K : Kernel) (ps : List ExpandPiece) (size : Nat)
    (hwf : pieces_well_formed ps) (hsize : 1 ≤ size) :
    expand_variables_in_string_advanced K ⟨pieces_text ps⟩ size
        = strncpy_str (size - 1) ⟨pieces_value K ps⟩
    ∧ (∀ N, ps = [.plain N] ∨ ps = [.braced N] →
        expand_variables_in_string_advanced K ⟨pieces_text ps⟩ size
          = strncpy_str (size - 1) ((get_variable_scoped K N).getD ""))
    ∧ (∀ s : String, ps = text_pieces s →
        expand_variables_in_string_advanced K s size = strncpy_str (size - 1) s) := by
  have hmain : expand_variables_in_string_advanced K ⟨pieces_text ps⟩ size
      = strncpy_str (size - 1) ⟨pieces_value K ps⟩ := by
    unfold expand_variables_in_string_advanced strncpy_str
    congr 1
    rw [size_t_pred_of_pos size hsize,
      expand_loop_pieces K ps hwf _ _ (by simp [String.length]), expand_out_of_insert]
  refine ⟨hmain, ?_, ?_⟩
  · intro N hN
    rw [hmain]
    rcases hN with h | h <;> subst h <;> simp [pieces_value, ExpandPiece.value]
  · intro s hs
    subst hs
    have h1 : pieces_text (text_pieces s) = s.data := pieces_text_of_text s.data
    have h2 : pieces_value K (text_pieces s) = s.data := pieces_value_of_text K s.data
    rw [h1, h2] at hmain
    exact hmain

/-- C24 at the input `a${x} $x-\$y $` in the store where `x` is `1`: the pieces
are well formed, and the expansion is `a1 1-$y $`; `$x` and `${x}` alone
expand to `1`, `$u` and `${u}` for the unbound `u` to the empty string. -/
theorem references_and_text_expand_witness :
    pieces_well_formed pieces_two_references
    ∧ (⟨pieces_text pieces_two_references⟩ : String) = "a$\x7bx\x7d $x-\\$y $"
    ∧ expand_variables_in_string_advanced (set_variable_scoped "x" "1" false global_kernel)
        ⟨pieces_text pieces_two_references⟩ INPUT_BUFFER_SIZE = "a1 1-$y $"
    ∧ expand_variables_in_string_advanced (set_variable_scoped "x" "1" false global_kernel)
        "$x" INPUT_BUFFER_SIZE = "1"
    ∧ expand_variables_in_string_advanced (set_variable_scoped "x" "1" false global_kernel)
        "$\x7bx\x7d" INPUT_BUFFER_SIZE = "1"
    ∧ expand_variables_in_string_advanced (set_variable_scoped "x" "1" false global_kernel)
        "$u" INPUT_BUFFER_SIZE = ""
    ∧ expand_variables_in_string_advanced (set_variable_scoped "x" "1" false global_kernel)
        "$\x7bu\x7d" INPUT_BUFFER_SIZE = "" :=
  ⟨by decide, by decide,
   (references_and_text_expand (set_variable_scoped "x" "1" false global_kernel)
      pieces_two_references INPUT_BUFFER_SIZE (by decide) (by decide)).1.trans (by decide),
   ((references_and_text_expand (set_variable_scoped "x" "1" false global_kernel)
      [.plain "x"] INPUT_BUFFER_SIZE (by decide) (by decide)).2.1 "x" (Or.inl rfl)).trans
      (by decide),
   ((references_and_text_expand (set_variable_scoped "x" "1" false global_kernel)
      [.braced "x"] INPUT_BUFFER_SIZE (by decide) (by decide)).2.1 "x" (Or.inr rfl)).trans
      (by decide),
   ((references_and_text_expand (set_variable_scoped "x" "1" false global_kernel)
      [.plain "u"] INPUT_BUFFER_SIZE (by decide) (by decide)).2.1 "u" (Or.inl rfl)).trans
      (by decide),
   ((references_and_text_expand (set_variable_scoped "x" "1" false global_kernel)
      [.braced "u"] INPUT_BUFFER_SIZE (by decide) (by decide)).2.1 "u" (Or.inr rfl)).trans
      (by decide)⟩

/-! ## The bridge of the code and the operator registry -/

theorem set_variable_scoped_operators (name value : String) (flag : Bool) (K : Kernel) :
    (set_variable_scoped name value flag K).operator_list_head = K.operator_list_head := by
  unfold set_variable_scoped
  split
  · rfl
  · dsimp only
    split
    · rfl
    · split <;> rfl

theorem enter_scope_operators (K : Kernel) :
    (enter_scope K).2.operator_list_head = K.operator_list_head := by
  unfold enter_scope
  split
  · rfl
  · dsimp only
    split <;> rfl

theorem leave_scope_operators (id : Nat) (K : Kernel) :
    (leave_scope id K).operator_list_head = K.operator_list_head := by
  unfold leave_scope cleanup_variables_for_scope
  split
  · rfl
  · split
    · rfl
    · dsimp only
      split
      · rfl
      · rfl

theorem bind_parameters_operators (toks : List Token) (n : Nat) :
    ∀ (params : List String) (i : Nat) (K : Kernel),
      (bind_parameters toks n params i K).operator_list_head = K.operator_list_head := by
  intro params
  induction params with
  | nil => intro i K; rfl
  | cons p ps ih =>
    intro i K
    unfold bind_parameters
    rw [ih]
    repeat' split
    all_goals exact set_variable_scoped_operators _ _ _ _

theorem run_body_lines_operators (process_line : String → Nat → Kernel → Kernel)
    (hpl : ∀ line n K, (process_line line n K).operator_list_head = K.operator_list_head) :
    ∀ (lines : List String) (i : Nat) (K : Kernel),
      (run_body_lines process_line lines i K).operator_list_head = K.operator_list_head := by
  intro lines
  induction lines with
  | nil => intro i K; rfl
  | cons l ls ih =>
    intro i K
    unfold run_body_lines
    rw [ih, hpl]

theorem execute_user_function_operators (process_line : String → Nat → Kernel → Kernel)
    (hpl : ∀ line n K, (process_line line n K).operator_list_head = K.operator_list_head)
    (func : UserFunction) (toks : List Token) (n : Nat) (K : Kernel) :
    (execute_user_function process_line func toks n K).operator_list_head
      = K.operator_list_head := by
  unfold execute_user_function
  have he := enter_scope_operators K
  cases henter : enter_scope K with
  | mk r K1 =>
    rw [henter] at he
    cases r with
    | none => rfl
    | some id =>
      dsimp only
      rw [leave_scope_operators]
      show (run_body_lines process_line func.body 0 _).operator_list_head = _
      rw [run_body_lines_operators process_line hpl, ← he]
      exact bind_parameters_operators _ _ _ _ _

/-- The bridge of the code leaves the operator registry as it is when the
script lines of the handlers do. -/
theorem bsh_env_keeps_operators (rand : Nat → Nat × Nat)
    (process_line : String → Nat → Kernel → Kernel)
    (hpl : ∀ line n K, (process_line line n K).operator_list_head = K.operator_list_head) :
    (bsh_env rand process_line).keeps_operators := by
  intro h op args holder size K
  simp only [bsh_env, invoke_bsh_operator_handler]
  repeat' split
  all_goals first
    | rfl
    | exact execute_user_function_operators process_line hpl _ _ _ _

theorem handler_script_line_operators (line : String) (n : Nat) (K : Kernel) :
    (handler_script_line line n K).operator_list_head = K.operator_list_head := by
  unfold handler_script_line
  dsimp only
  repeat' split
  all_goals first
    | rfl
    | exact set_variable_scoped_operators _ _ _ _
    | (rw [set_variable_scoped_operators, set_variable_scoped_operators])

theorem script_env_keeps_operators : script_env.keeps_operators :=
  bsh_env_keeps_operators _ _ handler_script_line_operators

theorem script_env_respects_buffer : script_env.respects_buffer :=
  bsh_env_respects_buffer _ _

/-! ## C1, C3, C4 and C9 over the bridge of the code -/

/-- At precedence 0, the default of `defoperator`, a left-associative `-` is
not applied either: the guard for left-associative operators stops the loop at
a precedence equal to the minimum (the guard of C36). -/
theorem left_assoc_precedence_zero_not_applied :
    evaluate_expression_from_tokens script_env tokens_10_minus_3_minus_2 6 INPUT_BUFFER_SIZE
        (kernel_with_handlers [binary_operator "-" 0 ASSOC_LEFT "sub"])
      = .ok ⟨true, "10", kernel_with_handlers [binary_operator "-" 0 ASSOC_LEFT "sub"], 1,
             [.tokens_left (operator_token "-")]⟩ := by
  decide

/-- C3 fails on the code by the defect of C5. With `+` (precedence 10, left)
and `*` (precedence 20, left) registered and the handlers `add` and `mul`
defined as user functions that publish the sum and the product, the body of
`mul` writes `12` into its result holder for `3 * 4`, but `2 + 3 * 4` does not
evaluate to `14`: the evaluation succeeds with the no-result marker of the
second invocation, since the bridge leaves the scope of a handler before it
reads the result holder. -/
theorem product_first_value_lost :
    get_variable_scoped
        (run_body_lines handler_script_line ["publish_product"] 0
          (handler_entry_state
            { name := "mul", params := ["op", "a", "b", "res"], body := ["publish_product"] }
            "*" ["3", "4"] "__bsh_expr_temp_0" arith_handlers_kernel))
        "__bsh_expr_temp_0" = some "12"
    ∧ evaluate_expression_from_tokens script_env tokens_2_plus_3_times_4 6 INPUT_BUFFER_SIZE
        arith_handlers_kernel
      = .ok ⟨true, "BSH_HANDLER_NO_RESULT<__bsh_expr_temp_1>",
             { arith_handlers_kernel with next_scope_id := 3, rand_state := 2 }, 5, []⟩ :=
  ⟨by decide,
   (mixed_precedence_product_first script_env arith_handlers_kernel
      (number_token "2") (number_token "3") (number_token "4") (operator_token "+")
      (operator_token "*") [eof_token]
      (binary_operator "+" 10 ASSOC_LEFT "add") (binary_operator "*" 20 ASSOC_LEFT "mul")
      INPUT_BUFFER_SIZE
      (by decide) (by decide) (by decide) (by decide) (by decide) (by decide) (by decide)
      (by decide) (by decide) (by decide) (by decide) (by decide) (by decide) (by decide)
      (by decide) script_env_keeps_operators script_env_respects_buffer
      (Nat.le_refl _) (by intro e he; cases he; rfl)).trans (by decide)⟩

/-- C4 fails on the code by the defect of C5. With `+` (precedence 10, left)
and `*` (precedence 20, left) registered and the handlers `add` and `mul`
defined as user functions that publish the sum and the product, the body of
`add` writes `5` into its result holder for `2 + 3`, but `(2 + 3) * 4` does
not evaluate to `20`: the evaluation succeeds with the no-result marker of the
second invocation. -/
theorem parenthesised_sum_value_lost :
    get_variable_scoped
        (run_body_lines handler_script_line ["publish_sum"] 0
          (handler_entry_state
            { name := "add", params := ["op", "a", "b", "res"], body := ["publish_sum"] }
            "+" ["2", "3"] "__bsh_expr_temp_0" arith_handlers_kernel))
        "__bsh_expr_temp_0" = some "5"
    ∧ evaluate_expression_from_tokens script_env tokens_paren_2_plus_3_times_4 8
        INPUT_BUFFER_SIZE arith_handlers_kernel
      = .ok ⟨true, "BSH_HANDLER_NO_RESULT<__bsh_expr_temp_1>",
             { arith_handlers_kernel with next_scope_id := 3, rand_state := 2 }, 7, []⟩ :=
  ⟨by decide,
   (parenthesised_sum_first script_env arith_handlers_kernel
      (mk_token TOKEN_LPAREN "(") (mk_token TOKEN_RPAREN ")")
      (number_token "2") (number_token "3") (number_token "4") (operator_token "+")
      (operator_token "*") [eof_token]
      (binary_operator "+" 10 ASSOC_LEFT "add") (binary_operator "*" 20 ASSOC_LEFT "mul")
      INPUT_BUFFER_SIZE
      (by decide) (by decide) (by decide) (by decide) (by decide) (by decide) (by decide)
      (by decide) (by decide) (by decide) (by decide) (by decide) (by decide) (by decide)
      (by decide) (by decide) (by decide) script_env_keeps_operators script_env_respects_buffer
      (Nat.le_refl _) (by intro e he; cases he; rfl)).trans (by decide)⟩

/-- C9 at `$x++` with `x = "4"`, `++` UnaryPostfix of precedence 30 and the
handler `post_inc` defined, over the bridge of the code: the handler is
invoked once, with the name `x`, and the value of the expression is what that
invocation returns. That is the no-result marker, and `x` is still `4`: the
writes of the handler are made in its own scope and are gone when it is left
(see C5). -/
theorem postfix_increment_passes_name_witness :
    evaluate_expression_from_tokens script_env tokens_x_increment 3 INPUT_BUFFER_SIZE
        (post_increment_kernel 30 "4")
      = .ok ⟨true, "BSH_HANDLER_NO_RESULT<__bsh_expr_temp_0_pof>",
             { post_increment_kernel 30 "4" with next_scope_id := 2, rand_state := 1 }, 2, []⟩ :=
  (postfix_increment_passes_name script_env (post_increment_kernel 30 "4")
    (mk_token TOKEN_VARIABLE "$x") (operator_token "++") "x" [eof_token]
    (unary_postfix_operator "++" 30 "post_inc") INPUT_BUFFER_SIZE
    (by decide) (by decide) (by decide) (by decide) (by decide) (by decide) (by decide)
    (by decide) script_env_respects_buffer
    (Nat.le_refl _) (by intro e he; cases he; rfl)).trans (by decide)

/-- C9 fails at a negative precedence: with `++` UnaryPostfix of precedence -1
and `x = "4"`, the parser stops before the `++` of `$x++`; the handler is never
invoked, the value is `4`, and the `++` is reported as left over. -/
theorem postfix_negative_precedence_counterexample :
    evaluate_expression_from_tokens script_env tokens_x_increment 3 INPUT_BUFFER_SIZE
        (post_increment_kernel (-1) "4")
      = .ok ⟨true, "4", post_increment_kernel (-1) "4", 1,
             [.tokens_left (operator_token "++")]⟩ := by
  decide

/-! ## C33: tokens after a complete expression -/

theorem operand_agrees_fail (KInv : Kernel → Prop) (tA : List Token) (nA : Nat)
    (tB : List Token) (nB L : Nat)
    (marker : String) (c : ExprParseContext) (K : Kernel) (y : Except Fault OperandResult) :
    OperandAgrees KInv tA nA tB nB L (.ok ⟨false, marker, c, K⟩) y := by
  intro h; cases h

theorem expr_agrees_fail (KInv : Kernel → Prop) (tA : List Token) (nA : Nat)
    (tB : List Token) (nB L : Nat)
    (c : ExprParseContext) (K : Kernel) (y : Except Fault ExprResult) :
    ExprAgrees KInv tA nA tB nB L (.ok ⟨false, c, K⟩) y := by
  intro h; cases h

theorem parse_operand_agrees_step (env : Env) (s : Token) (KInv : Kernel → Prop)
    (MInv : Int → Prop) (hR : RunInvariant env s KInv MInv)
    (tA : List Token) (nA : Nat) (tB : List Token)
    (nB L : Nat) (hS : SlicesAgree tA nA tB nB L s) (n nb : Nat)
    (ih2 : ∀ i rb bs dp dg m K, i ≤ L → KInv K → MInv m →
      ExprAgrees KInv tA nA tB nB L
        (parse_expression_recursive env n ⟨tA, i, nA, rb, bs, dp, dg⟩ m K)
        (parse_expression_recursive env nb ⟨tB, i, nB, rb, bs, dp, dg⟩ m K))
    (i : Nat) (rb : String) (bs dp : Nat) (dg : List ParserDiagnostic) (size : Nat)
    (K : Kernel) (hi : i ≤ L) (hK : KInv K) :
    OperandAgrees KInv tA nA tB nB L
      (parse_operand env (n + 1) ⟨tA, i, nA, rb, bs, dp, dg⟩ size K)
      (parse_operand env (nb + 1) ⟨tB, i, nB, rb, bs, dp, dg⟩ size K) := by
  obtain ⟨hle, hlt, hsame, hendA, hs⟩ := hS
  rw [parse_operand, parse_operand]
  by_cases h1 : i ≥ nA
  · rw [if_pos h1]; exact operand_agrees_fail _ _ _ _ _ _ _ _ _ _
  rw [if_neg h1, if_neg (show ¬ i ≥ nB by omega)]
  by_cases h2 : dp ≥ MAX_EXPR_RECURSION_DEPTH
  · rw [if_pos h2]; exact operand_agrees_fail _ _ _ _ _ _ _ _ _ _
  rw [if_neg h2, if_neg h2]
  dsimp only [ExprParseContext.token_at]
  cases htok : tA[i]? with
  | none => trivial
  | some tok =>
    dsimp only
    by_cases hiL : i = L
    · -- the token at `L` is a terminator: no operand starts there
      have hterm := hendA tok (by rw [← hiL]; exact htok)
      have t1 : ¬ (tok.type = TOKEN_NUMBER ∨ tok.type = TOKEN_VARIABLE
          ∨ tok.type = TOKEN_WORD) := by
        rcases hterm with h | h <;> rw [h] <;> decide
      have t2 : ¬ tok.type = TOKEN_STRING := by
        rcases hterm with h | h <;> rw [h] <;> decide
      have t3 : ¬ tok.type = TOKEN_LPAREN := by
        rcases hterm with h | h <;> rw [h] <;> decide
      have t4 : ¬ tok.type = TOKEN_OPERATOR := by
        rcases hterm with h | h <;> rw [h] <;> decide
      rw [if_neg t1, if_neg t2, if_neg t3, if_neg t4]
      exact operand_agrees_fail _ _ _ _ _ _ _ _ _ _
    have hiL' : i < L := by omega
    have htokB : tB[i]? = some tok := by rw [← hsame i hiL']; exact htok
    rw [htokB]
    dsimp only
    by_cases t1 : tok.type = TOKEN_NUMBER ∨ tok.type = TOKEN_VARIABLE ∨ tok.type = TOKEN_WORD
    · rw [if_pos t1, if_pos t1]
      intro _
      exact ⟨rfl, rfl, by simp [ExprParseContext.advance, ExprParseContext.leave]; omega, hK,
        rfl⟩
    rw [if_neg t1, if_neg t1]
    by_cases t2 : tok.type = TOKEN_STRING
    · rw [if_pos t2, if_pos t2]
      intro _
      exact ⟨rfl, rfl, by simp [ExprParseContext.advance, ExprParseContext.leave]; omega, hK,
        rfl⟩
    rw [if_neg t2, if_neg t2]
    by_cases t3 : tok.type = TOKEN_LPAREN
    · rw [if_pos t3, if_pos t3]
      dsimp only [ExprParseContext.advance]
      have hsub := ih2 (i + 1) rb bs (dp + 1) dg 0 K (by omega) hK hR.at_zero
      cases hA : parse_expression_recursive env n ⟨tA, i + 1, nA, rb, bs, dp + 1, dg⟩ 0 K with
      | error e => trivial
      | ok sub =>
        obtain ⟨sok, ⟨stoks, si, sn, srb, sbs, sdp, sdg⟩, sK⟩ := sub
        dsimp only
        cases sok with
        | false => exact operand_agrees_fail _ _ _ _ _ _ _ _ _ _
        | true =>
          rw [hA] at hsub
          obtain ⟨e1, e2, e3, eK, hB⟩ := hsub rfl
          simp only at e1 e2 e3
          subst e1 e2
          rw [hB]
          simp only [ExprParseContext.over, Bool.not_eq_true, Bool.true_eq_false, if_false,
            not_true_eq_false]
          by_cases s2 : si ≥ sn
          · rw [if_pos s2]; exact operand_agrees_fail _ _ _ _ _ _ _ _ _ _
          rw [if_neg s2, if_neg (show ¬ si ≥ nB by omega)]
          cases hcl : stoks[si]? with
          | none => trivial
          | some closing =>
            dsimp only
            by_cases hsiL : si = L
            · have hterm := hendA closing (by rw [← hsiL]; exact hcl)
              have c1 : closing.type ≠ TOKEN_RPAREN := by
                rcases hterm with h | h <;> rw [h] <;> decide
              rw [if_pos c1]; exact operand_agrees_fail _ _ _ _ _ _ _ _ _ _
            have hclB : tB[si]? = some closing := by rw [← hsame si (by omega)]; exact hcl
            rw [hclB]
            dsimp only
            by_cases c1 : closing.type ≠ TOKEN_RPAREN
            · rw [if_pos c1]; exact operand_agrees_fail _ _ _ _ _ _ _ _ _ _
            rw [if_neg c1, if_neg c1]
            intro _
            exact ⟨rfl, rfl,
              by simp [ExprParseContext.advance, ExprParseContext.leave]; omega, eK, rfl⟩
    rw [if_neg t3, if_neg t3]
    by_cases t4 : tok.type = TOKEN_OPERATOR
    · rw [if_pos t4, if_pos t4]
      cases hop : get_operator_definition K tok.text with
      | none => exact operand_agrees_fail _ _ _ _ _ _ _ _ _ _
      | some op_def =>
        dsimp only
        by_cases o1 : op_def.op_type_prop ≠ OP_TYPE_UNARY_PREFIX
        · rw [if_pos o1]; exact operand_agrees_fail _ _ _ _ _ _ _ _ _ _
        rw [if_neg o1, if_neg o1]
        by_cases o2 : op_def.op_str = "++" ∨ op_def.op_str = "--"
        · rw [if_pos o2, if_pos o2]
          dsimp only [ExprParseContext.advance]
          cases hv : tA[i + 1]? with
          | none => trivial
          | some v =>
            dsimp only
            by_cases hvL : i + 1 = L
            · have hterm := hendA v (by rw [← hvL]; exact hv)
              have v1 : ¬ v.type = TOKEN_VARIABLE := by
                rcases hterm with h | h <;> rw [h] <;> decide
              rw [if_neg v1]; exact operand_agrees_fail _ _ _ _ _ _ _ _ _ _
            have hvB : tB[i + 1]? = some v := by rw [← hsame (i + 1) (by omega)]; exact hv
            rw [hvB]
            dsimp only
            by_cases v1 : v.type = TOKEN_VARIABLE
            · rw [if_pos v1, if_pos v1]
              cases hx : extract_clean_variable_name_for_expr v.text MAX_VAR_NAME_LEN with
              | none => exact operand_agrees_fail _ _ _ _ _ _ _ _ _ _
              | some name =>
                dsimp only
                intro _
                exact ⟨rfl, rfl,
                  by simp [ExprParseContext.advance, ExprParseContext.leave]; omega,
                  hR.after_handler _ _ _ _ _ _ (hR.after_rand K hK), rfl⟩
            rw [if_neg v1]; exact operand_agrees_fail _ _ _ _ _ _ _ _ _ _
        rw [if_neg o2, if_neg o2]
        dsimp only [ExprParseContext.advance]
        have hsub := ih2 (i + 1) rb bs (dp + 1) dg op_def.precedence K (by omega) hK
          (hR.unary_operand K tok.text op_def hK hop (not_not.mp o1))
        cases hA : parse_expression_recursive env n ⟨tA, i + 1, nA, rb, bs, dp + 1, dg⟩
            op_def.precedence K with
        | error e => trivial
        | ok sub =>
          obtain ⟨sok, ⟨stoks, si, sn, srb, sbs, sdp, sdg⟩, sK⟩ := sub
          dsimp only
          cases sok with
          | false => exact operand_agrees_fail _ _ _ _ _ _ _ _ _ _
          | true =>
            rw [hA] at hsub
            obtain ⟨e1, e2, e3, eK, hB⟩ := hsub rfl
            simp only at e1 e2 e3
            subst e1 e2
            rw [hB]
            simp only [ExprParseContext.over, Bool.not_eq_true, Bool.true_eq_false, if_false,
              not_true_eq_false]
            intro _
            exact ⟨rfl, rfl, by simp [ExprParseContext.leave]; omega,
              hR.after_handler _ _ _ _ _ _ (hR.after_rand _ eK), rfl⟩
    rw [if_neg t4]
    exact operand_agrees_fail _ _ _ _ _ _ _ _ _ _

theorem parse_expression_recursive_agrees_step (env : Env) (KInv : Kernel → Prop)
    (MInv : Int → Prop) (tA : List Token) (nA : Nat)
    (tB : List Token) (nB L : Nat) (n nb : Nat)
    (ih1 : ∀ i rb bs dp dg size K, i ≤ L → KInv K →
      OperandAgrees KInv tA nA tB nB L
        (parse_operand env n ⟨tA, i, nA, rb, bs, dp, dg⟩ size K)
        (parse_operand env nb ⟨tB, i, nB, rb, bs, dp, dg⟩ size K))
    (ih3 : ∀ i rb bs dp dg lhs m K, i ≤ L → KInv K → MInv m →
      ExprAgrees KInv tA nA tB nB L
        (parse_expression_loop env n ⟨tA, i, nA, rb, bs, dp, dg⟩ lhs m K)
        (parse_expression_loop env nb ⟨tB, i, nB, rb, bs, dp, dg⟩ lhs m K))
    (i : Nat) (rb : String) (bs dp : Nat) (dg : List ParserDiagnostic) (m : Int)
    (K : Kernel) (hi : i ≤ L) (hK : KInv K) (hm : MInv m) :
    ExprAgrees KInv tA nA tB nB L
      (parse_expression_recursive env (n + 1) ⟨tA, i, nA, rb, bs, dp, dg⟩ m K)
      (parse_expression_recursive env (nb + 1) ⟨tB, i, nB, rb, bs, dp, dg⟩ m K) := by
  rw [parse_expression_recursive, parse_expression_recursive]
  by_cases h1 : dp ≥ MAX_EXPR_RECURSION_DEPTH
  · rw [if_pos h1]; exact expr_agrees_fail _ _ _ _ _ _ _ _ _
  rw [if_neg h1, if_neg h1]
  dsimp only
  have hop := ih1 i rb bs (dp + 1) dg INPUT_BUFFER_SIZE K hi hK
  cases hA : parse_operand env n ⟨tA, i, nA, rb, bs, dp + 1, dg⟩ INPUT_BUFFER_SIZE K with
  | error e => trivial
  | ok opd =>
    obtain ⟨ook, operand, ⟨stoks, si, sn, srb, sbs, sdp, sdg⟩, oK⟩ := opd
    dsimp only
    cases ook with
    | false => exact expr_agrees_fail _ _ _ _ _ _ _ _ _
    | true =>
      rw [hA] at hop
      obtain ⟨e1, e2, e3, eK, hB⟩ := hop rfl
      simp only at e1 e2 e3
      subst e1 e2
      rw [hB]
      simp only [ExprParseContext.over, Bool.not_eq_true, Bool.true_eq_false, if_false,
        not_true_eq_false]
      exact ih3 _ _ _ _ _ _ _ _ e3 eK hm

/-- The loop stops before a lookahead token it does not take up. -/
theorem parse_expression_loop_stops (env : Env) (fuel : Nat) (toks : List Token) (i n : Nat)
    (rb : String) (bs dp : Nat) (dg : List ParserDiagnostic) (lhs : String) (m : Int)
    (K : Kernel) (s : Token) (hi : i < n) (hs : toks[i]? = some s)
    (hstop : stops_loop K m s) :
    parse_expression_loop env (fuel + 1) ⟨toks, i, n, rb, bs, dp, dg⟩ lhs m K
      = .ok ⟨true, ExprParseContext.leave ⟨toks, i, n, rb, bs, dp, dg⟩, K⟩ := by
  rw [parse_expression_loop, if_neg (not_not.mpr hi)]
  dsimp only [ExprParseContext.token_at]
  rw [hs]
  dsimp only
  rcases hstop with hterm | ⟨hop, hd⟩
  · have s1 : s.type ≠ TOKEN_OPERATOR := by
      rcases hterm with h | h | h <;> rw [h] <;> decide
    have s2 : s.type = TOKEN_RPAREN ∨ s.type = TOKEN_EOF ∨ s.type = TOKEN_SEMICOLON := hterm
    rw [if_pos s1, if_pos s2]
  · rw [if_neg (not_not.mpr hop)]
    cases hget : get_operator_definition K s.text with
    | none => rfl
    | some d =>
      dsimp only
      by_cases p1 : d.precedence < m
      · rw [if_pos p1]
      · rcases hd d hget with h | ⟨hb, hl, hle⟩
        · exact absurd h p1
        · rw [if_neg p1, if_pos hb, if_pos ⟨hl, hle⟩]

theorem parse_expression_loop_agrees_step (env : Env) (s : Token) (KInv : Kernel → Prop)
    (MInv : Int → Prop) (hR : RunInvariant env s KInv MInv) (tA : List Token) (nA : Nat)
    (tB : List Token) (nB L : Nat) (hS : SlicesAgree tA nA tB nB L s) (n nb : Nat)
    (ih2 : ∀ i rb bs dp dg m K, i ≤ L → KInv K → MInv m →
      ExprAgrees KInv tA nA tB nB L
        (parse_expression_recursive env n ⟨tA, i, nA, rb, bs, dp, dg⟩ m K)
        (parse_expression_recursive env nb ⟨tB, i, nB, rb, bs, dp, dg⟩ m K))
    (ih3 : ∀ i rb bs dp dg lhs m K, i ≤ L → KInv K → MInv m →
      ExprAgrees KInv tA nA tB nB L
        (parse_expression_loop env n ⟨tA, i, nA, rb, bs, dp, dg⟩ lhs m K)
        (parse_expression_loop env nb ⟨tB, i, nB, rb, bs, dp, dg⟩ lhs m K))
    (i : Nat) (rb : String) (bs dp : Nat) (dg : List ParserDiagnostic) (lhs : String) (m : Int)
    (K : Kernel) (hi : i ≤ L) (hK : KInv K) (hm : MInv m) :
    ExprAgrees KInv tA nA tB nB L
      (parse_expression_loop env (n + 1) ⟨tA, i, nA, rb, bs, dp, dg⟩ lhs m K)
      (parse_expression_loop env (nb + 1) ⟨tB, i, nB, rb, bs, dp, dg⟩ lhs m K) := by
  obtain ⟨hle, hlt, hsame, hendA, hs⟩ := hS
  by_cases hiL : i = L
  · subst hiL
    rw [parse_expression_loop_stops env nb tB i nB rb bs dp dg lhs m K s hlt hs
      (hR.stops K m hK hm), parse_expression_loop]
    dsimp only [ExprParseContext.token_at]
    by_cases h1 : ¬ i < nA
    · rw [if_pos h1]
      intro _
      exact ⟨rfl, rfl, by simp [ExprParseContext.leave], hK, rfl⟩
    rw [if_neg h1]
    cases htok : tA[i]? with
    | none => trivial
    | some e =>
      dsimp only
      have hterm := hendA e htok
      have e1 : e.type ≠ TOKEN_OPERATOR := by
        rcases hterm with h | h <;> rw [h] <;> decide
      have e2 : e.type = TOKEN_RPAREN ∨ e.type = TOKEN_EOF ∨ e.type = TOKEN_SEMICOLON := by
        rcases hterm with h | h
        · exact Or.inr (Or.inl h)
        · exact Or.inr (Or.inr h)
      rw [if_pos e1, if_pos e2]
      intro _
      exact ⟨rfl, rfl, by simp [ExprParseContext.leave], hK, rfl⟩
  rw [parse_expression_loop, parse_expression_loop]
  dsimp only [ExprParseContext.token_at]
  have hlt2 : i < L := by omega
  rw [if_neg (show ¬ ¬ i < nA by omega), if_neg (show ¬ ¬ i < nB by omega)]
  cases htok : tA[i]? with
  | none => trivial
  | some tok =>
    have htokB : tB[i]? = some tok := by rw [← hsame i hlt2]; exact htok
    rw [htokB]
    dsimp only
    by_cases t1 : tok.type ≠ TOKEN_OPERATOR
    · rw [if_pos t1, if_pos t1]
      by_cases t2 : tok.type = TOKEN_RPAREN ∨ tok.type = TOKEN_EOF ∨ tok.type = TOKEN_SEMICOLON
      · rw [if_pos t2, if_pos t2]
        intro _
        exact ⟨rfl, rfl, by simp [ExprParseContext.leave]; omega, hK, rfl⟩
      rw [if_neg t2]; exact expr_agrees_fail _ _ _ _ _ _ _ _ _
    rw [if_neg t1, if_neg t1]
    cases hop : get_operator_definition K tok.text with
    | none =>
      intro _
      exact ⟨rfl, rfl, by simp [ExprParseContext.leave]; omega, hK, rfl⟩
    | some op_def =>
      dsimp only
      by_cases p1 : op_def.precedence < m
      · rw [if_pos p1, if_pos p1]
        intro _
        exact ⟨rfl, rfl, by simp [ExprParseContext.leave]; omega, hK, rfl⟩
      rw [if_neg p1, if_neg p1]
      by_cases b1 : op_def.op_type_prop = OP_TYPE_BINARY_INFIX
      · rw [if_pos b1, if_pos b1]
        by_cases b2 : op_def.associativity = ASSOC_LEFT ∧ op_def.precedence ≤ m
        · rw [if_pos b2, if_pos b2]
          intro _
          exact ⟨rfl, rfl, by simp [ExprParseContext.leave]; omega, hK, rfl⟩
        rw [if_neg b2, if_neg b2]
        have hq : MInv (if op_def.associativity = ASSOC_LEFT
            then int_wrap (op_def.precedence + 1) else op_def.precedence) :=
          hR.right_operand K tok.text op_def m hK hm hop p1
        generalize (if op_def.associativity = ASSOC_LEFT then int_wrap (op_def.precedence + 1)
          else op_def.precedence) = q at hq ⊢
        dsimp only [ExprParseContext.advance]
        have hsub := ih2 (i + 1) rb bs dp dg q K (by omega) hK hq
        cases hA : parse_expression_recursive env n ⟨tA, i + 1, nA, rb, bs, dp, dg⟩ q K with
        | error e => trivial
        | ok sub =>
          obtain ⟨sok, ⟨stoks, si, sn, srb, sbs, sdp, sdg⟩, sK⟩ := sub
          dsimp only
          cases sok with
          | false => exact expr_agrees_fail _ _ _ _ _ _ _ _ _
          | true =>
            rw [hA] at hsub
            obtain ⟨e1, e2, e3, eK, hB⟩ := hsub rfl
            simp only at e1 e2 e3
            subst e1 e2
            rw [hB]
            simp only [ExprParseContext.over, Bool.not_eq_true, Bool.true_eq_false, if_false,
              not_true_eq_false]
            have hK1 := hR.after_rand sK eK
            cases hr : call_rand env sK with
            | mk r K1 =>
              rw [hr] at hK1
              dsimp only
              exact ih3 _ _ _ _ _ _ _ _ e3 (hR.after_handler _ _ _ _ _ _ hK1) hm
      rw [if_neg b1, if_neg b1]
      by_cases u1 : op_def.op_type_prop = OP_TYPE_UNARY_POSTFIX
      · rw [if_pos u1, if_pos u1]
        by_cases u2 : op_def.op_str = "++" ∨ op_def.op_str = "--"
        · rw [if_pos u2, if_pos u2]
          by_cases u3 : 0 < i
          · rw [if_pos u3, if_pos u3]
            cases hp : tA[i - 1]? with
            | none => trivial
            | some pv =>
              have hpB : tB[i - 1]? = some pv := by rw [← hsame (i - 1) (by omega)]; exact hp
              rw [hpB]
              dsimp only
              by_cases v1 : pv.type = TOKEN_VARIABLE
              · rw [if_pos v1, if_pos v1]
                cases hx : extract_clean_variable_name_for_expr pv.text MAX_VAR_NAME_LEN with
                | none => exact expr_agrees_fail _ _ _ _ _ _ _ _ _
                | some name =>
                  dsimp only
                  have hK1 := hR.after_rand K hK
                  cases hr : call_rand env K with
                  | mk r K1 =>
                    rw [hr] at hK1
                    dsimp only
                    have hh := hR.after_handler op_def.bsh_handler_name op_def.op_str [name]
                      (temp_result_var r "_pof") INPUT_BUFFER_SIZE K1 hK1
                    generalize env.invoke_handler op_def.bsh_handler_name op_def.op_str [name]
                      (temp_result_var r "_pof") INPUT_BUFFER_SIZE K1 = h at hh ⊢
                    by_cases k1 : ¬ h.ok = true
                    · rw [if_pos k1, if_pos k1]
                      exact ih3 _ _ _ _ _ _ _ _ (by show i + 1 ≤ L; omega) hh hm
                    rw [if_neg k1, if_neg k1]
                    exact ih3 _ _ _ _ _ _ _ _ (by show i + 1 ≤ L; omega) hh hm
              rw [if_neg v1]; exact expr_agrees_fail _ _ _ _ _ _ _ _ _
          rw [if_neg u3]; exact expr_agrees_fail _ _ _ _ _ _ _ _ _
        rw [if_neg u2, if_neg u2]
        have hK1 := hR.after_rand K hK
        cases hr : call_rand env K with
        | mk r K1 =>
          rw [hr] at hK1
          dsimp only
          exact ih3 _ _ _ _ _ _ _ _ (by show i + 1 ≤ L; omega)
            (hR.after_handler _ _ _ _ _ _ hK1) hm
      rw [if_neg u1, if_neg u1]
      by_cases q1 : op_def.op_type_prop = OP_TYPE_TERNARY_PRIMARY ∧ op_def.op_str = "?"
      · rw [if_pos q1, if_pos q1]
        dsimp only [ExprParseContext.advance]
        have hsub := ih2 (i + 1) rb bs dp dg 0 K (by omega) hK hR.at_zero
        cases hA : parse_expression_recursive env n ⟨tA, i + 1, nA, rb, bs, dp, dg⟩ 0 K with
        | error e => trivial
        | ok sub =>
          obtain ⟨sok, ⟨stoks, si, sn, srb, sbs, sdp, sdg⟩, sK⟩ := sub
          dsimp only
          cases sok with
          | false => exact expr_agrees_fail _ _ _ _ _ _ _ _ _
          | true =>
            rw [hA] at hsub
            obtain ⟨e1, e2, e3, eK, hB⟩ := hsub rfl
            simp only at e1 e2 e3
            subst e1 e2
            rw [hB]
            simp only [ExprParseContext.over, Bool.not_eq_true, Bool.true_eq_false, if_false,
              not_true_eq_false]
            by_cases s2 : si ≥ sn
            · rw [if_pos s2]; exact expr_agrees_fail _ _ _ _ _ _ _ _ _
            rw [if_neg s2, if_neg (show ¬ si ≥ nB by omega)]
            cases hcl : stoks[si]? with
            | none => trivial
            | some colon =>
              dsimp only
              by_cases hsiL : si = L
              · have hterm := hendA colon (by rw [← hsiL]; exact hcl)
                have c1 : colon.type ≠ TOKEN_OPERATOR ∨ colon.text ≠ ":" := by
                  rcases hterm with h | h <;> left <;> rw [h] <;> decide
                rw [if_pos c1]; exact expr_agrees_fail _ _ _ _ _ _ _ _ _
              have hclB : tB[si]? = some colon := by rw [← hsame si (by omega)]; exact hcl
              rw [hclB]
              dsimp only
              by_cases c1 : colon.type ≠ TOKEN_OPERATOR ∨ colon.text ≠ ":"
              · rw [if_pos c1]; exact expr_agrees_fail _ _ _ _ _ _ _ _ _
              rw [if_neg c1, if_neg c1]
              have hsub2 := ih2 (si + 1) srb sbs sdp sdg 0 sK (by omega) eK hR.at_zero
              cases hA2 : parse_expression_recursive env n ⟨stoks, si + 1, sn, srb, sbs, sdp, sdg⟩
                  0 sK with
              | error e => trivial
              | ok fb =>
                obtain ⟨fok, ⟨ftoks, fi, fn, frb, fbs, fdp, fdg⟩, fK⟩ := fb
                dsimp only
                cases fok with
                | false => exact expr_agrees_fail _ _ _ _ _ _ _ _ _
                | true =>
                  rw [hA2] at hsub2
                  obtain ⟨g1, g2, g3, gK, hB2⟩ := hsub2 rfl
                  simp only at g1 g2 g3
                  subst g1 g2
                  rw [hB2]
                  simp only [ExprParseContext.over, Bool.not_eq_true, Bool.true_eq_false,
                    if_false, not_true_eq_false]
                  have hK1 := hR.after_rand fK gK
                  cases hr : call_rand env fK with
                  | mk r K1 =>
                    rw [hr] at hK1
                    dsimp only
                    exact ih3 _ _ _ _ _ _ _ _ g3 (hR.after_handler _ _ _ _ _ _ hK1) hm
      rw [if_neg q1]; exact expr_agrees_fail _ _ _ _ _ _ _ _ _

/-- Over two slices that agree up to a token the loop stops before, with at
least as much fuel for the second, each parser function that succeeds over
the first stays below that token and gives the same result over the second. -/
theorem parse_agrees (env : Env) (s : Token) (KInv : Kernel → Prop) (MInv : Int → Prop)
    (hR : RunInvariant env s KInv MInv) (tA : List Token) (nA : Nat) (tB : List Token)
    (nB L : Nat) (hS : SlicesAgree tA nA tB nB L s) (d : Nat) : ∀ n : Nat,
    (∀ i rb bs dp dg size K, i ≤ L → KInv K →
      OperandAgrees KInv tA nA tB nB L
        (parse_operand env n ⟨tA, i, nA, rb, bs, dp, dg⟩ size K)
        (parse_operand env (n + d) ⟨tB, i, nB, rb, bs, dp, dg⟩ size K))
    ∧ (∀ i rb bs dp dg m K, i ≤ L → KInv K → MInv m →
      ExprAgrees KInv tA nA tB nB L
        (parse_expression_recursive env n ⟨tA, i, nA, rb, bs, dp, dg⟩ m K)
        (parse_expression_recursive env (n + d) ⟨tB, i, nB, rb, bs, dp, dg⟩ m K))
    ∧ (∀ i rb bs dp dg lhs m K, i ≤ L → KInv K → MInv m →
      ExprAgrees KInv tA nA tB nB L
        (parse_expression_loop env n ⟨tA, i, nA, rb, bs, dp, dg⟩ lhs m K)
        (parse_expression_loop env (n + d) ⟨tB, i, nB, rb, bs, dp, dg⟩ lhs m K)) := by
  intro n
  induction n with
  | zero =>
    refine ⟨?_, ?_, ?_⟩
    · intro i rb bs dp dg size K _ _; rw [parse_operand]; trivial
    · intro i rb bs dp dg m K _ _ _; rw [parse_expression_recursive]; trivial
    · intro i rb bs dp dg lhs m K _ _ _; rw [parse_expression_loop]; trivial
  | succ n ih =>
    obtain ⟨ih1, ih2, ih3⟩ := ih
    rw [show n + 1 + d = (n + d) + 1 by omega]
    exact ⟨fun i rb bs dp dg size K h hK =>
             parse_operand_agrees_step env s KInv MInv hR tA nA tB nB L hS n (n + d) ih2
               i rb bs dp dg size K h hK,
           fun i rb bs dp dg m K h hK hm =>
             parse_expression_recursive_agrees_step env KInv MInv tA nA tB nB L n (n + d)
               ih1 ih3 i rb bs dp dg m K h hK hm,
           fun i rb bs dp dg lhs m K h hK hm =>
             parse_expression_loop_agrees_step env s KInv MInv hR tA nA tB nB L hS n (n + d)
               ih2 ih3 i rb bs dp dg lhs m K h hK hm⟩

theorem slices_agree_append (E : List Token) (s : Token) (rest : List Token) :
    SlicesAgree (E ++ [eof_token]) (E.length + 1) (E ++ s :: rest) (E ++ s :: rest).length
      E.length s := by
  refine ⟨by omega, by simp, ?_, ?_, ?_⟩
  · intro i hi
    rw [List.getElem?_append_left hi, List.getElem?_append_left hi]
  · intro e he
    simp at he
    subst he
    exact Or.inl rfl
  · rw [List.getElem?_append_right (Nat.le_refl _)]; simp

/-- The invariants of an evaluation before a token that is tolerated. -/
theorem run_invariant_of_tolerated (env : Env) (K : Kernel) (s : Token)
    (hs : tolerated_after env K s) :
    ∃ (KInv : Kernel → Prop) (MInv : Int → Prop),
      RunInvariant env s KInv MInv ∧ KInv K ∧ s.type ≠ TOKEN_EOF := by
  rcases hs with h | h | ⟨hop, hkeep, hnone⟩ | ⟨hop, hkeep, hprec, d0, hd0, hlow⟩
  · exact ⟨fun _ => True, fun _ => True,
      ⟨fun _ _ => trivial, fun _ _ _ _ _ _ _ => trivial, trivial, fun _ _ _ _ _ _ _ _ => trivial,
       fun _ _ _ _ _ _ => trivial, fun _ _ _ _ => Or.inl (Or.inl h)⟩, trivial,
      by rw [h]; decide⟩
  · exact ⟨fun _ => True, fun _ => True,
      ⟨fun _ _ => trivial, fun _ _ _ _ _ _ _ => trivial, trivial, fun _ _ _ _ _ _ _ _ => trivial,
       fun _ _ _ _ _ _ => trivial, fun _ _ _ _ => Or.inl (Or.inr (Or.inr h))⟩, trivial,
      by rw [h]; decide⟩
  · refine ⟨fun K1 => K1.operator_list_head = K.operator_list_head, fun _ => True,
      ⟨fun K1 h1 => h1, fun h op args holder size K1 h1 => ?_, trivial,
       fun _ _ _ _ _ _ _ _ => trivial, fun _ _ _ _ _ _ => trivial, fun K1 m h1 _ => ?_⟩, rfl,
      by rw [hop]; decide⟩
    · show (env.invoke_handler h op args holder size K1).kernel.operator_list_head
        = K.operator_list_head
      rw [hkeep]; exact h1
    · refine Or.inr ⟨hop, fun d hd => ?_⟩
      rw [get_operator_definition_congr K1 K h1, hnone] at hd
      cases hd
  · refine ⟨fun K1 => K1.operator_list_head = K.operator_list_head, fun m => 0 ≤ m,
      ⟨fun K1 h1 => h1, fun h op args holder size K1 h1 => ?_, Int.le_refl 0,
       fun K1 txt d m h1 hm hd hnot => ?_, fun K1 txt d h1 hd hpre => ?_,
       fun K1 m h1 hm => ?_⟩, rfl, by rw [hop]; decide⟩
    · show (env.invoke_handler h op args holder size K1).kernel.operator_list_head
        = K.operator_list_head
      rw [hkeep]; exact h1
    · have hmem : d ∈ K.operator_list_head := by
        rw [← h1]; exact List.mem_of_find?_eq_some hd
      have hlt := (hprec d hmem).2
      show 0 ≤ rhs_min_precedence d
      unfold rhs_min_precedence
      split
      · rw [int_wrap_of_range _ (by omega) (by omega)]; omega
      · omega
    · have hmem : d ∈ K.operator_list_head := by
        rw [← h1]; exact List.mem_of_find?_eq_some hd
      exact (hprec d hmem).1 hpre
    · refine Or.inr ⟨hop, fun d hd => ?_⟩
      rw [get_operator_definition_congr K1 K h1, hd0] at hd
      cases hd
      rcases hlow with h | ⟨hb, hl, hle⟩
      · left; show d0.precedence < m; omega
      · right; exact ⟨hb, hl, by show d0.precedence ≤ m; omega⟩

/-- The digits `30` give 30; digits beyond the range of `int` give what the
conversion of the `long` keeps: `2147483648` gives `-2147483648` and
`4294967297` gives 1. -/
theorem atoi_keeps_low_bits :
    atoi "30" = 30 ∧ atoi "2147483648" = -2147483648 ∧ atoi "4294967297" = 1
    ∧ atoi "-7" = -7 := by
  decide

end Bsh
